import Mathlib

/-!
# Moby: collision detection and contact reduction

A shallow embedding of the mesh-based collision detector (`MeshDCD.cpp`), of the contact
handling (`Contact.cpp`, `CompGeom.inl`: group reduction, islands of connected contacts,
classification, tangents), of the bounding-volume tests (`BV.cpp`), of the geometric routines
`calc_dimensionality` and `intersect_seg_convex_polygon` (`CompGeom.inl`) and of the cone
primitive (`ConePrimitive.cpp`), with the properties proved about them.

Conventions of the embedding:
* `Real` is modelled by the rationals `ℚ` (exact arithmetic); where a floating-point
  operation can leave the finite numbers (division by zero, square root of a negative number)
  the value is an `XReal`. `determine_contact_tangents` is embedded over an arbitrary ordered
  field with a square-root function, and a vector divided by zero is `none`.
* Loops whose termination depends on the data take a `fuel` argument and return `none` when
  it runs out; the theorems give the fuel that suffices.
* Pointers are modelled by addresses (`Nat`); a routine of the repository that is not among
  the sources is a parameter (a field of `IsectEnv`, `GeomEnv`, `BodyEnv`, `BroadPhaseEnv`,
  `BVEnv` or `RigidEnv`, or an argument of the function that calls it).
* A thrown exception is an `Except.error` (constructors) or a message next to the state the
  object is left in (setters); a failing `assert` is a result of its own.

The first part holds the definitions, the second part the theorems.
-/

namespace Moby

/-! ## Part 1: definitions -/

/-- The bisection loop of `MeshDCD::check_geoms` (MeshDCD.cpp 321-347) on the state `(t, h)`,
started from `t = 0`, `h = 1`: `C s` is the outcome of `is_collision(a, b)` with both bodies
set to the state interpolated at parameter `s`, `eps` is `eps_tolerance`. `Real` is modelled
by exact rationals. The result is `none` when `fuel` iterations do not end the loop. -/
def bisect (C : ℚ → Bool) (eps : ℚ) : Nat → ℚ → ℚ → Option (ℚ × ℚ)
  | 0, t, h => if h > eps then none else some (t, h)
  | fuel + 1, t, h =>
    if h > eps then
      let h1 := h * (1 / 2)
      let contact := C (t + h1)
      if !contact then bisect C eps fuel (t + h1) h1 else bisect C eps fuel t h1
    else some (t, h)

/-- A node of a bounding-volume hierarchy: payload (the volume and whatever identifies its
triangles) and the `children` list of `BV`. -/
inductive BV (α : Type) where
  | node : α → List (BV α) → BV α

namespace BV

variable {α : Type}

def vol : BV α → α
  | node v _ => v

def children : BV α → List (BV α)
  | node _ cs => cs

/-- `BV::is_leaf()`: a node without children. -/
def is_leaf (b : BV α) : Bool := b.children.isEmpty

mutual
/-- Number of nodes of a subtree. -/
def size : BV α → Nat
  | node _ cs => 1 + sizeList cs
/-- Number of nodes of a forest. -/
def sizeList : List (BV α) → Nat
  | [] => 0
  | c :: cs => size c + sizeList cs
end

mutual
/-- All nodes of the subtree rooted at a node (the node itself first). -/
def nodes : BV α → List (BV α)
  | node v cs => node v cs :: nodesList cs
/-- All nodes of a forest. -/
def nodesList : List (BV α) → List (BV α)
  | [] => []
  | c :: cs => nodes c ++ nodesList cs
end

/-- The leaves of the subtree rooted at a node. -/
def leaves (b : BV α) : List (BV α) := (nodes b).filter is_leaf

end BV

/-- `MeshDCD::mode`. -/
inductive Mode where
  | eFirstContact
  | eAllContacts
deriving DecidableEq

/-- Address of `colliding_tris.back()`, represented by the position of the last element;
`none` stands for `NULL` (empty container). -/
def backAddr {P : Type} (tris : List P) : Option Nat :=
  if tris.isEmpty then none else some (tris.length - 1)

/-- An entry of the traversal queue, oriented as (node of tree a, node of tree b). -/
def orient {α : Type} (e : BV α × BV α × Bool) : BV α × BV α :=
  if e.2.2 then (e.2.1, e.1) else (e.1, e.2.1)

/-- The `while (!q.empty())` loop of `MeshDCD::intersect_BV_trees` (MeshDCD.cpp 1718-1759);
`isect x y` is `BV::intersects(x, y, aTb)`, `leafs x y` the triangle pairs that
`intersect_BV_leafs(x, y, ...)` appends to `colliding_tris`. -/
def intersect_BV_trees_loop {α P : Type} (isect : BV α → BV α → Bool)
    (leafs : BV α → BV α → List P) (mode : Mode) (last : Option Nat) :
    Nat → List (BV α × BV α × Bool) → List P → Option (Bool × List P)
  | _, [], tris => some (!tris.isEmpty && last != backAddr tris, tris)
  | 0, _ :: _, _ => none
  | fuel + 1, (bv1, bv2, rev) :: q, tris =>
    let tris1 :=
      if bv1.is_leaf && bv2.is_leaf then
        (if !rev then tris ++ leafs bv1 bv2 else tris ++ leafs bv2 bv1)
      else tris
    if bv1.is_leaf && bv2.is_leaf && mode == Mode.eFirstContact && !tris1.isEmpty
        && last != backAddr tris1 then
      some (true, tris1)
    else if bv2.is_leaf then
      intersect_BV_trees_loop isect leafs mode last fuel
        (q ++ (bv1.children.filter
          (fun child => (!rev && isect child bv2) || (rev && isect bv2 child))).map
            (fun child => (child, bv2, rev))) tris1
    else
      intersect_BV_trees_loop isect leafs mode last fuel
        (q ++ (bv2.children.filter
          (fun child => (!rev && isect bv1 child) || (rev && isect child bv1))).map
            (fun child => (child, bv1, !rev))) tris1

/-- `MeshDCD::intersect_BV_trees` (MeshDCD.cpp 1696-1765): result flag and the new content of
`colliding_tris`; `none` when `fuel` loop iterations do not empty the queue. -/
def intersect_BV_trees {α P : Type} (isect : BV α → BV α → Bool)
    (leafs : BV α → BV α → List P) (mode : Mode) (fuel : Nat) (a b : BV α)
    (colliding_tris : List P) : Option (Bool × List P) :=
  let last := backAddr colliding_tris
  if !isect a b then some (false, colliding_tris)
  else intersect_BV_trees_loop isect leafs mode last fuel [(a, b, false)] colliding_tris

section Traversal

variable {α : Type}

/-- The queue entries pushed when one entry is processed (MeshDCD.cpp 1741-1754). -/
def expand (isect : BV α → BV α → Bool) (e : BV α × BV α × Bool) : List (BV α × BV α × Bool) :=
  if e.2.1.is_leaf then
    (e.1.children.filter
      (fun child => (!e.2.2 && isect child e.2.1) || (e.2.2 && isect e.2.1 child))).map
        (fun child => (child, e.2.1, e.2.2))
  else
    (e.2.1.children.filter
      (fun child => (!e.2.2 && isect e.1 child) || (e.2.2 && isect child e.1))).map
        (fun child => (child, e.1, !e.2.2))

/-- Termination weight of a queue entry. -/
def weight (e : BV α × BV α × Bool) : Nat := e.1.size * e.2.1.size

/-- Termination weight of the queue. -/
def qweight (q : List (BV α × BV α × Bool)) : Nat := (q.map weight).sum

/-- The content of `colliding_tris` after the leaf test of one iteration. -/
def leafTris {P : Type} (leafs : BV α → BV α → List P) (e : BV α × BV α × Bool)
    (tris : List P) : List P :=
  if e.1.is_leaf && e.2.1.is_leaf then
    (if !e.2.2 then tris ++ leafs e.1 e.2.1 else tris ++ leafs e.2.1 e.1)
  else tris

end Traversal

/-- A small hierarchy for tree a: root 1 with leaf 2 and inner node 3 over leaves 4 and 5. -/
def exampleTreeA : BV Nat := .node 1 [.node 2 [], .node 3 [.node 4 [], .node 5 []]]

/-- A small hierarchy for tree b: root 10 with inner node 11 over leaf 12, and leaf 13. -/
def exampleTreeB : BV Nat := .node 10 [.node 11 [.node 12 []], .node 13 []]

/-- A bounding-volume test for the example: it prunes the pairs whose payloads add up to 15. -/
def exampleIsect (x y : BV Nat) : Bool := x.vol + y.vol != 15

/-- `Vector3` with `Real` components; `Real` is modelled by exact rationals. -/
structure Vec3 where
  x : ℚ
  y : ℚ
  z : ℚ
deriving DecidableEq

namespace Vec3

def add (u v : Vec3) : Vec3 := ⟨u.x + v.x, u.y + v.y, u.z + v.z⟩

def sub (u v : Vec3) : Vec3 := ⟨u.x - v.x, u.y - v.y, u.z - v.z⟩

/-- `v * s` (vector times scalar). -/
def smul (v : Vec3) (s : ℚ) : Vec3 := ⟨v.x * s, v.y * s, v.z * s⟩

def dot (u v : Vec3) : ℚ := u.x * v.x + u.y * v.y + u.z * v.z

def cross (u v : Vec3) : Vec3 :=
  ⟨u.y * v.z - u.z * v.y, u.z * v.x - u.x * v.z, u.x * v.y - u.y * v.x⟩

def zero : Vec3 := ⟨0, 0, 0⟩

end Vec3

/-- `Triangle`: the three vertices `a`, `b`, `c`. -/
structure Triangle where
  a : Vec3
  b : Vec3
  c : Vec3

/-- Determinant of the 3x3 matrix with rows `u`, `v`, `w`, over any commutative ring. -/
def det3 {R : Type} [CommRing R] (ux uy uz vx vy vz wx wy wz : R) : R :=
  ux * (vy * wz - vz * wy) - uy * (vx * wz - vz * wx) + uz * (vx * wy - vy * wx)

/-- The coefficients `(a, b, c, d)` of the cubic set up by the moving-point
`MeshDCD::calc_first_isect` (MeshDCD.cpp 466-542), transcribed term by term. -/
def calc_first_isect_coeffs (p pdot : Vec3) (T : Triangle) (Tadot Tbdot Tcdot : Vec3) :
    ℚ × ℚ × ℚ × ℚ :=
  let P0X : ℚ := p.x
  let P0Y : ℚ := p.y
  let P0Z : ℚ := p.z
  let PdotX : ℚ := pdot.x
  let PdotY : ℚ := pdot.y
  let PdotZ : ℚ := pdot.z
  let A0X : ℚ := T.a.x
  let A0Y : ℚ := T.a.y
  let A0Z : ℚ := T.a.z
  let AdotX : ℚ := Tadot.x
  let AdotY : ℚ := Tadot.y
  let AdotZ : ℚ := Tadot.z
  let B0X : ℚ := T.b.x
  let B0Y : ℚ := T.b.y
  let B0Z : ℚ := T.b.z
  let BdotX : ℚ := Tbdot.x
  let BdotY : ℚ := Tbdot.y
  let BdotZ : ℚ := Tbdot.z
  let C0X : ℚ := T.c.x
  let C0Y : ℚ := T.c.y
  let C0Z : ℚ := T.c.z
  let CdotX : ℚ := Tcdot.x
  let CdotY : ℚ := Tcdot.y
  let CdotZ : ℚ := Tcdot.z
  let d : ℚ :=
      (-A0Z*B0Y*P0X + A0Y*B0Z*P0X + A0Z*C0Y*P0X - B0Z*C0Y*P0X -
      A0Y*C0Z*P0X + B0Y*C0Z*P0X + A0Z*B0X*P0Y - A0X*B0Z*P0Y - A0Z*C0X*P0Y
      + B0Z*C0X*P0Y + A0X*C0Z*P0Y - B0X*C0Z*P0Y - A0Y*B0X*P0Z +
      A0X*B0Y*P0Z + A0Y*C0X*P0Z - B0Y*C0X*P0Z - A0X*C0Y*P0Z + B0X*C0Y*P0Z)
  let c : ℚ :=
      ((-(AdotZ*B0Y*P0X) + AdotY*B0Z*P0X - A0Z*BdotY*P0X +
      A0Y*BdotZ*P0X + AdotZ*C0Y*P0X - BdotZ*C0Y*P0X -
      AdotY*C0Z*P0X + BdotY*C0Z*P0X + A0Z*CdotY*P0X -
      B0Z*CdotY*P0X - A0Y*CdotZ*P0X + B0Y*CdotZ*P0X +
      AdotZ*B0X*P0Y - AdotX*B0Z*P0Y + A0Z*BdotX*P0Y -
      A0X*BdotZ*P0Y - AdotZ*C0X*P0Y + BdotZ*C0X*P0Y +
      AdotX*C0Z*P0Y - BdotX*C0Z*P0Y - A0Z*CdotX*P0Y +
      B0Z*CdotX*P0Y + A0X*CdotZ*P0Y - B0X*CdotZ*P0Y -
      AdotY*B0X*P0Z + AdotX*B0Y*P0Z - A0Y*BdotX*P0Z +
      A0X*BdotY*P0Z + AdotY*C0X*P0Z - BdotY*C0X*P0Z -
      AdotX*C0Y*P0Z + BdotX*C0Y*P0Z + A0Y*CdotX*P0Z -
      B0Y*CdotX*P0Z - A0X*CdotY*P0Z + B0X*CdotY*P0Z -
      A0Z*B0Y*PdotX + A0Y*B0Z*PdotX + A0Z*C0Y*PdotX -
      B0Z*C0Y*PdotX - A0Y*C0Z*PdotX + B0Y*C0Z*PdotX +
      A0Z*B0X*PdotY - A0X*B0Z*PdotY - A0Z*C0X*PdotY +
      B0Z*C0X*PdotY + A0X*C0Z*PdotY - B0X*C0Z*PdotY -
      A0Y*B0X*PdotZ + A0X*B0Y*PdotZ + A0Y*C0X*PdotZ -
      B0Y*C0X*PdotZ - A0X*C0Y*PdotZ + B0X*C0Y*PdotZ))
  let b : ℚ :=
      ((-(AdotZ*BdotY*P0X) + AdotY*BdotZ*P0X +
      AdotZ*CdotY*P0X - BdotZ*CdotY*P0X - AdotY*CdotZ*P0X +
      BdotY*CdotZ*P0X + AdotZ*BdotX*P0Y - AdotX*BdotZ*P0Y -
      AdotZ*CdotX*P0Y + BdotZ*CdotX*P0Y + AdotX*CdotZ*P0Y -
      BdotX*CdotZ*P0Y - AdotY*BdotX*P0Z + AdotX*BdotY*P0Z +
      AdotY*CdotX*P0Z - BdotY*CdotX*P0Z - AdotX*CdotY*P0Z +
      BdotX*CdotY*P0Z - AdotZ*B0Y*PdotX + AdotY*B0Z*PdotX -
      A0Z*BdotY*PdotX + A0Y*BdotZ*PdotX + AdotZ*C0Y*PdotX -
      BdotZ*C0Y*PdotX - AdotY*C0Z*PdotX + BdotY*C0Z*PdotX +
      A0Z*CdotY*PdotX - B0Z*CdotY*PdotX - A0Y*CdotZ*PdotX +
      B0Y*CdotZ*PdotX + AdotZ*B0X*PdotY - AdotX*B0Z*PdotY +
      A0Z*BdotX*PdotY - A0X*BdotZ*PdotY - AdotZ*C0X*PdotY +
      BdotZ*C0X*PdotY + AdotX*C0Z*PdotY - BdotX*C0Z*PdotY -
      A0Z*CdotX*PdotY + B0Z*CdotX*PdotY + A0X*CdotZ*PdotY -
      B0X*CdotZ*PdotY - AdotY*B0X*PdotZ + AdotX*B0Y*PdotZ -
      A0Y*BdotX*PdotZ + A0X*BdotY*PdotZ + AdotY*C0X*PdotZ -
      BdotY*C0X*PdotZ - AdotX*C0Y*PdotZ + BdotX*C0Y*PdotZ +
      A0Y*CdotX*PdotZ - B0Y*CdotX*PdotZ - A0X*CdotY*PdotZ +
      B0X*CdotY*PdotZ))
  let a : ℚ :=
      ((-(AdotZ*BdotY*PdotX) + AdotY*BdotZ*PdotX +
      AdotZ*CdotY*PdotX - BdotZ*CdotY*PdotX -
      AdotY*CdotZ*PdotX + BdotY*CdotZ*PdotX +
      AdotZ*BdotX*PdotY - AdotX*BdotZ*PdotY -
      AdotZ*CdotX*PdotY + BdotZ*CdotX*PdotY +
      AdotX*CdotZ*PdotY - BdotX*CdotZ*PdotY -
      AdotY*BdotX*PdotZ + AdotX*BdotY*PdotZ +
      AdotY*CdotX*PdotZ - BdotY*CdotX*PdotZ -
      AdotX*CdotY*PdotZ + BdotX*CdotY*PdotZ))
  (a, b, c, d)

/-- The determinant `det[P(s) - A(s), B(s) - A(s), C(s) - A(s)]` at time `s`, where
`X(s) = X0 + s * Xdot`: it vanishes exactly when the moving point is coplanar with the three
moving vertices. -/
def coplanarityDet (p pdot : Vec3) (T : Triangle) (Tadot Tbdot Tcdot : Vec3) (s : ℚ) : ℚ :=
  det3
    ((p.x + s * pdot.x) - (T.a.x + s * Tadot.x))
    ((p.y + s * pdot.y) - (T.a.y + s * Tadot.y))
    ((p.z + s * pdot.z) - (T.a.z + s * Tadot.z))
    ((T.b.x + s * Tbdot.x) - (T.a.x + s * Tadot.x))
    ((T.b.y + s * Tbdot.y) - (T.a.y + s * Tadot.y))
    ((T.b.z + s * Tbdot.z) - (T.a.z + s * Tadot.z))
    ((T.c.x + s * Tcdot.x) - (T.a.x + s * Tadot.x))
    ((T.c.y + s * Tcdot.y) - (T.a.y + s * Tadot.y))
    ((T.c.z + s * Tcdot.z) - (T.a.z + s * Tadot.z))

/-- The value at time `s` of the cubic with the coefficients `(a, b, c, d)`. -/
def cubicAt (k : ℚ × ℚ × ℚ × ℚ) (s : ℚ) : ℚ :=
  k.1 * s ^ 3 + k.2.1 * s ^ 2 + k.2.2.1 * s + k.2.2.2

/-- A `Real` that may be non-finite: the result of a floating-point division or square root. -/
inductive XReal where
  | fin (q : ℚ)
  | pinf
  | ninf
  | nan
deriving DecidableEq

namespace XReal

/-- `std::sqrt` of a finite value: NaN below zero, otherwise the supplied root function. -/
def sqrt (sq : ℚ → ℚ) (v : ℚ) : XReal := if v < 0 then nan else fin (sq v)

/-- `u + x` for finite `u`. -/
def addFin (u : ℚ) : XReal → XReal
  | fin q => fin (u + q)
  | pinf => pinf
  | ninf => ninf
  | nan => nan

/-- `u - x` for finite `u`. -/
def finSub (u : ℚ) : XReal → XReal
  | fin q => fin (u - q)
  | pinf => ninf
  | ninf => pinf
  | nan => nan

/-- Floating-point division by a finite divisor: a zero divisor gives NaN for a zero (or NaN)
dividend and an infinity otherwise. The sign of a zero divisor is not tracked (it only swaps
the two infinities). -/
def divFin : XReal → ℚ → XReal
  | fin q, d => if d = 0 then (if q = 0 then nan else if 0 < q then pinf else ninf) else fin (q / d)
  | pinf, d => if d < 0 then ninf else pinf
  | ninf, d => if d < 0 then pinf else ninf
  | nan, _ => nan

/-- `r < v` for finite `v`. -/
def ltFin : XReal → ℚ → Bool
  | fin q, v => decide (q < v)
  | ninf, _ => true
  | _, _ => false

/-- `r > v` for finite `v`. -/
def gtFin : XReal → ℚ → Bool
  | fin q, v => decide (q > v)
  | pinf, _ => true
  | _, _ => false

def isnan : XReal → Bool
  | nan => true
  | _ => false

/-- The value as a finite number (used only after the window test has excluded the rest). -/
def toFin (INF : ℚ) : XReal → ℚ
  | fin q => q
  | _ => INF

end XReal

/-- What the moving-point `calc_first_isect` takes from outside MeshDCD.cpp's arithmetic:
the constants `NEAR_ZERO` and `INF = std::numeric_limits<Real>::max()`, `std::sqrt`,
the test `T.determine_feature(x) == Triangle::eNone`, the six values `xx[0..5]` that
`determine_cubic_roots` obtains from its complex-valued Cardano formulas, and the value found
in the uninitialised array slot `r[0]`. -/
structure IsectEnv where
  NEAR_ZERO : ℚ
  INF : ℚ
  sqrt : ℚ → ℚ
  feature_eNone : Triangle → Vec3 → Bool
  cardano : ℚ → ℚ → ℚ → List XReal
  r_uninit : ℚ

/-- The root filter of `MeshDCD::determine_cubic_roots` (MeshDCD.cpp 441-457): a candidate is
kept when the cubic `x^3 + a x^2 + b x + c` is within `NEAR_ZERO` of zero there and no root kept
so far is within `NEAR_ZERO` of it. -/
def determine_cubic_roots_filter (NEAR_ZERO a b c : ℚ) : List XReal → List ℚ → List ℚ
  | [], x => x
  | XReal.fin xx :: rest, x =>
    if |xx * xx * xx + a * xx * xx + b * xx + c| < NEAR_ZERO then
      if x.any (fun xj => decide (|xx - xj| < NEAR_ZERO)) then
        determine_cubic_roots_filter NEAR_ZERO a b c rest x
      else determine_cubic_roots_filter NEAR_ZERO a b c rest (x ++ [xx])
    else determine_cubic_roots_filter NEAR_ZERO a b c rest x
  | _ :: rest, x => determine_cubic_roots_filter NEAR_ZERO a b c rest x

/-- `MeshDCD::determine_cubic_roots` (MeshDCD.cpp 410-458): the real roots found. -/
def determine_cubic_roots (env : IsectEnv) (a b c : ℚ) : List ℚ :=
  determine_cubic_roots_filter env.NEAR_ZERO a b c (env.cardano a b c) []

/-- The window test `if (r < 0.0 || r > dt || std::isnan(r)) r = INF`. -/
def windowed (INF dt : ℚ) (r : XReal) : ℚ :=
  if r.ltFin 0 || r.gtFin dt || r.isnan then INF else r.toFin INF

/-- The inside test `if (r < INF && T.determine_feature(p + pdot*r) == Triangle::eNone) r = INF`. -/
def insideChecked (env : IsectEnv) (p pdot : Vec3) (T : Triangle) (r : ℚ) : ℚ :=
  if r < env.INF && env.feature_eNone T (p.add (pdot.smul r)) then env.INF else r

/-- The moving-point `MeshDCD::calc_first_isect` (MeshDCD.cpp 461-600). -/
def calc_first_isect (env : IsectEnv) (p pdot : Vec3) (T : Triangle)
    (Tadot Tbdot Tcdot : Vec3) (dt : ℚ) : ℚ :=
  let (a, b, c, d) := calc_first_isect_coeffs p pdot T Tadot Tbdot Tcdot
  if |a| < env.NEAR_ZERO then
    -- find the roots of the quadratic eqn
    let a := b
    let b := c
    let c := d
    let r1 := (XReal.addFin (-b) (XReal.sqrt env.sqrt (b * b - 4 * a * c))).divFin (2 * a)
    let r2 := (XReal.finSub (-b) (XReal.sqrt env.sqrt (b * b - 4 * a * c))).divFin (2 * a)
    let r1 := windowed env.INF dt r1
    let r2 := windowed env.INF dt r2
    let r1 := insideChecked env p pdot T r1
    let r2 := insideChecked env p pdot T r2
    min r1 r2
  else
    -- divide through by a
    let b := b / a
    let c := c / a
    let d := d / a
    let r := determine_cubic_roots env b c d
    let r := r.map (fun ri => windowed env.INF dt (XReal.fin ri))
    let r := r.map (fun ri => insideChecked env p pdot T ri)
    match r with
    | [] => env.r_uninit
    | r0 :: rest => rest.foldl (fun minimum ri => if ri < minimum then ri else minimum) r0

/-- Newton iteration for the integer square root, at most `fuel` steps. -/
def natSqrtIter : Nat → Nat → Nat → Nat
  | 0, _, guess => guess
  | fuel + 1, n, guess =>
    let next := (guess + n / guess) / 2
    if next < guess then natSqrtIter fuel n next else guess

/-- Integer square root (rounded down) for numbers below `2 ^ 200`. -/
def natSqrt (n : Nat) : Nat := if n ≤ 1 then n else natSqrtIter 256 n (n / 2)

/-- A square root on the rationals, rounded down to eight decimal places (exact on the squares
of such numbers); it stands for `std::sqrt` in concrete evaluations. -/
def ratSqrt (v : ℚ) : ℚ := (natSqrt (v * 10 ^ 16).floor.toNat : ℚ) / 10 ^ 8

/-- Modelled from the spec: `Triangle::determine_feature` (Triangle.cpp is not among the
sources); spec 4.2 accepts a root when "the point's projection is actually inside the
triangle's current extent (barycentric/edge test)". This is the exact edge test: `true`
(feature `eNone`) when the point is strictly outside one of the three edges. -/
def featureNoneExact (T : Triangle) (x : Vec3) : Bool :=
  let n := (T.b.sub T.a).cross (T.c.sub T.a)
  decide (n.dot ((T.b.sub T.a).cross (x.sub T.a)) < 0) ||
  decide (n.dot ((T.c.sub T.b).cross (x.sub T.b)) < 0) ||
  decide (n.dot ((T.a.sub T.c).cross (x.sub T.c)) < 0)

/-- An environment for concrete evaluations: `NEAR_ZERO = 1e-8`, `INF` the largest double, and
a root finder none of whose six Cardano values is finite, which is what the formulas
`u - p/(3u) - a/3` of `determine_cubic_roots` give for a cubic with a triple root (then
`p = q = 0`, so `u = 0` and `p/(3u)` is `0/0`). The uninitialised slot `r[0]` holds `-1`. -/
def tripleRootEnv : IsectEnv where
  NEAR_ZERO := 1 / 100000000
  INF := 2 ^ 1024 - 2 ^ 971
  sqrt := ratSqrt
  feature_eNone := featureNoneExact
  cardano := fun _ _ _ => [XReal.nan, XReal.nan, XReal.nan, XReal.nan, XReal.nan, XReal.nan]
  r_uninit := -1

/-- A value is acceptable as a result: the no-contact value or a time in the window. -/
def InWindowOrINF (INF dt r : ℚ) : Prop := r = INF ∨ (0 ≤ r ∧ r ≤ dt)

namespace Vec3

/-- `v.norm()`, with the square root supplied. -/
def norm (sqrt : ℚ → ℚ) (v : Vec3) : ℚ := sqrt (v.dot v)

end Vec3

/-- `Contact::ContactType`. -/
inductive ContactType where
  | eNone
  | eContact
deriving DecidableEq

/-- The fields of `Contact` read by the reduction; `addr` is the address of the object (a group
is a `list<Contact*>`, and the hull and endpoint routines identify a contact by the address of
its `contact_point`), `sb1`/`sb2` the addresses of the two single bodies. -/
structure Contact where
  addr : Nat
  contact_type : ContactType
  contact_point : Vec3
  contact_normal : Vec3
  contact_mu_coulomb : ℚ
  sb1 : Nat
  sb2 : Nat
deriving DecidableEq

/-- What the reduction takes from outside Contact.cpp: `NEAR_ZERO`, `std::sqrt`,
`CompGeom::rel_equal`, `CompGeom::collinear`, `Plane(normal, point).on_plane(x)` and the two
`CompGeom::calc_convex_hull` overloads. A hull routine gets the points with their addresses
and yields the addresses on the hull, or `none` when it throws `NumericalException`. -/
structure GeomEnv where
  NEAR_ZERO : ℚ
  sqrt : ℚ → ℚ
  rel_equal : ℚ → ℚ → ℚ → Bool
  collinear : Vec3 → Vec3 → Vec3 → Bool
  on_plane : Vec3 → Vec3 → Vec3 → Bool
  calc_convex_hull_2D : List (Nat × Vec3) → Vec3 → Option (List Nat)
  calc_convex_hull_3D : List (Nat × Vec3) → Option (List Nat)

/-- One iteration of the loop of `CompGeom::determine_seg_endpoints` (CompGeom.inl 411-442) on
the state `(endpoints.first, endpoints.second, dist)`. -/
def seg_step {T : Type} (sqrt : ℚ → ℚ) (pos : T → Vec3) (st : T × T × ℚ) (i : T) : T × T × ℚ :=
  let dist_e := ((pos i).sub (pos st.2.1)).norm sqrt
  let dist_s := ((pos i).sub (pos st.1)).norm sqrt
  if st.2.2 > dist_e then
    if st.2.2 > dist_s then st else (st.1, i, dist_s)
  else if dist_e > dist_s then (i, st.2.1, dist_e)
  else (st.1, i, dist_s)

/-- `CompGeom::determine_seg_endpoints` (CompGeom.inl 400-443) on the non-empty range
`first :: rest`; `pos` reads the position of an element. -/
def determine_seg_endpoints {T : Type} (sqrt : ℚ → ℚ) (pos : T → Vec3) (first : T)
    (rest : List T) : T × T :=
  let r := rest.foldl (seg_step sqrt pos) (first, first, 0)
  (r.1, r.2.1)

/-- The friction loop of `Contact::determine_convex_set` (Contact.cpp 1307-1325):
`false` when the function returns early. -/
def same_friction (env : GeomEnv) : Option ℚ → List Contact → Bool
  | _, [] => true
  | mu, c :: cs =>
    if c.contact_type ≠ ContactType.eContact then same_friction env mu cs
    else
      match mu with
      | some m =>
        if !env.rel_equal m c.contact_mu_coulomb env.NEAR_ZERO then false
        else same_friction env (some m) cs
      | none => same_friction env (some c.contact_mu_coulomb) cs

/-- The collinearity loop of `Contact::determine_convex_set` (Contact.cpp 1338-1347). -/
def collinear_check (env : GeomEnv) (group : List Contact) : Bool :=
  match group.head?, group.getLast? with
  | some pA, some pZ =>
    ((group.drop 1).dropLast).all
      (fun c => env.collinear pA.contact_point pZ.contact_point c.contact_point)
  | _, _ => true

/-- `Contact::is_contact_manifold_2D` (Contact.cpp 1467-1482). -/
def is_contact_manifold_2D (env : GeomEnv) : List Contact → Bool
  | [] => true
  | front :: rest =>
    rest.all (fun c => env.on_plane front.contact_normal front.contact_point c.contact_point)

/-- The erase loop after `determine_seg_endpoints` (Contact.cpp 1354-1365, 1388-1399,
1430-1441): the contacts whose point is one of the two endpoints stay. -/
def keep_endpoints (env : GeomEnv) : List Contact → List Contact
  | [] => []
  | c :: cs =>
    let ep := determine_seg_endpoints env.sqrt (fun k : Contact => k.contact_point) c cs
    (c :: cs).filter (fun k => k.addr == ep.1.addr || k.addr == ep.2.addr)

/-- The erase loop after a successful hull (Contact.cpp 1451-1461). -/
def keep_hull (hull : List Nat) (group : List Contact) : List Contact :=
  group.filter (fun k => hull.contains k.addr)

/-- The outcome of a hull attempt: `if (hull.empty()) throw NumericalException()`. -/
def hull_or_throw : Option (List Nat) → Option (List Nat)
  | some [] => none
  | r => r

/-- The reduction routines of `determine_convex_set`, for the record of calls. -/
inductive Tier where
  | hull3D
  | hull2D
  | segEndpoints
deriving DecidableEq

/-- `Contact::determine_convex_set` (Contact.cpp 1299-1464): the reduction routines called, in
call order, and the group left. -/
def determine_convex_set_run (env : GeomEnv) (group : List Contact) : List Tier × List Contact :=
  match group with
  | [] => ([], group)
  | front :: _ =>
    if group.length ≤ 3 then ([], group)
    else if !same_friction env none group then ([], group)
    else
      let points := group.map (fun c => (c.addr, c.contact_point))
      if collinear_check env group then ([Tier.segEndpoints], keep_endpoints env group)
      else if is_contact_manifold_2D env group then
        match hull_or_throw (env.calc_convex_hull_2D points front.contact_normal) with
        | some hull => ([Tier.hull2D], keep_hull hull group)
        | none => ([Tier.hull2D, Tier.segEndpoints], keep_endpoints env group)
      else
        match hull_or_throw (env.calc_convex_hull_3D points) with
        | some hull => ([Tier.hull3D], keep_hull hull group)
        | none =>
          match hull_or_throw (env.calc_convex_hull_2D points front.contact_normal) with
          | some hull => ([Tier.hull3D, Tier.hull2D], keep_hull hull group)
          | none => ([Tier.hull3D, Tier.hull2D, Tier.segEndpoints], keep_endpoints env group)

/-- `Contact::determine_convex_set`: the group left. -/
def determine_convex_set (env : GeomEnv) (group : List Contact) : List Contact :=
  (determine_convex_set_run env group).2

/-- `make_sorted_pair(sb1, sb2)`. -/
def body_pair (c : Contact) : Nat × Nat := (min c.sb1 c.sb2, max c.sb1 c.sb2)

/-- The order of the keys of `contact_groups` (lexicographic on the sorted pair). -/
def pair_lt (k1 k2 : Nat × Nat) : Bool :=
  decide (k1.1 < k2.1) || (decide (k1.1 = k2.1) && decide (k1.2 < k2.2))

/-- `contact_groups[k].push_back(c)` on a `std::map` kept as a list sorted by key. -/
def group_insert (k : Nat × Nat) (c : Contact) :
    List ((Nat × Nat) × List Contact) → List ((Nat × Nat) × List Contact)
  | [] => [(k, [c])]
  | (k2, cs) :: rest =>
    if k = k2 then (k2, cs ++ [c]) :: rest
    else if pair_lt k k2 then (k, [c]) :: (k2, cs) :: rest
    else (k2, cs) :: group_insert k c rest

/-- The map `contact_groups` built by the first loop of `determine_minimal_set`
(Contact.cpp 1508-1526). -/
def contact_groups (group : List Contact) : List ((Nat × Nat) × List Contact) :=
  (group.filter (fun c => c.contact_type = ContactType.eContact)).foldl
    (fun m c => group_insert (body_pair c) c m) []

/-- `Contact::determine_minimal_set` (Contact.cpp 1499-1534). -/
def determine_minimal_set (env : GeomEnv) (group : List Contact) : List Contact :=
  if group.length ≤ 4 then group
  else
    (contact_groups group).foldl (fun g kv => g ++ determine_convex_set env kv.2)
      (group.filter (fun c => c.contact_type ≠ ContactType.eContact))

/-- Modelled from the spec: `CompGeom::rel_equal` (CompGeom.h is not among the sources);
spec 4.7 step 2, "share the same (within tolerance) Coulomb friction coefficient": equality
within the relative tolerance `tol`. -/
def relEqualModel (x y tol : ℚ) : Bool :=
  decide (|x - y| ≤ tol * max |x| (max |y| 1))

/-- Modelled from the spec: `CompGeom::collinear` (CompGeom.cpp is not among the sources);
spec 4.7 step 3, "all points are collinear": the exact test, cross product zero. -/
def collinearModel (a b c : Vec3) : Bool :=
  decide ((b.sub a).cross (c.sub a) = Vec3.zero)

/-- Modelled from the spec: `Plane::on_plane` (Plane.h is not among the sources); spec 4.7
step 4, "plane-membership test against the first point's contact plane": the exact test. -/
def onPlaneModel (normal point x : Vec3) : Bool :=
  decide (normal.dot (x.sub point) = 0)

/-- Orientation of the projections of `a`, `b`, `c` along `n`. -/
def orient2 (n a b c : Vec3) : ℚ := n.dot ((b.sub a).cross (c.sub a))

/-- The projection of `v` onto the plane through the origin with normal `n`, scaled by
`n.n`. -/
def planePart (n v : Vec3) : Vec3 := (v.smul (n.dot n)).sub (n.smul (v.dot n))

/-- The projections of `a`, `b`, `c` along `n` span a proper triangle that contains the
projection of `p`. -/
def inTriangle2 (n a b c p : Vec3) : Bool :=
  let o := orient2 n a b c
  (decide (0 < o) && decide (0 ≤ orient2 n a b p) && decide (0 ≤ orient2 n b c p)
    && decide (0 ≤ orient2 n c a p)) ||
  (decide (o < 0) && decide (orient2 n a b p ≤ 0) && decide (orient2 n b c p ≤ 0)
    && decide (orient2 n c a p ≤ 0))

/-- The projection of `p` along `n` lies on the segment between those of `a` and `b`. -/
def onSegment2 (n a b p : Vec3) : Bool :=
  decide (orient2 n a b p = 0) &&
    decide (0 ≤ (planePart n (p.sub a)).dot (planePart n (b.sub p)))

/-- The projection of `p` along `n` is a vertex of the convex hull of the projections of
`pts`: it is not in the hull of the points that project elsewhere. -/
def isHullVertex2 (n : Vec3) (pts : List Vec3) (p : Vec3) : Bool :=
  let others := pts.filter (fun q => decide (planePart n (q.sub p) ≠ Vec3.zero))
  !(others.any (fun a => others.any (fun b =>
      onSegment2 n a b p || others.any (fun c => inTriangle2 n a b c p))))

/-- Modelled from the spec: the `CompGeom::calc_convex_hull` overload taking a normal (not
among the sources); spec 4.7 step 4, "compute the 2D convex hull (projecting onto the contact
plane) and retain only hull-boundary points", and 7, "convex-hull construction fails due to
insufficient/degenerate point configuration": it throws when the normal is zero or the
projected points are all on one line, and otherwise yields the addresses of the points that
project to hull vertices. -/
def convexHull2DModel (points : List (Nat × Vec3)) (normal : Vec3) : Option (List Nat) :=
  let pts := points.map (fun q => q.2)
  if normal = Vec3.zero ∨
      pts.all (fun a => pts.all (fun b => pts.all (fun c => decide (orient2 normal a b c = 0))))
  then none
  else some ((points.filter (fun q => isHullVertex2 normal pts q.2)).map (fun q => q.1))

/-- Six times the signed volume of the tetrahedron `a b c d`. -/
def orient3 (a b c d : Vec3) : ℚ := (b.sub a).dot ((c.sub a).cross (d.sub a))

/-- The proper tetrahedron `a b c d` contains `p`. -/
def inTetrahedron (a b c d p : Vec3) : Bool :=
  let o := orient3 a b c d
  (decide (0 < o) && decide (0 ≤ orient3 p b c d) && decide (0 ≤ orient3 a p c d)
    && decide (0 ≤ orient3 a b p d) && decide (0 ≤ orient3 a b c p)) ||
  (decide (o < 0) && decide (orient3 p b c d ≤ 0) && decide (orient3 a p c d ≤ 0)
    && decide (orient3 a b p d ≤ 0) && decide (orient3 a b c p ≤ 0))

/-- The proper triangle `a b c` contains `p` (in space). -/
def inTriangle3 (a b c p : Vec3) : Bool :=
  let n := (b.sub a).cross (c.sub a)
  decide (n ≠ Vec3.zero) && decide (orient3 a b c p = 0) &&
    decide (0 ≤ orient2 n a b p) && decide (0 ≤ orient2 n b c p) && decide (0 ≤ orient2 n c a p)

/-- The segment `a b` contains `p` (in space). -/
def onSegment3 (a b p : Vec3) : Bool :=
  decide ((b.sub a).cross (p.sub a) = Vec3.zero) && decide (0 ≤ (p.sub a).dot (b.sub p))

/-- The point `p` is a vertex of the convex hull of `pts` in space. -/
def isHullVertex3 (pts : List Vec3) (p : Vec3) : Bool :=
  let others := pts.filter (fun q => decide (q ≠ p))
  !(others.any (fun a => others.any (fun b =>
      onSegment3 a b p || others.any (fun c =>
        inTriangle3 a b c p || others.any (fun d => inTetrahedron a b c d p)))))

/-- Modelled from the spec: the `CompGeom::calc_convex_hull` overload without a normal (not
among the sources); spec 4.7 step 4, "attempt a 3D convex hull first; if that fails
(degenerate/insufficient precision)": it throws when the points are all in one plane, and
otherwise yields the addresses of the hull vertices. -/
def convexHull3DModel (points : List (Nat × Vec3)) : Option (List Nat) :=
  let pts := points.map (fun q => q.2)
  if pts.all (fun a => pts.all (fun b => pts.all (fun c => pts.all (fun d =>
      decide (orient3 a b c d = 0)))))
  then none
  else some ((points.filter (fun q => isHullVertex3 pts q.2)).map (fun q => q.1))

/-- The environment with the helpers modelled from the spec in exact arithmetic. -/
def exactGeomEnv : GeomEnv where
  NEAR_ZERO := 1 / 100000000
  sqrt := ratSqrt
  rel_equal := relEqualModel
  collinear := collinearModel
  on_plane := onPlaneModel
  calc_convex_hull_2D := convexHull2DModel
  calc_convex_hull_3D := convexHull3DModel

section Reduction

/-- The hull routines yield addresses of the points they are given. -/
def HullSound (env : GeomEnv) : Prop :=
  (∀ pts n H, env.calc_convex_hull_2D pts n = some H → ∀ a ∈ H, a ∈ pts.map (fun q => q.1)) ∧
  (∀ pts H, env.calc_convex_hull_3D pts = some H → ∀ a ∈ H, a ∈ pts.map (fun q => q.1))

/-- Squared Euclidean distance. -/
def Vec3.distSq (p q : Vec3) : ℚ := (p.sub q).dot (p.sub q)

section SegEndpoints

variable {T : Type} (sqrt : ℚ → ℚ) (pos : T → Vec3) (l : List T)

/-- The points of `l` lie on the line `o + t d`, the point of `c` at parameter `τ c`. -/
def OnLine (pos : T → Vec3) (l : List T) (o d : Vec3) (τ : T → ℚ) : Prop :=
  ∀ c ∈ l, pos c = o.add (d.smul (τ c))

/-- The square root respects the order of the pairwise squared distances of `l`. -/
def SqrtOrdered (sqrt : ℚ → ℚ) (pos : T → Vec3) (l : List T) : Prop :=
  ∀ x ∈ l, ∀ y ∈ l, ∀ u ∈ l, ∀ v ∈ l, (pos x).distSq (pos y) < (pos u).distSq (pos v) →
    sqrt ((pos x).distSq (pos y)) < sqrt ((pos u).distSq (pos v))

variable {sqrt pos l}

/-- Loop invariant of `determine_seg_endpoints` on collinear input: the two endpoints are
input points, `dist` is their distance, and every point seen so far is no farther from either
  endpoint than the endpoints are from each other. -/
def SegInv (sqrt : ℚ → ℚ) (pos : T → Vec3) (l seen : List T) (st : T × T × ℚ) : Prop :=
  st.1 ∈ l ∧ st.2.1 ∈ l ∧ st.2.2 = sqrt ((pos st.1).distSq (pos st.2.1)) ∧
  ∀ x ∈ seen, (pos x).distSq (pos st.1) ≤ (pos st.1).distSq (pos st.2.1) ∧
    (pos x).distSq (pos st.2.1) ≤ (pos st.1).distSq (pos st.2.1)

end SegEndpoints

/-- All keys of `acc` come before `k`. -/
def KeysBelow (acc : List ((Nat × Nat) × List Contact)) (k : Nat × Nat) : Prop :=
  ∀ kv ∈ acc, pair_lt kv.1 k = true

/-- The map is sorted by key and every contact is filed under its own body pair. -/
def Keyed (m : List ((Nat × Nat) × List Contact)) : Prop :=
  m.Pairwise (fun a b => pair_lt a.1 b.1 = true) ∧ ∀ kv ∈ m, ∀ c ∈ kv.2, body_pair c = kv.1

end Reduction

/-- A contact between bodies 1 and 2 with normal `(0, 0, 1)`. -/
def mkContact (addr : Nat) (x y z mu : ℚ) : Contact :=
  ⟨addr, ContactType.eContact, ⟨x, y, z⟩, ⟨0, 0, 1⟩, mu, 1, 2⟩

/-- Five collinear contacts with friction 0.5 (spec 8, property 6). -/
def lineGroup : List Contact :=
  [mkContact 100 0 0 0 (1/2), mkContact 101 1 0 0 (1/2), mkContact 102 2 0 0 (1/2),
   mkContact 103 3 0 0 (1/2), mkContact 104 4 0 0 (1/2)]

/-- A hexagon and one interior point, friction 0.3 (spec 8, property 7). -/
def hexGroup : List Contact :=
  [mkContact 200 2 0 0 (3/10), mkContact 201 1 2 0 (3/10), mkContact 202 (-1) 2 0 (3/10),
   mkContact 203 0 0 0 (3/10),
   mkContact 204 (-2) 0 0 (3/10), mkContact 205 (-1) (-2) 0 (3/10), mkContact 206 1 (-2) 0 (3/10)]

/-- The corners of a 3 x 4 rectangle, the first corner touched by two contacts. -/
def rectGroup : List Contact :=
  [mkContact 300 0 0 0 (1/2), mkContact 301 3 0 0 (1/2), mkContact 302 3 4 0 (1/2),
   mkContact 303 0 4 0 (1/2), mkContact 304 0 0 0 (1/2)]

/-- A pentagon in the plane `z = 0` and one interior point; the contact at the first corner
has normal `(1, 0, 0)`. -/
def pentGroup : List Contact :=
  [mkContact 400 2 2 0 (1/2),
   ⟨401, ContactType.eContact, ⟨0, 0, 0⟩, ⟨1, 0, 0⟩, 1/2, 1, 2⟩,
   mkContact 402 4 0 0 (1/2), mkContact 403 5 3 0 (1/2), mkContact 404 2 5 0 (1/2),
   mkContact 405 (-1) 3 0 (1/2)]

/-- The five corners of `pentGroup`, as left by the first reduction. -/
def pentCorners : List Contact :=
  [⟨401, ContactType.eContact, ⟨0, 0, 0⟩, ⟨1, 0, 0⟩, 1/2, 1, 2⟩,
   mkContact 402 4 0 0 (1/2), mkContact 403 5 3 0 (1/2), mkContact 404 2 5 0 (1/2),
   mkContact 405 (-1) 3 0 (1/2)]

/-- Three contacts at the corners of a triangle. -/
def triGroup : List Contact :=
  [mkContact 500 0 0 0 (1/2), mkContact 501 1 0 0 (1/2), mkContact 502 0 1 0 (1/2)]

/-- The key by which the points are compared in the search for an extreme point: the value of
the linear function `m . p` first, then the coordinates, in lexicographic order. -/
def lexKey (m p : Vec3) : ℚ ×ₗ ℚ ×ₗ ℚ ×ₗ ℚ := toLex (m.dot p, toLex (p.x, toLex (p.y, p.z)))

/-- The geometric helpers of the environment are the exact ones: collinearity, plane
membership and the two hull routines. The tolerance, the square root and the comparison of the
friction coefficients are left open. -/
def ExactGeometry (env : GeomEnv) : Prop :=
  env.collinear = collinearModel ∧ env.on_plane = onPlaneModel ∧
  env.calc_convex_hull_2D = convexHull2DModel ∧ env.calc_convex_hull_3D = convexHull3DModel

/-- The contacts of the group are distinct objects, and the contacts between one pair of
bodies lie at pairwise different points and have one contact normal. -/
def DistinctUniform (group : List Contact) : Prop :=
  (group.filter (fun c => c.contact_type = ContactType.eContact)).Pairwise
    (fun c d => c.addr ≠ d.addr ∧
      (body_pair c = body_pair d →
        c.contact_point ≠ d.contact_point ∧ c.contact_normal = d.contact_normal))

instance (group : List Contact) : Decidable (DistinctUniform group) := by
  unfold DistinctUniform
  infer_instance

/-- The corners of a square in the plane `z = 0` and its centre, the first corner touched by
two contacts; the centre comes first and the second contact of the first corner last. -/
def squareGroup : List Contact :=
  [mkContact 600 2 2 0 (1/2), mkContact 601 0 0 0 (1/2), mkContact 602 4 0 0 (1/2),
   mkContact 603 4 4 0 (1/2), mkContact 604 0 4 0 (1/2), mkContact 605 0 0 0 (1/2)]

/-- A triangular bipyramid and its centre, friction 0.5; the centre comes first. -/
def bipyramidGroup : List Contact :=
  [mkContact 700 0 0 0 (1/2), mkContact 701 0 0 2 (1/2), mkContact 702 0 0 (-2) (1/2),
   mkContact 703 2 0 0 (1/2), mkContact 704 (-1) 2 0 (1/2), mkContact 705 (-1) (-2) 0 (1/2)]

/-- `Contact::DistanceClass`. -/
inductive DistanceClass where
  | ePositive
  | eNegative
  | eZero
deriving DecidableEq

/-- `Contact::calc_contact_vel` (Contact.cpp 829-851): the relative linear velocity of the two
bodies at the contact point, `ta.get_linear() - tb.get_linear()`, projected on the normal. -/
def calc_contact_vel (contact_normal ta_linear tb_linear : Vec3) : ℚ :=
  contact_normal.dot (ta_linear.sub tb_linear)

/-- `Contact::determine_distance_class` (Contact.cpp 1753-1768); `tol` is the member of that
name. -/
def determine_distance_class (tol : ℚ) (contact_normal ta_linear tb_linear : Vec3) :
    DistanceClass :=
  let vel := calc_contact_vel contact_normal ta_linear tb_linear
  if vel > tol then DistanceClass.ePositive
  else if vel < -tol then DistanceClass.eNegative
  else DistanceClass.eZero

/-- `Event::EventType` (Event.h 30). -/
inductive EventType where
  | eNone
  | eContact
  | eLimit
  | eConstraint
deriving DecidableEq

/-- The fields of `Event` (Event.h) that `MeshDCD` reads or writes; geometries are addresses. -/
structure Event where
  event_type : EventType
  t : ℚ
  contact_geom1 : Nat
  contact_geom2 : Nat
  contact_point : Vec3
  contact_normal : Vec3
deriving DecidableEq

namespace Vec3

/-- Unary minus. -/
def neg (v : Vec3) : Vec3 := ⟨-v.x, -v.y, -v.z⟩

end Vec3

/-- `MeshDCD::create_contact` (MeshDCD.cpp 980-994). `e0` is the event as left by the default
constructor `Event()` and `calc_normal` is `Triangle::calc_normal` (Event.cpp and Triangle.cpp
are not among the sources). -/
def create_contact (calc_normal : Triangle → Vec3) (e0 : Event) (toi : ℚ) (a b : Nat)
    (p pdot : Vec3) (t : Triangle) : Event :=
  let e := e0
  let e := { e with event_type := EventType.eContact }
  let e := { e with contact_geom1 := a }
  let e := { e with contact_geom2 := b }
  let e := { e with contact_point := p }
  let e := { e with contact_normal := calc_normal t }
  -- see whether to reverse the normal
  if pdot.dot e.contact_normal > 0 then { e with contact_normal := e.contact_normal.neg }
  else e

/-- Four contacts between bodies 1 and 2 of which the last has another friction
coefficient. -/
def mixedGroup : List Contact :=
  [mkContact 600 0 0 0 (1/2), mkContact 601 1 0 0 (1/2), mkContact 602 0 1 0 (1/2),
   mkContact 603 1 1 0 (3/4)]

/-- The test of the duplicate-removal pass (MeshDCD.cpp 242-243, 392-393):
`fabs(ci.t - cj.t) < NEAR_ZERO && (ci.contact_point - cj.contact_point).norm() < NEAR_ZERO`. -/
def is_duplicate (NEAR_ZERO : ℚ) (sqrt : ℚ → ℚ) (ci cj : Event) : Bool :=
  decide (|ci.t - cj.t| < NEAR_ZERO) &&
    decide ((ci.contact_point.sub cj.contact_point).norm sqrt < NEAR_ZERO)

/-- The loop `for (j = i+1; j < contacts.size(); )` of the duplicate-removal pass, from index
`j` on: a duplicate of `contacts[i]` at `j` is overwritten with `contacts.back()` and the back
is popped, without advancing `j`. -/
def remove_duplicates_inner (dup : Event → Event → Bool) (i : Nat) :
    Nat → Nat → List Event → Option (List Event)
  | 0, j, contacts => if j < contacts.length then none else some contacts
  | fuel + 1, j, contacts =>
    if j < contacts.length then
      match contacts[i]?, contacts[j]?, contacts.getLast? with
      | some ci, some cj, some back =>
        if dup ci cj then remove_duplicates_inner dup i fuel j ((contacts.set j back).dropLast)
        else remove_duplicates_inner dup i fuel (j + 1) contacts
      | _, _, _ => none
    else some contacts

/-- The loop `for (i = 0; i < contacts.size(); i++)` of the duplicate-removal pass, from index
`i` on. -/
def remove_duplicates_outer (dup : Event → Event → Bool) :
    Nat → Nat → List Event → Option (List Event)
  | 0, i, contacts => if i < contacts.length then none else some contacts
  | fuel + 1, i, contacts =>
    if i < contacts.length then
      match remove_duplicates_inner dup i fuel (i + 1) contacts with
      | some contacts2 => remove_duplicates_outer dup fuel (i + 1) contacts2
      | none => none
    else some contacts

/-- The duplicate-removal pass that ends `MeshDCD::check_geom` and `MeshDCD::check_geoms`
(MeshDCD.cpp 238-250, 387-401). -/
def remove_duplicates (NEAR_ZERO : ℚ) (sqrt : ℚ → ℚ) (fuel : Nat) (contacts : List Event) :
    Option (List Event) :=
  remove_duplicates_outer (is_duplicate NEAR_ZERO sqrt) fuel 0 contacts

/-- The suffix `x :: tl` of the vector after `contacts[j] = contacts.back(); pop_back()` at
the position of `x`. -/
def swap_pop : List Event → List Event
  | [] => []
  | _ :: tl =>
    match tl.getLast? with
    | some b => b :: tl.dropLast
    | none => []

/-- A contact event at time `t` and point `(x, y, z)`. -/
def mkEvent (t x y z : ℚ) : Event :=
  ⟨EventType.eContact, t, 1, 2, ⟨x, y, z⟩, ⟨0, 0, 1⟩⟩

/-- The state read by `MeshDCD::broad_phase`: the set `_geoms` in iteration order (a
`std::set` of addresses), the sets `disabled` and `disabled_pairs`, the rigid body that owns a
geometry, `dynamic_pointer_cast<RigidBody>(g->get_single_body())` (`none` for a null result),
and `RigidBody::is_enabled`. -/
structure BroadPhaseEnv where
  geoms : List Nat
  disabled : List Nat
  disabled_pairs : List (Nat × Nat)
  rigid_body : Nat → Option Nat
  is_enabled : Nat → Bool

/-- `make_sorted_pair(a, b)` on addresses. -/
def make_sorted_pair (a b : Nat) : Nat × Nat := (min a b, max a b)

/-- `to_check.clear()`. -/
def vector_clear {α : Type} (_ : List α) : List α := []

/-- The test `rb && !rb->is_enabled()`. -/
def rb_disabled (env : BroadPhaseEnv) : Option Nat → Bool
  | some r => !env.is_enabled r
  | none => false

/-- The loop over `b` of `MeshDCD::broad_phase` (MeshDCD.cpp 1612-1637) for a fixed `a`; the
list holds the geometries after `a` in `_geoms`. -/
def broad_phase_inner (env : BroadPhaseEnv) (a : Nat) :
    List Nat → List (Nat × Nat) → List (Nat × Nat)
  | [], to_check => to_check
  | b :: bs, to_check =>
    -- if b is disabled, skip it
    if env.disabled.contains b then broad_phase_inner env a bs to_check
    -- if the pair is disabled, continue looping
    else if env.disabled_pairs.contains (make_sorted_pair a b) then
      broad_phase_inner env a bs to_check
    else
      let rb1 := env.rigid_body a
      let rb2 := env.rigid_body b
      -- don't check pairs from the same rigid body
      if rb1.isSome && rb1 == rb2 then broad_phase_inner env a bs to_check
      -- if both rigid bodies are disabled, don't check
      else if rb_disabled env rb1 && rb_disabled env rb2 then broad_phase_inner env a bs to_check
      else broad_phase_inner env a bs (to_check ++ [(a, b)])

/-- The loop over `a` of `MeshDCD::broad_phase` (MeshDCD.cpp 1606-1638). -/
def broad_phase_outer (env : BroadPhaseEnv) : List Nat → List (Nat × Nat) → List (Nat × Nat)
  | [], to_check => to_check
  | a :: rest, to_check =>
    -- if a is disabled, skip it
    if env.disabled.contains a then broad_phase_outer env rest to_check
    else broad_phase_outer env rest (broad_phase_inner env a rest to_check)

/-- `MeshDCD::broad_phase` (MeshDCD.cpp 1597-1639): the vector `to_check` on return. -/
def broad_phase (env : BroadPhaseEnv) (to_check : List (Nat × Nat)) : List (Nat × Nat) :=
  broad_phase_outer env env.geoms (vector_clear to_check)

/-- The conditions under which `broad_phase` passes the pair `(a, b)` on. -/
def PairToCheck (env : BroadPhaseEnv) (a b : Nat) : Prop :=
  a ∉ env.disabled ∧ b ∉ env.disabled ∧ make_sorted_pair a b ∉ env.disabled_pairs ∧
  (¬ ∃ r, env.rigid_body a = some r ∧ env.rigid_body b = some r) ∧
  (¬ ∃ r1 r2, env.rigid_body a = some r1 ∧ env.rigid_body b = some r2 ∧
    env.is_enabled r1 = false ∧ env.is_enabled r2 = false)

/-- Six geometries: 1, 2 and 6 on the rigid body 10, 3 on the disabled rigid body 11, 4 on the
disabled rigid body 12, 5 on a body that is not rigid; geometry 2 is disabled and so is the
pair (1, 5). -/
def exampleBroadPhase : BroadPhaseEnv where
  geoms := [1, 2, 3, 4, 5, 6]
  disabled := [2]
  disabled_pairs := [(1, 5)]
  rigid_body := fun g => if g = 1 ∨ g = 2 ∨ g = 6 then some 10 else if g = 3 then some 11
    else if g = 4 then some 12 else none
  is_enabled := fun r => decide (r = 10)

/-- A 3x3 matrix, by rows (`Matrix3`). -/
structure Matrix3 where
  r1 : Vec3
  r2 : Vec3
  r3 : Vec3
deriving DecidableEq

namespace Matrix3

def identity : Matrix3 := ⟨⟨1, 0, 0⟩, ⟨0, 1, 0⟩, ⟨0, 0, 1⟩⟩

/-- The transposed matrix. -/
def transpose (m : Matrix3) : Matrix3 :=
  ⟨⟨m.r1.x, m.r2.x, m.r3.x⟩, ⟨m.r1.y, m.r2.y, m.r3.y⟩, ⟨m.r1.z, m.r2.z, m.r3.z⟩⟩

/-- The product `m * v`. -/
def mult (m : Matrix3) (v : Vec3) : Vec3 := ⟨m.r1.dot v, m.r2.dot v, m.r3.dot v⟩

/-- `Matrix3::transpose_mult`: the product of the transposed matrix with `v`. -/
def transpose_mult (m : Matrix3) (v : Vec3) : Vec3 := m.transpose.mult v

/-- The rows are orthonormal: the matrix is a rotation or a reflection. -/
def Orthonormal (m : Matrix3) : Prop :=
  m.r1.dot m.r1 = 1 ∧ m.r2.dot m.r2 = 1 ∧ m.r3.dot m.r3 = 1 ∧
  m.r1.dot m.r2 = 0 ∧ m.r1.dot m.r3 = 0 ∧ m.r2.dot m.r3 = 0

end Matrix3

/-- Modelled from the spec: `Matrix4` (Matrix4.h and Matrix4.cpp are not among the sources);
spec 4.1, "the rigid transform mapping points from b's local frame into a's local frame": a
rotation part and a translation part. -/
structure Matrix4 where
  R : Matrix3
  t : Vec3
deriving DecidableEq

namespace Matrix4

/-- Modelled from the spec: `IDENTITY_4x4`, the transform that maps every point to itself. -/
def identity : Matrix4 := ⟨Matrix3.identity, Vec3.zero⟩

/-- Modelled from the spec: `Matrix4::mult_point`, the image of a point under the transform
(spec 4.1, "mapping points from b's local frame into a's local frame"). -/
def mult_point (T : Matrix4) (p : Vec3) : Vec3 := (T.R.mult p).add T.t

/-- Modelled from the spec: `Matrix4::inverse_transform`, the inverse of a rigid transform
(spec 8, "supplying the correctly inverted relative transform"): the transposed rotation and
the translation taken back through it. -/
def inverse_transform (T : Matrix4) : Matrix4 :=
  ⟨T.R.transpose, (T.R.transpose.mult T.t).neg⟩

/-- The transform is rigid: its rotation part is orthonormal. -/
def Rigid (T : Matrix4) : Prop := T.R.Orthonormal

end Matrix4

/-- The fields of `OBB` read in BV.cpp: centre, orientation and half-lengths. -/
structure OBB where
  center : Vec3
  R : Matrix3
  l : Vec3
deriving DecidableEq

/-- The fields of `AABB` read in BV.cpp. -/
structure AABB where
  minp : Vec3
  maxp : Vec3
deriving DecidableEq

/-- The fields of `BoundingSphere` read in BV.cpp. -/
structure BoundingSphere where
  center : Vec3
  radius : ℚ
deriving DecidableEq

/-- The fields of `SSL` (sphere-swept line segment) read in BV.cpp. -/
structure SSL where
  p1 : Vec3
  p2 : Vec3
  radius : ℚ
deriving DecidableEq

/-- A sphere-swept rectangle `SSR`; BV.cpp reads none of its fields (SSR.h is not among the
sources), so it is identified by its address. -/
structure SSR where
  addr : Nat
deriving DecidableEq

/-- The concrete kinds of bounding volume that `BV::intersects` tells apart by
`dynamic_cast`. -/
inductive Volume where
  | dummy
  | obb (o : OBB)
  | aabb (a : AABB)
  | ssr (s : SSR)
  | ssl (s : SSL)
  | sphere (s : BoundingSphere)
deriving DecidableEq

/-- What BV.cpp calls outside its own file: the same-kind tests `OBB::intersects`,
`SSR::intersects`, `SSL::intersects`, `BoundingSphere::intersects` and `AABB::intersects`
without and with a relative transform, `AABB::get_OBB`, the distance functions
`SSR::calc_dist` (to a point and to a `LineSeg3`) and `SSL::calc_dist`, and the bounds
`get_lower_bounds` / `get_upper_bounds` of `SSR` and `SSL`. -/
structure BVEnv where
  OBB_intersects : OBB → OBB → Bool
  OBB_intersects_T : OBB → OBB → Matrix4 → Bool
  SSR_intersects : SSR → SSR → Bool
  SSR_intersects_T : SSR → SSR → Matrix4 → Bool
  SSL_intersects : SSL → SSL → Bool
  SSL_intersects_T : SSL → SSL → Matrix4 → Bool
  BoundingSphere_intersects : BoundingSphere → BoundingSphere → Bool
  BoundingSphere_intersects_T : BoundingSphere → BoundingSphere → Matrix4 → Bool
  AABB_intersects : AABB → AABB → Bool
  AABB_intersects_T : AABB → AABB → Matrix4 → Bool
  AABB_get_OBB : AABB → OBB
  SSR_calc_dist : SSR → Vec3 → ℚ
  SSR_calc_dist_seg : SSR → Vec3 → Vec3 → ℚ
  SSL_calc_dist : SSL → Vec3 → ℚ
  SSR_get_lower_bounds : SSR → Matrix4 → Vec3
  SSR_get_upper_bounds : SSR → Matrix4 → Vec3
  SSL_get_lower_bounds : SSL → Matrix4 → Vec3
  SSL_get_upper_bounds : SSL → Matrix4 → Vec3

namespace BV

/-- `BV::intersects(const OBB*, const AABB*, const Matrix4&)` (BV.cpp 255-260). -/
def intersects_OBB_AABB_T (env : BVEnv) (O : OBB) (A : AABB) (OTA : Matrix4) : Bool :=
  let Ao := env.AABB_get_OBB A
  env.OBB_intersects_T O Ao OTA

/-- `BV::intersects(const OBB*, const AABB*)` (BV.cpp 263-269). -/
def intersects_OBB_AABB (env : BVEnv) (O : OBB) (A : AABB) : Bool :=
  let Ao := env.AABB_get_OBB A
  env.OBB_intersects O Ao

/-- One pass of the loop over the three axes in the box/sphere tests: the squared distance
gained on an axis with centre coordinate `c` and half-length `l`. -/
def obb_axis_dist (c l : ℚ) : ℚ :=
  if c < -l then (c + l) * (c + l)
  else if c > l then (c - l) * (c - l)
  else 0

/-- `BV::intersects(const OBB*, const BoundingSphere*)` (BV.cpp 272-300). -/
def intersects_OBB_sphere (O : OBB) (S : BoundingSphere) : Bool :=
  -- transform the sphere center to OBB space
  let center := O.R.transpose_mult (S.center.sub O.center)
  -- find the square of the distance from the sphere to the box
  let d : ℚ := 0
  let d := d + obb_axis_dist center.x O.l.x
  let d := d + obb_axis_dist center.y O.l.y
  let d := d + obb_axis_dist center.z O.l.z
  decide (d ≤ S.radius * S.radius)

/-- `BV::intersects(const OBB*, const BoundingSphere*, const Matrix4&)` (BV.cpp 303-313). -/
def intersects_OBB_sphere_T (O : OBB) (S : BoundingSphere) (OTS : Matrix4) : Bool :=
  -- create a new bounding sphere in O's frame
  let s := S
  let s := { s with center := OTS.mult_point s.center }
  intersects_OBB_sphere O s

/-- The loop body of the AABB/sphere test (BV.cpp 334-345) on one axis. -/
def aabb_axis_dist (c l : ℚ) : ℚ :=
  if c < -l then (-c + l) * (-c + l)
  else if c > l then (c - l) * (c - l)
  else 0

/-- `BV::intersects(const AABB*, const BoundingSphere*)` (BV.cpp 316-350). -/
def intersects_AABB_sphere (A : AABB) (S : BoundingSphere) : Bool :=
  -- transform the sphere center to OBB space
  let center := (S.center.sub A.minp).add A.maxp
  -- get the half-lengths of the AABB
  let l := (A.maxp.smul (1 / 2)).sub (A.minp.smul (1 / 2))
  let d : ℚ := 0
  let d := d + aabb_axis_dist center.x l.x
  let d := d + aabb_axis_dist center.y l.y
  let d := d + aabb_axis_dist center.z l.z
  decide (d ≤ S.radius * S.radius)

/-- `BV::intersects(const AABB*, const BoundingSphere*, const Matrix4&)` (BV.cpp 356-362). -/
def intersects_AABB_sphere_T (A : AABB) (S : BoundingSphere) (ATS : Matrix4) : Bool :=
  let s := S
  let s := { s with center := ATS.mult_point s.center }
  intersects_AABB_sphere A s

/-- `BV::intersects(const SSR*, const BoundingSphere*)` (BV.cpp 369-376). -/
def intersects_SSR_sphere (env : BVEnv) (S : SSR) (B : BoundingSphere) : Bool :=
  let dist := env.SSR_calc_dist S B.center
  decide (dist - B.radius ≤ 0)

/-- `BV::intersects(const SSR*, const BoundingSphere*, const Matrix4&)` (BV.cpp 384-394). -/
def intersects_SSR_sphere_T (env : BVEnv) (S : SSR) (B : BoundingSphere) (STB : Matrix4) :
    Bool :=
  -- transform the center of the bounding sphere
  let xc := STB.mult_point B.center
  let dist := env.SSR_calc_dist S xc
  decide (dist - B.radius ≤ 0)

/-- `BV::intersects(const OBB*, const SSR*)` (BV.cpp 401-408). -/
def intersects_OBB_SSR (env : BVEnv) (O : OBB) (S : SSR) : Bool :=
  -- create a AABB around the SSR
  let Sx : AABB := ⟨env.SSR_get_lower_bounds S Matrix4.identity,
    env.SSR_get_upper_bounds S Matrix4.identity⟩
  intersects_OBB_AABB env O Sx

/-- `BV::intersects(const OBB*, const SSR*, const Matrix4&)` (BV.cpp 416-422). -/
def intersects_OBB_SSR_T (env : BVEnv) (O : OBB) (S : SSR) (OTS : Matrix4) : Bool :=
  let Sx : AABB := ⟨env.SSR_get_lower_bounds S OTS, env.SSR_get_upper_bounds S OTS⟩
  intersects_OBB_AABB env O Sx

/-- `BV::intersects(const SSR*, const AABB*, const Matrix4&)` (BV.cpp 430-437). -/
def intersects_SSR_AABB_T (env : BVEnv) (S : SSR) (A : AABB) (STA : Matrix4) : Bool :=
  let ATS := Matrix4.inverse_transform STA
  let Sx : AABB := ⟨env.SSR_get_lower_bounds S ATS, env.SSR_get_upper_bounds S ATS⟩
  env.AABB_intersects A Sx

/-- `BV::intersects(const SSR*, const AABB*)` (BV.cpp 444-450). -/
def intersects_SSR_AABB (env : BVEnv) (S : SSR) (A : AABB) : Bool :=
  let Sx : AABB := ⟨env.SSR_get_lower_bounds S Matrix4.identity,
    env.SSR_get_upper_bounds S Matrix4.identity⟩
  env.AABB_intersects A Sx

/-- `BV::intersects(const AABB*, const SSL*)` (BV.cpp 453-459). -/
def intersects_AABB_SSL (env : BVEnv) (A : AABB) (B : SSL) : Bool :=
  let Bx : AABB := ⟨env.SSL_get_lower_bounds B Matrix4.identity,
    env.SSL_get_upper_bounds B Matrix4.identity⟩
  env.AABB_intersects A Bx

/-- `BV::intersects(const AABB*, const SSL*, const Matrix4&)` (BV.cpp 462-468). -/
def intersects_AABB_SSL_T (env : BVEnv) (A : AABB) (B : SSL) (aTb : Matrix4) : Bool :=
  let Bx : AABB := ⟨env.SSL_get_lower_bounds B aTb, env.SSL_get_upper_bounds B aTb⟩
  env.AABB_intersects A Bx

/-- `BV::intersects(const OBB*, const SSL*)` (BV.cpp 471-477). -/
def intersects_OBB_SSL (env : BVEnv) (A : OBB) (B : SSL) : Bool :=
  let Bx : AABB := ⟨env.SSL_get_lower_bounds B Matrix4.identity,
    env.SSL_get_upper_bounds B Matrix4.identity⟩
  intersects_OBB_AABB env A Bx

/-- `BV::intersects(const OBB*, const SSL*, const Matrix4&)` (BV.cpp 480-486). -/
def intersects_OBB_SSL_T (env : BVEnv) (A : OBB) (B : SSL) (aTb : Matrix4) : Bool :=
  let Bx : AABB := ⟨env.SSL_get_lower_bounds B aTb, env.SSL_get_upper_bounds B aTb⟩
  intersects_OBB_AABB env A Bx

/-- `BV::intersects(const SSL*, const BoundingSphere*)` (BV.cpp 489-493). -/
def intersects_SSL_sphere (env : BVEnv) (A : SSL) (B : BoundingSphere) : Bool :=
  let dist := env.SSL_calc_dist A B.center
  decide (dist ≤ B.radius)

/-- `BV::intersects(const SSL*, const BoundingSphere*, const Matrix4&)` (BV.cpp 496-500): the
body is that of the version without a transform, `aTb` is not read. -/
def intersects_SSL_sphere_T (env : BVEnv) (A : SSL) (B : BoundingSphere) (aTb : Matrix4) :
    Bool :=
  let dist := env.SSL_calc_dist A B.center
  decide (dist ≤ B.radius)

/-- `BV::intersects(const SSR*, const SSL*)` (BV.cpp 503-507). -/
def intersects_SSR_SSL (env : BVEnv) (A : SSR) (B : SSL) : Bool :=
  let dist := env.SSR_calc_dist_seg A B.p1 B.p2
  decide (dist ≤ B.radius)

/-- `BV::intersects(const SSR*, const SSL*, const Matrix4&)` (BV.cpp 510-516). -/
def intersects_SSR_SSL_T (env : BVEnv) (A : SSR) (B : SSL) (aTb : Matrix4) : Bool :=
  let Bp1 := aTb.mult_point B.p1
  let Bp2 := aTb.mult_point B.p2
  let dist := env.SSR_calc_dist_seg A Bp1 Bp2
  decide (dist ≤ B.radius)

/-- `BV::intersects(const BV*, const BV*)` (BV.cpp 45-145), the dispatch on the dynamic types
of the two volumes. -/
def intersects (env : BVEnv) : Volume → Volume → Bool
  -- look for dummy type
  | Volume.dummy, _ => true
  | _, Volume.dummy => true
  -- look for OBB type
  | Volume.obb a, Volume.obb b => env.OBB_intersects a b
  | Volume.obb a, Volume.aabb b => intersects_OBB_AABB env a b
  | Volume.obb a, Volume.ssr b => intersects_OBB_SSR env a b
  | Volume.obb a, Volume.ssl b => intersects_OBB_SSL env a b
  | Volume.obb a, Volume.sphere b => intersects_OBB_sphere a b
  -- look for SSR type
  | Volume.ssr a, Volume.obb b => intersects_OBB_SSR env b a
  | Volume.ssr a, Volume.ssr b => env.SSR_intersects a b
  | Volume.ssr a, Volume.ssl b => intersects_SSR_SSL env a b
  | Volume.ssr a, Volume.sphere b => intersects_SSR_sphere env a b
  | Volume.ssr a, Volume.aabb b => intersects_SSR_AABB env a b
  -- look for SSL type
  | Volume.ssl a, Volume.obb b => intersects_OBB_SSL env b a
  | Volume.ssl a, Volume.aabb b => intersects_AABB_SSL env b a
  | Volume.ssl a, Volume.ssr b => intersects_SSR_SSL env b a
  | Volume.ssl a, Volume.ssl b => env.SSL_intersects a b
  | Volume.ssl a, Volume.sphere b => intersects_SSL_sphere env a b
  -- look for bounding sphere type
  | Volume.sphere a, Volume.obb b => intersects_OBB_sphere b a
  | Volume.sphere a, Volume.aabb b => intersects_AABB_sphere b a
  | Volume.sphere a, Volume.ssr b => intersects_SSR_sphere env b a
  | Volume.sphere a, Volume.ssl b => intersects_SSL_sphere env b a
  | Volume.sphere a, Volume.sphere b => env.BoundingSphere_intersects a b
  | Volume.aabb a, Volume.obb b => intersects_OBB_AABB env b a
  | Volume.aabb a, Volume.ssr b => intersects_SSR_AABB env b a
  | Volume.aabb a, Volume.ssl b => intersects_AABB_SSL env a b
  | Volume.aabb a, Volume.sphere b => intersects_AABB_sphere a b
  | Volume.aabb a, Volume.aabb b => env.AABB_intersects a b

/-- `BV::intersects(const BV*, const BV*, const Matrix4&)` (BV.cpp 151-253); `aTb` is the
relative transformation from `b` to `a`. -/
def intersects_T (env : BVEnv) : Volume → Volume → Matrix4 → Bool
  -- look for dummy type
  | Volume.dummy, _, _ => true
  | _, Volume.dummy, _ => true
  -- look for OBB type
  | Volume.obb a, Volume.obb b, aTb => env.OBB_intersects_T a b aTb
  | Volume.obb a, Volume.ssr b, aTb => intersects_OBB_SSR_T env a b aTb
  | Volume.obb a, Volume.ssl b, aTb => intersects_OBB_SSL_T env a b aTb
  | Volume.obb a, Volume.sphere b, aTb => intersects_OBB_sphere_T a b aTb
  | Volume.obb a, Volume.aabb b, aTb => intersects_OBB_AABB_T env a b aTb
  -- look for SSR type
  | Volume.ssr a, Volume.ssr b, aTb => env.SSR_intersects_T a b aTb
  | Volume.ssr a, Volume.ssl b, aTb => intersects_SSR_SSL_T env a b aTb
  | Volume.ssr a, Volume.sphere b, aTb => intersects_SSR_sphere_T env a b aTb
  | Volume.ssr a, Volume.obb b, aTb =>
    intersects_OBB_SSR_T env b a (Matrix4.inverse_transform aTb)
  | Volume.ssr a, Volume.aabb b, aTb => intersects_SSR_AABB_T env a b aTb
  | Volume.ssl a, Volume.obb b, aTb =>
    intersects_OBB_SSL_T env b a (Matrix4.inverse_transform aTb)
  | Volume.ssl a, Volume.ssr b, aTb =>
    intersects_SSR_SSL_T env b a (Matrix4.inverse_transform aTb)
  | Volume.ssl a, Volume.ssl b, aTb => env.SSL_intersects_T a b aTb
  | Volume.ssl a, Volume.sphere b, aTb =>
    intersects_SSL_sphere_T env a b (Matrix4.inverse_transform aTb)
  | Volume.ssl a, Volume.aabb b, aTb =>
    intersects_AABB_SSL_T env b a (Matrix4.inverse_transform aTb)
  | Volume.sphere a, Volume.obb b, aTb =>
    intersects_OBB_sphere_T b a (Matrix4.inverse_transform aTb)
  | Volume.sphere a, Volume.ssr b, aTb =>
    intersects_SSR_sphere_T env b a (Matrix4.inverse_transform aTb)
  | Volume.sphere a, Volume.ssl b, aTb =>
    intersects_SSL_sphere_T env b a (Matrix4.inverse_transform aTb)
  | Volume.sphere a, Volume.sphere b, aTb => env.BoundingSphere_intersects_T a b aTb
  | Volume.sphere a, Volume.aabb b, aTb =>
    intersects_AABB_sphere_T b a (Matrix4.inverse_transform aTb)
  | Volume.aabb a, Volume.obb b, aTb =>
    intersects_OBB_AABB_T env b a (Matrix4.inverse_transform aTb)
  | Volume.aabb a, Volume.ssr b, aTb =>
    intersects_SSR_AABB_T env b a (Matrix4.inverse_transform aTb)
  | Volume.aabb a, Volume.ssl b, aTb => intersects_AABB_SSL_T env a b aTb
  | Volume.aabb a, Volume.sphere b, aTb => intersects_AABB_sphere_T a b aTb
  | Volume.aabb a, Volume.aabb b, aTb => env.AABB_intersects_T a b aTb

end BV

/-- The same-kind tests give the same answer with the two volumes exchanged. -/
def SameKindSymmetric (env : BVEnv) : Prop :=
  (∀ a b, env.OBB_intersects a b = env.OBB_intersects b a) ∧
  (∀ a b, env.SSR_intersects a b = env.SSR_intersects b a) ∧
  (∀ a b, env.SSL_intersects a b = env.SSL_intersects b a) ∧
  (∀ a b, env.BoundingSphere_intersects a b = env.BoundingSphere_intersects b a) ∧
  (∀ a b, env.AABB_intersects a b = env.AABB_intersects b a)

/-- The same-kind tests with a rigid transform give the same answer with the two volumes
exchanged and the transform inverted. -/
def SameKindSymmetricT (env : BVEnv) : Prop :=
  ∀ T : Matrix4, T.Rigid →
    (∀ a b, env.OBB_intersects_T a b T = env.OBB_intersects_T b a T.inverse_transform) ∧
    (∀ a b, env.SSR_intersects_T a b T = env.SSR_intersects_T b a T.inverse_transform) ∧
    (∀ a b, env.SSL_intersects_T a b T = env.SSL_intersects_T b a T.inverse_transform) ∧
    (∀ a b, env.BoundingSphere_intersects_T a b T =
      env.BoundingSphere_intersects_T b a T.inverse_transform) ∧
    (∀ a b, env.AABB_intersects_T a b T = env.AABB_intersects_T b a T.inverse_transform)

/-- Modelled from the spec: `SSL::calc_dist` (SSL.cpp is not among the sources); spec 4.1,
"distance from shape skeleton to sphere center ≤ sphere radius (+ own sweep radius)": the
distance from the point to the segment `p1 p2`, less the sweep radius. -/
def sslCalcDistModel (A : SSL) (p : Vec3) : ℚ :=
  let d := A.p2.sub A.p1
  let s := if d.dot d = 0 then 0 else max 0 (min 1 ((p.sub A.p1).dot d / d.dot d))
  let closest := A.p1.add (d.smul s)
  ratSqrt ((p.sub closest).dot (p.sub closest)) - A.radius

/-- Modelled from the spec: `BoundingSphere::intersects` (BoundingSphere.cpp is not among the
sources); spec 4.1, "closed-form distance-vs-combined-radii". -/
def sphereIntersectsModel (a b : BoundingSphere) : Bool :=
  decide ((a.center.sub b.center).dot (a.center.sub b.center) ≤
    (a.radius + b.radius) * (a.radius + b.radius))

/-- An environment for concrete evaluations: the sphere tests and `SSL::calc_dist` as modelled
above; the other same-kind tests answer `true` (no pruning) and the bounds are those of
a point at the origin. -/
def exampleBVEnv : BVEnv where
  OBB_intersects := fun _ _ => true
  OBB_intersects_T := fun _ _ _ => true
  SSR_intersects := fun _ _ => true
  SSR_intersects_T := fun _ _ _ => true
  SSL_intersects := fun _ _ => true
  SSL_intersects_T := fun _ _ _ => true
  BoundingSphere_intersects := sphereIntersectsModel
  BoundingSphere_intersects_T := fun _ _ _ => true
  AABB_intersects := fun _ _ => true
  AABB_intersects_T := fun _ _ _ => true
  AABB_get_OBB := fun A => ⟨(A.minp.add A.maxp).smul (1 / 2), Matrix3.identity,
    (A.maxp.sub A.minp).smul (1 / 2)⟩
  SSR_calc_dist := fun _ _ => 0
  SSR_calc_dist_seg := fun _ _ _ => 0
  SSL_calc_dist := sslCalcDistModel
  SSR_get_lower_bounds := fun _ _ => Vec3.zero
  SSR_get_upper_bounds := fun _ _ => Vec3.zero
  SSL_get_lower_bounds := fun _ _ => Vec3.zero
  SSL_get_upper_bounds := fun _ _ => Vec3.zero

/-- The segment from the origin to `(1, 0, 0)` swept by a sphere of radius 1/2. -/
def exampleSSL : SSL := ⟨⟨0, 0, 0⟩, ⟨1, 0, 0⟩, 1 / 2⟩

/-- A sphere of radius 1 centred at the origin of its own frame. -/
def exampleSphere : BoundingSphere := ⟨⟨0, 0, 0⟩, 1⟩

/-- The translation by `(10, 0, 0)`. -/
def exampleShift : Matrix4 := ⟨Matrix3.identity, ⟨10, 0, 0⟩⟩

/-- The scalar triple product `u . (v x w)`. -/
def triple (u v w : Vec3) : ℚ := u.dot (v.cross w)

/-- Modelled from the spec: `BoundingSphere::intersects` with a relative transform
(BoundingSphere.cpp is not among the sources); spec 4.1, "semantically identical to
transforming b into a's frame first". -/
def sphereIntersectsModelT (a b : BoundingSphere) (aTb : Matrix4) : Bool :=
  sphereIntersectsModel a ⟨aTb.mult_point b.center, b.radius⟩

/-- The squared distance from the point `p` to the segment `a b`. -/
def pointSegDistSq (p a b : Vec3) : ℚ :=
  let d := b.sub a
  let w := p.sub a
  let s := if d.dot d = 0 then 0 else max 0 (min 1 (w.dot d / d.dot d))
  w.dot w - 2 * s * w.dot d + s * s * d.dot d

/-- The squared distance between the lines through `p1 p2` and through `q1 q2`, when the lines
are not parallel and their common perpendicular meets both segments. -/
def segSegInner (p1 p2 q1 q2 : Vec3) : Option ℚ :=
  let u := p2.sub p1
  let v := q2.sub q1
  let w := p1.sub q1
  let D := u.dot u * v.dot v - u.dot v * u.dot v
  if D = 0 then none
  else
    let s := (u.dot v * v.dot w - v.dot v * u.dot w) / D
    let t := (u.dot u * v.dot w - u.dot v * u.dot w) / D
    if 0 ≤ s ∧ s ≤ 1 ∧ 0 ≤ t ∧ t ≤ 1 then
      some (w.dot w + s * s * u.dot u + t * t * v.dot v + 2 * s * u.dot w - 2 * t * v.dot w
        - 2 * s * t * u.dot v)
    else none

/-- The segments `p1 p2` and `q1 q2` are no farther apart than the square root of `rr`: an end
point is that close to the other segment, or the common perpendicular is that short. -/
def segSegWithin (rr : ℚ) (p1 p2 q1 q2 : Vec3) : Bool :=
  decide (pointSegDistSq p1 q1 q2 ≤ rr) || decide (pointSegDistSq p2 q1 q2 ≤ rr) ||
  decide (pointSegDistSq q1 p1 p2 ≤ rr) || decide (pointSegDistSq q2 p1 p2 ≤ rr) ||
  (match segSegInner p1 p2 q1 q2 with
    | some x => decide (x ≤ rr)
    | none => false)

/-- Modelled from the spec: `SSL::intersects` (SSL.cpp is not among the sources); spec 4.1,
"each test reduces to a closed-form distance-vs-combined-radii" computation: the distance
between the two segments is at most the sum of the two sweep radii (which are not
negative). -/
def sslIntersectsModel (a b : SSL) : Bool :=
  segSegWithin ((a.radius + b.radius) * (a.radius + b.radius)) a.p1 a.p2 b.p1 b.p2

/-- Modelled from the spec: `SSL::intersects` with a relative transform; spec 4.1,
"semantically identical to transforming b into a's frame first". -/
def sslIntersectsModelT (a b : SSL) (aTb : Matrix4) : Bool :=
  sslIntersectsModel a ⟨aTb.mult_point b.p1, aTb.mult_point b.p2, b.radius⟩

/-- Modelled from the spec: the geometry of a sphere-swept rectangle (SSR.h is not among the
sources); spec 2, "sphere-swept rectangle": the rectangle with the corner `o` and the two
corners `a` and `b` next to it, swept by a sphere of radius `radius`. -/
structure SSRShape where
  o : Vec3
  a : Vec3
  b : Vec3
  radius : ℚ
deriving DecidableEq

namespace SSRShape

/-- The corner opposite to `o`. -/
def d (s : SSRShape) : Vec3 := s.a.add (s.b.sub s.o)

/-- The four corners, in order around the rectangle. -/
def corners (s : SSRShape) : List Vec3 := [s.o, s.a, s.d, s.b]

/-- The four edges. -/
def edges (s : SSRShape) : List (Vec3 × Vec3) := [(s.o, s.a), (s.a, s.d), (s.d, s.b), (s.b, s.o)]

/-- The shape mapped by a transform. -/
def transform (T : Matrix4) (s : SSRShape) : SSRShape :=
  ⟨T.mult_point s.o, T.mult_point s.a, T.mult_point s.b, s.radius⟩

end SSRShape

/-- The squared distance from the point `p` to the rectangle with the corner `o` and the
corners `a`, `b` next to it. -/
def pointRectDistSq (p o a b : Vec3) : ℚ :=
  let w := p.sub o
  let e1 := a.sub o
  let e2 := b.sub o
  let s := if e1.dot e1 = 0 then 0 else max 0 (min 1 (w.dot e1 / e1.dot e1))
  let t := if e2.dot e2 = 0 then 0 else max 0 (min 1 (w.dot e2 / e2.dot e2))
  w.dot w - 2 * s * w.dot e1 - 2 * t * w.dot e2 + s * s * e1.dot e1 + t * t * e2.dot e2
    + 2 * s * t * e1.dot e2

/-- The segment `p q` crosses the plane of the rectangle `o a b` at a point of the
rectangle. -/
def segPiercesRect (p q o a b : Vec3) : Bool :=
  let e1 := a.sub o
  let e2 := b.sub o
  let dp := triple e1 e2 (p.sub o)
  let dq := triple e1 e2 (q.sub o)
  if dp * dq ≤ 0 ∧ dp ≠ dq then
    let lam := dp / (dp - dq)
    let x1 := (p.sub o).dot e1 + lam * (q.sub p).dot e1
    let x2 := (p.sub o).dot e2 + lam * (q.sub p).dot e2
    decide (0 ≤ x1 ∧ x1 ≤ e1.dot e1 ∧ 0 ≤ x2 ∧ x2 ≤ e2.dot e2)
  else false

/-- An edge of `r` crosses the rectangle `s`, or a corner of `r` is no farther from `s` than
the square root of `rr`. -/
def rectReaches (rr : ℚ) (r s : SSRShape) : Bool :=
  r.edges.any (fun e => segPiercesRect e.1 e.2 s.o s.a s.b) ||
  r.corners.any (fun p => decide (pointRectDistSq p s.o s.a s.b ≤ rr))

/-- The rectangles `r` and `s` are no farther apart than the square root of `rr`. -/
def rectRectWithin (rr : ℚ) (r s : SSRShape) : Bool :=
  rectReaches rr r s || rectReaches rr s r ||
  r.edges.any (fun e => s.edges.any (fun f => segSegWithin rr e.1 e.2 f.1 f.2))

/-- Modelled from the spec: `SSR::intersects` (SSR.cpp is not among the sources); spec 4.1,
"each test reduces to a closed-form distance-vs-combined-radii" computation: the distance
between the two rectangles is at most the sum of the two sweep radii. -/
def ssrIntersectsModel (shape : SSR → SSRShape) (a b : SSR) : Bool :=
  rectRectWithin (((shape a).radius + (shape b).radius) * ((shape a).radius + (shape b).radius))
    (shape a) (shape b)

/-- Modelled from the spec: `SSR::intersects` with a relative transform; spec 4.1,
"semantically identical to transforming b into a's frame first". -/
def ssrIntersectsModelT (shape : SSR → SSRShape) (a b : SSR) (aTb : Matrix4) : Bool :=
  rectRectWithin (((shape a).radius + (shape b).radius) * ((shape a).radius + (shape b).radius))
    (shape a) ((shape b).transform aTb)

/-- A box by its centre, its three axes and its half-lengths along them. -/
structure Box where
  center : Vec3
  u1 : Vec3
  u2 : Vec3
  u3 : Vec3
  l : Vec3
deriving DecidableEq

namespace Box

/-- The box mapped by a transform. -/
def transform (T : Matrix4) (B : Box) : Box :=
  ⟨T.mult_point B.center, T.R.mult B.u1, T.R.mult B.u2, T.R.mult B.u3, B.l⟩

/-- The half-width of the box along a direction, `f` being the scalar product with it. -/
def radius (B : Box) (f : Vec3 → ℚ) : ℚ :=
  B.l.x * |f B.u1| + B.l.y * |f B.u2| + B.l.z * |f B.u3|

/-- The direction with the scalar product `f` separates the boxes. -/
def axisSeparates (A B : Box) (f : Vec3 → ℚ) : Bool :=
  decide (A.radius f + B.radius f < |f (B.center.sub A.center)|)

/-- A separating axis exists among the three axes of `A`, the three axes of `B` and the nine
cross products of an axis of `A` with an axis of `B`. -/
def separated (A B : Box) : Bool :=
  A.axisSeparates B A.u1.dot || A.axisSeparates B A.u2.dot || A.axisSeparates B A.u3.dot ||
  A.axisSeparates B B.u1.dot || A.axisSeparates B B.u2.dot || A.axisSeparates B B.u3.dot ||
  A.axisSeparates B (triple A.u1 B.u1) || A.axisSeparates B (triple A.u1 B.u2) ||
  A.axisSeparates B (triple A.u1 B.u3) || A.axisSeparates B (triple A.u2 B.u1) ||
  A.axisSeparates B (triple A.u2 B.u2) || A.axisSeparates B (triple A.u2 B.u3) ||
  A.axisSeparates B (triple A.u3 B.u1) || A.axisSeparates B (triple A.u3 B.u2) ||
  A.axisSeparates B (triple A.u3 B.u3)

end Box

/-- The box of an `OBB`: the axes are the columns of `R` (BV.cpp 282 takes a point to the
frame of the box with `R.transpose_mult`). -/
def OBB.box (O : OBB) : Box :=
  ⟨O.center, O.R.transpose.r1, O.R.transpose.r2, O.R.transpose.r3, O.l⟩

/-- The box of an `AABB`: the coordinate axes, the centre and the half-lengths of the
interval on each axis. -/
def AABB.toBox (A : AABB) : Box :=
  ⟨(A.minp.add A.maxp).smul (1 / 2), ⟨1, 0, 0⟩, ⟨0, 1, 0⟩, ⟨0, 0, 1⟩,
    (A.maxp.sub A.minp).smul (1 / 2)⟩

/-- Modelled from the spec: `OBB::intersects` (OBB.cpp is not among the sources); spec 4.1,
"box/box separating-axis computation". -/
def obbIntersectsModel (a b : OBB) : Bool := !(a.box.separated b.box)

/-- Modelled from the spec: `OBB::intersects` with a relative transform; spec 4.1,
"semantically identical to transforming b into a's frame first". -/
def obbIntersectsModelT (a b : OBB) (aTb : Matrix4) : Bool :=
  !(a.box.separated (b.box.transform aTb))

/-- Modelled from the spec: `AABB::intersects` (AABB.cpp is not among the sources); spec 4.1,
"axis-aligned-box pairs": the intervals overlap on each coordinate axis. -/
def aabbIntersectsModel (a b : AABB) : Bool :=
  decide (a.minp.x ≤ b.maxp.x ∧ b.minp.x ≤ a.maxp.x) &&
  decide (a.minp.y ≤ b.maxp.y ∧ b.minp.y ≤ a.maxp.y) &&
  decide (a.minp.z ≤ b.maxp.z ∧ b.minp.z ≤ a.maxp.z)

/-- Modelled from the spec: `AABB::intersects` with a relative transform; spec 4.1,
"box/box separating-axis computation", "semantically identical to transforming b into a's
frame first": the separating-axis test on the boxes of the two volumes. -/
def aabbIntersectsModelT (a b : AABB) (aTb : Matrix4) : Bool :=
  !(a.toBox.separated (b.toBox.transform aTb))

/-- The same-kind tests of the environment are the ones modelled from the spec, `shape` giving
the geometry of a sphere-swept rectangle. -/
def SameKindExact (shape : SSR → SSRShape) (env : BVEnv) : Prop :=
  env.OBB_intersects = obbIntersectsModel ∧
  env.OBB_intersects_T = obbIntersectsModelT ∧
  env.SSR_intersects = ssrIntersectsModel shape ∧
  env.SSR_intersects_T = ssrIntersectsModelT shape ∧
  env.SSL_intersects = sslIntersectsModel ∧
  env.SSL_intersects_T = sslIntersectsModelT ∧
  env.BoundingSphere_intersects = sphereIntersectsModel ∧
  env.BoundingSphere_intersects_T = sphereIntersectsModelT ∧
  env.AABB_intersects = aabbIntersectsModel ∧
  env.AABB_intersects_T = aabbIntersectsModelT

/-- The environment `exampleBVEnv` with the same-kind tests modelled from the spec. -/
def specBVEnv (shape : SSR → SSRShape) : BVEnv :=
  { exampleBVEnv with
    OBB_intersects := obbIntersectsModel
    OBB_intersects_T := obbIntersectsModelT
    SSR_intersects := ssrIntersectsModel shape
    SSR_intersects_T := ssrIntersectsModelT shape
    SSL_intersects := sslIntersectsModel
    SSL_intersects_T := sslIntersectsModelT
    BoundingSphere_intersects := sphereIntersectsModel
    BoundingSphere_intersects_T := sphereIntersectsModelT
    AABB_intersects := aabbIntersectsModel
    AABB_intersects_T := aabbIntersectsModelT }

/-- A box with half-lengths 1 centred at the origin of its frame, its axes along the
coordinate axes. -/
def exampleCube : OBB := ⟨⟨0, 0, 0⟩, Matrix3.identity, ⟨1, 1, 1⟩⟩

/-- The rotation about the third axis with cosine 3/5 and sine 4/5, followed by the
translation by `(5/2, 0, 0)`. -/
def exampleTurn : Matrix4 := ⟨⟨⟨3/5, -4/5, 0⟩, ⟨4/5, 3/5, 0⟩, ⟨0, 0, 1⟩⟩, ⟨5/2, 0, 0⟩⟩

/-- The same rotation, followed by the translation by `(9/4, 0, 0)`. -/
def exampleNearTurn : Matrix4 := ⟨⟨⟨3/5, -4/5, 0⟩, ⟨4/5, 3/5, 0⟩, ⟨0, 0, 1⟩⟩, ⟨9/4, 0, 0⟩⟩

/-- The geometry of the sphere-swept rectangles of the examples: a square of side 4 in the
plane `z = 0`, swept by a sphere of radius 1/2, whatever the address. -/
def exampleShape (_ : SSR) : SSRShape := ⟨⟨0, 0, 0⟩, ⟨4, 0, 0⟩, ⟨0, 4, 0⟩, 1 / 2⟩

/-- `Contact::FrictionType`. -/
inductive FrictionType where
  | eUndetermined
  | eSticking
  | eSlipping
deriving DecidableEq

namespace Vec3

/-- `v / s`, componentwise. -/
def div (v : Vec3) (s : ℚ) : Vec3 := ⟨v.x / s, v.y / s, v.z / s⟩

/-- `v.normalize()`: the vector divided by its norm. -/
def normalize (sqrt : ℚ → ℚ) (v : Vec3) : Vec3 := v.div (v.norm sqrt)

end Vec3

/-- `Vector3d` (the vector class of the linear-algebra library that Contact.cpp uses); its
`double` components are elements of an ordered field `K`. -/
structure Vector3d (K : Type) where
  x : K
  y : K
  z : K
deriving DecidableEq

namespace Vector3d

variable {K : Type} [LinearOrderedField K]

def sub (u v : Vector3d K) : Vector3d K := ⟨u.x - v.x, u.y - v.y, u.z - v.z⟩

/-- `v * s` (vector times scalar). -/
def smul (v : Vector3d K) (s : K) : Vector3d K := ⟨v.x * s, v.y * s, v.z * s⟩

def dot (u v : Vector3d K) : K := u.x * v.x + u.y * v.y + u.z * v.z

def cross (u v : Vector3d K) : Vector3d K :=
  ⟨u.y * v.z - u.z * v.y, u.z * v.x - u.x * v.z, u.x * v.y - u.y * v.x⟩

/-- `v.norm()`, with the square root supplied. -/
def norm (sqrt : K → K) (v : Vector3d K) : K := sqrt (v.dot v)

/-- The vector with the components `v.x / s`, `v.y / s`, `v.z / s`, for `s` other than 0. -/
def over (v : Vector3d K) (s : K) : Vector3d K := ⟨v.x / s, v.y / s, v.z / s⟩

/-- `v / s`: `none` when `s` is zero, where the floating-point division leaves the finite
numbers (every component is NaN or an infinity). -/
def div (v : Vector3d K) (s : K) : Option (Vector3d K) :=
  if s = 0 then none else some (v.over s)

/-- `v.normalize()`: the vector divided by its norm. -/
def normalize (sqrt : K → K) (v : Vector3d K) : Option (Vector3d K) := v.div (v.norm sqrt)

end Vector3d

/-- What `determine_contact_tangents` sets: `_ftype`, `contact_tan1` and `contact_tan2`; a
tangent is `none` when its components are not finite numbers. -/
structure Tangents (K : Type) where
  ftype : FrictionType
  contact_tan1 : Option (Vector3d K)
  contact_tan2 : Option (Vector3d K)
deriving DecidableEq

/-- The relative velocity with its normal component removed (Contact.cpp 1711-1714):
`rvel -= contact_normal * contact_normal.dot(rvel)`. -/
def tangential_velocity {K : Type} [LinearOrderedField K] (contact_normal rvel : Vector3d K) :
    Vector3d K :=
  let dot := contact_normal.dot rvel
  rvel.sub (contact_normal.smul dot)

/-- `Contact::determine_contact_tangents` (Contact.cpp 1697-1733) over an ordered field `K`
that stands for `double`. `ta_linear` and `tb_linear` are the linear velocities of the two
bodies at the contact point, `sqrt` is `std::sqrt`, and `basis` is
`Vector3d::determine_orthonormal_basis` of the linear-algebra library, which yields the two
vectors it writes. -/
def determine_contact_tangents {K : Type} [LinearOrderedField K] (sqrt : K → K)
    (basis : Vector3d K → Vector3d K × Vector3d K) (stick_tol : K)
    (contact_normal ta_linear tb_linear : Vector3d K) : Tangents K :=
  let rvel := ta_linear.sub tb_linear
  -- now remove the normal components from this relative velocity
  let rvel := tangential_velocity contact_normal rvel
  -- see whether we can use this vector as a contact tangent and set the friction type
  let tan_norm := rvel.norm sqrt
  if tan_norm < stick_tol then
    ⟨FrictionType.eSticking, some (basis contact_normal).1, some (basis contact_normal).2⟩
  else
    let contact_tan1 := rvel.div tan_norm
    let contact_tan2 := contact_tan1.map (fun t1 => contact_normal.cross t1)
    let contact_tan2 := contact_tan2.bind (fun t2 => t2.normalize sqrt)
    ⟨FrictionType.eSlipping, contact_tan1, contact_tan2⟩

/-- The vectors `t1`, `t2` are unit vectors orthogonal to `n` and to each other, and
`(n, t1, t2)` is right-handed. -/
def RightHandedFrame {K : Type} [LinearOrderedField K] (n t1 t2 : Vector3d K) : Prop :=
  t1.dot t1 = 1 ∧ t2.dot t2 = 1 ∧ n.dot t1 = 0 ∧ n.dot t2 = 0 ∧ t1.dot t2 = 0 ∧
  0 < (n.cross t1).dot t2

/-- What `determine_connected_contacts` asks of the bodies: `SingleBody::is_enabled`,
`get_articulated_body` (`none` for a null pointer) and `ArticulatedBody::get_links`; bodies are
addresses. -/
structure BodyEnv where
  is_enabled : Nat → Bool
  get_articulated_body : Nat → Option Nat
  get_links : Nat → List Nat

/-- `nodes.insert(x)` on a `std::set` kept as an ascending list. -/
def set_insert (x : Nat) : List Nat → List Nat
  | [] => [x]
  | y :: ys => if x < y then x :: y :: ys else if x = y then y :: ys else y :: set_insert x ys

/-- The loop that collects the single bodies present in the contacts (Contact.cpp 1031-1049),
on the state `(nodes, edges)`; `edges` is the multimap in insertion order. The list holds
contacts of type `eContact` only. -/
def collect_bodies (env : BodyEnv) :
    List Contact → List Nat × List (Nat × Nat) → List Nat × List (Nat × Nat)
  | [], st => st
  | c :: cs, (nodes, edges) =>
    let nodes := if env.is_enabled c.sb1 then set_insert c.sb1 nodes else nodes
    let nodes := if env.is_enabled c.sb2 then set_insert c.sb2 nodes else nodes
    let edges := if env.is_enabled c.sb1 && env.is_enabled c.sb2 then
      edges ++ [(c.sb1, c.sb2), (c.sb2, c.sb1)] else edges
    collect_bodies env cs (nodes, edges)

/-- The loop over `k` (Contact.cpp 1087-1093): the links after `j` that are nodes get an edge
with `j` in both directions. -/
def link_row (nodes : List Nat) (j : Nat) : List Nat → List (Nat × Nat) → List (Nat × Nat)
  | [], edges => edges
  | k :: ks, edges =>
    if nodes.contains k then link_row nodes j ks (edges ++ [(j, k), (k, j)])
    else link_row nodes j ks edges

/-- The loop over `j` (Contact.cpp 1079-1094) on the links of one articulated body. -/
def link_pairs (nodes : List Nat) : List Nat → List (Nat × Nat) → List (Nat × Nat)
  | [], edges => edges
  | j :: rest, edges =>
    if !nodes.contains j then link_pairs nodes rest edges
    else link_pairs nodes rest (link_row nodes j rest edges)

/-- The loop that connects the links of articulated bodies (Contact.cpp 1059-1095), over the
nodes still to visit, with the set `ab_processed`. -/
def articulated_edges (env : BodyEnv) (nodes : List Nat) :
    List Nat → List Nat → List (Nat × Nat) → List (Nat × Nat)
  | [], _, edges => edges
  | sb :: rest, ab_processed, edges =>
    match env.get_articulated_body sb with
    | none => articulated_edges env nodes rest ab_processed edges
    | some abody =>
      if ab_processed.contains abody then articulated_edges env nodes rest ab_processed edges
      else
        articulated_edges env nodes rest (abody :: ab_processed)
          (link_pairs nodes (env.get_links abody) edges)

/-- The loop over `edges.equal_range(node)` (Contact.cpp 1125-1128): the neighbours that are
still in `nodes` are pushed on the queue. -/
def push_neighbors (nodes : List Nat) (node : Nat) :
    List (Nat × Nat) → List Nat → List Nat
  | [], node_q => node_q
  | e :: es, node_q =>
    if e.1 = node then
      if nodes.contains e.2 then push_neighbors nodes node es (node_q ++ [e.2])
      else push_neighbors nodes node es node_q
    else push_neighbors nodes node es node_q

/-- The loop through the remaining contacts (Contact.cpp 1131-1150) on the state
`(contacts_copy, groups.back())`: the contacts with `sb1 == node || sb2 == node` move to the
group. -/
def take_contacts (node : Nat) : List Contact → List Contact → List Contact × List Contact
  | [], group => ([], group)
  | c :: cs, group =>
    if c.sb1 = node ∨ c.sb2 = node then take_contacts node cs (group ++ [c])
    else
      let r := take_contacts node cs group
      (c :: r.1, r.2)

/-- The loop `while (!node_q.empty())` (Contact.cpp 1114-1151) on the state
`(node_q, nodes, contacts_copy, groups.back())`. -/
def island_loop (edges : List (Nat × Nat)) :
    Nat → List Nat → List Nat → List Contact → List Contact →
      Option (List Nat × List Contact × List Contact)
  | _, [], nodes, contacts_copy, group => some (nodes, contacts_copy, group)
  | 0, _ :: _, _, _, _ => none
  | fuel + 1, node :: node_q, nodes, contacts_copy, group =>
    -- erase the node from the set of nodes
    let nodes := nodes.erase node
    let node_q := push_neighbors nodes node edges node_q
    let r := take_contacts node contacts_copy group
    island_loop edges fuel node_q nodes r.1 r.2

/-- The loop `while (!nodes.empty())` (Contact.cpp 1100-1152) on the state
`(nodes, contacts_copy, groups)`. -/
def groups_loop (edges : List (Nat × Nat)) :
    Nat → List Nat → List Contact → List (List Contact) → Option (List (List Contact))
  | _, [], _, groups => some groups
  | 0, _ :: _, _, _ => none
  | fuel + 1, node :: rest, contacts_copy, groups =>
    match island_loop edges fuel [node] (node :: rest) contacts_copy [] with
    | some (nodes, contacts_copy2, group) =>
      groups_loop edges fuel nodes contacts_copy2 (groups ++ [group])
    | none => none

/-- `Contact::determine_connected_contacts` (Contact.cpp 1008-1155): the groups on return
(`groups` is cleared first). -/
def determine_connected_contacts (env : BodyEnv) (fuel : Nat) (contacts : List Contact) :
    Option (List (List Contact)) :=
  -- copy the list of contacts -- only ones with geometry
  let contacts_copy := contacts.filter (fun e => e.contact_type ≠ ContactType.eNone)
  let st := collect_bodies env contacts_copy ([], [])
  let nodes := st.1
  let edges := articulated_edges env nodes nodes [] st.2
  groups_loop edges fuel nodes contacts_copy []

/-- A contact between the bodies `b1` and `b2`. -/
def mkBodyContact (addr b1 b2 : Nat) : Contact :=
  ⟨addr, ContactType.eContact, ⟨0, 0, 0⟩, ⟨0, 0, 1⟩, 1/2, b1, b2⟩

/-- Bodies 1 to 7 and the disabled body 9 (the ground); 4 and 5 are links of the articulated
body 100. -/
def exampleBodies : BodyEnv where
  is_enabled := fun b => decide (b ≠ 9)
  get_articulated_body := fun b => if b = 4 ∨ b = 5 then some 100 else none
  get_links := fun a => if a = 100 then [4, 5] else []

/-- Contacts 1-2, 2-3, 3-ground, 4-ground, 5-6, 7-ground, ground-ground. -/
def exampleContacts : List Contact :=
  [mkBodyContact 700 1 2, mkBodyContact 701 5 6, mkBodyContact 702 3 9, mkBodyContact 703 9 4,
   mkBodyContact 704 3 2, mkBodyContact 705 7 9, mkBodyContact 706 9 9]

/-- The body `v` can be reached from `r` along edges. -/
def Reach (edges : List (Nat × Nat)) : Nat → Nat → Prop :=
  Relation.ReflTransGen (fun a b => (a, b) ∈ edges)

/-- The test `sb1 == node || sb2 == node`. -/
def Touches (c : Contact) (u : Nat) : Prop := c.sb1 = u ∨ c.sb2 = u

/-- Loop invariant of `island_loop`, started from the root `r` with the nodes `N0` and the
contacts `cc0`: the nodes erased so far and the queued ones can be reached from `r`, a
neighbour of an erased node that is still a node is queued, the root is queued until it is
erased, and the group holds the contacts that touch an erased node. -/
structure IslandInv (edges : List (Nat × Nat)) (r : Nat) (N0 : List Nat) (cc0 : List Contact)
    (q N : List Nat) (cc g : List Contact) : Prop where
  sub : N.Sublist N0
  q_mem : ∀ x ∈ q, x ∈ N0
  q_reach : ∀ x ∈ q, Reach edges r x
  gone_reach : ∀ v ∈ N0, v ∉ N → Reach edges r v
  frontier : ∀ u ∈ N0, u ∉ N → ∀ v, (u, v) ∈ edges → v ∈ N → v ∈ q
  root : r ∈ N → r ∈ q
  perm : (g ++ cc).Perm cc0
  taken : ∀ c ∈ g, ∃ u ∈ N0, u ∉ N ∧ Touches c u
  left : ∀ c ∈ cc, ∀ u ∈ N0, u ∉ N → ¬ Touches c u

/-- What `island_loop` has done when the queue is empty: the erased nodes can be reached from
the root, include the root and are closed under edges, and the group holds the contacts that
touch one of them. -/
structure IslandDone (edges : List (Nat × Nat)) (r : Nat) (N0 : List Nat) (cc0 : List Contact)
    (N : List Nat) (cc g : List Contact) : Prop where
  sub : N.Sublist N0
  gone_reach : ∀ v ∈ N0, v ∉ N → Reach edges r v
  closed : ∀ u ∈ N0, u ∉ N → ∀ v, (u, v) ∈ edges → v ∉ N
  root : r ∉ N
  perm : (g ++ cc).Perm cc0
  taken : ∀ c ∈ g, ∃ u ∈ N0, u ∉ N ∧ Touches c u
  left : ∀ c ∈ cc, ∀ u ∈ N0, u ∉ N → ¬ Touches c u

/-- The number of queue entries before the first one that is still a node. -/
def lead (N : List Nat) (q : List Nat) : Nat :=
  (q.takeWhile (fun x => !N.contains x)).length

/-- What the island loops need of the graph: the nodes are distinct, the edges join nodes and
go both ways, two nodes in one contact are joined, and every node is in a contact. -/
structure IslandGraph (edges : List (Nat × Nat)) (V0 : List Nat) (C0 : List Contact) :
    Prop where
  nodup : V0.Nodup
  in_nodes : ∀ u v, (u, v) ∈ edges → u ∈ V0 ∧ v ∈ V0
  symm : ∀ u v, (u, v) ∈ edges → (v, u) ∈ edges
  contact_edge : ∀ c ∈ C0, c.sb1 ∈ V0 → c.sb2 ∈ V0 → (c.sb1, c.sb2) ∈ edges
  node_contact : ∀ x ∈ V0, ∃ c ∈ C0, Touches c x

/-- Loop invariant of `groups_loop`: the erased nodes are closed under edges, the groups and
the remaining contacts make up the contacts, no remaining contact touches an erased node, a
group is not empty, the nodes of its contacts are erased and reachable from each other, and
no node of one group can be reached from a node of another. -/
structure GroupsInv (edges : List (Nat × Nat)) (V0 : List Nat) (C0 : List Contact)
    (N : List Nat) (cc : List Contact) (groups : List (List Contact)) : Prop where
  sub : N.Sublist V0
  closed : ∀ u ∈ V0, u ∉ N → ∀ v, (u, v) ∈ edges → v ∉ N
  perm : (groups.flatten ++ cc).Perm C0
  left : ∀ c ∈ cc, ∀ u ∈ V0, u ∉ N → ¬ Touches c u
  nonempty : ∀ g ∈ groups, g ≠ []
  has_node : ∀ g ∈ groups, ∀ c ∈ g, ∃ u ∈ V0, Touches c u
  gone : ∀ g ∈ groups, ∀ c ∈ g, ∀ u ∈ V0, Touches c u → u ∉ N
  together : ∀ g ∈ groups, ∀ c1 ∈ g, ∀ c2 ∈ g, ∀ u1 ∈ V0, ∀ u2 ∈ V0,
    Touches c1 u1 → Touches c2 u2 → Reach edges u1 u2
  apart : groups.Pairwise (fun g1 g2 => ∀ c1 ∈ g1, ∀ c2 ∈ g2, ∀ u1 ∈ V0, ∀ u2 ∈ V0,
    Touches c1 u1 → Touches c2 u2 → ¬ Reach edges u1 u2)

/-- The body `u` is an enabled body of the contact `c`. -/
def EnabledBody (env : BodyEnv) (c : Contact) (u : Nat) : Prop :=
  Touches c u ∧ env.is_enabled u = true

/-- A node of the island graph: an enabled single body that appears in a contact. -/
def IsNode (env : BodyEnv) (contacts : List Contact) (u : Nat) : Prop :=
  ∃ c ∈ contacts, c.contact_type = ContactType.eContact ∧ EnabledBody env c u

/-- An edge of the island graph: two nodes that share a contact or are links of the same
articulated body. -/
def Linked (env : BodyEnv) (contacts : List Contact) (u v : Nat) : Prop :=
  IsNode env contacts u ∧ IsNode env contacts v ∧
  ((∃ c ∈ contacts, c.contact_type = ContactType.eContact ∧ Touches c u ∧ Touches c v) ∨
    (∃ A, u ∈ env.get_links A ∧ v ∈ env.get_links A))

/-- Two bodies are connected in the island graph. -/
def Connected (env : BodyEnv) (contacts : List Contact) : Nat → Nat → Prop :=
  Relation.ReflTransGen (Linked env contacts)

namespace Volume

/-- The test `dynamic_cast<const DummyBV*>(v)`: `true` for a non-null result. -/
def isDummy : Volume → Bool
  | dummy => true
  | _ => false

/-- The cast `dynamic_cast<const OBB*>(v)`: `none` for a null result. -/
def asOBB : Volume → Option OBB
  | obb o => some o
  | _ => none

/-- The cast `dynamic_cast<const AABB*>(v)`: `none` for a null result. -/
def asAABB : Volume → Option AABB
  | aabb a => some a
  | _ => none

/-- The cast `dynamic_cast<const SSR*>(v)`: `none` for a null result. -/
def asSSR : Volume → Option SSR
  | ssr s => some s
  | _ => none

/-- The cast `dynamic_cast<const SSL*>(v)`: `none` for a null result. -/
def asSSL : Volume → Option SSL
  | ssl s => some s
  | _ => none

/-- The cast `dynamic_cast<const BoundingSphere*>(v)`: `none` for a null result. -/
def asSphere : Volume → Option BoundingSphere
  | sphere s => some s
  | _ => none

end Volume

namespace BV

/-- `BV::intersects(const BV*, const BV*)` (BV.cpp 45-145) with its control flow kept: the
chain of `dynamic_cast` tests in source order, every `return` as `some`, and `none` when the
line `assert(false)` below the comment "shouldn't be here" is reached. -/
def intersects_if_chain (env : BVEnv) (a b : Volume) : Option Bool := Id.run do
  -- look for dummy type
  if a.isDummy || b.isDummy then return some true
  -- look for OBB type
  if let some oa := a.asOBB then
    if let some ob := b.asOBB then return some (env.OBB_intersects oa ob)
    if let some ab := b.asAABB then return some (intersects_OBB_AABB env oa ab)
    if let some sb := b.asSSR then return some (intersects_OBB_SSR env oa sb)
    if let some lb := b.asSSL then return some (intersects_OBB_SSL env oa lb)
    if let some pb := b.asSphere then return some (intersects_OBB_sphere oa pb)
  -- look for SSR type
  if let some sa := a.asSSR then
    if let some ob := b.asOBB then return some (intersects_OBB_SSR env ob sa)
    if let some sb := b.asSSR then return some (env.SSR_intersects sa sb)
    if let some lb := b.asSSL then return some (intersects_SSR_SSL env sa lb)
    if let some pb := b.asSphere then return some (intersects_SSR_sphere env sa pb)
    if let some ab := b.asAABB then return some (intersects_SSR_AABB env sa ab)
  -- look for SSL type
  else if let some la := a.asSSL then
    if let some ob := b.asOBB then return some (intersects_OBB_SSL env ob la)
    if let some ab := b.asAABB then return some (intersects_AABB_SSL env ab la)
    if let some sb := b.asSSR then return some (intersects_SSR_SSL env sb la)
    if let some lb := b.asSSL then return some (env.SSL_intersects la lb)
    if let some pb := b.asSphere then return some (intersects_SSL_sphere env la pb)
  -- look for bounding sphere type
  else if let some pa := a.asSphere then
    if let some ob := b.asOBB then return some (intersects_OBB_sphere ob pa)
    if let some ab := b.asAABB then return some (intersects_AABB_sphere ab pa)
    if let some sb := b.asSSR then return some (intersects_SSR_sphere env sb pa)
    if let some lb := b.asSSL then return some (intersects_SSL_sphere env lb pa)
    if let some pb := b.asSphere then return some (env.BoundingSphere_intersects pa pb)
  else if let some aa := a.asAABB then
    if let some ob := b.asOBB then return some (intersects_OBB_AABB env ob aa)
    if let some sb := b.asSSR then return some (intersects_SSR_AABB env sb aa)
    if let some lb := b.asSSL then return some (intersects_AABB_SSL env aa lb)
    if let some pb := b.asSphere then return some (intersects_AABB_sphere aa pb)
    if let some ab := b.asAABB then return some (env.AABB_intersects aa ab)
  -- shouldn't be here
  return none

/-- `BV::intersects(const BV*, const BV*, const Matrix4&)` (BV.cpp 151-253) with its control
flow kept: `none` when the line `assert(false)` is reached. -/
def intersects_T_if_chain (env : BVEnv) (a b : Volume) (aTb : Matrix4) : Option Bool :=
  Id.run do
  -- look for dummy type
  if a.isDummy || b.isDummy then return some true
  -- look for OBB type
  if let some oa := a.asOBB then
    if let some ob := b.asOBB then return some (env.OBB_intersects_T oa ob aTb)
    if let some sb := b.asSSR then return some (intersects_OBB_SSR_T env oa sb aTb)
    if let some lb := b.asSSL then return some (intersects_OBB_SSL_T env oa lb aTb)
    if let some pb := b.asSphere then return some (intersects_OBB_sphere_T oa pb aTb)
    if let some ab := b.asAABB then return some (intersects_OBB_AABB_T env oa ab aTb)
  -- look for SSR type
  else if let some sa := a.asSSR then
    if let some sb := b.asSSR then return some (env.SSR_intersects_T sa sb aTb)
    if let some lb := b.asSSL then return some (intersects_SSR_SSL_T env sa lb aTb)
    if let some pb := b.asSphere then return some (intersects_SSR_sphere_T env sa pb aTb)
    if let some ob := b.asOBB then
      return some (intersects_OBB_SSR_T env ob sa (Matrix4.inverse_transform aTb))
    if let some ab := b.asAABB then return some (intersects_SSR_AABB_T env sa ab aTb)
  else if let some la := a.asSSL then
    if let some ob := b.asOBB then
      return some (intersects_OBB_SSL_T env ob la (Matrix4.inverse_transform aTb))
    if let some sb := b.asSSR then
      return some (intersects_SSR_SSL_T env sb la (Matrix4.inverse_transform aTb))
    if let some lb := b.asSSL then return some (env.SSL_intersects_T la lb aTb)
    if let some pb := b.asSphere then
      return some (intersects_SSL_sphere_T env la pb (Matrix4.inverse_transform aTb))
    if let some ab := b.asAABB then
      return some (intersects_AABB_SSL_T env ab la (Matrix4.inverse_transform aTb))
  else if let some pa := a.asSphere then
    if let some ob := b.asOBB then
      return some (intersects_OBB_sphere_T ob pa (Matrix4.inverse_transform aTb))
    if let some sb := b.asSSR then
      return some (intersects_SSR_sphere_T env sb pa (Matrix4.inverse_transform aTb))
    if let some lb := b.asSSL then
      return some (intersects_SSL_sphere_T env lb pa (Matrix4.inverse_transform aTb))
    if let some pb := b.asSphere then return some (env.BoundingSphere_intersects_T pa pb aTb)
    if let some ab := b.asAABB then
      return some (intersects_AABB_sphere_T ab pa (Matrix4.inverse_transform aTb))
  else if let some aa := a.asAABB then
    if let some ob := b.asOBB then
      return some (intersects_OBB_AABB_T env ob aa (Matrix4.inverse_transform aTb))
    if let some sb := b.asSSR then
      return some (intersects_SSR_AABB_T env sb aa (Matrix4.inverse_transform aTb))
    if let some lb := b.asSSL then return some (intersects_AABB_SSL_T env aa lb aTb)
    if let some pb := b.asSphere then return some (intersects_AABB_sphere_T aa pb aTb)
    if let some ab := b.asAABB then return some (env.AABB_intersects_T aa ab aTb)
  -- shouldn't be here
  return none

end BV

/-- Squared distance on one axis from the coordinate `c` to the interval `[lo, hi]`. -/
def intervalDistSq (lo hi c : ℚ) : ℚ :=
  if c < lo then (lo - c) * (lo - c)
  else if c > hi then (c - hi) * (c - hi)
  else 0

namespace AABB

/-- Squared Euclidean distance from the point `p` to the box `[minp, maxp]`, written from the
words of the specification (not from BV.cpp) for the comparison with the AABB/sphere test. -/
def distSq (A : AABB) (p : Vec3) : ℚ :=
  intervalDistSq A.minp.x A.maxp.x p.x + intervalDistSq A.minp.y A.maxp.y p.y +
    intervalDistSq A.minp.z A.maxp.z p.z

/-- The point `p` lies inside the box `[minp, maxp]`. -/
def Inside (A : AABB) (p : Vec3) : Prop :=
  A.minp.x ≤ p.x ∧ p.x ≤ A.maxp.x ∧ A.minp.y ≤ p.y ∧ p.y ≤ A.maxp.y ∧
    A.minp.z ≤ p.z ∧ p.z ≤ A.maxp.z

/-- The box `[minp, maxp]` as an `OBB`: centre the midpoint, axes the coordinate axes,
half-lengths half the extents. -/
def box (A : AABB) : OBB :=
  ⟨(A.minp.add A.maxp).smul (1 / 2), Matrix3.identity, (A.maxp.sub A.minp).smul (1 / 2)⟩

end AABB

/-- The unit cube `[0, 1]^3`. -/
def unitCube : AABB := ⟨⟨0, 0, 0⟩, ⟨1, 1, 1⟩⟩

/-- A sphere of radius 1/10 about the centre of the unit cube. -/
def centredSphere : BoundingSphere := ⟨⟨1/2, 1/2, 1/2⟩, 1/10⟩

/-- The operation `v *= s` on a `VectorN`, modelled by a list of rationals. -/
def vscale (v : List ℚ) (s : ℚ) : List ℚ := v.map (fun x => x * s)

/-- The operation `u += v` on a `VectorN`. -/
def vadd (u v : List ℚ) : List ℚ := List.zipWith (fun x y => x + y) u v

/-- The operation `u -= v` on a `VectorN`. -/
def vsub (u v : List ℚ) : List ℚ := List.zipWith (fun x y => x - y) u v

/-- The state of a bisection loop: the locals `t` and `h`, the number of passes through the
loop body so far, and the coordinates handed to `set_generalized_coordinates` before each call
of `is_collision`, in call order. -/
structure Bisection (σ : Type) where
  t : ℚ
  h : ℚ
  iterations : Nat
  tests : List σ

/-- The loop `while (h > eps_tolerance)` of `MeshDCD::check_geoms` (MeshDCD.cpp 321-347) on
the coordinate vectors: `is_collision qa qb` is the outcome of `is_collision(a, b)` with `sba`
at `qa` and `sbb` at `qb`. The result is `none` when `fuel` passes do not end the loop. -/
def check_geoms_loop (is_collision : List ℚ → List ℚ → Bool) (qa0 qda qb0 qdb : List ℚ)
    (eps_tolerance : ℚ) : Nat → Bisection (List ℚ × List ℚ) → Option (Bisection (List ℚ × List ℚ))
  | 0, s => if s.h > eps_tolerance then none else some s
  | fuel + 1, s =>
    if s.h > eps_tolerance then
      -- divide h by 2
      let h := s.h * (1 / 2)
      -- set new state for sba
      let qa := vadd (vscale qda (s.t + h)) qa0
      -- set new state for sbb
      let qb := vadd (vscale qdb (s.t + h)) qb0
      -- check for contact
      let contact := is_collision qa qb
      -- if there is no contact, we update t
      let t := if !contact then s.t + h else s.t
      check_geoms_loop is_collision qa0 qda qb0 qdb eps_tolerance fuel
        ⟨t, h, s.iterations + 1, s.tests ++ [(qa, qb)]⟩
    else some s

/-- The bisection of `MeshDCD::check_geoms` from `t = 0`, `h = 1`, with the velocities
`qda = qa1 - qa0` and `qdb = qb1 - qb0` (MeshDCD.cpp 305-347). -/
def check_geoms_bisection (is_collision : List ℚ → List ℚ → Bool) (qa0 qa1 qb0 qb1 : List ℚ)
    (eps_tolerance : ℚ) (fuel : Nat) : Option (Bisection (List ℚ × List ℚ)) :=
  check_geoms_loop is_collision qa0 (vsub qa1 qa0) qb0 (vsub qb1 qb0) eps_tolerance fuel
    ⟨0, 1, 0, []⟩

/-- The loop `while (h > eps_tolerance)` of `MeshDCD::check_geom` (MeshDCD.cpp 204-220):
`is_collision q` is the outcome of `is_collision(cg)` with the body at `q`. The factor of
`qa` is the C++ expression `(Real) 1.0 - t+h`, that is `(1 - t) + h`. -/
def check_geom_loop (is_collision : List ℚ → Bool) (qa qb : List ℚ) (eps_tolerance : ℚ) :
    Nat → Bisection (List ℚ) → Option (Bisection (List ℚ))
  | 0, s => if s.h > eps_tolerance then none else some s
  | fuel + 1, s =>
    if s.h > eps_tolerance then
      -- divide h by 2
      let h := s.h * (1 / 2)
      -- step forward by h
      let q := vscale qa (1 - s.t + h)
      let qtmp := vscale qb (s.t + h)
      let q := vadd q qtmp
      -- check for contact
      let contact := is_collision q
      -- if there is no contact, we update t
      let t := if !contact then s.t + h else s.t
      check_geom_loop is_collision qa qb eps_tolerance fuel
        ⟨t, h, s.iterations + 1, s.tests ++ [q]⟩
    else some s

/-- The bisection of `MeshDCD::check_geom` from `t = 0`, `h = 1` (MeshDCD.cpp 199-221). -/
def check_geom_bisection (is_collision : List ℚ → Bool) (qa qb : List ℚ) (eps_tolerance : ℚ)
    (fuel : Nat) : Option (Bisection (List ℚ)) :=
  check_geom_loop is_collision qa qb eps_tolerance fuel ⟨0, 1, 0, []⟩

/-- The linear interpolation `(1 - s) * qa + s * qb` of two coordinate vectors, written from
the words of the specification for the comparison with what `check_geom` sets. -/
def interpolate (qa qb : List ℚ) (s : ℚ) : List ℚ := vadd (vscale qa (1 - s)) (vscale qb s)

/-- The triangle with the vertices `a + adot * r`, `b + bdot * r`, `c + cdot * r`: the
position at time `r` of a triangle whose vertices move at constant velocities. -/
def Triangle.at_time (T : Triangle) (Tadot Tbdot Tcdot : Vec3) (r : ℚ) : Triangle :=
  ⟨T.a.add (Tadot.smul r), T.b.add (Tbdot.smul r), T.c.add (Tcdot.smul r)⟩

/-- A triangle with vertex `a` fixed at the origin whose vertices `b` and `c` move with the
velocities `shrinkBdot` and `shrinkCdot`. -/
def shrinkTriangle : Triangle := ⟨⟨0, 0, 0⟩, ⟨1, 0, 0⟩, ⟨0, 1, 0⟩⟩

/-- Velocity of vertex `b` of `shrinkTriangle`. -/
def shrinkBdot : Vec3 := ⟨-1, 0, 0⟩

/-- Velocity of vertex `c` of `shrinkTriangle`. -/
def shrinkCdot : Vec3 := ⟨0, -1, 1⟩

/-- Start of the moving point tested against `shrinkTriangle`. -/
def shrinkPoint : Vec3 := ⟨1/4, 1/4, 1⟩

/-- Velocity of the moving point tested against `shrinkTriangle`. -/
def shrinkPdot : Vec3 := ⟨0, 1/4, -1/4⟩

/-- The loop "remove contacts with degenerate normals" of `MeshDCD::is_contact`
(MeshDCD.cpp 150-158), from index `i` on: a contact whose normal has a norm further than
`NEAR_ZERO` from 1 is overwritten with `contacts.back()` and the back is popped, without
advancing `i`. The result is `none` when `fuel` passes do not end the loop. -/
def remove_degenerate_normals (NEAR_ZERO : ℚ) (sqrt : ℚ → ℚ) :
    Nat → Nat → List Event → Option (List Event)
  | 0, i, contacts => if i < contacts.length then none else some contacts
  | fuel + 1, i, contacts =>
    if i < contacts.length then
      match contacts[i]?, contacts.getLast? with
      | some ci, some back =>
        if |ci.contact_normal.norm sqrt - 1| > NEAR_ZERO then
          remove_degenerate_normals NEAR_ZERO sqrt fuel i ((contacts.set i back).dropLast)
        else remove_degenerate_normals NEAR_ZERO sqrt fuel (i + 1) contacts
      | _, _ => none
    else some contacts

/-- `Event::operator<` (Event.h 125): `t < e.t`. -/
def Event.lt (e1 e2 : Event) : Bool := decide (e1.t < e2.t)

/-- One insertion of the sort: `e` goes behind the leading elements that are less than `e`
by `operator<`. -/
def sort_insert (e : Event) : List Event → List Event
  | [] => [e]
  | x :: xs => if x.lt e then x :: sort_insert e xs else e :: x :: xs

/-- `std::sort(contacts.begin(), contacts.end())`, which orders the range by `operator<`; the
algorithm of the standard library is represented by an insertion sort (the standard leaves the
order among elements of which neither is less than the other open). -/
def std_sort : List Event → List Event
  | [] => []
  | e :: es => sort_insert e (std_sort es)

/-- The end of `MeshDCD::is_contact` (MeshDCD.cpp 150-173): `collected` is the content of
`contacts` after the calls of `check_geoms` and `check_geom`; degenerate normals are removed,
the vector is sorted, and the return value is `!contacts.empty()`. The result is the return
value together with the final `contacts`. -/
def is_contact (NEAR_ZERO : ℚ) (sqrt : ℚ → ℚ) (fuel : Nat) (collected : List Event) :
    Option (Bool × List Event) :=
  -- remove contacts with degenerate normals
  match remove_degenerate_normals NEAR_ZERO sqrt fuel 0 collected with
  | some contacts =>
    let contacts := std_sort contacts
    some (!contacts.isEmpty, contacts)
  | none => none

/-- A contact event at time `t` with the normal `(nx, ny, nz)`. -/
def mkNormalEvent (t nx ny nz : ℚ) : Event :=
  ⟨EventType.eContact, t, 1, 2, ⟨0, 0, 0⟩, ⟨nx, ny, nz⟩⟩

/-- The members of `ConePrimitive` that its constructors and setters assign. -/
structure ConePrimitive where
  _radius : ℚ
  _height : ℚ
  _npoints : Nat
  _nrings : Nat
deriving DecidableEq

namespace ConePrimitive

/-- `ConePrimitive::ConePrimitive()` (ConePrimitive.cpp 26-33). -/
def default : ConePrimitive := ⟨1, 1, 10, 1⟩

/-- `ConePrimitive::ConePrimitive(Real radius, Real height)` (ConePrimitive.cpp 36-48) and,
with the same body, `ConePrimitive(Real radius, Real height, const Matrix4& T)`
(ConePrimitive.cpp 51-63); a thrown `std::runtime_error` is the `error` case with its
message. -/
def create (radius height : ℚ) : Except String ConePrimitive :=
  if height < 0 then
    Except.error "Attempting to set negative height in ConePrimitive (constructor)"
  else if radius < 0 then
    Except.error "Attempting to set negative radius in ConePrimitive (constructor)"
  else Except.ok ⟨radius, height, 10, 1⟩

/-- `ConePrimitive::ConePrimitive(Real radius, Real height, unsigned npoints, unsigned nrings,
const Matrix4& T)` (ConePrimitive.cpp 66-82). -/
def create_full (radius height : ℚ) (npoints nrings : Nat) : Except String ConePrimitive :=
  if height < 0 then
    Except.error "Attempting to set negative height in ConePrimitive (constructor)"
  else if radius < 0 then
    Except.error "Attempting to set negative radius in ConePrimitive (constructor)"
  else if npoints < 3 then
    Except.error "Attempting to set number of circle points < 3 in ConePrimitive (constructor)"
  else if nrings < 1 then
    Except.error "Attempting to set number of rings < 1 in ConePrimitive (constructor)"
  else Except.ok ⟨radius, height, npoints, nrings⟩

/-- `ConePrimitive::set_radius` (ConePrimitive.cpp 85-102): the object after the call and the
message of the exception thrown, if any. The member is assigned before the test. -/
def set_radius (c : ConePrimitive) (radius : ℚ) : ConePrimitive × Option String :=
  let c := { c with _radius := radius }
  if c._radius < 0 then
    (c, some "Attempting to pass negative radius to ConePrimitive::set_radius()")
  else (c, none)

/-- `ConePrimitive::set_height` (ConePrimitive.cpp 114-131): the object after the call and the
message of the exception thrown, if any. The member is assigned before the test. -/
def set_height (c : ConePrimitive) (height : ℚ) : ConePrimitive × Option String :=
  let c := { c with _height := height }
  if c._height < 0 then
    (c, some "Attempting to pass negative height to ConePrimitive::set_height()")
  else (c, none)

end ConePrimitive

/-- `LineSeg3`: a pair of points. -/
structure LineSeg3 where
  first : Vec3
  second : Vec3
deriving DecidableEq

/-- The segment/triangle `MeshDCD::calc_first_isect(const Triangle&, const LineSeg3&,
Vector3&)` (MeshDCD.cpp 1424-1435): `intersect_seg` is `ThickTriangle::intersect_seg` for the
triangle thickened by `isect_tolerance` (`none` when it reports no success). The result is the
return value and the point `p`, which keeps its value `p0` when there is no intersection. -/
def calc_first_isect_seg (INF : ℚ) (intersect_seg : Triangle → LineSeg3 → Option (ℚ × Vec3))
    (t : Triangle) (seg : LineSeg3) (p0 : Vec3) : ℚ × Vec3 :=
  match intersect_seg t seg with
  | none => (INF, p0)
  | some (tnear, p) => (tnear, p)

/-- What `MeshDCD::determine_contacts_rigid` reads: the linear velocities, angular velocities
and positions of the two rigid bodies, the triangles of the two meshes (`mesh_a`, `mesh_b`)
with `Triangle::transform(., a->get_transform())` and `Triangle::transform(.,
b->get_transform())`, the addresses of the two geometries, and what `calc_first_isect` and
`create_contact` take from outside (`INF`, `ThickTriangle::intersect_seg`,
`Triangle::calc_normal`, the default-constructed event) and the uninitialised local `p`. -/
structure RigidEnv where
  rba_lvel : Vec3
  rba_avel : Vec3
  rba_position : Vec3
  rbb_lvel : Vec3
  rbb_avel : Vec3
  rbb_position : Vec3
  mesh_a : List Triangle
  mesh_b : List Triangle
  transform_a : Triangle → Triangle
  transform_b : Triangle → Triangle
  a : Nat
  b : Nat
  INF : ℚ
  intersect_seg : Triangle → LineSeg3 → Option (ℚ × Vec3)
  calc_normal : Triangle → Vec3
  e0 : Event
  p_uninit : Vec3

/-- The state threaded through `MeshDCD::determine_contacts_rigid`: the parameter `t` (which
the function assigns), the output vector `contacts`, and a record of the calls made: the
segments handed to `calc_first_isect` and the `pdot` arguments handed to `create_contact`, in
call order. -/
structure RigidRun where
  t : ℚ
  contacts : List Event
  segments : List LineSeg3
  pdots : List Vec3

/-- The body of the inner loop of `MeshDCD::determine_contacts_rigid` (MeshDCD.cpp 782-851)
for the transformed triangles `TtA` and `TtB`. -/
def determine_contacts_rigid_pair (env : RigidEnv) (rlv omegaA omegaB : Vec3)
    (TtA TtB : Triangle) (s : RigidRun) : RigidRun :=
  let t := s.t
  let contacts := s.contacts
  let segments := s.segments
  let pdots := s.pdots
  -- determine angular velocities at a's vertices
  let wAa := (omegaA.cross (TtA.a.sub env.rba_position)).sub
    (omegaB.cross (TtA.a.sub env.rbb_position))
  let wAb := (omegaA.cross (TtA.b.sub env.rba_position)).sub
    (omegaB.cross (TtA.b.sub env.rbb_position))
  let wAc := (omegaA.cross (TtA.c.sub env.rba_position)).sub
    (omegaB.cross (TtA.c.sub env.rbb_position))
  -- determine angular velocities at b's vertices
  let wBa := (omegaA.cross (TtB.a.sub env.rbb_position)).sub
    (omegaB.cross (TtB.a.sub env.rbb_position))
  -- the statements for wBb and wBc end after the first cross product
  let wBb := omegaA.cross (TtB.b.sub env.rbb_position)
  let wBc := omegaA.cross (TtB.c.sub env.rbb_position)
  -- determine point velocities at a's vertices
  let pAadot := rlv.add wAa
  let pAbdot := rlv.add wAb
  let pAcdot := rlv.add wAc
  -- determine point velocities at b's vertices
  let pBadot := rlv.add wBa
  let pBbdot := rlv.add wBb
  let pBcdot := rlv.add wBc
  -- determine line segments for a's vertices
  let pAa := TtA.a.add (pAadot.smul t)
  let pAb := TtA.b.add (pAbdot.smul t)
  let pAc := TtA.c.add (pAcdot.smul t)
  -- determine line segments for b's vertices
  let pBa := TtB.a.add (pBadot.smul t)
  let pBb := TtB.b.add (pBbdot.smul t)
  let pBc := TtB.c.add (pBcdot.smul t)
  -- calculate line segment triangle intersections
  let p := env.p_uninit
  -- calculate intersections between vertex a of A and triangle B
  let (t0, p) := calc_first_isect_seg env.INF env.intersect_seg TtB ⟨TtA.a, pAa⟩ p
  let segments := segments ++ [⟨TtA.a, pAa⟩]
  let (contacts, pdots) :=
    if t0 ≤ 1 then
      (contacts ++ [create_contact env.calc_normal env.e0 t0 env.a env.b p TtA.a TtB],
        pdots ++ [TtA.a])
    else (contacts, pdots)
  -- calculate intersections between vertex b of A and triangle B
  let (t0, p) := calc_first_isect_seg env.INF env.intersect_seg TtB ⟨TtA.b, pAb⟩ p
  let segments := segments ++ [⟨TtA.b, pAb⟩]
  let (contacts, pdots) :=
    if t0 ≤ 1 then
      (contacts ++ [create_contact env.calc_normal env.e0 t0 env.a env.b p TtA.b TtB],
        pdots ++ [TtA.b])
    else (contacts, pdots)
  -- calculate intersections between vertex c of A and triangle B
  let (t0, p) := calc_first_isect_seg env.INF env.intersect_seg TtB ⟨TtA.c, pAc⟩ p
  let segments := segments ++ [⟨TtA.c, pAc⟩]
  let (contacts, pdots) :=
    if t0 ≤ 1 then
      (contacts ++ [create_contact env.calc_normal env.e0 t0 env.a env.b p TtA.c TtB],
        pdots ++ [TtA.c])
    else (contacts, pdots)
  -- calculate intersections between vertex a of B and triangle A
  let (t0, p) := calc_first_isect_seg env.INF env.intersect_seg TtA ⟨TtB.a, pBa⟩ p
  let segments := segments ++ [⟨TtB.a, pBa⟩]
  let (contacts, pdots) :=
    if t0 ≤ 1 then
      (contacts ++ [create_contact env.calc_normal env.e0 t0 env.a env.b p TtB.a TtA],
        pdots ++ [TtB.a])
    else (contacts, pdots)
  -- calculate intersections between vertex b of B and triangle A
  let (t0, p) := calc_first_isect_seg env.INF env.intersect_seg TtA ⟨TtB.b, pBb⟩ p
  let segments := segments ++ [⟨TtB.b, pBb⟩]
  let (contacts, pdots) :=
    if t0 ≤ 1 then
      (contacts ++ [create_contact env.calc_normal env.e0 t0 env.a env.b p TtB.b TtA],
        pdots ++ [TtB.b])
    else (contacts, pdots)
  -- calculate intersections between vertex c of B and triangle A; the result goes to t
  let (t, p) := calc_first_isect_seg env.INF env.intersect_seg TtA ⟨TtB.c, pBc⟩ p
  let segments := segments ++ [⟨TtB.c, pBc⟩]
  let (contacts, pdots) :=
    if t ≤ 1 then
      (contacts ++ [create_contact env.calc_normal env.e0 t env.a env.b p TtB.c TtA],
        pdots ++ [TtB.c])
    else (contacts, pdots)
  ⟨t, contacts, segments, pdots⟩

/-- `MeshDCD::determine_contacts_rigid` (MeshDCD.cpp 752-853): all triangles of a against all
triangles of b; `t` is the time-of-contact passed in and `contacts` the vector appended to. -/
def determine_contacts_rigid (env : RigidEnv) (t : ℚ) (contacts : List Event) : RigidRun :=
  -- get the relative linear and angular velocities
  let rlv := env.rba_lvel.sub env.rbb_lvel
  -- get the angular velocities of the two bodies
  let omegaA := env.rba_avel
  let omegaB := env.rbb_avel
  -- check all tris of a against all tris of b
  env.mesh_a.foldl (fun s tA =>
    let TtA := env.transform_a tA
    env.mesh_b.foldl (fun s tB =>
      let TtB := env.transform_b tB
      determine_contacts_rigid_pair env rlv omegaA omegaB TtA TtB s) s)
    ⟨t, contacts, [], []⟩

/-- The relative velocity of the vertex `x` as the specification words it:
`rlv + wA x (x - posA) - wB x (x - posB)`. -/
def vertex_relative_velocity (env : RigidEnv) (x : Vec3) : Vec3 :=
  ((env.rba_lvel.sub env.rbb_lvel).add (env.rba_avel.cross (x.sub env.rba_position))).sub
    (env.rbb_avel.cross (x.sub env.rbb_position))

/-- The segment of the vertex `x` as the specification words it: from `x` to `x + t * v`,
with `v` the relative velocity of the vertex. -/
def vertex_segment (env : RigidEnv) (x : Vec3) (t : ℚ) : LineSeg3 :=
  ⟨x, x.add ((vertex_relative_velocity env x).smul t)⟩

/-- Modelled from the spec: `ThickTriangle::intersect_seg` (ThickTriangle.cpp is not among the
sources); spec 4.2, "intersects a finite segment against a thickened triangle ... returns the
intersection parameter in [0,1] along the segment and the ... intersection point". This is the
exact test for tolerance 0: the crossing of the triangle's plane, when it lies on the segment
and inside the triangle. -/
def segTriExact (T : Triangle) (seg : LineSeg3) : Option (ℚ × Vec3) :=
  let n := (T.b.sub T.a).cross (T.c.sub T.a)
  let d := seg.second.sub seg.first
  if n.dot d = 0 then none
  else
    let s := n.dot (T.a.sub seg.first) / n.dot d
    if s < 0 ∨ 1 < s then none
    else
      let x := seg.first.add (d.smul s)
      if featureNoneExact T x then none else some (s, x)

/-- A scene for `determine_contacts_rigid`: body A at rest at the origin with the triangle
`(0,0,0), (1,0,0), (0,1,0)`; body B at `(0,0,1)` with linear velocity `(0,0,4)` and angular
velocity `(0,0,2)`, with two triangles of which the first has the vertices `a` and `c` above
the triangle of A. -/
def exampleRigidEnv : RigidEnv where
  rba_lvel := ⟨0, 0, 0⟩
  rba_avel := ⟨0, 0, 0⟩
  rba_position := ⟨0, 0, 0⟩
  rbb_lvel := ⟨0, 0, 4⟩
  rbb_avel := ⟨0, 0, 2⟩
  rbb_position := ⟨0, 0, 1⟩
  mesh_a := [⟨⟨0, 0, 0⟩, ⟨1, 0, 0⟩, ⟨0, 1, 0⟩⟩]
  mesh_b := [⟨⟨1/4, 1/4, 1⟩, ⟨1, 1, 1⟩, ⟨1/8, 1/8, 1/2⟩⟩, ⟨⟨5, 5, 5⟩, ⟨6, 5, 5⟩, ⟨5, 6, 5⟩⟩]
  transform_a := fun T => T
  transform_b := fun T => T
  a := 1
  b := 2
  INF := 2 ^ 1024 - 2 ^ 971
  intersect_seg := segTriExact
  calc_normal := fun T => ((T.b.sub T.a).cross (T.c.sub T.a)).normalize ratSqrt
  e0 := ⟨EventType.eNone, 0, 0, 0, ⟨0, 0, 0⟩, ⟨0, 0, 0⟩⟩
  p_uninit := ⟨0, 0, 0⟩

/-- The first loop of `CompGeom::calc_dimensionality` (CompGeom.inl 179-192), with `*i` and
the points behind it: the first point `*j` further than `tol` from its predecessor, with the
points behind it; `none` when the points run out (`return 0`). -/
def loop_equal (sqrt : ℚ → ℚ) (tol : ℚ) : Vec3 → List Vec3 → Option (Vec3 × List Vec3)
  | _, [] => none
  | i, j :: rest =>
    if (i.sub j).norm sqrt > tol then some (j, rest) else loop_equal sqrt tol j rest

/-- The second loop of `CompGeom::calc_dimensionality` (CompGeom.inl 196-208): the first point
`*k` behind `*j` that is not collinear with `*first` and `*j`, with the points behind it;
`none` when the points run out (`return 1`). -/
def loop_collinear (collinear : Vec3 → Vec3 → Vec3 → ℚ → Bool) (tol : ℚ) (first j : Vec3) :
    List Vec3 → Option (Vec3 × List Vec3)
  | [] => none
  | k :: rest =>
    if !collinear first j k tol then some (k, rest)
    else loop_collinear collinear tol first j rest

/-- The third loop of `CompGeom::calc_dimensionality` (CompGeom.inl 216-226): `true` when the
points run out (`return 2`), `false` when a point `*i` with `|n.(*i) - d| > tol` is found. -/
def loop_coplanar (tol : ℚ) (n : Vec3) (d : ℚ) : List Vec3 → Bool
  | [] => true
  | i :: rest => if |n.dot i - d| > tol then false else loop_coplanar tol n d rest

/-- `CompGeom::calc_dimensionality` (CompGeom.inl 169-230) on the range as a list; `collinear`
is `CompGeom::collinear` and `sqrt` is `std::sqrt`. -/
def calc_dimensionality (sqrt : ℚ → ℚ) (collinear : Vec3 → Vec3 → Vec3 → ℚ → Bool)
    (points : List Vec3) (tol : ℚ) : Nat :=
  match points with
  -- make sure we can handle the case of no points
  | [] => 0
  | first :: rest =>
    -- determine whether all of the points are equal (0 dimensionality)
    match loop_equal sqrt tol first rest with
    | none => 0
    | some (j, rest) =>
      -- determine whether all of the points are colinear (1 dimensionality)
      match loop_collinear collinear tol first j rest with
      | none => 1
      | some (k, rest) =>
        -- determine whether all of the points are coplanar (2 dimensionality)
        let v1 := j.sub first
        let v2 := k.sub j
        let n := (v1.cross v2).normalize sqrt
        let d := n.dot v1
        if loop_coplanar tol n d rest then 2
        -- still here?  full dimensionality
        else 3

/-- Four points of the plane `z = 1`: the corners of a unit square. -/
def squareAtHeightOne : List Vec3 := [⟨0, 0, 1⟩, ⟨1, 0, 1⟩, ⟨0, 1, 1⟩, ⟨1, 1, 1⟩]

/-- `Vector2` with `Real` components. -/
structure Vec2 where
  x : ℚ
  y : ℚ
deriving DecidableEq

namespace Vec2

def sub (u v : Vec2) : Vec2 := ⟨u.x - v.x, u.y - v.y⟩

def dot (u v : Vec2) : ℚ := u.x * v.x + u.y * v.y

end Vec2

/-- `LineSeg2`: a pair of points of the plane. -/
structure LineSeg2 where
  first : Vec2
  second : Vec2

/-- How a call of `CompGeom::intersect_seg_convex_polygon` ends: with `return`, giving the
result and the output parameters `te` and `tl`, or at the failing `assert(D > 0.0)`, where `t`
is the quotient `N / D` computed just before. -/
inductive SegPolygonEnd where
  | returned (result : Bool) (te tl : ℚ)
  | assertion_failed (t : XReal)
deriving DecidableEq

/-- The loop over the vertices of `CompGeom::intersect_seg_convex_polygon`
(CompGeom.inl 745-788): `first` is `*begin`, the list holds the vertices from `*i` on. -/
def intersect_seg_convex_polygon_loop (first : Vec2) (seg : LineSeg2) (dS : Vec2) (tol : ℚ) :
    List Vec2 → ℚ → ℚ → SegPolygonEnd
  | [], te, tl => SegPolygonEnd.returned true te tl
  | vi :: rest, te, tl =>
    -- get the next vertex
    let vj := rest.headD first
    -- get the edge
    let edge := vj.sub vi
    -- determine the outward normal of the edge
    let ni : Vec2 := ⟨edge.y, -edge.x⟩
    let N := -(ni.dot (seg.first.sub vi))
    let D := dS.dot ni
    if |D| < 0 then
      -- segment is parallel to this edge
      if N < tol then SegPolygonEnd.returned false te tl
      else intersect_seg_convex_polygon_loop first seg dS tol rest te tl
    else
      let t := (XReal.fin N).divFin D
      if D < 0 then
        -- segment enters polygon across this edge
        let te := max te (t.toFin 0)
        if te > tl then SegPolygonEnd.returned false te tl
        else intersect_seg_convex_polygon_loop first seg dS tol rest te tl
      else if D > 0 then
        let tl := min tl (t.toFin 0)
        if tl < te then SegPolygonEnd.returned false te tl
        else intersect_seg_convex_polygon_loop first seg dS tol rest te tl
      else SegPolygonEnd.assertion_failed t

/-- `CompGeom::intersect_seg_convex_polygon` (CompGeom.inl 733-791) on the polygon as a list of
vertices, with assertions enabled. -/
def intersect_seg_convex_polygon (polygon : List Vec2) (seg : LineSeg2) (tol : ℚ) :
    SegPolygonEnd :=
  -- initialize te and tl
  let te : ℚ := 0
  let tl : ℚ := 1
  let dS := seg.second.sub seg.first
  match polygon with
  | [] => SegPolygonEnd.returned true te tl
  | first :: _ => intersect_seg_convex_polygon_loop first seg dS tol polygon te tl

/-- The unit square, counter-clockwise. -/
def unitSquare : List Vec2 := [⟨0, 0⟩, ⟨1, 0⟩, ⟨1, 1⟩, ⟨0, 1⟩]

/-- A horizontal segment inside the unit square. -/
def horizontalSeg : LineSeg2 := ⟨⟨1/4, 1/2⟩, ⟨3/4, 1/2⟩⟩

/-! ## Part 2: theorems -/

theorem bisect_fuel_succ (C : ℚ → Bool) (eps : ℚ) :
    ∀ (fuel : Nat) (t h : ℚ) (r : ℚ × ℚ),
      bisect C eps fuel t h = some r → bisect C eps (fuel + 1) t h = some r := by
  intro fuel
  induction fuel with
  | zero =>
    intro t h r hr
    unfold bisect at hr
    split at hr
    · exact absurd hr (by simp)
    · rename_i hle
      unfold bisect
      rw [if_neg hle]
      exact hr
  | succ n ih =>
    intro t h r hr
    unfold bisect at hr
    unfold bisect
    by_cases hgt : h > eps
    · rw [if_pos hgt] at hr
      rw [if_pos hgt]
      dsimp only at hr ⊢
      by_cases hc : C (t + h * (1 / 2)) = true
      · simp only [hc, Bool.not_true, Bool.false_eq_true, if_false] at hr ⊢
        exact ih _ _ _ hr
      · simp only [Bool.not_eq_true] at hc
        simp only [hc, Bool.not_false, if_true] at hr ⊢
        exact ih _ _ _ hr
    · rw [if_neg hgt] at hr
      rw [if_neg hgt]
      exact hr

theorem bisect_fuel_mono (C : ℚ → Bool) (eps : ℚ) (fuel : Nat) (t h : ℚ) (r : ℚ × ℚ)
    (hr : bisect C eps fuel t h = some r) :
    ∀ fuel2, fuel ≤ fuel2 → bisect C eps fuel2 t h = some r := by
  intro fuel2 hle
  induction fuel2, hle using Nat.le_induction with
  | base => exact hr
  | succ m _ ih => exact bisect_fuel_succ C eps m t h r ih

theorem bisect_invariant (C : ℚ → Bool) (eps : ℚ) :
    ∀ (fuel : Nat) (t h : ℚ), 0 < h → h ≤ eps * 2 ^ fuel → 0 ≤ t → t + h ≤ 1 →
      C t = false → C (t + h) = true →
      ∃ t2 h2, bisect C eps fuel t h = some (t2, h2) ∧ 0 ≤ t2 ∧ 0 < h2 ∧ t2 + h2 ≤ 1 ∧
        h2 ≤ eps ∧ C t2 = false ∧ C (t2 + h2) = true := by
  intro fuel
  induction fuel with
  | zero =>
    intro t h hpos hle ht hth hCt hCth
    refine ⟨t, h, ?_, ht, hpos, hth, ?_, hCt, hCth⟩
    · unfold bisect
      rw [if_neg]
      simpa using hle
    · simpa using hle
  | succ n ih =>
    intro t h hpos hle ht hth hCt hCth
    by_cases hgt : h > eps
    · have hh : 0 < h * (1 / 2) := by positivity
      have hle2 : h * (1 / 2) ≤ eps * 2 ^ n := by
        rw [pow_succ] at hle
        linarith
      unfold bisect
      rw [if_pos hgt]
      dsimp only
      by_cases hc : C (t + h * (1 / 2)) = true
      · simp only [hc, Bool.not_true, Bool.false_eq_true, if_false]
        exact ih t (h * (1 / 2)) hh hle2 ht (by linarith) hCt hc
      · simp only [Bool.not_eq_true] at hc
        simp only [hc, Bool.not_false, if_true]
        have e : t + h * (1 / 2) + h * (1 / 2) = t + h := by ring
        exact ih (t + h * (1 / 2)) (h * (1 / 2)) hh hle2 (by linarith) (by linarith) hc
          (by rw [e]; exact hCth)
    · refine ⟨t, h, ?_, ht, hpos, hth, not_lt.mp hgt, hCt, hCth⟩
      unfold bisect
      rw [if_neg hgt]

theorem exists_fuel (eps : ℚ) (heps : 0 < eps) : ∃ n : Nat, (1 : ℚ) ≤ eps * 2 ^ n := by
  obtain ⟨n, hn⟩ := exists_pow_lt_of_lt_one heps (by norm_num : (1 / 2 : ℚ) < 1)
  refine ⟨n, ?_⟩
  have h2 : (0 : ℚ) < 2 ^ n := by positivity
  have : (1 / 2 : ℚ) ^ n * 2 ^ n = 1 := by
    rw [← mul_pow]; norm_num
  nlinarith

/-- C1: with a fixed collision predicate `C`, `C 1` true, `C 0` false and `eps_tolerance > 0`,
the bisection loop of `check_geoms` ends (for every sufficient fuel, with the same values),
and the final `t` and `h` satisfy `0 <= t`, `t + h <= 1`, `h <= eps_tolerance`, `C t` false
(contact-free at `t`) and `C (t + h)` true (in contact at `t + h`). -/
theorem check_geoms_bisection_brackets (C : ℚ → Bool) (eps : ℚ) (heps : 0 < eps)
    (h1 : C 1 = true) (h0 : C 0 = false) :
    ∃ (fuel : Nat) (t h : ℚ),
      (∀ fuel2, fuel ≤ fuel2 → bisect C eps fuel2 0 1 = some (t, h)) ∧
      0 ≤ t ∧ t + h ≤ 1 ∧ h ≤ eps ∧ C t = false ∧ C (t + h) = true := by
  obtain ⟨n, hn⟩ := exists_fuel eps heps
  obtain ⟨t, h, hb, ht, _, hth, hle, hCt, hCth⟩ :=
    bisect_invariant C eps n 0 1 (by norm_num) hn (le_refl 0) (by norm_num) h0
      (by simpa using h1)
  exact ⟨n, t, h, bisect_fuel_mono C eps n 0 1 (t, h) hb, ht, hth, hle, hCt, hCth⟩

theorem check_geoms_bisection_brackets_witness :
    ∃ (fuel : Nat) (t h : ℚ),
      (∀ fuel2, fuel ≤ fuel2 →
        bisect (fun s => decide ((1 : ℚ) / 3 ≤ s)) (1 / 4) fuel2 0 1 = some (t, h)) ∧
      0 ≤ t ∧ t + h ≤ 1 ∧ h ≤ 1 / 4 ∧ (fun s => decide ((1 : ℚ) / 3 ≤ s)) t = false ∧
      (fun s => decide ((1 : ℚ) / 3 ≤ s)) (t + h) = true :=
  check_geoms_bisection_brackets (fun s => decide ((1 : ℚ) / 3 ≤ s)) (1 / 4) (by norm_num)
    (by norm_num) (by norm_num)

namespace BV

variable {α : Type}

theorem size_eq (x : BV α) : x.size = 1 + sizeList x.children := by
  cases x with
  | node v cs => simp [size, children]

theorem size_pos (x : BV α) : 0 < x.size := by
  rw [size_eq]; omega

theorem size_le_sizeList {c : BV α} : ∀ {cs : List (BV α)}, c ∈ cs → c.size ≤ sizeList cs
  | [], h => by simp at h
  | d :: ds, h => by
    rw [sizeList]
    rcases List.mem_cons.mp h with h | h
    · subst h; omega
    · have := size_le_sizeList h; omega

theorem size_child_lt {x c : BV α} (h : c ∈ x.children) : c.size < x.size := by
  have := size_le_sizeList h
  rw [size_eq x]; omega

theorem mem_nodesList {y : BV α} : ∀ {cs : List (BV α)}, y ∈ nodesList cs ↔ ∃ c ∈ cs, y ∈ nodes c
  | [] => by simp [nodesList]
  | d :: ds => by
    have ih : y ∈ nodesList ds ↔ ∃ c ∈ ds, y ∈ nodes c := mem_nodesList
    rw [nodesList, List.mem_append, ih]
    simp

theorem nodes_eq (x : BV α) : nodes x = x :: nodesList x.children := by
  cases x with
  | node v cs => simp [nodes, children]

theorem mem_nodes_iff {x y : BV α} : y ∈ nodes x ↔ y = x ∨ ∃ c ∈ x.children, y ∈ nodes c := by
  rw [nodes_eq, List.mem_cons, mem_nodesList]

theorem mem_nodes_self (x : BV α) : x ∈ nodes x := mem_nodes_iff.mpr (Or.inl rfl)

theorem mem_nodes_trans : ∀ (n : Nat) (x y z : BV α), x.size ≤ n → y ∈ nodes x → z ∈ nodes y →
    z ∈ nodes x := by
  intro n
  induction n with
  | zero => intro x y z hx; have := size_pos x; omega
  | succ n ih =>
    intro x y z hx hy hz
    rcases mem_nodes_iff.mp hy with h | ⟨c, hc, hyc⟩
    · subst h; exact hz
    · have hlt := size_child_lt hc
      exact mem_nodes_iff.mpr (Or.inr ⟨c, hc, ih c y z (by omega) hyc hz⟩)

theorem nodes_trans {x y z : BV α} (hy : y ∈ nodes x) (hz : z ∈ nodes y) : z ∈ nodes x :=
  mem_nodes_trans x.size x y z (le_refl _) hy hz

theorem mem_leaves {x l : BV α} : l ∈ leaves x ↔ l ∈ nodes x ∧ l.is_leaf = true := by
  simp [leaves]

theorem leaves_of_leaf {x l : BV α} (hx : x.is_leaf = true) (hl : l ∈ leaves x) : l = x := by
  rcases mem_nodes_iff.mp (mem_leaves.mp hl).1 with h | ⟨c, hc, _⟩
  · exact h
  · simp [is_leaf] at hx
    rw [hx] at hc
    simp at hc

theorem leaves_of_not_leaf {x l : BV α} (hx : x.is_leaf = false) (hl : l ∈ leaves x) :
    ∃ c ∈ x.children, l ∈ leaves c := by
  have h := mem_leaves.mp hl
  rcases mem_nodes_iff.mp h.1 with e | ⟨c, hc, hlc⟩
  · subst e; rw [hx] at h; exact absurd h.2 (by simp)
  · exact ⟨c, hc, mem_leaves.mpr ⟨hlc, h.2⟩⟩

theorem mem_nodes_of_child {x c : BV α} (hc : c ∈ x.children) : c ∈ nodes x :=
  mem_nodes_iff.mpr (Or.inr ⟨c, hc, mem_nodes_self c⟩)

end BV

section Traversal

variable {α : Type}

theorem qweight_append (q r : List (BV α × BV α × Bool)) :
    qweight (q ++ r) = qweight q + qweight r := by
  simp [qweight]

theorem qweight_children_le (p : BV α → Bool) (y : BV α) (r : Bool) :
    ∀ cs : List (BV α), qweight ((cs.filter p).map (fun c => (c, y, r))) ≤ BV.sizeList cs * y.size
  | [] => by simp [qweight]
  | c :: cs => by
    have ih := qweight_children_le p y r cs
    rw [BV.sizeList, Nat.add_mul]
    by_cases hp : p c = true
    · rw [List.filter_cons_of_pos hp]
      simp only [List.map_cons, qweight, List.sum_cons, weight] at ih ⊢
      omega
    · rw [List.filter_cons_of_neg hp]
      have : 0 ≤ c.size * y.size := Nat.zero_le _
      omega

theorem qweight_expand_lt (isect : BV α → BV α → Bool) (e : BV α × BV α × Bool) :
    qweight (expand isect e) < weight e := by
  obtain ⟨bv1, bv2, rev⟩ := e
  unfold expand weight
  dsimp only
  have h1 := BV.size_eq bv1
  have h2 := BV.size_eq bv2
  have p1 := BV.size_pos bv1
  have p2 := BV.size_pos bv2
  split
  · have := qweight_children_le
      (fun child => (!rev && isect child bv2) || (rev && isect bv2 child)) bv2 rev bv1.children
    have e1 : bv1.size * bv2.size = BV.sizeList bv1.children * bv2.size + bv2.size := by
      rw [h1]; ring
    omega
  · have := qweight_children_le
      (fun child => (!rev && isect bv1 child) || (rev && isect child bv1)) bv1 (!rev) bv2.children
    have e1 : bv1.size * bv2.size = BV.sizeList bv2.children * bv1.size + bv1.size := by
      rw [h2]; ring
    omega

theorem weight_pos (e : BV α × BV α × Bool) : 0 < weight e :=
  Nat.mul_pos (BV.size_pos _) (BV.size_pos _)

theorem qweight_eq_zero {q : List (BV α × BV α × Bool)} (h : qweight q = 0) : q = [] := by
  cases q with
  | nil => rfl
  | cons e q =>
    have := weight_pos e
    simp [qweight] at h
    omega

/-- One iteration of the loop in all-contacts mode. -/
theorem loop_step {P : Type} (isect : BV α → BV α → Bool) (leafs : BV α → BV α → List P)
    (last : Option Nat) (fuel : Nat) (e : BV α × BV α × Bool)
    (q : List (BV α × BV α × Bool)) (tris : List P) :
    intersect_BV_trees_loop isect leafs Mode.eAllContacts last (fuel + 1) (e :: q) tris =
      intersect_BV_trees_loop isect leafs Mode.eAllContacts last fuel (q ++ expand isect e)
        (tris ++ (if e.1.is_leaf && e.2.1.is_leaf then leafs (orient e).1 (orient e).2 else [])) := by
  obtain ⟨bv1, bv2, rev⟩ := e
  rw [intersect_BV_trees_loop]
  have hm : (Mode.eAllContacts == Mode.eFirstContact) = false := by decide
  simp only [hm, Bool.and_false, Bool.false_and, Bool.false_eq_true, if_false]
  unfold expand orient
  dsimp only
  cases h1 : bv1.is_leaf <;> cases h2 : bv2.is_leaf <;> cases rev <;> simp

theorem loop_nil {P : Type} (isect : BV α → BV α → Bool) (leafs : BV α → BV α → List P)
    (mode : Mode) (last : Option Nat) (fuel : Nat) (tris : List P) :
    intersect_BV_trees_loop isect leafs mode last fuel [] tris =
      some (!tris.isEmpty && last != backAddr tris, tris) := by
  cases fuel <;> rw [intersect_BV_trees_loop]

theorem expand_desc (isect : BV α → BV α → Bool) (e e2 : BV α × BV α × Bool)
    (h : e2 ∈ expand isect e) :
    (orient e2).1 ∈ BV.nodes (orient e).1 ∧ (orient e2).2 ∈ BV.nodes (orient e).2 := by
  obtain ⟨bv1, bv2, rev⟩ := e
  unfold expand at h
  dsimp only at h
  split at h
  · obtain ⟨c, hc, rfl⟩ := List.mem_map.mp h
    have hc1 := BV.mem_nodes_of_child (List.mem_filter.mp hc).1
    cases rev <;> simp [orient, hc1, BV.mem_nodes_self]
  · obtain ⟨c, hc, rfl⟩ := List.mem_map.mp h
    have hc1 := BV.mem_nodes_of_child (List.mem_filter.mp hc).1
    cases rev <;> simp [orient, hc1, BV.mem_nodes_self]

theorem expand_complete (isect : BV α → BV α → Bool) (e : BV α × BV α × Bool) (la lb : BV α)
    (hne : (e.1.is_leaf && e.2.1.is_leaf) = false)
    (hla : la ∈ BV.leaves (orient e).1) (hlb : lb ∈ BV.leaves (orient e).2)
    (hI : ∀ x y, x ∈ BV.nodes (orient e).1 → y ∈ BV.nodes (orient e).2 →
      la ∈ BV.leaves x → lb ∈ BV.leaves y → isect x y = true) :
    ∃ e2 ∈ expand isect e, la ∈ BV.leaves (orient e2).1 ∧ lb ∈ BV.leaves (orient e2).2 := by
  obtain ⟨bv1, bv2, rev⟩ := e
  unfold expand
  dsimp only at hne ⊢
  cases h2 : bv2.is_leaf
  · -- bv2 is not a leaf: descend into its children
    simp only [Bool.false_eq_true, if_false]
    cases rev
    · simp only [orient, Bool.false_eq_true, if_false] at hla hlb hI
      obtain ⟨c, hc, hlc⟩ := BV.leaves_of_not_leaf h2 hlb
      have hi := hI bv1 c (BV.mem_nodes_self _) (BV.mem_nodes_of_child hc) hla hlc
      refine ⟨(c, bv1, true), ?_, ?_⟩
      · exact List.mem_map.mpr ⟨c, List.mem_filter.mpr ⟨hc, by simp [hi]⟩, rfl⟩
      · simpa [orient] using ⟨hla, hlc⟩
    · simp only [orient, if_true] at hla hlb hI
      obtain ⟨c, hc, hlc⟩ := BV.leaves_of_not_leaf h2 hla
      have hi := hI c bv1 (BV.mem_nodes_of_child hc) (BV.mem_nodes_self _) hlc hlb
      refine ⟨(c, bv1, false), ?_, ?_⟩
      · exact List.mem_map.mpr ⟨c, List.mem_filter.mpr ⟨hc, by simp [hi]⟩, rfl⟩
      · simpa [orient] using ⟨hlc, hlb⟩
  · -- bv2 is a leaf: descend into the children of bv1
    have h1 : bv1.is_leaf = false := by
      rw [h2] at hne; simpa using hne
    simp only [if_true]
    cases rev
    · simp only [orient, Bool.false_eq_true, if_false] at hla hlb hI
      obtain ⟨c, hc, hlc⟩ := BV.leaves_of_not_leaf h1 hla
      have hi := hI c bv2 (BV.mem_nodes_of_child hc) (BV.mem_nodes_self _) hlc hlb
      refine ⟨(c, bv2, false), ?_, ?_⟩
      · exact List.mem_map.mpr ⟨c, List.mem_filter.mpr ⟨hc, by simp [hi]⟩, rfl⟩
      · simpa [orient] using ⟨hlc, hlb⟩
    · simp only [orient, if_true] at hla hlb hI
      obtain ⟨c, hc, hlc⟩ := BV.leaves_of_not_leaf h1 hlb
      have hi := hI bv2 c (BV.mem_nodes_self _) (BV.mem_nodes_of_child hc) hla hlc
      refine ⟨(c, bv2, true), ?_, ?_⟩
      · exact List.mem_map.mpr ⟨c, List.mem_filter.mpr ⟨hc, by simp [hi]⟩, rfl⟩
      · simpa [orient] using ⟨hla, hlc⟩

/-- The leaf pairs handed to the leaf test while the queue `q` is emptied (all-contacts mode):
they are the same whatever the leaf test records. -/
theorem loop_calls (isect : BV α → BV α → Bool) (a b : BV α) (hit : BV α → BV α → Prop)
    (hyp : ∀ x ∈ BV.nodes a, ∀ y ∈ BV.nodes b,
      (∃ la ∈ BV.leaves x, ∃ lb ∈ BV.leaves y, hit la lb) → isect x y = true) :
    ∀ (fuel : Nat) (q : List (BV α × BV α × Bool)), qweight q ≤ fuel →
      (∀ e ∈ q, (orient e).1 ∈ BV.nodes a ∧ (orient e).2 ∈ BV.nodes b) →
      ∃ calls : List (BV α × BV α),
        (∀ c ∈ calls, c.1 ∈ BV.leaves a ∧ c.2 ∈ BV.leaves b) ∧
        (∀ e ∈ q, ∀ la ∈ BV.leaves (orient e).1, ∀ lb ∈ BV.leaves (orient e).2,
          hit la lb → (la, lb) ∈ calls) ∧
        ∀ (P : Type) (leafs : BV α → BV α → List P) (last : Option Nat) (tris : List P),
          intersect_BV_trees_loop isect leafs Mode.eAllContacts last fuel q tris =
            some (!(tris ++ calls.flatMap (fun c => leafs c.1 c.2)).isEmpty &&
                    last != backAddr (tris ++ calls.flatMap (fun c => leafs c.1 c.2)),
                  tris ++ calls.flatMap (fun c => leafs c.1 c.2)) := by
  intro fuel
  induction fuel with
  | zero =>
    intro q hq _
    have : q = [] := qweight_eq_zero (Nat.le_zero.mp hq)
    subst this
    refine ⟨[], by simp, by simp, ?_⟩
    intro P leafs last tris
    rw [loop_nil]; simp
  | succ n ih =>
    intro q hq hinv
    cases q with
    | nil =>
      refine ⟨[], by simp, by simp, ?_⟩
      intro P leafs last tris
      rw [loop_nil]; simp
    | cons e q =>
      have hlt := qweight_expand_lt isect e
      have hq1 : qweight (q ++ expand isect e) ≤ n := by
        rw [qweight_append]
        have : qweight (e :: q) = weight e + qweight q := by simp [qweight]
        omega
      have he := hinv e (List.mem_cons_self _ _)
      have hinv1 : ∀ e2 ∈ q ++ expand isect e,
          (orient e2).1 ∈ BV.nodes a ∧ (orient e2).2 ∈ BV.nodes b := by
        intro e2 h2
        rcases List.mem_append.mp h2 with h | h
        · exact hinv e2 (List.mem_cons_of_mem _ h)
        · have := expand_desc isect e e2 h
          exact ⟨BV.nodes_trans he.1 this.1, BV.nodes_trans he.2 this.2⟩
      obtain ⟨calls, hA, hB, hC⟩ := ih (q ++ expand isect e) hq1 hinv1
      cases hl : (e.1.is_leaf && e.2.1.is_leaf)
      · -- not both leaves
        refine ⟨calls, hA, ?_, ?_⟩
        · intro e1 h1 la hla lb hlb hhit
          rcases List.mem_cons.mp h1 with h | h
          · subst h
            obtain ⟨e2, he2, hla2, hlb2⟩ := expand_complete isect e1 la lb hl hla hlb
              (fun x y hx hy hlx hly =>
                hyp x (BV.nodes_trans he.1 hx) y (BV.nodes_trans he.2 hy)
                  ⟨la, hlx, lb, hly, hhit⟩)
            exact hB e2 (List.mem_append.mpr (Or.inr he2)) la hla2 lb hlb2 hhit
          · exact hB e1 (List.mem_append.mpr (Or.inl h)) la hla lb hlb hhit
        · intro P leafs last tris
          rw [loop_step, hl, hC]
          simp
      · -- both leaves: the leaf test is run on the oriented pair
        have hl1 : e.1.is_leaf = true := by
          cases h : e.1.is_leaf <;> simp [h] at hl ⊢
        have hl2 : e.2.1.is_leaf = true := by
          cases h : e.2.1.is_leaf <;> simp [h] at hl ⊢
        have ho1 : (orient e).1.is_leaf = true := by
          unfold orient; split <;> assumption
        have ho2 : (orient e).2.is_leaf = true := by
          unfold orient; split <;> assumption
        refine ⟨orient e :: calls, ?_, ?_, ?_⟩
        · intro c hc
          rcases List.mem_cons.mp hc with h | h
          · subst h
            exact ⟨BV.mem_leaves.mpr ⟨he.1, ho1⟩, BV.mem_leaves.mpr ⟨he.2, ho2⟩⟩
          · exact hA c h
        · intro e1 h1 la hla lb hlb hhit
          rcases List.mem_cons.mp h1 with h | h
          · subst h
            have e1' := BV.leaves_of_leaf ho1 hla
            have e2' := BV.leaves_of_leaf ho2 hlb
            subst e1' e2'
            exact List.mem_cons_self _ _
          · exact List.mem_cons_of_mem _
              (hB e1 (List.mem_append.mpr (Or.inl h)) la hla lb hlb hhit)
        · intro P leafs last tris
          rw [loop_step, hl, hC]
          simp [List.append_assoc]

theorem newTri_append {P : Type} (tris0 X : List P) :
    (!(tris0 ++ X).isEmpty && backAddr tris0 != backAddr (tris0 ++ X)) = !X.isEmpty := by
  cases X with
  | nil => simp
  | cons x xs =>
    cases tris0 with
    | nil => simp [backAddr]
    | cons t ts => simp [backAddr]

theorem loop_cons {P : Type} (isect : BV α → BV α → Bool) (leafs : BV α → BV α → List P)
    (mode : Mode) (last : Option Nat) (fuel : Nat) (e : BV α × BV α × Bool)
    (q : List (BV α × BV α × Bool)) (tris : List P) :
    intersect_BV_trees_loop isect leafs mode last (fuel + 1) (e :: q) tris =
      if (e.1.is_leaf && e.2.1.is_leaf && mode == Mode.eFirstContact
          && !(leafTris leafs e tris).isEmpty && last != backAddr (leafTris leafs e tris)) = true
      then some (true, leafTris leafs e tris)
      else intersect_BV_trees_loop isect leafs mode last fuel (q ++ expand isect e)
        (leafTris leafs e tris) := by
  obtain ⟨bv1, bv2, rev⟩ := e
  rw [intersect_BV_trees_loop]
  unfold expand leafTris
  dsimp only
  cases h2 : bv2.is_leaf <;> simp

theorem loop_fuel_succ {P : Type} (isect : BV α → BV α → Bool) (leafs : BV α → BV α → List P)
    (mode : Mode) (last : Option Nat) :
    ∀ (fuel : Nat) (q : List (BV α × BV α × Bool)) (tris : List P) (r : Bool × List P),
      intersect_BV_trees_loop isect leafs mode last fuel q tris = some r →
      intersect_BV_trees_loop isect leafs mode last (fuel + 1) q tris = some r := by
  intro fuel
  induction fuel with
  | zero =>
    intro q tris r h
    cases q with
    | nil => rw [loop_nil] at h ⊢; exact h
    | cons e q => rw [intersect_BV_trees_loop] at h; exact absurd h (by simp)
  | succ n ih =>
    intro q tris r h
    cases q with
    | nil => rw [loop_nil] at h ⊢; exact h
    | cons e q =>
      rw [loop_cons] at h ⊢
      split
      · rename_i hc
        rw [if_pos hc] at h
        exact h
      · rename_i hc
        rw [if_neg hc] at h
        exact ih _ _ _ h

theorem loop_fuel_mono {P : Type} (isect : BV α → BV α → Bool) (leafs : BV α → BV α → List P)
    (mode : Mode) (last : Option Nat) (fuel : Nat) (q : List (BV α × BV α × Bool))
    (tris : List P) (r : Bool × List P)
    (h : intersect_BV_trees_loop isect leafs mode last fuel q tris = some r) :
    ∀ fuel2, fuel ≤ fuel2 →
      intersect_BV_trees_loop isect leafs mode last fuel2 q tris = some r := by
  intro fuel2 hle
  induction fuel2, hle using Nat.le_induction with
  | base => exact h
  | succ m _ ih => exact loop_fuel_succ isect leafs mode last m q tris r ih

/-- C2: for finite trees `a`, `b`, if `BV::intersects` is true on every pair of nodes whose
subtrees hold a pair of leaves with intersecting triangles (`hit`), then in all-contacts mode
`intersect_BV_trees` hands to the leaf test a list `calls` of pairs (leaf of `a`, leaf of `b`),
in that order, which contains every pair with a hit; the list does not depend on the leaf
test; the function appends exactly what the leaf test records on these pairs and returns
`true` iff something was recorded. So it records nothing and returns `false` when no leaf pair
has a hit (the leaf test recording only on hits), and returns `true` with the triangles of a
hit pair recorded when there is one. -/
theorem intersect_BV_trees_all_contacts_complete (isect : BV α → BV α → Bool) (a b : BV α)
    (hit : BV α → BV α → Prop)
    (hyp : ∀ x ∈ BV.nodes a, ∀ y ∈ BV.nodes b,
      (∃ la ∈ BV.leaves x, ∃ lb ∈ BV.leaves y, hit la lb) → isect x y = true) :
    ∃ (calls : List (BV α × BV α)) (N : Nat),
      (∀ c ∈ calls, c.1 ∈ BV.leaves a ∧ c.2 ∈ BV.leaves b) ∧
      (∀ la ∈ BV.leaves a, ∀ lb ∈ BV.leaves b, hit la lb → (la, lb) ∈ calls) ∧
      ∀ (P : Type) (leafs : BV α → BV α → List P) (tris0 : List P) (fuel : Nat), N ≤ fuel →
        intersect_BV_trees isect leafs Mode.eAllContacts fuel a b tris0 =
          some (!(calls.flatMap (fun c => leafs c.1 c.2)).isEmpty,
                tris0 ++ calls.flatMap (fun c => leafs c.1 c.2)) ∧
        ((∀ la ∈ BV.leaves a, ∀ lb ∈ BV.leaves b, leafs la lb ≠ [] → hit la lb) →
          (∀ la ∈ BV.leaves a, ∀ lb ∈ BV.leaves b, ¬ hit la lb) →
          intersect_BV_trees isect leafs Mode.eAllContacts fuel a b tris0 =
            some (false, tris0)) ∧
        (∀ la ∈ BV.leaves a, ∀ lb ∈ BV.leaves b, hit la lb → leafs la lb ≠ [] →
          ∃ out, intersect_BV_trees isect leafs Mode.eAllContacts fuel a b tris0 =
              some (true, out) ∧ ∀ p ∈ leafs la lb, p ∈ out) := by
  cases hab : isect a b
  · -- pruned at the top level: no leaf pair can hold a hit
    have hno : ∀ la ∈ BV.leaves a, ∀ lb ∈ BV.leaves b, ¬ hit la lb := by
      intro la hla lb hlb hh
      have := hyp a (BV.mem_nodes_self a) b (BV.mem_nodes_self b) ⟨la, hla, lb, hlb, hh⟩
      rw [hab] at this
      exact absurd this (by simp)
    refine ⟨[], 0, by simp, fun la hla lb hlb hh => absurd hh (hno la hla lb hlb), ?_⟩
    intro P leafs tris0 fuel _
    have hres : intersect_BV_trees isect leafs Mode.eAllContacts fuel a b tris0 =
        some (false, tris0) := by
      simp [intersect_BV_trees, hab]
    refine ⟨by simpa using hres, fun _ _ => hres, ?_⟩
    intro la hla lb hlb hh
    exact absurd hh (hno la hla lb hlb)
  · obtain ⟨calls, hA, hB, hC⟩ := loop_calls isect a b hit hyp (qweight [(a, b, false)])
      [(a, b, false)] (le_refl _)
      (by
        intro e he
        rw [List.mem_singleton] at he
        subst he
        exact ⟨BV.mem_nodes_self a, BV.mem_nodes_self b⟩)
    have hcomplete : ∀ la ∈ BV.leaves a, ∀ lb ∈ BV.leaves b, hit la lb → (la, lb) ∈ calls :=
      fun la hla lb hlb hh => hB (a, b, false) (List.mem_singleton.mpr rfl) la hla lb hlb hh
    refine ⟨calls, qweight [(a, b, false)], hA, hcomplete, ?_⟩
    intro P leafs tris0 fuel hfuel
    have hres : intersect_BV_trees isect leafs Mode.eAllContacts fuel a b tris0 =
        some (!(calls.flatMap (fun c => leafs c.1 c.2)).isEmpty,
              tris0 ++ calls.flatMap (fun c => leafs c.1 c.2)) := by
      have h0 := loop_fuel_mono isect leafs Mode.eAllContacts (backAddr tris0) _ _ _ _
        (hC P leafs (backAddr tris0) tris0) fuel hfuel
      simp only [intersect_BV_trees, hab, Bool.not_true, Bool.false_eq_true, if_false]
      rw [h0, newTri_append]
    refine ⟨hres, ?_, ?_⟩
    · intro hsound hno
      have hnil : calls.flatMap (fun c => leafs c.1 c.2) = [] := by
        rw [List.flatMap_eq_nil_iff]
        intro c hc
        by_contra hne
        exact hno c.1 (hA c hc).1 c.2 (hA c hc).2 (hsound c.1 (hA c hc).1 c.2 (hA c hc).2 hne)
      rw [hres, hnil]
      simp
    · intro la hla lb hlb hh hne
      have hmem := hcomplete la hla lb hlb hh
      refine ⟨tris0 ++ calls.flatMap (fun c => leafs c.1 c.2), ?_, ?_⟩
      · rw [hres]
        have hne2 : calls.flatMap (fun c => leafs c.1 c.2) ≠ [] := by
          intro hnil
          rw [List.flatMap_eq_nil_iff] at hnil
          exact hne (hnil (la, lb) hmem)
        cases hX : calls.flatMap (fun c => leafs c.1 c.2) with
        | nil => exact absurd hX hne2
        | cons x xs => simp
      · intro p hp
        exact List.mem_append.mpr (Or.inr (List.mem_flatMap.mpr ⟨(la, lb), hmem, hp⟩))

end Traversal

theorem intersect_BV_trees_all_contacts_complete_witness :
    ∃ (fuel : Nat) (out : List (Nat × Nat)),
      intersect_BV_trees exampleIsect (fun x y => [(x.vol, y.vol)]) Mode.eAllContacts fuel
        exampleTreeA exampleTreeB [] = some (true, out) ∧ (2, 12) ∈ out := by
  obtain ⟨calls, N, _, _, h⟩ := intersect_BV_trees_all_contacts_complete exampleIsect
    exampleTreeA exampleTreeB (fun x y => x.vol = 2 ∧ y.vol = 12) (by decide)
  obtain ⟨_, _, h3⟩ := h (Nat × Nat) (fun x y => [(x.vol, y.vol)]) [] N (le_refl N)
  obtain ⟨out, ho, hm⟩ := h3 (BV.node 2 [])
    (by simp [exampleTreeA, BV.leaves, BV.nodes, BV.nodesList, BV.is_leaf, BV.children])
    (BV.node 12 [])
    (by simp [exampleTreeB, BV.leaves, BV.nodes, BV.nodesList, BV.is_leaf, BV.children])
    (by simp [BV.vol]) (by simp)
  exact ⟨N, out, ho, hm (2, 12) (by simp [BV.vol])⟩

/-- What the cubic of `calc_first_isect` is: the determinant with rows `P(s)`, `B(s) - A(s)`,
`C(s) - A(s)`; the first row is the position of the point, not its offset from vertex `A`. -/
theorem calc_first_isect_coeffs_poly (p pdot : Vec3) (T : Triangle)
    (Tadot Tbdot Tcdot : Vec3) (s : ℚ) :
    (calc_first_isect_coeffs p pdot T Tadot Tbdot Tcdot).1 * s ^ 3
      + (calc_first_isect_coeffs p pdot T Tadot Tbdot Tcdot).2.1 * s ^ 2
      + (calc_first_isect_coeffs p pdot T Tadot Tbdot Tcdot).2.2.1 * s
      + (calc_first_isect_coeffs p pdot T Tadot Tbdot Tcdot).2.2.2
      = det3 (p.x + s * pdot.x) (p.y + s * pdot.y) (p.z + s * pdot.z)
    ((T.b.x + s * Tbdot.x) - (T.a.x + s * Tadot.x))
    ((T.b.y + s * Tbdot.y) - (T.a.y + s * Tadot.y))
    ((T.b.z + s * Tbdot.z) - (T.a.z + s * Tadot.z))
    ((T.c.x + s * Tcdot.x) - (T.a.x + s * Tadot.x))
    ((T.c.y + s * Tcdot.y) - (T.a.y + s * Tadot.y))
    ((T.c.z + s * Tcdot.z) - (T.a.z + s * Tadot.z)) := by
  simp only [calc_first_isect_coeffs, det3]
  ring

/-- C3: the coefficients do not give the coplanarity determinant. For the point starting at
`(1/4, 1/4, 2)` with velocity `(0, 0, -1)` and the stationary triangle `(0,0,1), (1,0,1),
(0,1,1)`, the code's cubic is `2 - s`: at time 1 the point lies in the plane of the triangle
(the determinant `det[P - A, B - A, C - A]` is 0) and the cubic is 1, and at the cubic's only
root, time 2, the point is not coplanar with the vertices. -/
theorem calc_first_isect_cubic_misses_coplanarity :
    calc_first_isect_coeffs ⟨1/4, 1/4, 2⟩ ⟨0, 0, -1⟩ ⟨⟨0, 0, 1⟩, ⟨1, 0, 1⟩, ⟨0, 1, 1⟩⟩
      Vec3.zero Vec3.zero Vec3.zero = (0, 0, -1, 2) ∧
    coplanarityDet ⟨1/4, 1/4, 2⟩ ⟨0, 0, -1⟩ ⟨⟨0, 0, 1⟩, ⟨1, 0, 1⟩, ⟨0, 1, 1⟩⟩
      Vec3.zero Vec3.zero Vec3.zero 1 = 0 ∧
    cubicAt (calc_first_isect_coeffs ⟨1/4, 1/4, 2⟩ ⟨0, 0, -1⟩
      ⟨⟨0, 0, 1⟩, ⟨1, 0, 1⟩, ⟨0, 1, 1⟩⟩ Vec3.zero Vec3.zero Vec3.zero) 1 = 1 ∧
    cubicAt (calc_first_isect_coeffs ⟨1/4, 1/4, 2⟩ ⟨0, 0, -1⟩
      ⟨⟨0, 0, 1⟩, ⟨1, 0, 1⟩, ⟨0, 1, 1⟩⟩ Vec3.zero Vec3.zero Vec3.zero) 2 = 0 ∧
    coplanarityDet ⟨1/4, 1/4, 2⟩ ⟨0, 0, -1⟩ ⟨⟨0, 0, 1⟩, ⟨1, 0, 1⟩, ⟨0, 1, 1⟩⟩
      Vec3.zero Vec3.zero Vec3.zero 2 = -1 := by
  decide!

theorem coeffs_stationary (p pdot : Vec3) (T : Triangle) :
    (calc_first_isect_coeffs p pdot T Vec3.zero Vec3.zero Vec3.zero).1 = 0 ∧
    (calc_first_isect_coeffs p pdot T Vec3.zero Vec3.zero Vec3.zero).2.1 = 0 := by
  constructor <;> simp [calc_first_isect_coeffs, Vec3.zero]

theorem windowed_divFin_zero (INF dt : ℚ) (x : XReal) : windowed INF dt (x.divFin 0) = INF := by
  cases x with
  | fin q =>
    by_cases h0 : q = 0
    · simp [XReal.divFin, h0, windowed, XReal.isnan, XReal.ltFin, XReal.gtFin]
    · by_cases hp : 0 < q
      · simp [XReal.divFin, h0, hp, windowed, XReal.isnan, XReal.ltFin, XReal.gtFin]
      · simp [XReal.divFin, h0, hp, windowed, XReal.isnan, XReal.ltFin, XReal.gtFin]
  | pinf => simp [XReal.divFin, windowed, XReal.isnan, XReal.ltFin, XReal.gtFin]
  | ninf => simp [XReal.divFin, windowed, XReal.isnan, XReal.ltFin, XReal.gtFin]
  | nan => simp [XReal.divFin, windowed, XReal.isnan, XReal.ltFin, XReal.gtFin]

theorem insideChecked_INF (env : IsectEnv) (p pdot : Vec3) (T : Triangle) :
    insideChecked env p pdot T env.INF = env.INF := by
  simp [insideChecked]

/-- C4: what the code does for a stationary triangle. Both leading coefficients vanish, the
quadratic formula divides by zero, both roots are discarded as non-finite, and the no-contact
value `INF` is returned whatever the motion of the point, also when the point crosses the
triangle inside the time window. -/
theorem calc_first_isect_stationary_triangle_INF (env : IsectEnv) (hNZ : 0 < env.NEAR_ZERO)
    (p pdot : Vec3) (T : Triangle) (dt : ℚ) :
    calc_first_isect env p pdot T Vec3.zero Vec3.zero Vec3.zero dt = env.INF := by
  have h := coeffs_stationary p pdot T
  unfold calc_first_isect
  generalize calc_first_isect_coeffs p pdot T Vec3.zero Vec3.zero Vec3.zero = k at h
  obtain ⟨a, b, c, d⟩ := k
  simp only at h
  obtain ⟨ha, hb⟩ := h
  subst ha hb
  simp only [abs_zero, hNZ, if_true, mul_zero, windowed_divFin_zero, insideChecked_INF, min_self]

/-- C5: what the code does when the root finder reports no real root. In the cubic branch
`minimum` is read from the uninitialised `r[0]`, and that value is returned: it need be neither
`INF` nor a time in `[0, dt]`. -/
theorem calc_first_isect_no_root_returns_uninit (env : IsectEnv) (p pdot : Vec3) (T : Triangle)
    (Tadot Tbdot Tcdot : Vec3) (dt : ℚ)
    (ha : ¬ |(calc_first_isect_coeffs p pdot T Tadot Tbdot Tcdot).1| < env.NEAR_ZERO)
    (hroots : determine_cubic_roots env
      ((calc_first_isect_coeffs p pdot T Tadot Tbdot Tcdot).2.1
        / (calc_first_isect_coeffs p pdot T Tadot Tbdot Tcdot).1)
      ((calc_first_isect_coeffs p pdot T Tadot Tbdot Tcdot).2.2.1
        / (calc_first_isect_coeffs p pdot T Tadot Tbdot Tcdot).1)
      ((calc_first_isect_coeffs p pdot T Tadot Tbdot Tcdot).2.2.2
        / (calc_first_isect_coeffs p pdot T Tadot Tbdot Tcdot).1) = []) :
    calc_first_isect env p pdot T Tadot Tbdot Tcdot dt = env.r_uninit := by
  unfold calc_first_isect
  generalize calc_first_isect_coeffs p pdot T Tadot Tbdot Tcdot = k at ha hroots
  obtain ⟨a, b, c, d⟩ := k
  simp only at ha hroots
  simp only [ha, if_false, hroots, List.map_nil]

theorem triple_root_coeffs : calc_first_isect_coeffs ⟨-1, 0, 0⟩ ⟨1, 0, 0⟩
      ⟨⟨0, 0, 0⟩, ⟨0, -1, 0⟩, ⟨0, 0, -1⟩⟩ ⟨0, 0, 0⟩ ⟨0, 1, 0⟩ ⟨0, 0, 1⟩ = (1, -3, 3, -1) := by
  simp [calc_first_isect_coeffs]
  norm_num

theorem calc_first_isect_no_root_returns_uninit_witness :
    calc_first_isect tripleRootEnv ⟨-1, 0, 0⟩ ⟨1, 0, 0⟩
      ⟨⟨0, 0, 0⟩, ⟨0, -1, 0⟩, ⟨0, 0, -1⟩⟩ ⟨0, 0, 0⟩ ⟨0, 1, 0⟩ ⟨0, 0, 1⟩ 2 = -1 ∧
    tripleRootEnv.INF ≠ -1 ∧
    cubicAt (calc_first_isect_coeffs ⟨-1, 0, 0⟩ ⟨1, 0, 0⟩
      ⟨⟨0, 0, 0⟩, ⟨0, -1, 0⟩, ⟨0, 0, -1⟩⟩ ⟨0, 0, 0⟩ ⟨0, 1, 0⟩ ⟨0, 0, 1⟩) 1 = 0 :=
  ⟨calc_first_isect_no_root_returns_uninit tripleRootEnv ⟨-1, 0, 0⟩ ⟨1, 0, 0⟩
      ⟨⟨0, 0, 0⟩, ⟨0, -1, 0⟩, ⟨0, 0, -1⟩⟩ ⟨0, 0, 0⟩ ⟨0, 1, 0⟩ ⟨0, 0, 1⟩ 2
      (by rw [triple_root_coeffs]; norm_num [tripleRootEnv])
      (by simp [determine_cubic_roots, tripleRootEnv, determine_cubic_roots_filter]),
    by decide!, by decide!⟩

theorem windowed_ok (INF dt : ℚ) (r : XReal) : InWindowOrINF INF dt (windowed INF dt r) := by
  unfold windowed InWindowOrINF
  split
  · exact Or.inl rfl
  · rename_i h
    cases r with
    | fin q =>
      simp only [XReal.ltFin, XReal.gtFin, XReal.isnan, Bool.or_false, Bool.or_eq_true,
        decide_eq_true_eq, not_or, not_lt] at h
      exact Or.inr ⟨h.1, h.2⟩
    | pinf => exact Or.inl rfl
    | ninf => exact Or.inl rfl
    | nan => exact Or.inl rfl

theorem insideChecked_ok (env : IsectEnv) (p pdot : Vec3) (T : Triangle) (dt r : ℚ)
    (h : InWindowOrINF env.INF dt r) : InWindowOrINF env.INF dt (insideChecked env p pdot T r) := by
  unfold insideChecked
  split
  · exact Or.inl rfl
  · exact h

theorem foldl_min_ok (INF dt : ℚ) : ∀ (rest : List ℚ) (r0 : ℚ), InWindowOrINF INF dt r0 →
    (∀ r ∈ rest, InWindowOrINF INF dt r) →
    InWindowOrINF INF dt
      (rest.foldl (fun minimum ri => if ri < minimum then ri else minimum) r0)
  | [], r0, h0, _ => h0
  | r :: rest, r0, h0, hr => by
    rw [List.foldl_cons]
    apply foldl_min_ok INF dt rest
    · split
      · exact hr r (List.mem_cons_self _ _)
      · exact h0
    · intro x hx
      exact hr x (List.mem_cons_of_mem _ hx)

/-- Where a root is reported (or in the quadratic branch) the result is the no-contact value or
a time in `[0, dt]`. -/
theorem calc_first_isect_range (env : IsectEnv) (p pdot : Vec3) (T : Triangle)
    (Tadot Tbdot Tcdot : Vec3) (dt : ℚ)
    (h : |(calc_first_isect_coeffs p pdot T Tadot Tbdot Tcdot).1| < env.NEAR_ZERO ∨
      determine_cubic_roots env
      ((calc_first_isect_coeffs p pdot T Tadot Tbdot Tcdot).2.1
        / (calc_first_isect_coeffs p pdot T Tadot Tbdot Tcdot).1)
      ((calc_first_isect_coeffs p pdot T Tadot Tbdot Tcdot).2.2.1
        / (calc_first_isect_coeffs p pdot T Tadot Tbdot Tcdot).1)
      ((calc_first_isect_coeffs p pdot T Tadot Tbdot Tcdot).2.2.2
        / (calc_first_isect_coeffs p pdot T Tadot Tbdot Tcdot).1) ≠ []) :
    InWindowOrINF env.INF dt (calc_first_isect env p pdot T Tadot Tbdot Tcdot dt) := by
  unfold calc_first_isect
  generalize calc_first_isect_coeffs p pdot T Tadot Tbdot Tcdot = k at h
  obtain ⟨a, b, c, d⟩ := k
  simp only at h ⊢
  by_cases ha : |a| < env.NEAR_ZERO
  · simp only [ha, if_true]
    rcases min_choice
      (insideChecked env p pdot T (windowed env.INF dt
        ((XReal.addFin (-c) (XReal.sqrt env.sqrt (c * c - 4 * b * d))).divFin (2 * b))))
      (insideChecked env p pdot T (windowed env.INF dt
        ((XReal.finSub (-c) (XReal.sqrt env.sqrt (c * c - 4 * b * d))).divFin (2 * b)))) with hm | hm
    · rw [hm]; exact insideChecked_ok _ _ _ _ _ _ (windowed_ok _ _ _)
    · rw [hm]; exact insideChecked_ok _ _ _ _ _ _ (windowed_ok _ _ _)
  · simp only [ha, if_false]
    rcases h with h | h
    · exact absurd h ha
    · cases hr : determine_cubic_roots env (b / a) (c / a) (d / a) with
      | nil => exact absurd hr h
      | cons r0 rest =>
        simp only [List.map_cons]
        apply foldl_min_ok
        · exact insideChecked_ok _ _ _ _ _ _ (windowed_ok _ _ _)
        · intro r hr
          simp only [List.map_map, List.mem_map, Function.comp] at hr
          obtain ⟨x, _, rfl⟩ := hr
          exact insideChecked_ok _ _ _ _ _ _ (windowed_ok _ _ _)

theorem calc_first_isect_stationary_triangle_INF_witness :
    calc_first_isect tripleRootEnv ⟨1/4, 1/4, 1⟩ ⟨0, 0, -1⟩
      ⟨⟨0, 0, 0⟩, ⟨1, 0, 0⟩, ⟨0, 1, 0⟩⟩ Vec3.zero Vec3.zero Vec3.zero 2 = tripleRootEnv.INF ∧
    tripleRootEnv.INF ≠ 1 ∧
    coplanarityDet ⟨1/4, 1/4, 1⟩ ⟨0, 0, -1⟩ ⟨⟨0, 0, 0⟩, ⟨1, 0, 0⟩, ⟨0, 1, 0⟩⟩
      Vec3.zero Vec3.zero Vec3.zero 1 = 0 ∧
    featureNoneExact ⟨⟨0, 0, 0⟩, ⟨1, 0, 0⟩, ⟨0, 1, 0⟩⟩
      ((⟨1/4, 1/4, 1⟩ : Vec3).add ((⟨0, 0, -1⟩ : Vec3).smul 1)) = false :=
  ⟨calc_first_isect_stationary_triangle_INF tripleRootEnv (by decide!) ⟨1/4, 1/4, 1⟩ ⟨0, 0, -1⟩
      ⟨⟨0, 0, 0⟩, ⟨1, 0, 0⟩, ⟨0, 1, 0⟩⟩ 2,
    by decide!, by decide!, by decide!⟩

section Reduction

theorem seg_step_mem {T : Type} (sqrt : ℚ → ℚ) (pos : T → Vec3) (l : List T) (st : T × T × ℚ)
    (i : T) (h1 : st.1 ∈ l) (h2 : st.2.1 ∈ l) (hi : i ∈ l) :
    (seg_step sqrt pos st i).1 ∈ l ∧ (seg_step sqrt pos st i).2.1 ∈ l := by
  unfold seg_step
  dsimp only
  split
  · split
    · exact ⟨h1, h2⟩
    · exact ⟨h1, hi⟩
  · split
    · exact ⟨hi, h2⟩
    · exact ⟨h1, hi⟩

theorem seg_foldl_mem {T : Type} (sqrt : ℚ → ℚ) (pos : T → Vec3) (l : List T) :
    ∀ (rest : List T) (st : T × T × ℚ), st.1 ∈ l → st.2.1 ∈ l → (∀ i ∈ rest, i ∈ l) →
      (rest.foldl (seg_step sqrt pos) st).1 ∈ l ∧ (rest.foldl (seg_step sqrt pos) st).2.1 ∈ l
  | [], st, h1, h2, _ => ⟨h1, h2⟩
  | i :: rest, st, h1, h2, hr => by
    rw [List.foldl_cons]
    have hs := seg_step_mem sqrt pos l st i h1 h2 (hr i (List.mem_cons_self _ _))
    exact seg_foldl_mem sqrt pos l rest _ hs.1 hs.2
      (fun j hj => hr j (List.mem_cons_of_mem _ hj))

theorem determine_seg_endpoints_mem {T : Type} (sqrt : ℚ → ℚ) (pos : T → Vec3) (first : T)
    (rest : List T) :
    (determine_seg_endpoints sqrt pos first rest).1 ∈ first :: rest ∧
    (determine_seg_endpoints sqrt pos first rest).2 ∈ first :: rest := by
  unfold determine_seg_endpoints
  exact seg_foldl_mem sqrt pos (first :: rest) rest (first, first, 0)
    (List.mem_cons_self _ _) (List.mem_cons_self _ _) (fun i hi => List.mem_cons_of_mem _ hi)

theorem keep_endpoints_sublist (env : GeomEnv) (group : List Contact) :
    (keep_endpoints env group).Sublist group := by
  cases group with
  | nil => exact List.Sublist.refl _
  | cons c cs => exact List.filter_sublist _

theorem keep_endpoints_ne_nil (env : GeomEnv) (group : List Contact) (h : group ≠ []) :
    keep_endpoints env group ≠ [] := by
  cases group with
  | nil => exact absurd rfl h
  | cons c cs =>
    have hm := (determine_seg_endpoints_mem env.sqrt (fun k : Contact => k.contact_point) c cs).1
    intro hnil
    have : (determine_seg_endpoints env.sqrt (fun k : Contact => k.contact_point) c cs).1 ∈
        keep_endpoints env (c :: cs) := by
      unfold keep_endpoints
      exact List.mem_filter.mpr ⟨hm, by simp⟩
    rw [hnil] at this
    exact absurd this (List.not_mem_nil _)

theorem keep_hull_sublist (hull : List Nat) (group : List Contact) :
    (keep_hull hull group).Sublist group := List.filter_sublist _

theorem hull_or_throw_some {r : Option (List Nat)} {hull : List Nat}
    (h : hull_or_throw r = some hull) : r = some hull ∧ hull ≠ [] := by
  cases r with
  | none => simp [hull_or_throw] at h
  | some l =>
    cases l with
    | nil => simp [hull_or_throw] at h
    | cons a l =>
      simp only [hull_or_throw, Option.some.injEq] at h
      subst h
      exact ⟨rfl, by simp⟩

theorem keep_hull_ne_nil (hull : List Nat) (group : List Contact) (hne : hull ≠ [])
    (hs : ∀ a ∈ hull, a ∈ (group.map (fun c => (c.addr, c.contact_point))).map (fun q => q.1)) :
    keep_hull hull group ≠ [] := by
  cases hull with
  | nil => exact absurd rfl hne
  | cons a l =>
    have ha := hs a (List.mem_cons_self _ _)
    simp only [List.map_map, List.mem_map, Function.comp] at ha
    obtain ⟨c, hc, hca⟩ := ha
    intro hnil
    have : c ∈ keep_hull (a :: l) group := by
      unfold keep_hull
      refine List.mem_filter.mpr ⟨hc, ?_⟩
      simp [hca]
    rw [hnil] at this
    exact absurd this (List.not_mem_nil _)

theorem determine_convex_set_sublist (env : GeomEnv) (group : List Contact) :
    (determine_convex_set env group).Sublist group := by
  unfold determine_convex_set determine_convex_set_run
  cases group with
  | nil => exact List.Sublist.refl _
  | cons front rest =>
    dsimp only
    split
    · exact List.Sublist.refl _
    · split
      · exact List.Sublist.refl _
      · split
        · exact keep_endpoints_sublist env (front :: rest)
        · split
          · split
            · exact keep_hull_sublist _ _
            · exact keep_endpoints_sublist env (front :: rest)
          · split
            · exact keep_hull_sublist _ _
            · split
              · exact keep_hull_sublist _ _
              · exact keep_endpoints_sublist env (front :: rest)

theorem determine_convex_set_ne_nil (env : GeomEnv) (hs : HullSound env) (group : List Contact)
    (h : group ≠ []) : determine_convex_set env group ≠ [] := by
  unfold determine_convex_set determine_convex_set_run
  cases group with
  | nil => exact absurd rfl h
  | cons front rest =>
    dsimp only
    split
    · exact h
    · split
      · exact h
      · split
        · exact keep_endpoints_ne_nil env (front :: rest) h
        · split
          · split
            · rename_i hull hh
              obtain ⟨h1, h2⟩ := hull_or_throw_some hh
              exact keep_hull_ne_nil _ _ h2 (hs.1 _ _ _ h1)
            · exact keep_endpoints_ne_nil env (front :: rest) h
          · split
            · rename_i hull hh
              obtain ⟨h1, h2⟩ := hull_or_throw_some hh
              exact keep_hull_ne_nil _ _ h2 (hs.2 _ _ h1)
            · split
              · rename_i hull hh
                obtain ⟨h1, h2⟩ := hull_or_throw_some hh
                exact keep_hull_ne_nil _ _ h2 (hs.1 _ _ _ h1)
              · exact keep_endpoints_ne_nil env (front :: rest) h

theorem foldl_append_flatMap (f : List Contact → List Contact) :
    ∀ (m : List ((Nat × Nat) × List Contact)) (init : List Contact),
      m.foldl (fun g kv => g ++ f kv.2) init = init ++ m.flatMap (fun kv => f kv.2)
  | [], init => by simp
  | kv :: m, init => by
    rw [List.foldl_cons, foldl_append_flatMap f m, List.flatMap_cons, List.append_assoc]

theorem determine_minimal_set_eq (env : GeomEnv) (group : List Contact)
    (h : ¬ group.length ≤ 4) :
    determine_minimal_set env group =
      group.filter (fun c => c.contact_type ≠ ContactType.eContact) ++
        (contact_groups group).flatMap (fun kv => determine_convex_set env kv.2) := by
  unfold determine_minimal_set
  rw [if_neg h, foldl_append_flatMap]

theorem group_insert_perm (k : Nat × Nat) (c : Contact) :
    ∀ m : List ((Nat × Nat) × List Contact),
      ((group_insert k c m).flatMap (fun kv => kv.2)).Perm (c :: m.flatMap (fun kv => kv.2))
  | [] => by simp [group_insert]
  | (k2, cs) :: rest => by
    unfold group_insert
    split
    · simp only [List.flatMap_cons, List.append_assoc, List.singleton_append]
      exact List.perm_middle
    · split
      · simp
      · simp only [List.flatMap_cons]
        have ih := group_insert_perm k c rest
        exact (List.Perm.append_left cs ih).trans List.perm_middle

theorem foldl_group_insert_perm :
    ∀ (l : List Contact) (m : List ((Nat × Nat) × List Contact)),
      ((l.foldl (fun m c => group_insert (body_pair c) c m) m).flatMap (fun kv => kv.2)).Perm
        (m.flatMap (fun kv => kv.2) ++ l)
  | [], m => by simp
  | c :: l, m => by
    rw [List.foldl_cons]
    refine (foldl_group_insert_perm l _).trans ?_
    refine (List.Perm.append_right l (group_insert_perm (body_pair c) c m)).trans ?_
    simp only [List.cons_append]
    exact List.perm_middle.symm

theorem contact_groups_perm (group : List Contact) :
    ((contact_groups group).flatMap (fun kv => kv.2)).Perm
      (group.filter (fun c => c.contact_type = ContactType.eContact)) := by
  unfold contact_groups
  simpa using foldl_group_insert_perm
    (group.filter (fun c => c.contact_type = ContactType.eContact)) []

theorem flatMap_sublist (f : List Contact → List Contact) (hf : ∀ l, (f l).Sublist l) :
    ∀ m : List ((Nat × Nat) × List Contact),
      (m.flatMap (fun kv => f kv.2)).Sublist (m.flatMap (fun kv => kv.2))
  | [] => by simp
  | kv :: m => by
    simp only [List.flatMap_cons]
    exact List.Sublist.append (hf kv.2) (flatMap_sublist f hf m)

theorem determine_minimal_set_subperm (env : GeomEnv) (group : List Contact) :
    (determine_minimal_set env group).Subperm group := by
  by_cases h : group.length ≤ 4
  · unfold determine_minimal_set
    rw [if_pos h]
  · rw [determine_minimal_set_eq env group h]
    have h1 : ((contact_groups group).flatMap (fun kv => determine_convex_set env kv.2)).Subperm
        (group.filter (fun c => c.contact_type = ContactType.eContact)) :=
      (flatMap_sublist (determine_convex_set env) (determine_convex_set_sublist env)
        (contact_groups group)).subperm.trans (contact_groups_perm group).subperm
    have h2 : (group.filter (fun c => c.contact_type ≠ ContactType.eContact) ++
        group.filter (fun c => c.contact_type = ContactType.eContact)).Perm group := by
      have := List.filter_append_perm (fun c : Contact => decide (c.contact_type = ContactType.eContact)) group
      refine (List.perm_append_comm).trans ?_
      simpa using this
    exact ((List.subperm_append_left _).mpr h1).trans h2.subperm

theorem determine_minimal_set_ne_nil (env : GeomEnv) (hs : HullSound env) (group : List Contact)
    (h : group ≠ []) : determine_minimal_set env group ≠ [] := by
  by_cases hl : group.length ≤ 4
  · unfold determine_minimal_set
    rw [if_pos hl]
    exact h
  · rw [determine_minimal_set_eq env group hl]
    obtain ⟨c, hc⟩ := List.exists_mem_of_ne_nil group h
    by_cases ht : c.contact_type = ContactType.eContact
    · have hmem : c ∈ (contact_groups group).flatMap (fun kv => kv.2) :=
        (contact_groups_perm group).symm.subset (List.mem_filter.mpr ⟨hc, by simpa using ht⟩)
      obtain ⟨kv, hkv, hckv⟩ := List.mem_flatMap.mp hmem
      have hne : determine_convex_set env kv.2 ≠ [] :=
        determine_convex_set_ne_nil env hs kv.2 (List.ne_nil_of_mem hckv)
      obtain ⟨d, hd⟩ := List.exists_mem_of_ne_nil _ hne
      exact List.ne_nil_of_mem
        (List.mem_append.mpr (Or.inr (List.mem_flatMap.mpr ⟨kv, hkv, hd⟩)))
    · exact List.ne_nil_of_mem
        (List.mem_append.mpr (Or.inl (List.mem_filter.mpr ⟨hc, by simpa using ht⟩)))

/-- C9: for every non-empty group, `determine_convex_set` and `determine_minimal_set` leave a
non-empty group in every branch (the hull routines yielding addresses of the points they are
given); the result of `determine_convex_set` is a sublist of the input and the result of
`determine_minimal_set` is a sub-multiset of it: every contact left was in the input and
occurs at most as often. -/
theorem reduction_nonempty_and_only_removes (env : GeomEnv) (hs : HullSound env)
    (group : List Contact) (h : group ≠ []) :
    determine_convex_set env group ≠ [] ∧ (determine_convex_set env group).Sublist group ∧
    determine_minimal_set env group ≠ [] ∧ (determine_minimal_set env group).Subperm group :=
  ⟨determine_convex_set_ne_nil env hs group h, determine_convex_set_sublist env group,
   determine_minimal_set_ne_nil env hs group h, determine_minimal_set_subperm env group⟩

/-- C10 (amended): on a group of more than 3 contacts with uniform friction for which the
collinearity loop is negative: if the contacts are not all on the first contact's plane the
3D hull is tried first, on its failure (exception or empty hull) the 2D hull, and on that
failure the segment endpoints are kept; if they are on the plane the 2D hull is tried and on
its failure the segment endpoints are kept. Every case ends with a group: no hull failure
reaches the caller. -/
theorem determine_convex_set_fallback_chain (env : GeomEnv) (front : Contact)
    (rest : List Contact) (hlen : 3 < (front :: rest).length)
    (hmu : same_friction env none (front :: rest) = true)
    (hcol : collinear_check env (front :: rest) = false) :
    (is_contact_manifold_2D env (front :: rest) = false →
      (∀ hull, hull_or_throw (env.calc_convex_hull_3D
            ((front :: rest).map (fun c => (c.addr, c.contact_point)))) = some hull →
          determine_convex_set_run env (front :: rest) =
            ([Tier.hull3D], keep_hull hull (front :: rest))) ∧
      (hull_or_throw (env.calc_convex_hull_3D
            ((front :: rest).map (fun c => (c.addr, c.contact_point)))) = none →
        (∀ hull, hull_or_throw (env.calc_convex_hull_2D
              ((front :: rest).map (fun c => (c.addr, c.contact_point)))
              front.contact_normal) = some hull →
            determine_convex_set_run env (front :: rest) =
              ([Tier.hull3D, Tier.hull2D], keep_hull hull (front :: rest))) ∧
        (hull_or_throw (env.calc_convex_hull_2D
              ((front :: rest).map (fun c => (c.addr, c.contact_point)))
              front.contact_normal) = none →
            determine_convex_set_run env (front :: rest) =
              ([Tier.hull3D, Tier.hull2D, Tier.segEndpoints],
                keep_endpoints env (front :: rest))))) ∧
    (is_contact_manifold_2D env (front :: rest) = true →
      (∀ hull, hull_or_throw (env.calc_convex_hull_2D
            ((front :: rest).map (fun c => (c.addr, c.contact_point)))
            front.contact_normal) = some hull →
          determine_convex_set_run env (front :: rest) =
            ([Tier.hull2D], keep_hull hull (front :: rest))) ∧
      (hull_or_throw (env.calc_convex_hull_2D
            ((front :: rest).map (fun c => (c.addr, c.contact_point)))
            front.contact_normal) = none →
          determine_convex_set_run env (front :: rest) =
            ([Tier.hull2D, Tier.segEndpoints], keep_endpoints env (front :: rest)))) := by
  have hl : ¬ (front :: rest).length ≤ 3 := by omega
  refine ⟨fun h2 => ⟨fun hull h3 => ?_, fun h3 => ⟨fun hull h4 => ?_, fun h4 => ?_⟩⟩,
    fun h2 => ⟨fun hull h3 => ?_, fun h3 => ?_⟩⟩
  all_goals
    unfold determine_convex_set_run
    simp only [hl, hmu, hcol, h2, if_false, Bool.not_true, Bool.false_eq_true]
  · rw [h3]
  · rw [h3]; simp only; rw [h4]
  · rw [h3]; simp only; rw [h4]
  · rw [h3]; simp only [if_true]
  · rw [h3]; simp only [if_true]

theorem line_extend (k t1 t2 ti tx : ℚ) (hk : 0 ≤ k)
    (h1 : k * (tx - t1) ^ 2 ≤ k * (t1 - t2) ^ 2)
    (h2 : k * (tx - t2) ^ 2 ≤ k * (t1 - t2) ^ 2)
    (h3 : k * (t1 - t2) ^ 2 ≤ k * (ti - t1) ^ 2)
    (h4 : k * (ti - t2) ^ 2 ≤ k * (ti - t1) ^ 2) :
    k * (tx - ti) ^ 2 ≤ k * (ti - t1) ^ 2 := by
  rcases eq_or_lt_of_le hk with h0 | hpos
  · rw [← h0]; simp
  · rw [mul_le_mul_left hpos] at h1 h2 h3 h4 ⊢
    rw [sq_le_sq] at h1 h2 h3 h4 ⊢
    rcases abs_cases (tx - t1) with ⟨e1, _⟩ | ⟨e1, _⟩ <;>
    rcases abs_cases (t1 - t2) with ⟨e2, _⟩ | ⟨e2, _⟩ <;>
    rcases abs_cases (tx - t2) with ⟨e3, _⟩ | ⟨e3, _⟩ <;>
    rcases abs_cases (ti - t1) with ⟨e4, _⟩ | ⟨e4, _⟩ <;>
    rcases abs_cases (ti - t2) with ⟨e5, _⟩ | ⟨e5, _⟩ <;>
    rcases abs_cases (tx - ti) with ⟨e6, _⟩ | ⟨e6, _⟩ <;>
    rw [e1, e2] at h1 <;> rw [e3, e2] at h2 <;> rw [e2, e4] at h3 <;> rw [e5, e4] at h4 <;>
    rw [e6, e4] <;> linarith

theorem line_between (k t1 t2 tx ty : ℚ) (hk : 0 ≤ k)
    (h1 : k * (tx - t1) ^ 2 ≤ k * (t1 - t2) ^ 2)
    (h2 : k * (tx - t2) ^ 2 ≤ k * (t1 - t2) ^ 2)
    (h3 : k * (ty - t1) ^ 2 ≤ k * (t1 - t2) ^ 2)
    (h4 : k * (ty - t2) ^ 2 ≤ k * (t1 - t2) ^ 2) :
    k * (tx - ty) ^ 2 ≤ k * (t1 - t2) ^ 2 := by
  rcases eq_or_lt_of_le hk with h0 | hpos
  · rw [← h0]; simp
  · rw [mul_le_mul_left hpos] at h1 h2 h3 h4 ⊢
    rw [sq_le_sq] at h1 h2 h3 h4 ⊢
    rcases abs_cases (tx - t1) with ⟨e1, _⟩ | ⟨e1, _⟩ <;>
    rcases abs_cases (t1 - t2) with ⟨e2, _⟩ | ⟨e2, _⟩ <;>
    rcases abs_cases (tx - t2) with ⟨e3, _⟩ | ⟨e3, _⟩ <;>
    rcases abs_cases (ty - t1) with ⟨e4, _⟩ | ⟨e4, _⟩ <;>
    rcases abs_cases (ty - t2) with ⟨e5, _⟩ | ⟨e5, _⟩ <;>
    rcases abs_cases (tx - ty) with ⟨e6, _⟩ | ⟨e6, _⟩ <;>
    rw [e1, e2] at h1 <;> rw [e3, e2] at h2 <;> rw [e4, e2] at h3 <;> rw [e5, e2] at h4 <;>
    rw [e6, e2] <;> linarith

theorem Vec3.distSq_comm (p q : Vec3) : p.distSq q = q.distSq p := by
  simp only [Vec3.distSq, Vec3.sub, Vec3.dot]; ring

theorem Vec3.distSq_self (p : Vec3) : p.distSq p = 0 := by
  simp only [Vec3.distSq, Vec3.sub, Vec3.dot]; ring

theorem Vec3.distSq_nonneg (p q : Vec3) : 0 ≤ p.distSq q := by
  simp only [Vec3.distSq, Vec3.sub, Vec3.dot]
  nlinarith [mul_self_nonneg (p.x - q.x), mul_self_nonneg (p.y - q.y),
    mul_self_nonneg (p.z - q.z)]

theorem Vec3.distSq_on_line (o d : Vec3) (s t : ℚ) :
    (o.add (d.smul s)).distSq (o.add (d.smul t)) = d.dot d * (s - t) ^ 2 := by
  simp only [Vec3.distSq, Vec3.sub, Vec3.dot, Vec3.add, Vec3.smul]; ring

theorem Vec3.dot_self_nonneg (d : Vec3) : 0 ≤ d.dot d := by
  simp only [Vec3.dot]
  nlinarith [mul_self_nonneg d.x, mul_self_nonneg d.y, mul_self_nonneg d.z]

section SegEndpoints

variable {T : Type} (sqrt : ℚ → ℚ) (pos : T → Vec3) (l : List T)

variable {sqrt pos l}

theorem sqrt_lt_le (hs : SqrtOrdered sqrt pos l) {x y u v : T} (hx : x ∈ l) (hy : y ∈ l)
    (hu : u ∈ l) (hv : v ∈ l)
    (h : sqrt ((pos x).distSq (pos y)) < sqrt ((pos u).distSq (pos v))) :
    (pos x).distSq (pos y) ≤ (pos u).distSq (pos v) := by
  by_contra hc
  exact lt_asymm h (hs u hu v hv x hx y hy (not_le.mp hc))

theorem sqrt_not_lt_le (hs : SqrtOrdered sqrt pos l) {x y u v : T} (hx : x ∈ l) (hy : y ∈ l)
    (hu : u ∈ l) (hv : v ∈ l)
    (h : ¬ sqrt ((pos x).distSq (pos y)) < sqrt ((pos u).distSq (pos v))) :
    (pos u).distSq (pos v) ≤ (pos x).distSq (pos y) := by
  by_contra hc
  exact h (hs x hx y hy u hu v hv (not_le.mp hc))

theorem dist_line_extend {o d : Vec3} {τ : T → ℚ} (hl : OnLine pos l o d τ) {e1 e2 i x : T}
    (h1m : e1 ∈ l) (h2m : e2 ∈ l) (him : i ∈ l) (hxm : x ∈ l)
    (h1 : (pos x).distSq (pos e1) ≤ (pos e1).distSq (pos e2))
    (h2 : (pos x).distSq (pos e2) ≤ (pos e1).distSq (pos e2))
    (h3 : (pos e1).distSq (pos e2) ≤ (pos i).distSq (pos e1))
    (h4 : (pos i).distSq (pos e2) ≤ (pos i).distSq (pos e1)) :
    (pos x).distSq (pos i) ≤ (pos i).distSq (pos e1) := by
  rw [hl e1 h1m, hl e2 h2m, hl i him, hl x hxm] at *
  simp only [Vec3.distSq_on_line] at *
  exact line_extend _ _ _ _ _ (Vec3.dot_self_nonneg d) h1 h2 h3 h4

theorem dist_line_between {o d : Vec3} {τ : T → ℚ} (hl : OnLine pos l o d τ) {e1 e2 x y : T}
    (h1m : e1 ∈ l) (h2m : e2 ∈ l) (hxm : x ∈ l) (hym : y ∈ l)
    (h1 : (pos x).distSq (pos e1) ≤ (pos e1).distSq (pos e2))
    (h2 : (pos x).distSq (pos e2) ≤ (pos e1).distSq (pos e2))
    (h3 : (pos y).distSq (pos e1) ≤ (pos e1).distSq (pos e2))
    (h4 : (pos y).distSq (pos e2) ≤ (pos e1).distSq (pos e2)) :
    (pos x).distSq (pos y) ≤ (pos e1).distSq (pos e2) := by
  rw [hl e1 h1m, hl e2 h2m, hl x hxm, hl y hym] at *
  simp only [Vec3.distSq_on_line] at *
  exact line_between _ _ _ _ _ (Vec3.dot_self_nonneg d) h1 h2 h3 h4

theorem seg_step_inv {o d : Vec3} {τ : T → ℚ} (hl : OnLine pos l o d τ)
    (hs : SqrtOrdered sqrt pos l) (seen : List T) (hseen : ∀ x ∈ seen, x ∈ l)
    (st : T × T × ℚ) (i : T) (hi : i ∈ l) (hinv : SegInv sqrt pos l seen st) :
    SegInv sqrt pos l (i :: seen) (seg_step sqrt pos st i) := by
  obtain ⟨e1, e2, dist⟩ := st
  obtain ⟨h1m, h2m, hd, hx⟩ := hinv
  simp only at h1m h2m hd hx
  subst hd
  unfold seg_step
  simp only [Vec3.norm, gt_iff_lt]
  have ne : ∀ p q : Vec3, (p.sub q).dot (p.sub q) = p.distSq q := fun _ _ => rfl
  simp only [ne]
  by_cases c1 : sqrt ((pos i).distSq (pos e2)) < sqrt ((pos e1).distSq (pos e2))
  · have le1 := sqrt_lt_le hs hi h2m h1m h2m c1
    rw [if_pos c1]
    by_cases c2 : sqrt ((pos i).distSq (pos e1)) < sqrt ((pos e1).distSq (pos e2))
    · have le2 := sqrt_lt_le hs hi h1m h1m h2m c2
      rw [if_pos c2]
      refine ⟨h1m, h2m, rfl, ?_⟩
      intro x hxm
      rcases List.mem_cons.mp hxm with rfl | hxs
      · exact ⟨le2, le1⟩
      · exact hx x hxs
    · have le2 := sqrt_not_lt_le hs hi h1m h1m h2m c2
      rw [if_neg c2]
      refine ⟨h1m, hi, by simp only [Vec3.distSq_comm (pos e1) (pos i)], ?_⟩
      intro x hxm
      simp only
      rw [Vec3.distSq_comm (pos e1) (pos i)]
      rcases List.mem_cons.mp hxm with rfl | hxs
      · exact ⟨le_refl _, by rw [Vec3.distSq_self]; exact Vec3.distSq_nonneg _ _⟩
      · exact ⟨le_trans (hx x hxs).1 le2,
          dist_line_extend hl h1m h2m hi (hseen x hxs) (hx x hxs).1 (hx x hxs).2 le2
            (le_trans le1 le2)⟩
  · have le1 := sqrt_not_lt_le hs hi h2m h1m h2m c1
    rw [if_neg c1]
    by_cases c2 : sqrt ((pos i).distSq (pos e1)) < sqrt ((pos i).distSq (pos e2))
    · have le2 := sqrt_lt_le hs hi h1m hi h2m c2
      rw [if_pos c2]
      refine ⟨hi, h2m, rfl, ?_⟩
      intro x hxm
      simp only
      rcases List.mem_cons.mp hxm with rfl | hxs
      · exact ⟨by rw [Vec3.distSq_self]; exact Vec3.distSq_nonneg _ _, le_refl _⟩
      · have hx1 := (hx x hxs).1
        have hx2 := (hx x hxs).2
        rw [Vec3.distSq_comm (pos e1) (pos e2)] at hx1 hx2 le1
        exact ⟨dist_line_extend hl h2m h1m hi (hseen x hxs) hx2 hx1 le1 le2,
          le_trans hx2 le1⟩
    · have le2 := sqrt_not_lt_le hs hi h1m hi h2m c2
      rw [if_neg c2]
      refine ⟨h1m, hi, by simp only [Vec3.distSq_comm (pos e1) (pos i)], ?_⟩
      intro x hxm
      simp only
      rw [Vec3.distSq_comm (pos e1) (pos i)]
      rcases List.mem_cons.mp hxm with rfl | hxs
      · exact ⟨le_refl _, by rw [Vec3.distSq_self]; exact Vec3.distSq_nonneg _ _⟩
      · exact ⟨le_trans (hx x hxs).1 (le_trans le1 le2),
          dist_line_extend hl h1m h2m hi (hseen x hxs) (hx x hxs).1 (hx x hxs).2
            (le_trans le1 le2) le2⟩

theorem seg_foldl_inv {o d : Vec3} {τ : T → ℚ} (hl : OnLine pos l o d τ)
    (hs : SqrtOrdered sqrt pos l) :
    ∀ (rest seen : List T) (st : T × T × ℚ), (∀ x ∈ seen, x ∈ l) → (∀ x ∈ rest, x ∈ l) →
      SegInv sqrt pos l seen st →
      SegInv sqrt pos l (rest.reverse ++ seen) (rest.foldl (seg_step sqrt pos) st)
  | [], seen, st, _, _, hinv => by simpa using hinv
  | i :: rest, seen, st, hseen, hrest, hinv => by
    rw [List.foldl_cons]
    have hi := hrest i (List.mem_cons_self _ _)
    have h1 := seg_step_inv hl hs seen hseen st i hi hinv
    have h2 := seg_foldl_inv hl hs rest (i :: seen) _
      (fun x hx => by
        rcases List.mem_cons.mp hx with rfl | h
        · exact hi
        · exact hseen x h)
      (fun x hx => hrest x (List.mem_cons_of_mem _ hx)) h1
    simpa using h2

/-- `determine_seg_endpoints` on collinear input returns two input points at the maximum
pairwise distance. -/
theorem determine_seg_endpoints_diameter {o d : Vec3} {τ : T → ℚ} (first : T) (rest : List T)
    (hl : OnLine pos (first :: rest) o d τ) (hs : SqrtOrdered sqrt pos (first :: rest))
    (h0 : sqrt 0 = 0) :
    (determine_seg_endpoints sqrt pos first rest).1 ∈ first :: rest ∧
    (determine_seg_endpoints sqrt pos first rest).2 ∈ first :: rest ∧
    ∀ x ∈ first :: rest, ∀ y ∈ first :: rest,
      (pos x).distSq (pos y) ≤
        (pos (determine_seg_endpoints sqrt pos first rest).1).distSq
          (pos (determine_seg_endpoints sqrt pos first rest).2) := by
  have hf : first ∈ first :: rest := List.mem_cons_self _ _
  have hinit : SegInv sqrt pos (first :: rest) [first] (first, first, 0) := by
    refine ⟨hf, hf, by simp [Vec3.distSq_self, h0], ?_⟩
    intro x hx
    rw [List.mem_singleton] at hx
    subst hx
    exact ⟨le_refl _, le_refl _⟩
  have hfin := seg_foldl_inv hl hs rest [first] (first, first, 0)
    (fun x hx => by rw [List.mem_singleton] at hx; subst hx; exact hf)
    (fun x hx => List.mem_cons_of_mem _ hx) hinit
  obtain ⟨h1m, h2m, _, hx⟩ := hfin
  unfold determine_seg_endpoints
  refine ⟨h1m, h2m, ?_⟩
  intro x hxm y hym
  have hmem : ∀ z ∈ first :: rest, z ∈ rest.reverse ++ [first] := by
    intro z hz
    rcases List.mem_cons.mp hz with rfl | h
    · simp
    · simp [h]
  exact dist_line_between hl h1m h2m hxm hym (hx x (hmem x hxm)).1 (hx x (hmem x hxm)).2
    (hx y (hmem y hym)).1 (hx y (hmem y hym)).2

end SegEndpoints

theorem same_friction_some (env : GeomEnv) (mu : ℚ)
    (hrel : env.rel_equal mu mu env.NEAR_ZERO = true) :
    ∀ cs : List Contact, (∀ c ∈ cs, c.contact_mu_coulomb = mu) →
      same_friction env (some mu) cs = true
  | [], _ => by simp [same_friction]
  | c :: cs, h => by
    have hc := h c (List.mem_cons_self _ _)
    have ih := same_friction_some env mu hrel cs (fun x hx => h x (List.mem_cons_of_mem _ hx))
    unfold same_friction
    split
    · exact ih
    · simp only [hc, hrel, Bool.not_true, Bool.false_eq_true, if_false]
      exact ih

theorem same_friction_uniform (env : GeomEnv) (hrel : ∀ x, env.rel_equal x x env.NEAR_ZERO = true)
    (group : List Contact)
    (hmu : ∀ c ∈ group, ∀ c2 ∈ group, c.contact_mu_coulomb = c2.contact_mu_coulomb) :
    same_friction env none group = true := by
  cases group with
  | nil => simp [same_friction]
  | cons c cs =>
    have hall : ∀ x ∈ c :: cs, x.contact_mu_coulomb = c.contact_mu_coulomb :=
      fun x hx => hmu x hx c (List.mem_cons_self _ _)
    unfold same_friction
    split
    · cases cs with
      | nil => simp [same_friction]
      | cons c2 cs2 =>
        -- the first contact is skipped: the others still agree with one another
        exact (by
          have : ∀ (l : List Contact), (∀ x ∈ l, x.contact_mu_coulomb = c.contact_mu_coulomb) →
              same_friction env none l = true := by
            intro l
            induction l with
            | nil => intro _; simp [same_friction]
            | cons a l ih =>
              intro hl
              unfold same_friction
              split
              · exact ih (fun x hx => hl x (List.mem_cons_of_mem _ hx))
              · simp only
                rw [hl a (List.mem_cons_self _ _)]
                exact same_friction_some env _ (hrel _) l
                  (fun x hx => hl x (List.mem_cons_of_mem _ hx))
          exact this (c2 :: cs2) (fun x hx => hall x (List.mem_cons_of_mem _ hx)))
    · simp only
      exact same_friction_some env _ (hrel _) cs
        (fun x hx => hall x (List.mem_cons_of_mem _ hx))

theorem cross_on_line (o d : Vec3) (s t u : ℚ) :
    ((o.add (d.smul t)).sub (o.add (d.smul s))).cross
      ((o.add (d.smul u)).sub (o.add (d.smul s))) = Vec3.zero := by
  simp only [Vec3.cross, Vec3.sub, Vec3.add, Vec3.smul, Vec3.zero, Vec3.mk.injEq]
  refine ⟨?_, ?_, ?_⟩ <;> ring

theorem collinear_check_on_line (env : GeomEnv)
    (hcolO : ∀ a b c : Vec3, (b.sub a).cross (c.sub a) = Vec3.zero → env.collinear a b c = true)
    (group : List Contact) (o d : Vec3) (τ : Contact → ℚ)
    (hline : OnLine (fun k : Contact => k.contact_point) group o d τ) :
    collinear_check env group = true := by
  unfold collinear_check
  cases hh : group.head? with
  | none => rfl
  | some pA =>
    cases hz : group.getLast? with
    | none => rfl
    | some pZ =>
      simp only [List.all_eq_true]
      intro c hc
      have hcm : c ∈ group := List.mem_of_mem_drop (List.mem_of_mem_dropLast hc)
      have hAm : pA ∈ group := List.mem_of_mem_head? hh
      have hZm : pZ ∈ group := List.mem_of_getLast?_eq_some hz
      apply hcolO
      have e1 : c.contact_point = o.add (d.smul (τ c)) := hline c hcm
      have e2 : pA.contact_point = o.add (d.smul (τ pA)) := hline pA hAm
      have e3 : pZ.contact_point = o.add (d.smul (τ pZ)) := hline pZ hZm
      rw [e1, e2, e3]
      exact cross_on_line _ _ _ _ _

theorem foldl_group_insert_same (k : Nat × Nat) :
    ∀ (cs S : List Contact) (tail : List ((Nat × Nat) × List Contact)),
      (∀ c ∈ cs, body_pair c = k) →
      cs.foldl (fun m c => group_insert (body_pair c) c m) ((k, S) :: tail) =
        (k, S ++ cs) :: tail
  | [], S, tail, _ => by simp
  | c :: cs, S, tail, h => by
    rw [List.foldl_cons, h c (List.mem_cons_self _ _)]
    have : group_insert k c ((k, S) :: tail) = (k, S ++ [c]) :: tail := by
      simp [group_insert]
    rw [this, foldl_group_insert_same k cs (S ++ [c]) tail
      (fun x hx => h x (List.mem_cons_of_mem _ hx))]
    simp

theorem contact_groups_single (group : List Contact) (hne : group ≠ [])
    (htype : ∀ c ∈ group, c.contact_type = ContactType.eContact)
    (hpair : ∀ c ∈ group, ∀ c2 ∈ group, body_pair c = body_pair c2) :
    ∃ k, contact_groups group = [(k, group)] := by
  cases group with
  | nil => exact absurd rfl hne
  | cons c cs =>
    refine ⟨body_pair c, ?_⟩
    unfold contact_groups
    have hf : (c :: cs).filter (fun c => c.contact_type = ContactType.eContact) = c :: cs := by
      rw [List.filter_eq_self]
      intro x hx
      simpa using htype x hx
    rw [hf, List.foldl_cons]
    have : group_insert (body_pair c) c [] = [(body_pair c, [c])] := rfl
    rw [this, foldl_group_insert_same (body_pair c) cs [c] []
      (fun x hx => hpair x (List.mem_cons_of_mem _ hx) c (List.mem_cons_self _ _))]
    simp

theorem determine_minimal_set_single (env : GeomEnv) (group : List Contact)
    (hlen : 5 ≤ group.length)
    (htype : ∀ c ∈ group, c.contact_type = ContactType.eContact)
    (hpair : ∀ c ∈ group, ∀ c2 ∈ group, body_pair c = body_pair c2) :
    determine_minimal_set env group = determine_convex_set env group := by
  have hne : group ≠ [] := by
    intro h; rw [h] at hlen; simp at hlen
  obtain ⟨k, hk⟩ := contact_groups_single group hne htype hpair
  rw [determine_minimal_set_eq env group (by omega), hk]
  have hf : group.filter (fun c => c.contact_type ≠ ContactType.eContact) = [] := by
    rw [List.filter_eq_nil_iff]
    intro x hx
    simpa using htype x hx
  rw [hf]
  simp

theorem Vec3.eq_of_distSq_eq_zero (p q : Vec3) (h : p.distSq q = 0) : p = q := by
  simp only [Vec3.distSq, Vec3.sub, Vec3.dot] at h
  have hx : (p.x - q.x) * (p.x - q.x) = 0 := by
    nlinarith [mul_self_nonneg (p.x - q.x), mul_self_nonneg (p.y - q.y),
      mul_self_nonneg (p.z - q.z)]
  have hy : (p.y - q.y) * (p.y - q.y) = 0 := by
    nlinarith [mul_self_nonneg (p.x - q.x), mul_self_nonneg (p.y - q.y),
      mul_self_nonneg (p.z - q.z)]
  have hz : (p.z - q.z) * (p.z - q.z) = 0 := by
    nlinarith [mul_self_nonneg (p.x - q.x), mul_self_nonneg (p.y - q.y),
      mul_self_nonneg (p.z - q.z)]
  cases p; cases q
  simp only [Vec3.mk.injEq]
  simp only [mul_self_eq_zero, sub_eq_zero] at hx hy hz
  exact ⟨hx, hy, hz⟩

theorem filter_two_addr (group : List Contact) (hnodup : (group.map (fun c => c.addr)).Nodup)
    (e1 e2 : Contact) (h1 : e1 ∈ group) (h2 : e2 ∈ group) (hne : e1 ≠ e2) :
    (group.filter (fun k => k.addr == e1.addr || k.addr == e2.addr)).length = 2 := by
  have hinj : ∀ x ∈ group, ∀ y ∈ group, x.addr = y.addr → x = y :=
    fun x hx y hy hxy => List.inj_on_of_nodup_map hnodup hx hy hxy
  have hnd : (group.filter (fun k => k.addr == e1.addr || k.addr == e2.addr)).Nodup :=
    (List.Nodup.of_map _ hnodup).filter _
  have hnd2 : [e1, e2].Nodup := by simp [hne]
  have hperm : (group.filter (fun k => k.addr == e1.addr || k.addr == e2.addr)).Perm [e1, e2] := by
    rw [List.perm_ext_iff_of_nodup hnd hnd2]
    intro c
    simp only [List.mem_filter, Bool.or_eq_true, beq_iff_eq, List.mem_cons, List.mem_singleton,
      List.not_mem_nil, or_false]
    constructor
    · rintro ⟨hc, h | h⟩
      · exact Or.inl (hinj c hc e1 h1 h)
      · exact Or.inr (hinj c hc e2 h2 h)
    · rintro (rfl | rfl)
      · exact ⟨h1, Or.inl rfl⟩
      · exact ⟨h2, Or.inr rfl⟩
  simpa using hperm.length_eq

/-- C6: a group of at least 5 distinct contacts between one body pair, with one friction
coefficient and contact points on one line and not all equal, is reduced by
`determine_minimal_set` to exactly two contacts, whose points are input points at the maximum
pairwise distance of the input. The helpers are taken as given: `rel_equal` accepts equal
values, `collinear` accepts exactly collinear triples, and the square root preserves the
order of the pairwise squared distances. -/
theorem collinear_group_keeps_two_extreme_contacts (env : GeomEnv) (group : List Contact)
    (o d : Vec3) (τ : Contact → ℚ)
    (hlen : 5 ≤ group.length)
    (htype : ∀ c ∈ group, c.contact_type = ContactType.eContact)
    (hpair : ∀ c ∈ group, ∀ c2 ∈ group, body_pair c = body_pair c2)
    (hmu : ∀ c ∈ group, ∀ c2 ∈ group, c.contact_mu_coulomb = c2.contact_mu_coulomb)
    (hnodup : (group.map (fun c => c.addr)).Nodup)
    (hline : OnLine (fun k : Contact => k.contact_point) group o d τ)
    (hdiff : ∃ c1 ∈ group, ∃ c2 ∈ group, c1.contact_point ≠ c2.contact_point)
    (hrel : ∀ x, env.rel_equal x x env.NEAR_ZERO = true)
    (hcolO : ∀ a b c : Vec3, (b.sub a).cross (c.sub a) = Vec3.zero → env.collinear a b c = true)
    (hsqrt : SqrtOrdered env.sqrt (fun k : Contact => k.contact_point) group)
    (hs0 : env.sqrt 0 = 0) :
    (determine_minimal_set env group).length = 2 ∧
    ∃ c1 ∈ determine_minimal_set env group, ∃ c2 ∈ determine_minimal_set env group,
      c1 ∈ group ∧ c2 ∈ group ∧ c1.contact_point ≠ c2.contact_point ∧
      ∀ x ∈ group, ∀ y ∈ group,
        x.contact_point.distSq y.contact_point ≤ c1.contact_point.distSq c2.contact_point := by
  rw [determine_minimal_set_single env group hlen htype hpair]
  cases group with
  | nil => simp at hlen
  | cons front rest =>
    have hrun : determine_convex_set env (front :: rest) = keep_endpoints env (front :: rest) := by
      unfold determine_convex_set determine_convex_set_run
      have hl : ¬ (front :: rest).length ≤ 3 := by omega
      simp only [hl, same_friction_uniform env hrel _ hmu,
        collinear_check_on_line env hcolO _ o d τ hline, if_false, if_true, Bool.not_true,
        Bool.false_eq_true]
    rw [hrun]
    obtain ⟨h1m, h2m, hmax⟩ := determine_seg_endpoints_diameter front rest hline hsqrt hs0
    obtain ⟨x1, hx1, x2, hx2, hx12⟩ := hdiff
    have hpos : 0 < x1.contact_point.distSq x2.contact_point := by
      rcases (Vec3.distSq_nonneg x1.contact_point x2.contact_point).lt_or_eq with h | h
      · exact h
      · exact absurd (Vec3.eq_of_distSq_eq_zero _ _ h.symm) hx12
    have hD := hmax x1 hx1 x2 hx2
    have hep : (determine_seg_endpoints env.sqrt (fun k : Contact => k.contact_point) front
        rest).1.contact_point ≠ (determine_seg_endpoints env.sqrt
          (fun k : Contact => k.contact_point) front rest).2.contact_point := by
      intro he
      simp only at hD
      rw [he, Vec3.distSq_self] at hD
      linarith
    have hne : (determine_seg_endpoints env.sqrt (fun k : Contact => k.contact_point) front
        rest).1 ≠ (determine_seg_endpoints env.sqrt
          (fun k : Contact => k.contact_point) front rest).2 := by
      intro he
      exact hep (by rw [he])
    refine ⟨?_, _, ?_, _, ?_, h1m, h2m, hep, hmax⟩
    · unfold keep_endpoints
      exact filter_two_addr _ hnodup _ _ h1m h2m hne
    · unfold keep_endpoints
      exact List.mem_filter.mpr ⟨h1m, by simp⟩
    · unfold keep_endpoints
      exact List.mem_filter.mpr ⟨h2m, by simp⟩

theorem pair_lt_irrefl (k : Nat × Nat) : pair_lt k k = false := by
  simp [pair_lt]

theorem pair_lt_trans {a b c : Nat × Nat} (h1 : pair_lt a b = true) (h2 : pair_lt b c = true) :
    pair_lt a c = true := by
  simp only [pair_lt, Bool.or_eq_true, Bool.and_eq_true, decide_eq_true_eq] at *
  omega

theorem pair_lt_asymm {a b : Nat × Nat} (h1 : pair_lt a b = true) : pair_lt b a = false := by
  cases h : pair_lt b a
  · rfl
  · have := pair_lt_trans h1 h
    rw [pair_lt_irrefl] at this
    exact absurd this (by simp)

theorem pair_lt_ne {a b : Nat × Nat} (h1 : pair_lt a b = true) : b ≠ a := by
  intro h
  rw [h, pair_lt_irrefl] at h1
  exact absurd h1 (by simp)

theorem group_insert_new_last (k : Nat × Nat) (c : Contact) :
    ∀ acc : List ((Nat × Nat) × List Contact), KeysBelow acc k →
      group_insert k c acc = acc ++ [(k, [c])]
  | [], _ => rfl
  | (k2, cs) :: rest, h => by
    have h2 : pair_lt k2 k = true := h (k2, cs) (List.mem_cons_self _ _)
    unfold group_insert
    rw [if_neg (pair_lt_ne h2), pair_lt_asymm h2]
    simp only [Bool.false_eq_true, if_false, List.cons_append, List.cons.injEq, true_and]
    exact group_insert_new_last k c rest (fun kv hkv => h kv (List.mem_cons_of_mem _ hkv))

theorem group_insert_old_last (k : Nat × Nat) (c : Contact) (S : List Contact) :
    ∀ acc : List ((Nat × Nat) × List Contact), KeysBelow acc k →
      group_insert k c (acc ++ [(k, S)]) = acc ++ [(k, S ++ [c])]
  | [], _ => by simp [group_insert]
  | (k2, cs) :: rest, h => by
    have h2 : pair_lt k2 k = true := h (k2, cs) (List.mem_cons_self _ _)
    rw [List.cons_append]
    unfold group_insert
    rw [if_neg (pair_lt_ne h2), pair_lt_asymm h2]
    simp only [Bool.false_eq_true, if_false, List.cons_append, List.cons.injEq, true_and]
    exact group_insert_old_last k c S rest (fun kv hkv => h kv (List.mem_cons_of_mem _ hkv))

theorem foldl_group_insert_last (k : Nat × Nat)
    (acc : List ((Nat × Nat) × List Contact)) (hacc : KeysBelow acc k) :
    ∀ (cs S : List Contact), (∀ c ∈ cs, body_pair c = k) →
      cs.foldl (fun m c => group_insert (body_pair c) c m) (acc ++ [(k, S)]) =
        acc ++ [(k, S ++ cs)]
  | [], S, _ => by simp
  | c :: cs, S, h => by
    rw [List.foldl_cons, h c (List.mem_cons_self _ _), group_insert_old_last k c S acc hacc,
      foldl_group_insert_last k acc hacc cs (S ++ [c])
        (fun x hx => h x (List.mem_cons_of_mem _ hx))]
    simp

theorem foldl_group_insert_group (k : Nat × Nat)
    (acc : List ((Nat × Nat) × List Contact)) (hacc : KeysBelow acc k) (S : List Contact)
    (hS : ∀ c ∈ S, body_pair c = k) :
    S.foldl (fun m c => group_insert (body_pair c) c m) acc =
      acc ++ (if S = [] then [] else [(k, S)]) := by
  cases S with
  | nil => simp
  | cons c cs =>
    rw [List.foldl_cons, hS c (List.mem_cons_self _ _), group_insert_new_last k c acc hacc,
      foldl_group_insert_last k acc hacc cs [c] (fun x hx => hS x (List.mem_cons_of_mem _ hx))]
    simp

theorem regroup (m : List ((Nat × Nat) × List Contact)) :
    ∀ (acc : List ((Nat × Nat) × List Contact)), Keyed m →
      (∀ kv ∈ m, KeysBelow acc kv.1) →
      (m.flatMap (fun kv => kv.2)).foldl (fun m c => group_insert (body_pair c) c m) acc =
        acc ++ m.filter (fun kv => !kv.2.isEmpty) := by
  induction m with
  | nil => intro acc _ _; simp
  | cons kv t ih =>
    intro acc hk hb
    obtain ⟨k, S⟩ := kv
    have hpw := List.pairwise_cons.mp hk.1
    have hS : ∀ c ∈ S, body_pair c = k := hk.2 (k, S) (List.mem_cons_self _ _)
    have hkt : Keyed t := ⟨hpw.2, fun kv hkv => hk.2 kv (List.mem_cons_of_mem _ hkv)⟩
    rw [List.flatMap_cons, List.foldl_append,
      foldl_group_insert_group k acc (hb (k, S) (List.mem_cons_self _ _)) S hS]
    have hb2 : ∀ kv ∈ t, KeysBelow (acc ++ (if S = [] then [] else [(k, S)])) kv.1 := by
      intro kv hkv x hx
      rcases List.mem_append.mp hx with h | h
      · exact hb kv (List.mem_cons_of_mem _ hkv) x h
      · split at h
        · exact absurd h (List.not_mem_nil _)
        · rw [List.mem_singleton] at h
          subst h
          exact hpw.1 kv hkv
    rw [ih _ hkt hb2]
    cases S with
    | nil => simp
    | cons c cs => simp

theorem group_insert_keys (k : Nat × Nat) (c : Contact) :
    ∀ (m : List ((Nat × Nat) × List Contact)) (kv : (Nat × Nat) × List Contact),
      kv ∈ group_insert k c m → kv.1 = k ∨ ∃ kv2 ∈ m, kv2.1 = kv.1
  | [], kv, h => by
    simp only [group_insert, List.mem_singleton] at h
    subst h
    exact Or.inl rfl
  | (k2, cs) :: rest, kv, h => by
    unfold group_insert at h
    split at h
    · rename_i hk
      rcases List.mem_cons.mp h with h | h
      · subst h; exact Or.inl hk.symm
      · exact Or.inr ⟨kv, List.mem_cons_of_mem _ h, rfl⟩
    · split at h
      · rcases List.mem_cons.mp h with h | h
        · subst h; exact Or.inl rfl
        · exact Or.inr ⟨kv, h, rfl⟩
      · rcases List.mem_cons.mp h with h | h
        · subst h; exact Or.inr ⟨(k2, cs), List.mem_cons_self _ _, rfl⟩
        · rcases group_insert_keys k c rest kv h with h | ⟨kv2, h2, h3⟩
          · exact Or.inl h
          · exact Or.inr ⟨kv2, List.mem_cons_of_mem _ h2, h3⟩

theorem group_insert_keyed (c : Contact) :
    ∀ (m : List ((Nat × Nat) × List Contact)), Keyed m → Keyed (group_insert (body_pair c) c m)
  | [], _ => by
    refine ⟨by simp [group_insert], ?_⟩
    intro kv hkv x hx
    simp only [group_insert, List.mem_singleton] at hkv
    subst hkv
    simp only [List.mem_singleton] at hx
    subst hx
    rfl
  | (k2, cs) :: rest, hk => by
    have hpw := List.pairwise_cons.mp hk.1
    unfold group_insert
    split
    · rename_i heq
      refine ⟨List.pairwise_cons.mpr ⟨hpw.1, hpw.2⟩, ?_⟩
      intro kv hkv x hx
      rcases List.mem_cons.mp hkv with h | h
      · subst h
        rcases List.mem_append.mp hx with h2 | h2
        · exact hk.2 (k2, cs) (List.mem_cons_self _ _) x h2
        · rw [List.mem_singleton] at h2
          subst h2
          exact heq
      · exact hk.2 kv (List.mem_cons_of_mem _ h) x hx
    · split
      · rename_i hne hlt
        refine ⟨List.pairwise_cons.mpr ⟨?_, hk.1⟩, ?_⟩
        · intro kv hkv
          rcases List.mem_cons.mp hkv with h | h
          · subst h; exact hlt
          · exact pair_lt_trans hlt (hpw.1 kv h)
        · intro kv hkv x hx
          rcases List.mem_cons.mp hkv with h | h
          · subst h
            rw [List.mem_singleton] at hx
            subst hx
            rfl
          · exact hk.2 kv h x hx
      · rename_i hne hlt
        have hkt : Keyed rest := ⟨hpw.2, fun kv hkv => hk.2 kv (List.mem_cons_of_mem _ hkv)⟩
        have ih := group_insert_keyed c rest hkt
        have hgt : pair_lt k2 (body_pair c) = true := by
          simp only [pair_lt, Bool.or_eq_true, Bool.and_eq_true, decide_eq_true_eq,
            not_or, not_and, not_lt] at hlt ⊢
          have hne2 : ¬ (body_pair c = k2) := hne
          rw [Prod.ext_iff] at hne2
          omega
        refine ⟨List.pairwise_cons.mpr ⟨?_, ih.1⟩, ?_⟩
        · intro kv hkv
          rcases group_insert_keys _ c rest kv hkv with h | ⟨kv2, h2, h3⟩
          · rw [h]; exact hgt
          · rw [← h3]; exact hpw.1 kv2 h2
        · intro kv hkv x hx
          rcases List.mem_cons.mp hkv with h | h
          · subst h
            exact hk.2 (k2, cs) (List.mem_cons_self _ _) x hx
          · exact ih.2 kv h x hx

theorem foldl_group_insert_keyed :
    ∀ (l : List Contact) (m : List ((Nat × Nat) × List Contact)), Keyed m →
      Keyed (l.foldl (fun m c => group_insert (body_pair c) c m) m)
  | [], m, h => h
  | c :: l, m, h => by
    rw [List.foldl_cons]
    exact foldl_group_insert_keyed l _ (group_insert_keyed c m h)

theorem contact_groups_keyed (group : List Contact) : Keyed (contact_groups group) :=
  foldl_group_insert_keyed _ [] ⟨List.Pairwise.nil, fun _ h => absurd h (List.not_mem_nil _)⟩

theorem determine_convex_set_small (env : GeomEnv) (group : List Contact)
    (h : group.length ≤ 3 ∨ same_friction env none group = false) :
    determine_convex_set env group = group := by
  unfold determine_convex_set determine_convex_set_run
  cases group with
  | nil => rfl
  | cons front rest =>
    dsimp only
    rcases h with h | h
    · rw [if_pos h]
    · split
      · rfl
      · simp [h]

theorem flatMap_filter_nonempty :
    ∀ m : List ((Nat × Nat) × List Contact),
      (m.filter (fun kv => !kv.2.isEmpty)).flatMap (fun kv => kv.2) = m.flatMap (fun kv => kv.2)
  | [] => rfl
  | (k, S) :: t => by
    cases S with
    | nil => simpa using flatMap_filter_nonempty t
    | cons c cs =>
      simp only [List.filter_cons, List.isEmpty_cons, Bool.not_false, if_true,
        List.flatMap_cons]
      rw [flatMap_filter_nonempty t]

theorem flatMap_congr_mem (f g : List Contact → List Contact) :
    ∀ m : List ((Nat × Nat) × List Contact), (∀ kv ∈ m, f kv.2 = g kv.2) →
      m.flatMap (fun kv => f kv.2) = m.flatMap (fun kv => g kv.2)
  | [], _ => rfl
  | kv :: t, h => by
    simp only [List.flatMap_cons]
    rw [h kv (List.mem_cons_self _ _),
      flatMap_congr_mem f g t (fun x hx => h x (List.mem_cons_of_mem _ hx))]

theorem flatMap_map_snd (f : List Contact → List Contact) :
    ∀ m : List ((Nat × Nat) × List Contact),
      (m.map (fun kv => (kv.1, f kv.2))).flatMap (fun kv => kv.2) = m.flatMap (fun kv => f kv.2)
  | [] => rfl
  | kv :: t => by
    simp only [List.map_cons, List.flatMap_cons]
    rw [flatMap_map_snd f t]

theorem keyed_map_sublist (f : List Contact → List Contact) (hf : ∀ l, (f l).Sublist l)
    (m : List ((Nat × Nat) × List Contact)) (hk : Keyed m) :
    Keyed (m.map (fun kv => (kv.1, f kv.2))) := by
  refine ⟨?_, ?_⟩
  · rw [List.pairwise_map]
    exact hk.1
  · intro kv hkv c hc
    obtain ⟨kv0, h0, rfl⟩ := List.mem_map.mp hkv
    exact hk.2 kv0 h0 c ((hf kv0.2).subset hc)

end Reduction

theorem exactGeomEnv_hullSound : HullSound exactGeomEnv := by
  constructor
  · intro pts n H h a ha
    simp only [exactGeomEnv, convexHull2DModel] at h
    split at h
    · exact absurd h (by simp)
    · simp only [Option.some.injEq] at h
      subst h
      obtain ⟨q, hq, rfl⟩ := List.mem_map.mp ha
      exact List.mem_map.mpr ⟨q, (List.mem_filter.mp hq).1, rfl⟩
  · intro pts H h a ha
    simp only [exactGeomEnv, convexHull3DModel] at h
    split at h
    · exact absurd h (by simp)
    · simp only [Option.some.injEq] at h
      subst h
      obtain ⟨q, hq, rfl⟩ := List.mem_map.mp ha
      exact List.mem_map.mpr ⟨q, (List.mem_filter.mp hq).1, rfl⟩

theorem relEqualModel_refl (x tol : ℚ) (ht : 0 ≤ tol) : relEqualModel x x tol = true := by
  simp only [relEqualModel, sub_self, abs_zero, decide_eq_true_eq]
  have : 0 ≤ max |x| (max |x| 1) := le_max_of_le_left (abs_nonneg x)
  positivity

theorem collinear_group_keeps_two_extreme_contacts_witness :
    ((determine_minimal_set exactGeomEnv lineGroup).length = 2 ∧
    (∃ c1 ∈ determine_minimal_set exactGeomEnv lineGroup,
      ∃ c2 ∈ determine_minimal_set exactGeomEnv lineGroup,
      c1 ∈ lineGroup ∧ c2 ∈ lineGroup ∧ c1.contact_point ≠ c2.contact_point ∧
      ∀ x ∈ lineGroup, ∀ y ∈ lineGroup,
        x.contact_point.distSq y.contact_point ≤ c1.contact_point.distSq c2.contact_point)) ∧
    determine_minimal_set exactGeomEnv lineGroup =
      [mkContact 100 0 0 0 (1/2), mkContact 104 4 0 0 (1/2)] :=
  ⟨collinear_group_keeps_two_extreme_contacts exactGeomEnv lineGroup ⟨0, 0, 0⟩ ⟨1, 0, 0⟩
      (fun c => c.contact_point.x) (by decide) (by decide!) (by decide!) (by decide!)
      (by decide!) (by unfold OnLine; decide!) (by decide!)
      (fun x => relEqualModel_refl x _ (by norm_num [exactGeomEnv]))
      (fun a b c h => by simp [exactGeomEnv, collinearModel, h])
      (by unfold SqrtOrdered; decide!) (by decide!),
   by decide!⟩

/-- C7: what the code does on the corners of a 3 x 4 rectangle in the plane `z = 0` when the
first and the last contact touch the same corner. The points are coplanar and not collinear
and all five are hull vertices, but every point is collinear with the coincident first and
last points, so the collinearity loop succeeds and only two contacts are kept. -/
theorem planar_group_with_coincident_ends_loses_hull :
    determine_minimal_set exactGeomEnv rectGroup =
      [mkContact 302 3 4 0 (1/2), mkContact 304 0 0 0 (1/2)] ∧
    is_contact_manifold_2D exactGeomEnv rectGroup = true ∧
    collinearModel ⟨0, 0, 0⟩ ⟨3, 0, 0⟩ ⟨3, 4, 0⟩ = false ∧
    convexHull2DModel (rectGroup.map (fun c => (c.addr, c.contact_point))) ⟨0, 0, 1⟩ =
      some [300, 301, 302, 303, 304] ∧
    collinear_check exactGeomEnv rectGroup = true := by
  decide!

/-- The planar hull scenario of the spec: a hexagon and one interior point, friction 0.3. -/
theorem hexagon_scenario :
    determine_convex_set_run exactGeomEnv hexGroup =
      ([Tier.hull2D],
       [mkContact 200 2 0 0 (3/10), mkContact 201 1 2 0 (3/10), mkContact 202 (-1) 2 0 (3/10),
        mkContact 204 (-2) 0 0 (3/10), mkContact 205 (-1) (-2) 0 (3/10),
        mkContact 206 1 (-2) 0 (3/10)]) ∧
    determine_minimal_set exactGeomEnv hexGroup =
      [mkContact 200 2 0 0 (3/10), mkContact 201 1 2 0 (3/10), mkContact 202 (-1) 2 0 (3/10),
       mkContact 204 (-2) 0 0 (3/10), mkContact 205 (-1) (-2) 0 (3/10),
       mkContact 206 1 (-2) 0 (3/10)] := by
  decide!

section HullGeometry

theorem Vec3.ext_iff3 (u v : Vec3) : u = v ↔ u.x = v.x ∧ u.y = v.y ∧ u.z = v.z := by
  cases u; cases v; simp

theorem planePart_cross (n v w : Vec3) :
    (planePart n v).cross (planePart n w) = n.smul (n.dot n * n.dot (v.cross w)) := by
  rw [Vec3.ext_iff3]
  simp only [planePart, Vec3.cross, Vec3.sub, Vec3.smul, Vec3.dot]
  refine ⟨by ring, by ring, by ring⟩

theorem planePart_sub3 (n a b c : Vec3) :
    planePart n (b.sub c) = ((planePart n (c.sub a)).neg).sub (planePart n (a.sub b)) := by
  rw [Vec3.ext_iff3]
  simp only [planePart, Vec3.sub, Vec3.smul, Vec3.dot, Vec3.neg]
  refine ⟨by ring, by ring, by ring⟩

/-- Of three vectors with sum zero of which two are parallel, two have a non-negative dot
product. -/
theorem parallel_dots (u2 u3 : Vec3) (hpar : u2.cross u3 = Vec3.zero) :
    0 ≤ u2.dot ((u2.neg).sub u3) ∨ 0 ≤ u3.dot u2 ∨ 0 ≤ ((u2.neg).sub u3).dot u3 := by
  obtain ⟨a1, a2, a3⟩ := u2
  obtain ⟨b1, b2, b3⟩ := u3
  simp only [Vec3.cross, Vec3.zero, Vec3.mk.injEq] at hpar
  obtain ⟨h1, h2, h3⟩ := hpar
  simp only [Vec3.dot, Vec3.neg, Vec3.sub]
  have hl : (a1 * b1 + a2 * b2 + a3 * b3) ^ 2 =
      (a1 * a1 + a2 * a2 + a3 * a3) * (b1 * b1 + b2 * b2 + b3 * b3) := by
    have : (a1 * a1 + a2 * a2 + a3 * a3) * (b1 * b1 + b2 * b2 + b3 * b3) -
        (a1 * b1 + a2 * b2 + a3 * b3) ^ 2 =
        (a2 * b3 - a3 * b2) ^ 2 + (a3 * b1 - a1 * b3) ^ 2 + (a1 * b2 - a2 * b1) ^ 2 := by ring
    rw [h1, h2, h3] at this
    linarith
  by_contra hcon
  push_neg at hcon
  obtain ⟨c1, c2, c3⟩ := hcon
  set x := a1 * a1 + a2 * a2 + a3 * a3 with hx
  set y := b1 * b1 + b2 * b2 + b3 * b3 with hy
  set z := a1 * b1 + a2 * b2 + a3 * b3 with hz
  have e1 : a1 * (-a1 - b1) + a2 * (-a2 - b2) + a3 * (-a3 - b3) = -x - z := by
    rw [hx, hz]; ring
  have e2 : b1 * a1 + b2 * a2 + b3 * a3 = z := by rw [hz]; ring
  have e3 : (-a1 - b1) * b1 + (-a2 - b2) * b2 + (-a3 - b3) * b3 = -z - y := by
    rw [hy, hz]; ring
  rw [e1] at c1
  rw [e2] at c2
  rw [e3] at c3
  nlinarith

end HullGeometry

section HullVertices

theorem planePart_neg (n a b : Vec3) :
    planePart n (a.sub b) = Vec3.zero ↔ planePart n (b.sub a) = Vec3.zero := by
  have e : ∀ a b : Vec3, planePart n (a.sub b) = Vec3.zero → planePart n (b.sub a) = Vec3.zero := by
    intro a b h
    rw [Vec3.ext_iff3] at h ⊢
    simp only [planePart, Vec3.sub, Vec3.smul, Vec3.dot, Vec3.zero] at h ⊢
    obtain ⟨h1, h2, h3⟩ := h
    refine ⟨by linear_combination -h1, by linear_combination -h2, by linear_combination -h3⟩
  exact ⟨e a b, e b a⟩

theorem isHullVertex2_eq_true (n : Vec3) (pts : List Vec3) (p : Vec3) :
    isHullVertex2 n pts p = true ↔
      ∀ a ∈ pts, planePart n (a.sub p) ≠ Vec3.zero →
        ∀ b ∈ pts, planePart n (b.sub p) ≠ Vec3.zero →
          onSegment2 n a b p = false ∧
          ∀ c ∈ pts, planePart n (c.sub p) ≠ Vec3.zero → inTriangle2 n a b c p = false := by
  unfold isHullVertex2
  simp only [Bool.not_eq_true', List.any_eq_false, List.mem_filter, decide_eq_true_eq,
    Bool.or_eq_false_iff, and_imp, Bool.not_eq_true]

theorem isHullVertex2_mono (n : Vec3) (R S : List Vec3) (p : Vec3) (h : ∀ q ∈ R, q ∈ S)
    (hv : isHullVertex2 n S p = true) : isHullVertex2 n R p = true := by
  rw [isHullVertex2_eq_true] at hv ⊢
  intro a ha ha2 b hb hb2
  obtain ⟨h1, h2⟩ := hv a (h a ha) ha2 b (h b hb) hb2
  exact ⟨h1, fun c hc hc2 => h2 c (h c hc) hc2⟩

/-- Three hull vertices (along `n`) with pairwise different projections do not project onto
one line. -/
theorem hull_vertices2_not_collinear (n : Vec3) (pts : List Vec3) (a b c : Vec3)
    (ha : a ∈ pts) (hb : b ∈ pts) (hc : c ∈ pts)
    (hab : planePart n (a.sub b) ≠ Vec3.zero) (hbc : planePart n (b.sub c) ≠ Vec3.zero)
    (hca : planePart n (c.sub a) ≠ Vec3.zero)
    (va : isHullVertex2 n pts a = true) (vb : isHullVertex2 n pts b = true)
    (vc : isHullVertex2 n pts c = true) : orient2 n a b c ≠ 0 := by
  intro ho
  have hba : planePart n (b.sub a) ≠ Vec3.zero := fun h => hab ((planePart_neg n a b).mpr h)
  have hcb : planePart n (c.sub b) ≠ Vec3.zero := fun h => hbc ((planePart_neg n b c).mpr h)
  have hac : planePart n (a.sub c) ≠ Vec3.zero := fun h => hca ((planePart_neg n c a).mpr h)
  have hpar : (planePart n (c.sub a)).cross (planePart n (a.sub b)) = Vec3.zero := by
    rw [planePart_cross]
    have e : n.dot ((c.sub a).cross (a.sub b)) = orient2 n a b c := by
      simp only [orient2, Vec3.dot, Vec3.cross, Vec3.sub]; ring
    rw [e, ho]
    simp [Vec3.smul, Vec3.zero]
  have ho2 : orient2 n b c a = 0 := by
    rw [← ho]; simp only [orient2, Vec3.dot, Vec3.cross, Vec3.sub]; ring
  have ho3 : orient2 n c a b = 0 := by
    rw [← ho]; simp only [orient2, Vec3.dot, Vec3.cross, Vec3.sub]; ring
  rcases parallel_dots _ _ hpar with h | h | h
  · -- c lies between a and b
    have := ((isHullVertex2_eq_true n pts c).mp vc a ha hac b hb hbc).1
    rw [← planePart_sub3] at h
    simp [onSegment2, ho, h] at this
  · -- a lies between b and c
    have := ((isHullVertex2_eq_true n pts a).mp va b hb hba c hc hca).1
    simp [onSegment2, ho2, h] at this
  · -- b lies between c and a
    have := ((isHullVertex2_eq_true n pts b).mp vb c hc hcb a ha hab).1
    rw [← planePart_sub3] at h
    simp [onSegment2, ho3, h] at this

theorem isHullVertex3_eq_true (pts : List Vec3) (p : Vec3) :
    isHullVertex3 pts p = true ↔
      ∀ a ∈ pts, a ≠ p → ∀ b ∈ pts, b ≠ p →
        onSegment3 a b p = false ∧
        ∀ c ∈ pts, c ≠ p → inTriangle3 a b c p = false ∧
          ∀ d ∈ pts, d ≠ p → inTetrahedron a b c d p = false := by
  unfold isHullVertex3
  simp only [Bool.not_eq_true', List.any_eq_false, List.mem_filter, decide_eq_true_eq,
    Bool.or_eq_false_iff, and_imp, Bool.not_eq_true]

theorem isHullVertex3_mono (R S : List Vec3) (p : Vec3) (h : ∀ q ∈ R, q ∈ S)
    (hv : isHullVertex3 S p = true) : isHullVertex3 R p = true := by
  rw [isHullVertex3_eq_true] at hv ⊢
  intro a ha ha2 b hb hb2
  obtain ⟨h1, h2⟩ := hv a (h a ha) ha2 b (h b hb) hb2
  refine ⟨h1, fun c hc hc2 => ?_⟩
  obtain ⟨h3, h4⟩ := h2 c (h c hc) hc2
  exact ⟨h3, fun d hd hd2 => h4 d (h d hd) hd2⟩

/-- Three hull vertices (in space) at different points are not collinear. -/
theorem hull_vertices3_not_collinear (pts : List Vec3) (a b c : Vec3)
    (ha : a ∈ pts) (hb : b ∈ pts) (hc : c ∈ pts)
    (hab : a ≠ b) (hbc : b ≠ c) (hca : c ≠ a)
    (va : isHullVertex3 pts a = true) (vb : isHullVertex3 pts b = true)
    (vc : isHullVertex3 pts c = true) : (b.sub a).cross (c.sub a) ≠ Vec3.zero := by
  intro ho
  have hpar : (c.sub a).cross (a.sub b) = Vec3.zero := by
    rw [Vec3.ext_iff3] at ho ⊢
    simp only [Vec3.cross, Vec3.sub, Vec3.zero] at ho ⊢
    obtain ⟨h1, h2, h3⟩ := ho
    refine ⟨by linear_combination h1, by linear_combination h2, by linear_combination h3⟩
  have ho2 : (c.sub b).cross (a.sub b) = Vec3.zero := by
    rw [Vec3.ext_iff3] at ho ⊢
    simp only [Vec3.cross, Vec3.sub, Vec3.zero] at ho ⊢
    obtain ⟨h1, h2, h3⟩ := ho
    refine ⟨by linear_combination h1, by linear_combination h2, by linear_combination h3⟩
  have ho3 : (a.sub c).cross (b.sub c) = Vec3.zero := by
    rw [Vec3.ext_iff3] at ho ⊢
    simp only [Vec3.cross, Vec3.sub, Vec3.zero] at ho ⊢
    obtain ⟨h1, h2, h3⟩ := ho
    refine ⟨by linear_combination h1, by linear_combination h2, by linear_combination h3⟩
  have e1 : ((c.sub a).neg).sub (a.sub b) = b.sub c := by
    rw [Vec3.ext_iff3]
    simp only [Vec3.sub, Vec3.neg]
    refine ⟨by ring, by ring, by ring⟩
  rcases parallel_dots _ _ hpar with h | h | h
  · have := ((isHullVertex3_eq_true pts c).mp vc a ha hca.symm b hb hbc).1
    rw [e1] at h
    simp [onSegment3, ho, h] at this
  · have := ((isHullVertex3_eq_true pts a).mp va b hb hab.symm c hc hca).1
    simp [onSegment3, ho2, h] at this
  · have := ((isHullVertex3_eq_true pts b).mp vb c hc hbc.symm a ha hab).1
    rw [e1] at h
    simp [onSegment3, ho3, h] at this

end HullVertices

section ExtremePoints

theorem tetra_weights (a b c d q : Vec3) :
    orient3 q b c d + orient3 a q c d + orient3 a b q d + orient3 a b c q = orient3 a b c d ∧
    orient3 a b c d * q.x =
      orient3 q b c d * a.x + orient3 a q c d * b.x + orient3 a b q d * c.x +
        orient3 a b c q * d.x ∧
    orient3 a b c d * q.y =
      orient3 q b c d * a.y + orient3 a q c d * b.y + orient3 a b q d * c.y +
        orient3 a b c q * d.y ∧
    orient3 a b c d * q.z =
      orient3 q b c d * a.z + orient3 a q c d * b.z + orient3 a b q d * c.z +
        orient3 a b c q * d.z := by
  simp only [orient3, Vec3.dot, Vec3.cross, Vec3.sub]
  refine ⟨by ring, by ring, by ring, by ring⟩

theorem triangle_weights (a b c q : Vec3) (h : orient3 a b c q = 0) :
    orient2 ((b.sub a).cross (c.sub a)) b c q + orient2 ((b.sub a).cross (c.sub a)) c a q +
      orient2 ((b.sub a).cross (c.sub a)) a b q =
      ((b.sub a).cross (c.sub a)).dot ((b.sub a).cross (c.sub a)) ∧
    ((b.sub a).cross (c.sub a)).dot ((b.sub a).cross (c.sub a)) * q.x =
      orient2 ((b.sub a).cross (c.sub a)) b c q * a.x +
      orient2 ((b.sub a).cross (c.sub a)) c a q * b.x +
      orient2 ((b.sub a).cross (c.sub a)) a b q * c.x ∧
    ((b.sub a).cross (c.sub a)).dot ((b.sub a).cross (c.sub a)) * q.y =
      orient2 ((b.sub a).cross (c.sub a)) b c q * a.y +
      orient2 ((b.sub a).cross (c.sub a)) c a q * b.y +
      orient2 ((b.sub a).cross (c.sub a)) a b q * c.y ∧
    ((b.sub a).cross (c.sub a)).dot ((b.sub a).cross (c.sub a)) * q.z =
      orient2 ((b.sub a).cross (c.sub a)) b c q * a.z +
      orient2 ((b.sub a).cross (c.sub a)) c a q * b.z +
      orient2 ((b.sub a).cross (c.sub a)) a b q * c.z := by
  simp only [orient3, orient2, Vec3.dot, Vec3.cross, Vec3.sub] at h ⊢
  refine ⟨by ring, ?_, ?_, ?_⟩
  · linear_combination
      ((b.y - a.y) * (c.z - a.z) - (b.z - a.z) * (c.y - a.y)) * h
  · linear_combination
      ((b.z - a.z) * (c.x - a.x) - (b.x - a.x) * (c.z - a.z)) * h
  · linear_combination
      ((b.x - a.x) * (c.y - a.y) - (b.y - a.y) * (c.x - a.x)) * h

theorem segment_weights (a b q : Vec3) (h : (b.sub a).cross (q.sub a) = Vec3.zero)
    (hd : 0 ≤ (q.sub a).dot (b.sub q)) :
    0 ≤ (b.sub q).dot (b.sub a) ∧ 0 ≤ (q.sub a).dot (b.sub a) ∧
    (b.sub q).dot (b.sub a) + (q.sub a).dot (b.sub a) = (b.sub a).dot (b.sub a) ∧
    (b.sub a).dot (b.sub a) * q.x =
      (b.sub q).dot (b.sub a) * a.x + (q.sub a).dot (b.sub a) * b.x ∧
    (b.sub a).dot (b.sub a) * q.y =
      (b.sub q).dot (b.sub a) * a.y + (q.sub a).dot (b.sub a) * b.y ∧
    (b.sub a).dot (b.sub a) * q.z =
      (b.sub q).dot (b.sub a) * a.z + (q.sub a).dot (b.sub a) * b.z := by
  rw [Vec3.ext_iff3] at h
  simp only [Vec3.dot, Vec3.cross, Vec3.sub, Vec3.zero] at h hd ⊢
  obtain ⟨h1, h2, h3⟩ := h
  have hsum : ((b.x - q.x) * (b.x - a.x) + (b.y - q.y) * (b.y - a.y) + (b.z - q.z) * (b.z - a.z)) +
      ((q.x - a.x) * (b.x - a.x) + (q.y - a.y) * (b.y - a.y) + (q.z - a.z) * (b.z - a.z)) =
      (b.x - a.x) * (b.x - a.x) + (b.y - a.y) * (b.y - a.y) + (b.z - a.z) * (b.z - a.z) := by
    ring
  have hprod : ((b.x - q.x) * (b.x - a.x) + (b.y - q.y) * (b.y - a.y) + (b.z - q.z) * (b.z - a.z)) *
      ((q.x - a.x) * (b.x - a.x) + (q.y - a.y) * (b.y - a.y) + (q.z - a.z) * (b.z - a.z)) =
      ((q.x - a.x) * (b.x - q.x) + (q.y - a.y) * (b.y - q.y) + (q.z - a.z) * (b.z - q.z)) *
      ((b.x - a.x) * (b.x - a.x) + (b.y - a.y) * (b.y - a.y) + (b.z - a.z) * (b.z - a.z)) := by
    linear_combination
      ((b.y - a.y) * (q.z - a.z) - (b.z - a.z) * (q.y - a.y)) * h1 +
      ((b.z - a.z) * (q.x - a.x) - (b.x - a.x) * (q.z - a.z)) * h2 +
      ((b.x - a.x) * (q.y - a.y) - (b.y - a.y) * (q.x - a.x)) * h3
  have hu : 0 ≤ (b.x - a.x) * (b.x - a.x) + (b.y - a.y) * (b.y - a.y) +
      (b.z - a.z) * (b.z - a.z) := by
    nlinarith [mul_self_nonneg (b.x - a.x), mul_self_nonneg (b.y - a.y),
      mul_self_nonneg (b.z - a.z)]
  set wa := (b.x - q.x) * (b.x - a.x) + (b.y - q.y) * (b.y - a.y) + (b.z - q.z) * (b.z - a.z)
  set wb := (q.x - a.x) * (b.x - a.x) + (q.y - a.y) * (b.y - a.y) + (q.z - a.z) * (b.z - a.z)
  set uu := (b.x - a.x) * (b.x - a.x) + (b.y - a.y) * (b.y - a.y) + (b.z - a.z) * (b.z - a.z)
  have hp : 0 ≤ wa * wb := by rw [hprod]; exact mul_nonneg hd hu
  have hwa : 0 ≤ wa := by
    by_contra hneg
    push_neg at hneg
    have : wb ≤ 0 := by
      by_contra hb
      push_neg at hb
      nlinarith
    linarith
  have hwb : 0 ≤ wb := by
    by_contra hneg
    push_neg at hneg
    have : wa ≤ 0 := by
      by_contra hb
      push_neg at hb
      nlinarith
    linarith
  refine ⟨hwa, hwb, hsum, ?_, ?_, ?_⟩
  · linear_combination (b.z - a.z) * h2 - (b.y - a.y) * h3
  · linear_combination (-(b.z - a.z)) * h1 + (b.x - a.x) * h3
  · linear_combination (b.y - a.y) * h1 - (b.x - a.x) * h2

end ExtremePoints

section LexMax

theorem lexKey_le_iff (m a q : Vec3) :
    lexKey m a ≤ lexKey m q ↔
      m.dot a < m.dot q ∨ (m.dot a = m.dot q ∧ (a.x < q.x ∨ (a.x = q.x ∧
        (a.y < q.y ∨ (a.y = q.y ∧ a.z ≤ q.z))))) := by
  unfold lexKey
  simp only [Prod.Lex.le_iff, ofLex_toLex]

theorem exists_lexKey_max (m : Vec3) :
    ∀ pts : List Vec3, pts ≠ [] → ∃ q ∈ pts, ∀ p ∈ pts, lexKey m p ≤ lexKey m q
  | [], h => absurd rfl h
  | [a], _ => ⟨a, List.mem_cons_self _ _, fun p hp => by
      rw [List.mem_singleton] at hp
      rw [hp]⟩
  | a :: b :: t, _ => by
    obtain ⟨q, hq, hmax⟩ := exists_lexKey_max m (b :: t) (by simp)
    rcases le_total (lexKey m a) (lexKey m q) with h | h
    · refine ⟨q, List.mem_cons_of_mem _ hq, fun p hp => ?_⟩
      rcases List.mem_cons.mp hp with rfl | hp
      · exact h
      · exact hmax p hp
    · refine ⟨a, List.mem_cons_self _ _, fun p hp => ?_⟩
      rcases List.mem_cons.mp hp with rfl | hp
      · exact le_refl _
      · exact le_trans (hmax p hp) h

theorem four_nonneg_sum_zero {t1 t2 t3 t4 : ℚ} (h1 : 0 ≤ t1) (h2 : 0 ≤ t2) (h3 : 0 ≤ t3)
    (h4 : 0 ≤ t4) (hs : t1 + t2 + t3 + t4 = 0) : t1 = 0 ∧ t2 = 0 ∧ t3 = 0 ∧ t4 = 0 :=
  ⟨by linarith, by linarith, by linarith, by linarith⟩

/-- A point that is maximal for `lexKey` is not a convex combination of four points other than
itself. -/
theorem no_proper_combination (m q a b c d : Vec3) (wa wb wc wd : ℚ)
    (hwa : 0 ≤ wa) (hwb : 0 ≤ wb) (hwc : 0 ≤ wc) (hwd : 0 ≤ wd)
    (hpos : 0 < wa + wb + wc + wd)
    (hx : (wa + wb + wc + wd) * q.x = wa * a.x + wb * b.x + wc * c.x + wd * d.x)
    (hy : (wa + wb + wc + wd) * q.y = wa * a.y + wb * b.y + wc * c.y + wd * d.y)
    (hz : (wa + wb + wc + wd) * q.z = wa * a.z + wb * b.z + wc * c.z + wd * d.z)
    (la : lexKey m a ≤ lexKey m q) (lb : lexKey m b ≤ lexKey m q)
    (lc : lexKey m c ≤ lexKey m q) (ld : lexKey m d ≤ lexKey m q)
    (na : a ≠ q) (nb : b ≠ q) (nc : c ≠ q) (nd : d ≠ q) : False := by
  rw [lexKey_le_iff] at la lb lc ld
  have hm : (wa + wb + wc + wd) * m.dot q =
      wa * m.dot a + wb * m.dot b + wc * m.dot c + wd * m.dot d := by
    simp only [Vec3.dot]
    linear_combination m.x * hx + m.y * hy + m.z * hz
  -- a single point: a positive weight forces the point to be `q`
  have key : ∀ (w : ℚ) (v : Vec3), 0 ≤ w → v ≠ q →
      (m.dot v < m.dot q ∨ (m.dot v = m.dot q ∧ (v.x < q.x ∨ (v.x = q.x ∧
        (v.y < q.y ∨ (v.y = q.y ∧ v.z ≤ q.z)))))) →
      w * (m.dot q - m.dot v) = 0 → w * (q.x - v.x) = 0 → w * (q.y - v.y) = 0 →
      w * (q.z - v.z) = 0 → w = 0 := by
    intro w v _ hv _ e1 e2 e3 e4
    by_contra hw
    have f1 := (mul_eq_zero.mp e1).resolve_left hw
    have f2 := (mul_eq_zero.mp e2).resolve_left hw
    have f3 := (mul_eq_zero.mp e3).resolve_left hw
    have f4 := (mul_eq_zero.mp e4).resolve_left hw
    apply hv
    rw [Vec3.ext_iff3]
    exact ⟨by linarith, by linarith, by linarith⟩
  -- level 1: the linear function
  have d1 : ∀ (w : ℚ) (v : Vec3), 0 ≤ w →
      (m.dot v < m.dot q ∨ (m.dot v = m.dot q ∧ (v.x < q.x ∨ (v.x = q.x ∧
        (v.y < q.y ∨ (v.y = q.y ∧ v.z ≤ q.z)))))) → 0 ≤ w * (m.dot q - m.dot v) := by
    intro w v hw h
    apply mul_nonneg hw
    rcases h with h | ⟨h, _⟩ <;> linarith
  obtain ⟨a1, b1, c1, e1⟩ := four_nonneg_sum_zero (d1 wa a hwa la) (d1 wb b hwb lb)
    (d1 wc c hwc lc) (d1 wd d hwd ld) (by linear_combination hm)
  -- level 2: the first coordinate
  have d2 : ∀ (w : ℚ) (v : Vec3), 0 ≤ w →
      (m.dot v < m.dot q ∨ (m.dot v = m.dot q ∧ (v.x < q.x ∨ (v.x = q.x ∧
        (v.y < q.y ∨ (v.y = q.y ∧ v.z ≤ q.z)))))) →
      w * (m.dot q - m.dot v) = 0 → 0 ≤ w * (q.x - v.x) := by
    intro w v hw h e
    rcases mul_eq_zero.mp e with e | e
    · rw [e]; simp
    · apply mul_nonneg hw
      rcases h with h | ⟨_, h | ⟨h, _⟩⟩ <;> linarith
  obtain ⟨a2, b2, c2, e2⟩ := four_nonneg_sum_zero (d2 wa a hwa la a1) (d2 wb b hwb lb b1)
    (d2 wc c hwc lc c1) (d2 wd d hwd ld e1) (by linear_combination hx)
  -- level 3: the second coordinate
  have d3 : ∀ (w : ℚ) (v : Vec3), 0 ≤ w →
      (m.dot v < m.dot q ∨ (m.dot v = m.dot q ∧ (v.x < q.x ∨ (v.x = q.x ∧
        (v.y < q.y ∨ (v.y = q.y ∧ v.z ≤ q.z)))))) →
      w * (m.dot q - m.dot v) = 0 → w * (q.x - v.x) = 0 → 0 ≤ w * (q.y - v.y) := by
    intro w v hw h e f
    rcases mul_eq_zero.mp e with e | e
    · rw [e]; simp
    · rcases mul_eq_zero.mp f with f | f
      · rw [f]; simp
      · apply mul_nonneg hw
        rcases h with h | ⟨_, h | ⟨_, h | ⟨h, _⟩⟩⟩ <;> linarith
  obtain ⟨a3, b3, c3, e3⟩ := four_nonneg_sum_zero (d3 wa a hwa la a1 a2)
    (d3 wb b hwb lb b1 b2) (d3 wc c hwc lc c1 c2) (d3 wd d hwd ld e1 e2)
    (by linear_combination hy)
  -- level 4: the third coordinate
  have d4 : ∀ (w : ℚ) (v : Vec3), 0 ≤ w →
      (m.dot v < m.dot q ∨ (m.dot v = m.dot q ∧ (v.x < q.x ∨ (v.x = q.x ∧
        (v.y < q.y ∨ (v.y = q.y ∧ v.z ≤ q.z)))))) →
      w * (m.dot q - m.dot v) = 0 → w * (q.x - v.x) = 0 → w * (q.y - v.y) = 0 →
      0 ≤ w * (q.z - v.z) := by
    intro w v hw h e f g
    rcases mul_eq_zero.mp e with e | e
    · rw [e]; simp
    · rcases mul_eq_zero.mp f with f | f
      · rw [f]; simp
      · rcases mul_eq_zero.mp g with g | g
        · rw [g]; simp
        · apply mul_nonneg hw
          rcases h with h | ⟨_, h | ⟨_, h | ⟨_, h⟩⟩⟩ <;> linarith
  obtain ⟨a4, b4, c4, e4⟩ := four_nonneg_sum_zero (d4 wa a hwa la a1 a2 a3)
    (d4 wb b hwb lb b1 b2 b3) (d4 wc c hwc lc c1 c2 c3) (d4 wd d hwd ld e1 e2 e3)
    (by linear_combination hz)
  have za := key wa a hwa na la a1 a2 a3 a4
  have zb := key wb b hwb nb lb b1 b2 b3 b4
  have zc := key wc c hwc nc lc c1 c2 c3 c4
  have zd := key wd d hwd nd ld e1 e2 e3 e4
  rw [za, zb, zc, zd] at hpos
  simp at hpos

end LexMax

section Extreme

theorem Vec3.dot_self_pos (v : Vec3) (h : v ≠ Vec3.zero) : 0 < v.dot v := by
  have h0 : 0 ≤ v.dot v := by
    simp only [Vec3.dot]
    nlinarith [mul_self_nonneg v.x, mul_self_nonneg v.y, mul_self_nonneg v.z]
  rcases lt_or_eq_of_le h0 with h1 | h1
  · exact h1
  · exfalso
    apply h
    rw [Vec3.ext_iff3]
    simp only [Vec3.dot] at h1
    simp only [Vec3.zero]
    have hx : v.x * v.x = 0 := by
      nlinarith [mul_self_nonneg v.x, mul_self_nonneg v.y, mul_self_nonneg v.z]
    have hy : v.y * v.y = 0 := by
      nlinarith [mul_self_nonneg v.x, mul_self_nonneg v.y, mul_self_nonneg v.z]
    have hz : v.z * v.z = 0 := by
      nlinarith [mul_self_nonneg v.x, mul_self_nonneg v.y, mul_self_nonneg v.z]
    exact ⟨mul_self_eq_zero.mp hx, mul_self_eq_zero.mp hy, mul_self_eq_zero.mp hz⟩

theorem Vec3.sub_ne_zero (a b : Vec3) (h : a ≠ b) : a.sub b ≠ Vec3.zero := by
  intro h0
  apply h
  rw [Vec3.ext_iff3] at h0 ⊢
  simp only [Vec3.sub, Vec3.zero] at h0
  exact ⟨by linarith [h0.1], by linarith [h0.2.1], by linarith [h0.2.2]⟩

/-- A point that is maximal for `lexKey` is a vertex of the hull. -/
theorem lexKey_max_isHullVertex3 (m : Vec3) (pts : List Vec3) (q : Vec3)
    (hmax : ∀ p ∈ pts, lexKey m p ≤ lexKey m q) : isHullVertex3 pts q = true := by
  rw [isHullVertex3_eq_true]
  intro a ha na b hb nb
  refine ⟨?_, fun c hc nc => ⟨?_, fun d hd nd => ?_⟩⟩
  · -- not on a segment
    by_contra hs
    rw [Bool.not_eq_false] at hs
    simp only [onSegment3, Bool.and_eq_true, decide_eq_true_eq] at hs
    obtain ⟨hcr, hd⟩ := hs
    obtain ⟨w1, w2, hsum, hx, hy, hz⟩ := segment_weights a b q hcr hd
    have hpos : 0 < (b.sub a).dot (b.sub a) := by
      by_cases hab : b = a
      · exfalso
        rw [hab] at hd
        have hq := Vec3.dot_self_pos (q.sub a) (Vec3.sub_ne_zero q a (fun h => na h.symm))
        simp only [Vec3.dot, Vec3.sub] at hd hq
        nlinarith
      · exact Vec3.dot_self_pos _ (Vec3.sub_ne_zero b a hab)
    exact no_proper_combination m q a b a a _ _ 0 0 w1 w2 (le_refl _) (le_refl _)
      (by linarith)
      (by linear_combination q.x * hsum + hx) (by linear_combination q.y * hsum + hy)
      (by linear_combination q.z * hsum + hz)
      (hmax a ha) (hmax b hb) (hmax a ha) (hmax a ha) na nb na na
  · -- not in a triangle
    by_contra hs
    rw [Bool.not_eq_false] at hs
    simp only [inTriangle3, Bool.and_eq_true, decide_eq_true_eq] at hs
    obtain ⟨⟨⟨⟨hn, ho⟩, h1⟩, h2⟩, h3⟩ := hs
    obtain ⟨hsum, hx, hy, hz⟩ := triangle_weights a b c q ho
    have hpos := Vec3.dot_self_pos _ hn
    exact no_proper_combination m q a b c a _ _ _ 0 h2 h3 h1 (le_refl _)
      (by linarith)
      (by linear_combination q.x * hsum + hx) (by linear_combination q.y * hsum + hy)
      (by linear_combination q.z * hsum + hz)
      (hmax a ha) (hmax b hb) (hmax c hc) (hmax a ha) na nb nc na
  · -- not in a tetrahedron
    by_contra hs
    rw [Bool.not_eq_false] at hs
    obtain ⟨hsum, hx, hy, hz⟩ := tetra_weights a b c d q
    simp only [inTetrahedron, Bool.or_eq_true, Bool.and_eq_true, decide_eq_true_eq] at hs
    rcases hs with ⟨⟨⟨⟨ho, h1⟩, h2⟩, h3⟩, h4⟩ | ⟨⟨⟨⟨ho, h1⟩, h2⟩, h3⟩, h4⟩
    · exact no_proper_combination m q a b c d _ _ _ _ h1 h2 h3 h4
        (by linarith)
        (by linear_combination q.x * hsum + hx) (by linear_combination q.y * hsum + hy)
        (by linear_combination q.z * hsum + hz)
        (hmax a ha) (hmax b hb) (hmax c hc) (hmax d hd) na nb nc nd
    · exact no_proper_combination m q a b c d (-orient3 q b c d) (-orient3 a q c d)
        (-orient3 a b q d) (-orient3 a b c q) (by linarith) (by linarith) (by linarith)
        (by linarith) (by linarith)
        (by linear_combination (-q.x) * hsum - hx) (by linear_combination (-q.y) * hsum - hy)
        (by linear_combination (-q.z) * hsum - hz)
        (hmax a ha) (hmax b hb) (hmax c hc) (hmax d hd) na nb nc nd

/-- A non-empty point set has a hull vertex. -/
theorem exists_isHullVertex3 (pts : List Vec3) (h : pts ≠ []) :
    ∃ q ∈ pts, isHullVertex3 pts q = true := by
  obtain ⟨q, hq, hmax⟩ := exists_lexKey_max Vec3.zero pts h
  exact ⟨q, hq, lexKey_max_isHullVertex3 _ pts q hmax⟩

/-- A plane that contains the hull vertices contains all the points. -/
theorem plane_of_hull_vertices (m : Vec3) (k : ℚ) (pts : List Vec3)
    (h : ∀ q ∈ pts, isHullVertex3 pts q = true → m.dot q = k) :
    ∀ p ∈ pts, m.dot p = k := by
  intro p hp
  have hne : pts ≠ [] := List.ne_nil_of_mem hp
  apply le_antisymm
  · obtain ⟨q, hq, hmax⟩ := exists_lexKey_max m pts hne
    have hv := h q hq (lexKey_max_isHullVertex3 _ pts q hmax)
    have := (lexKey_le_iff m p q).mp (hmax p hp)
    rcases this with h1 | ⟨h1, _⟩ <;> linarith
  · obtain ⟨q, hq, hmax⟩ := exists_lexKey_max m.neg pts hne
    have hv := h q hq (lexKey_max_isHullVertex3 _ pts q hmax)
    have := (lexKey_le_iff m.neg p q).mp (hmax p hp)
    have e : ∀ v : Vec3, m.neg.dot v = -(m.dot v) := by
      intro v; simp only [Vec3.dot, Vec3.neg]; ring
    rw [e, e] at this
    rcases this with h1 | ⟨h1, _⟩ <;> linarith

/-- Four points of a plane span no volume. -/
theorem orient3_of_plane (m : Vec3) (k : ℚ) (hm : m ≠ Vec3.zero) (a b c d : Vec3)
    (ha : m.dot a = k) (hb : m.dot b = k) (hc : m.dot c = k) (hd : m.dot d = k) :
    orient3 a b c d = 0 := by
  have hx : orient3 a b c d * m.x = 0 := by
    simp only [orient3, Vec3.dot, Vec3.cross, Vec3.sub] at ha hb hc hd ⊢
    linear_combination
      ((c.y - a.y) * (d.z - a.z) - (c.z - a.z) * (d.y - a.y)) * (hb - ha) +
      ((d.y - a.y) * (b.z - a.z) - (d.z - a.z) * (b.y - a.y)) * (hc - ha) +
      ((b.y - a.y) * (c.z - a.z) - (b.z - a.z) * (c.y - a.y)) * (hd - ha)
  have hy : orient3 a b c d * m.y = 0 := by
    simp only [orient3, Vec3.dot, Vec3.cross, Vec3.sub] at ha hb hc hd ⊢
    linear_combination
      ((c.z - a.z) * (d.x - a.x) - (c.x - a.x) * (d.z - a.z)) * (hb - ha) +
      ((d.z - a.z) * (b.x - a.x) - (d.x - a.x) * (b.z - a.z)) * (hc - ha) +
      ((b.z - a.z) * (c.x - a.x) - (b.x - a.x) * (c.z - a.z)) * (hd - ha)
  have hz : orient3 a b c d * m.z = 0 := by
    simp only [orient3, Vec3.dot, Vec3.cross, Vec3.sub] at ha hb hc hd ⊢
    linear_combination
      ((c.x - a.x) * (d.y - a.y) - (c.y - a.y) * (d.x - a.x)) * (hb - ha) +
      ((d.x - a.x) * (b.y - a.y) - (d.y - a.y) * (b.x - a.x)) * (hc - ha) +
      ((b.x - a.x) * (c.y - a.y) - (b.y - a.y) * (c.x - a.x)) * (hd - ha)
  by_contra ho
  apply hm
  rw [Vec3.ext_iff3]
  simp only [Vec3.zero]
  exact ⟨(mul_eq_zero.mp hx).resolve_left ho, (mul_eq_zero.mp hy).resolve_left ho,
    (mul_eq_zero.mp hz).resolve_left ho⟩

end Extreme

section FixedPoint

theorem head_last_middle (R : List Contact) (hnd : R.Nodup) (hlen : ¬ R.length ≤ 3) :
    ∃ f b x, R.head? = some f ∧ R.getLast? = some b ∧ x ∈ (R.drop 1).dropLast ∧
      f ∈ R ∧ b ∈ R ∧ x ∈ R ∧ f ≠ b ∧ b ≠ x ∧ x ≠ f := by
  cases R with
  | nil => simp at hlen
  | cons f t =>
    have ht : t ≠ [] := by
      intro h; rw [h] at hlen; simp at hlen
    obtain ⟨mid, b, rfl⟩ : ∃ mid b, t = mid ++ [b] :=
      ⟨t.dropLast, t.getLast ht, (List.dropLast_append_getLast ht).symm⟩
    cases mid with
    | nil => simp at hlen
    | cons x mid2 =>
      refine ⟨f, b, x, rfl, ?_, ?_, by simp, by simp, by simp, ?_, ?_, ?_⟩
      · rw [show f :: (x :: mid2 ++ [b]) = (f :: x :: mid2) ++ [b] from rfl,
          List.getLast?_append]
        simp
      · rw [List.drop_one, List.tail_cons,
          show x :: mid2 ++ [b] = (x :: mid2) ++ [b] from rfl, List.dropLast_concat]
        simp
      · intro h
        rw [h] at hnd
        simp at hnd
      · intro h
        rw [h] at hnd
        simp at hnd
      · intro h
        rw [h] at hnd
        simp at hnd

theorem collinear_check_false (env : GeomEnv) (R : List Contact) (f b x : Contact)
    (hf : R.head? = some f) (hb : R.getLast? = some b) (hx : x ∈ (R.drop 1).dropLast)
    (hc : env.collinear f.contact_point b.contact_point x.contact_point = false) :
    collinear_check env R = false := by
  unfold collinear_check
  rw [hf, hb]
  simp only
  rw [List.all_eq_false]
  exact ⟨x, hx, by simp [hc]⟩

theorem keep_hull_filter (p : Vec3 → Bool) (S : List Contact)
    (hA : ∀ c ∈ S, ∀ d ∈ S, c.addr = d.addr → c = d) :
    keep_hull (((S.map (fun c => (c.addr, c.contact_point))).filter (fun q => p q.2)).map
      (fun q => q.1)) S = S.filter (fun c => p c.contact_point) := by
  unfold keep_hull
  apply List.filter_congr
  intro c hc
  rw [Bool.eq_iff_iff]
  simp only [List.contains_iff_exists_mem_beq, List.mem_map, List.mem_filter, beq_iff_eq]
  constructor
  · rintro ⟨a, ⟨q, ⟨⟨d, hd, rfl⟩, hp⟩, rfl⟩, hca⟩
    simp only at hp hca
    rw [hA c hc d hd hca]
    exact hp
  · intro hp
    exact ⟨c.addr, ⟨(c.addr, c.contact_point), ⟨⟨c, hc, rfl⟩, hp⟩, rfl⟩, rfl⟩

theorem keep_endpoints_length (env : GeomEnv) (S : List Contact) (hnd : S.Nodup)
    (hA : ∀ c ∈ S, ∀ d ∈ S, c.addr = d.addr → c = d) :
    (keep_endpoints env S).length ≤ 2 := by
  cases S with
  | nil => simp [keep_endpoints]
  | cons c cs =>
    obtain ⟨h1, h2⟩ :=
      determine_seg_endpoints_mem env.sqrt (fun k : Contact => k.contact_point) c cs
    unfold keep_endpoints
    simp only
    set ep := determine_seg_endpoints env.sqrt (fun k : Contact => k.contact_point) c cs
    have hsub : (List.filter (fun k => k.addr == ep.1.addr || k.addr == ep.2.addr)
        (c :: cs)) ⊆ [ep.1, ep.2] := by
      intro k hk
      obtain ⟨hkS, hkp⟩ := List.mem_filter.mp hk
      simp only [Bool.or_eq_true, beq_iff_eq] at hkp
      rcases hkp with h | h
      · rw [hA k hkS _ h1 h]; simp
      · rw [hA k hkS _ h2 h]; simp
    have := (List.Nodup.subperm (hnd.filter _) hsub).length_le
    simpa using this

end FixedPoint

section PlaneAlgebra

theorem Vec3.ne_zero_of_dot_ne_zero (n m : Vec3) (h : n.dot m ≠ 0) : n ≠ Vec3.zero := by
  intro h0
  apply h
  rw [h0]
  simp [Vec3.dot, Vec3.zero]

/-- Two different points of a plane orthogonal to `n` project to different points. -/
theorem planePart_ne_zero_planar (n p q : Vec3) (hn : n ≠ Vec3.zero)
    (hd : n.dot q = n.dot p) (hne : q ≠ p) : planePart n (q.sub p) ≠ Vec3.zero := by
  intro h0
  have hpos := Vec3.dot_self_pos n hn
  apply hne
  rw [Vec3.ext_iff3] at h0 ⊢
  simp only [planePart, Vec3.sub, Vec3.smul, Vec3.dot, Vec3.zero] at h0 hd hpos
  obtain ⟨h1, h2, h3⟩ := h0
  have e : (q.x - p.x) * n.x + (q.y - p.y) * n.y + (q.z - p.z) * n.z = 0 := by
    linear_combination hd
  rw [e] at h1 h2 h3
  simp only [mul_zero, sub_zero] at h1 h2 h3
  have hne0 : n.x * n.x + n.y * n.y + n.z * n.z ≠ 0 := ne_of_gt hpos
  refine ⟨?_, ?_, ?_⟩
  · have := (mul_eq_zero.mp h1).resolve_right hne0; linarith
  · have := (mul_eq_zero.mp h2).resolve_right hne0; linarith
  · have := (mul_eq_zero.mp h3).resolve_right hne0; linarith

/-- Two different points of a plane with normal `m` project to different points along a
direction `n` that is not parallel to the plane. -/
theorem planePart_ne_zero_coplanar (n m p q : Vec3) (hnm : n.dot m ≠ 0)
    (hd : m.dot q = m.dot p) (hne : q ≠ p) : planePart n (q.sub p) ≠ Vec3.zero := by
  intro h0
  have hn := Vec3.ne_zero_of_dot_ne_zero n m hnm
  have hvn : n.dot q = n.dot p := by
    rw [Vec3.ext_iff3] at h0
    simp only [planePart, Vec3.sub, Vec3.smul, Vec3.dot, Vec3.zero] at h0 hd hnm ⊢
    obtain ⟨h1, h2, h3⟩ := h0
    have e : ((q.x - p.x) * n.x + (q.y - p.y) * n.y + (q.z - p.z) * n.z) *
        (n.x * m.x + n.y * m.y + n.z * m.z) = 0 := by
      linear_combination (-m.x) * h1 - m.y * h2 - m.z * h3 +
        (n.x * n.x + n.y * n.y + n.z * n.z) * hd
    have := (mul_eq_zero.mp e).resolve_right hnm
    linarith
  exact planePart_ne_zero_planar n p q hn hvn hne h0

theorem collinearModel_false_of_orient2 (n a b c : Vec3) (h : orient2 n a b c ≠ 0) :
    collinearModel a b c = false := by
  simp only [collinearModel, decide_eq_false_iff_not]
  intro h0
  apply h
  unfold orient2
  rw [h0]
  simp [Vec3.dot, Vec3.zero]

theorem collinearModel_false_of_cross (a b c : Vec3)
    (h : (b.sub a).cross (c.sub a) ≠ Vec3.zero) : collinearModel a b c = false := by
  simp only [collinearModel, decide_eq_false_iff_not]
  exact h

/-- Three points that lie in two planes, one with normal `n` and one with normal `m`, project
along `n` onto one line when some direction of the second plane is not orthogonal to `n`. -/
theorem orient2_of_two_planes (n m f b x y z : Vec3) (hm : m ≠ Vec3.zero)
    (hmb : m.dot b = m.dot f) (hmx : m.dot x = m.dot f) (hmy : m.dot y = m.dot z)
    (hnb : n.dot b = n.dot f) (hnx : n.dot x = n.dot f) (hny : n.dot y ≠ n.dot z) :
    orient2 n f b x = 0 := by
  have hdet : orient3 f b x (f.add (y.sub z)) = 0 :=
    orient3_of_plane m (m.dot f) hm f b x (f.add (y.sub z)) rfl hmb hmx
      (by simp only [Vec3.dot, Vec3.add, Vec3.sub] at hmy ⊢; linear_combination hmy)
  have e : (n.dot y - n.dot z) * orient2 n f b x = 0 := by
    simp only [orient3, orient2, Vec3.dot, Vec3.cross, Vec3.sub, Vec3.add] at hdet hnb hnx ⊢
    linear_combination (n.x * n.x + n.y * n.y + n.z * n.z) * hdet -
      (n.x * ((x.y - f.y) * (y.z - z.z) - (x.z - f.z) * (y.y - z.y)) +
       n.y * ((x.z - f.z) * (y.x - z.x) - (x.x - f.x) * (y.z - z.z)) +
       n.z * ((x.x - f.x) * (y.y - z.y) - (x.y - f.y) * (y.x - z.x))) * hnb -
      (n.x * ((y.y - z.y) * (b.z - f.z) - (y.z - z.z) * (b.y - f.y)) +
       n.y * ((y.z - z.z) * (b.x - f.x) - (y.x - z.x) * (b.z - f.z)) +
       n.z * ((y.x - z.x) * (b.y - f.y) - (y.y - z.y) * (b.x - f.x))) * hnx
  exact (mul_eq_zero.mp e).resolve_left (sub_ne_zero.mpr hny)

end PlaneAlgebra

section Paths

theorem convexHull2DModel_eq_some (S : List Contact) (n : Vec3) (hull : List Nat)
    (h : convexHull2DModel (S.map (fun c => (c.addr, c.contact_point))) n = some hull) :
    n ≠ Vec3.zero ∧
    (∃ a ∈ S, ∃ b ∈ S, ∃ c ∈ S,
      orient2 n a.contact_point b.contact_point c.contact_point ≠ 0) ∧
    hull = (((S.map (fun c => (c.addr, c.contact_point))).filter
      (fun q => isHullVertex2 n (S.map (fun c => c.contact_point)) q.2)).map (fun q => q.1)) := by
  unfold convexHull2DModel at h
  simp only [List.map_map, Function.comp] at h
  split at h
  · exact absurd h (by simp)
  · rename_i hc
    rw [not_or] at hc
    obtain ⟨hn, hall⟩ := hc
    refine ⟨hn, ?_, ?_⟩
    · simp only [List.all_eq_true, List.mem_map, decide_eq_true_eq, forall_exists_index,
        and_imp, forall_apply_eq_imp_iff₂, not_forall] at hall
      obtain ⟨a, ha, b, hb, c, hc, ho⟩ := hall
      exact ⟨a, ha, b, hb, c, hc, ho⟩
    · simp only [Option.some.injEq] at h
      exact h.symm

theorem convexHull2DModel_some (S : List Contact) (n : Vec3) (hn : n ≠ Vec3.zero)
    (a b c : Contact) (ha : a ∈ S) (hb : b ∈ S) (hc : c ∈ S)
    (ho : orient2 n a.contact_point b.contact_point c.contact_point ≠ 0) :
    convexHull2DModel (S.map (fun c => (c.addr, c.contact_point))) n =
      some (((S.map (fun c => (c.addr, c.contact_point))).filter
        (fun q => isHullVertex2 n (S.map (fun c => c.contact_point)) q.2)).map
          (fun q => q.1)) := by
  unfold convexHull2DModel
  simp only [List.map_map, Function.comp]
  rw [if_neg]
  · rfl
  · rw [not_or]
    refine ⟨hn, ?_⟩
    simp only [List.all_eq_true, List.mem_map, decide_eq_true_eq, forall_exists_index,
      and_imp, forall_apply_eq_imp_iff₂, not_forall]
    exact ⟨a, ha, b, hb, c, hc, ho⟩

theorem convexHull3DModel_eq_some (S : List Contact) (hull : List Nat)
    (h : convexHull3DModel (S.map (fun c => (c.addr, c.contact_point))) = some hull) :
    (∃ a ∈ S, ∃ b ∈ S, ∃ c ∈ S, ∃ d ∈ S,
      orient3 a.contact_point b.contact_point c.contact_point d.contact_point ≠ 0) ∧
    hull = (((S.map (fun c => (c.addr, c.contact_point))).filter
      (fun q => isHullVertex3 (S.map (fun c => c.contact_point)) q.2)).map (fun q => q.1)) := by
  unfold convexHull3DModel at h
  simp only [List.map_map, Function.comp] at h
  split at h
  · exact absurd h (by simp)
  · rename_i hall
    refine ⟨?_, ?_⟩
    · simp only [List.all_eq_true, List.mem_map, decide_eq_true_eq, forall_exists_index,
        and_imp, forall_apply_eq_imp_iff₂, not_forall] at hall
      obtain ⟨a, ha, b, hb, c, hc, d, hd, ho⟩ := hall
      exact ⟨a, ha, b, hb, c, hc, d, hd, ho⟩
    · simp only [Option.some.injEq] at h
      exact h.symm

theorem convexHull3DModel_some (S : List Contact)
    (a b c d : Contact) (ha : a ∈ S) (hb : b ∈ S) (hc : c ∈ S) (hd : d ∈ S)
    (ho : orient3 a.contact_point b.contact_point c.contact_point d.contact_point ≠ 0) :
    convexHull3DModel (S.map (fun c => (c.addr, c.contact_point))) =
      some (((S.map (fun c => (c.addr, c.contact_point))).filter
        (fun q => isHullVertex3 (S.map (fun c => c.contact_point)) q.2)).map
          (fun q => q.1)) := by
  unfold convexHull3DModel
  simp only [List.map_map, Function.comp]
  rw [if_neg]
  · rfl
  · simp only [List.all_eq_true, List.mem_map, decide_eq_true_eq, forall_exists_index,
      and_imp, forall_apply_eq_imp_iff₂, not_forall]
    exact ⟨a, ha, b, hb, c, hc, d, hd, ho⟩

theorem convexHull3DModel_none (S : List Contact)
    (h : ∀ a ∈ S, ∀ b ∈ S, ∀ c ∈ S, ∀ d ∈ S,
      orient3 a.contact_point b.contact_point c.contact_point d.contact_point = 0) :
    convexHull3DModel (S.map (fun c => (c.addr, c.contact_point))) = none := by
  unfold convexHull3DModel
  simp only [List.map_map, Function.comp]
  rw [if_pos]
  simp only [List.all_eq_true, List.mem_map, decide_eq_true_eq, forall_exists_index,
    and_imp, forall_apply_eq_imp_iff₂]
  exact h

theorem hull_or_throw_none {r : Option (List Nat)} (h : hull_or_throw r = none) :
    r = none ∨ r = some [] := by
  cases r with
  | none => exact Or.inl rfl
  | some l =>
    cases l with
    | nil => exact Or.inr rfl
    | cons a l => simp [hull_or_throw] at h

theorem hull_or_throw_of_ne_nil (hull : List Nat) (h : hull ≠ []) :
    hull_or_throw (some hull) = some hull := by
  cases hull with
  | nil => exact absurd rfl h
  | cons a l => rfl

/-- The ways in which `determine_convex_set` produces its result. -/
theorem determine_convex_set_cases (env : GeomEnv) (S : List Contact) :
    determine_convex_set env S = S ∨
    ((determine_convex_set env S).length ≤ 3 ∨
      determine_convex_set env S = keep_endpoints env S) ∨
    (∃ f hull, S.head? = some f ∧ is_contact_manifold_2D env S = true ∧
      env.calc_convex_hull_2D (S.map (fun c => (c.addr, c.contact_point))) f.contact_normal =
        some hull ∧ determine_convex_set env S = keep_hull hull S) ∨
    (∃ hull, is_contact_manifold_2D env S = false ∧
      env.calc_convex_hull_3D (S.map (fun c => (c.addr, c.contact_point))) = some hull ∧
      determine_convex_set env S = keep_hull hull S) ∨
    (∃ f hull, S.head? = some f ∧ is_contact_manifold_2D env S = false ∧
      hull_or_throw (env.calc_convex_hull_3D (S.map (fun c => (c.addr, c.contact_point)))) =
        none ∧
      env.calc_convex_hull_2D (S.map (fun c => (c.addr, c.contact_point))) f.contact_normal =
        some hull ∧ determine_convex_set env S = keep_hull hull S) := by
  unfold determine_convex_set determine_convex_set_run
  cases S with
  | nil => exact Or.inl rfl
  | cons front rest =>
    dsimp only
    split
    · exact Or.inl rfl
    · split
      · exact Or.inl rfl
      · split
        · exact Or.inr (Or.inl (Or.inr rfl))
        · split
          · rename_i hpl
            split
            · rename_i hull hh
              exact Or.inr (Or.inr (Or.inl ⟨front, hull, rfl, hpl,
                (hull_or_throw_some hh).1, rfl⟩))
            · exact Or.inr (Or.inl (Or.inr rfl))
          · rename_i hpl
            split
            · rename_i hull hh
              exact Or.inr (Or.inr (Or.inr (Or.inl ⟨hull, by simpa using hpl,
                (hull_or_throw_some hh).1, rfl⟩)))
            · rename_i h3
              split
              · rename_i hull hh
                exact Or.inr (Or.inr (Or.inr (Or.inr ⟨front, hull, rfl, by simpa using hpl,
                  h3, (hull_or_throw_some hh).1, rfl⟩)))
              · exact Or.inr (Or.inl (Or.inr rfl))

theorem determine_convex_set_path_2D (env : GeomEnv) (R : List Contact) (f : Contact)
    (hf : R.head? = some f) (hlen : ¬ R.length ≤ 3) (hfr : same_friction env none R = true)
    (hcol : collinear_check env R = false)
    (hpl : is_contact_manifold_2D env R = true) (hull : List Nat)
    (hh : env.calc_convex_hull_2D (R.map (fun c => (c.addr, c.contact_point)))
      f.contact_normal = some hull)
    (hne : hull ≠ []) (hk : keep_hull hull R = R) : determine_convex_set env R = R := by
  unfold determine_convex_set determine_convex_set_run
  cases R with
  | nil => rfl
  | cons front rest =>
    simp only [List.head?_cons, Option.some.injEq] at hf
    subst hf
    dsimp only
    rw [if_neg hlen, hfr, hcol, hpl, hh, hull_or_throw_of_ne_nil hull hne]
    simp only [Bool.not_true, Bool.false_eq_true, if_false, if_true]
    exact hk

theorem determine_convex_set_path_3D (env : GeomEnv) (R : List Contact)
    (hlen : ¬ R.length ≤ 3) (hfr : same_friction env none R = true)
    (hcol : collinear_check env R = false)
    (hpl : is_contact_manifold_2D env R = false) (hull : List Nat)
    (hh : env.calc_convex_hull_3D (R.map (fun c => (c.addr, c.contact_point))) = some hull)
    (hne : hull ≠ []) (hk : keep_hull hull R = R) : determine_convex_set env R = R := by
  unfold determine_convex_set determine_convex_set_run
  cases R with
  | nil => rfl
  | cons front rest =>
    dsimp only
    rw [if_neg hlen, hfr, hcol, hpl, hh, hull_or_throw_of_ne_nil hull hne]
    simp only [Bool.not_true, Bool.false_eq_true, if_false]
    exact hk

theorem determine_convex_set_path_3D2D (env : GeomEnv) (R : List Contact) (f : Contact)
    (hf : R.head? = some f) (hlen : ¬ R.length ≤ 3) (hfr : same_friction env none R = true)
    (hcol : collinear_check env R = false)
    (hpl : is_contact_manifold_2D env R = false)
    (h3 : env.calc_convex_hull_3D (R.map (fun c => (c.addr, c.contact_point))) = none)
    (hull : List Nat)
    (hh : env.calc_convex_hull_2D (R.map (fun c => (c.addr, c.contact_point)))
      f.contact_normal = some hull)
    (hne : hull ≠ []) (hk : keep_hull hull R = R) : determine_convex_set env R = R := by
  unfold determine_convex_set determine_convex_set_run
  cases R with
  | nil => rfl
  | cons front rest =>
    simp only [List.head?_cons, Option.some.injEq] at hf
    subst hf
    dsimp only
    rw [if_neg hlen, hfr, hcol, hpl, h3, hh, hull_or_throw_of_ne_nil hull hne]
    simp only [Bool.not_true, Bool.false_eq_true, if_false, hull_or_throw]
    exact hk

end Paths

section Tiers

theorem is_contact_manifold_2D_iff (env : GeomEnv) (hex : ExactGeometry env) (S : List Contact)
    (f : Contact) (hf : S.head? = some f) :
    is_contact_manifold_2D env S = true ↔
      ∀ c ∈ S, f.contact_normal.dot c.contact_point = f.contact_normal.dot f.contact_point := by
  cases S with
  | nil => simp at hf
  | cons front rest =>
    simp only [List.head?_cons, Option.some.injEq] at hf
    subst hf
    unfold is_contact_manifold_2D
    rw [hex.2.1]
    simp only [List.all_eq_true, onPlaneModel, decide_eq_true_eq, List.mem_cons, forall_eq_or_imp,
      true_and]
    constructor
    · intro h c hc
      have := h c hc
      simp only [Vec3.dot, Vec3.sub] at this ⊢
      linear_combination this
    · intro h c hc
      have := h c hc
      simp only [Vec3.dot, Vec3.sub] at this ⊢
      linear_combination this

theorem convexHull3DModel_eq_none (S : List Contact)
    (h : convexHull3DModel (S.map (fun c => (c.addr, c.contact_point))) = none) :
    ∀ a ∈ S, ∀ b ∈ S, ∀ c ∈ S, ∀ d ∈ S,
      orient3 a.contact_point b.contact_point c.contact_point d.contact_point = 0 := by
  unfold convexHull3DModel at h
  simp only [List.map_map, Function.comp] at h
  split at h
  · rename_i hall
    simp only [List.all_eq_true, List.mem_map, decide_eq_true_eq, forall_exists_index,
      and_imp, forall_apply_eq_imp_iff₂] at hall
    exact hall
  · exact absurd h (by simp)

theorem keep_hull_nil (R : List Contact) : keep_hull [] R = [] := by
  unfold keep_hull
  rw [List.filter_eq_nil_iff]
  intro c _
  simp

theorem orient3_eq_dot (a b c d : Vec3) :
    orient3 a b c d = ((b.sub a).cross (c.sub a)).dot d - ((b.sub a).cross (c.sub a)).dot a := by
  simp only [orient3, Vec3.dot, Vec3.cross, Vec3.sub]
  ring

theorem convexHull3DModel_ne_nil (S : List Contact) (hS : S ≠ []) (hull : List Nat)
    (h : convexHull3DModel (S.map (fun c => (c.addr, c.contact_point))) = some hull) :
    hull ≠ [] := by
  obtain ⟨_, rfl⟩ := convexHull3DModel_eq_some S hull h
  obtain ⟨q, hq, hv⟩ := exists_isHullVertex3 (S.map (fun c => c.contact_point)) (by simpa using hS)
  obtain ⟨c, hc, rfl⟩ := List.mem_map.mp hq
  intro hnil
  have : c.addr ∈ (((S.map (fun c => (c.addr, c.contact_point))).filter
      (fun q => isHullVertex3 (S.map (fun c => c.contact_point)) q.2)).map (fun q => q.1)) :=
    List.mem_map.mpr ⟨(c.addr, c.contact_point),
      List.mem_filter.mpr ⟨List.mem_map.mpr ⟨c, hc, rfl⟩, hv⟩, rfl⟩
  rw [hnil] at this
  exact absurd this (List.not_mem_nil _)

/-- The contacts kept by a successful 2D hull are kept again by a second reduction. -/
theorem hull2D_fixed (env : GeomEnv) (hex : ExactGeometry env) (S : List Contact)
    (hnd : S.Nodup) (hA : ∀ c ∈ S, ∀ d ∈ S, c.addr = d.addr → c = d)
    (hP : ∀ c ∈ S, ∀ d ∈ S, c.contact_point = d.contact_point → c = d)
    (hN : ∀ c ∈ S, ∀ d ∈ S, c.contact_normal = d.contact_normal)
    (f : Contact) (hf : S.head? = some f) (hull : List Nat)
    (hh : convexHull2DModel (S.map (fun c => (c.addr, c.contact_point))) f.contact_normal =
      some hull)
    (hcase : is_contact_manifold_2D env S = true ∨
      (is_contact_manifold_2D env S = false ∧ ∀ a ∈ S, ∀ b ∈ S, ∀ c ∈ S, ∀ d ∈ S,
        orient3 a.contact_point b.contact_point c.contact_point d.contact_point = 0)) :
    determine_convex_set env (keep_hull hull S) = keep_hull hull S := by
  obtain ⟨hn, ⟨a0, ha0, b0, hb0, c0, hc0, ho0⟩, rfl⟩ := convexHull2DModel_eq_some S _ hull hh
  rw [keep_hull_filter _ S hA]
  set n := f.contact_normal with hndef
  set R := S.filter (fun c => isHullVertex2 n (S.map (fun c => c.contact_point))
    c.contact_point) with hR
  by_cases hlen : R.length ≤ 3
  · exact determine_convex_set_small env R (Or.inl hlen)
  by_cases hfr : same_friction env none R = false
  · exact determine_convex_set_small env R (Or.inr hfr)
  rw [Bool.not_eq_false] at hfr
  have hfS : f ∈ S := List.mem_of_mem_head? hf
  have hRS : ∀ c ∈ R, c ∈ S := fun c hc => (List.mem_filter.mp hc).1
  have hRv : ∀ c ∈ R, isHullVertex2 n (S.map (fun c => c.contact_point)) c.contact_point = true :=
    fun c hc => (List.mem_filter.mp hc).2
  have hRnd : R.Nodup := hnd.filter _
  have hpts : ∀ c ∈ S, c.contact_point ∈ S.map (fun c => c.contact_point) :=
    fun c hc => List.mem_map.mpr ⟨c, hc, rfl⟩
  -- different contacts project to different points
  have hproj : ∀ c ∈ S, ∀ d ∈ S, c ≠ d →
      planePart n (c.contact_point.sub d.contact_point) ≠ Vec3.zero := by
    intro c hc d hd hcd
    have hne : c.contact_point ≠ d.contact_point := fun h => hcd (hP c hc d hd h)
    rcases hcase with hpl | ⟨_, hco⟩
    · have h := (is_contact_manifold_2D_iff env hex S f hf).mp hpl
      exact planePart_ne_zero_planar n _ _ hn ((h c hc).trans (h d hd).symm) hne
    · have hnm : n.dot ((b0.contact_point.sub a0.contact_point).cross
          (c0.contact_point.sub a0.contact_point)) ≠ 0 := ho0
      refine planePart_ne_zero_coplanar n _ _ _ hnm ?_ hne
      have h1 := hco a0 ha0 b0 hb0 c0 hc0 c hc
      have h2 := hco a0 ha0 b0 hb0 c0 hc0 d hd
      rw [orient3_eq_dot] at h1 h2
      linarith
  obtain ⟨f2, b2, x2, hf2, hb2, hx2, hf2R, hb2R, hx2R, hfb, hbx, hxf⟩ :=
    head_last_middle R hRnd hlen
  have hnf2 : f2.contact_normal = n := hN f2 (hRS f2 hf2R) f hfS
  have ho : orient2 n f2.contact_point b2.contact_point x2.contact_point ≠ 0 :=
    hull_vertices2_not_collinear n (S.map (fun c => c.contact_point)) _ _ _
      (hpts f2 (hRS f2 hf2R)) (hpts b2 (hRS b2 hb2R)) (hpts x2 (hRS x2 hx2R))
      (hproj f2 (hRS f2 hf2R) b2 (hRS b2 hb2R) hfb)
      (hproj b2 (hRS b2 hb2R) x2 (hRS x2 hx2R) hbx)
      (hproj x2 (hRS x2 hx2R) f2 (hRS f2 hf2R) hxf)
      (hRv f2 hf2R) (hRv b2 hb2R) (hRv x2 hx2R)
  have hcol : collinear_check env R = false :=
    collinear_check_false env R f2 b2 x2 hf2 hb2 hx2
      (by rw [hex.1]; exact collinearModel_false_of_orient2 n _ _ _ ho)
  have hAR : ∀ c ∈ R, ∀ d ∈ R, c.addr = d.addr → c = d :=
    fun c hc d hd => hA c (hRS c hc) d (hRS d hd)
  obtain ⟨hullR, hhullR⟩ : ∃ h, h = (((R.map (fun c => (c.addr, c.contact_point))).filter
      (fun q => isHullVertex2 n (R.map (fun c => c.contact_point)) q.2)).map
        (fun q => q.1)) := ⟨_, rfl⟩
  have hkeep : keep_hull hullR R = R := by
    rw [hhullR, keep_hull_filter _ R hAR, List.filter_eq_self]
    intro c hc
    refine isHullVertex2_mono n _ _ _ ?_ (hRv c hc)
    intro q hq
    obtain ⟨d, hd, rfl⟩ := List.mem_map.mp hq
    exact hpts d (hRS d hd)
  have hRne : R ≠ [] := List.ne_nil_of_mem hf2R
  have hne : hullR ≠ [] := by
    intro h
    rw [h, keep_hull_nil] at hkeep
    exact hRne hkeep.symm
  have hh2 : env.calc_convex_hull_2D (R.map (fun c => (c.addr, c.contact_point)))
      f2.contact_normal = some hullR := by
    rw [hex.2.2.1, hnf2, hhullR]
    exact convexHull2DModel_some R n hn f2 b2 x2 hf2R hb2R hx2R ho
  rcases hcase with hpl | ⟨hpl, hco⟩
  · have h := (is_contact_manifold_2D_iff env hex S f hf).mp hpl
    have hpl2 : is_contact_manifold_2D env R = true := by
      rw [is_contact_manifold_2D_iff env hex R f2 hf2, hnf2]
      intro c hc
      exact (h c (hRS c hc)).trans (h f2 (hRS f2 hf2R)).symm
    exact determine_convex_set_path_2D env R f2 hf2 hlen hfr hcol hpl2 hullR hh2 hne hkeep
  · have hpl2 : is_contact_manifold_2D env R = false := by
      rw [← Bool.not_eq_true]
      intro hpl2
      have h := (is_contact_manifold_2D_iff env hex R f2 hf2).mp hpl2
      rw [hnf2] at h
      -- two contacts of the group at different heights along the normal
      have hyz : ∃ y ∈ S, n.dot y.contact_point ≠ n.dot f.contact_point := by
        by_contra hall
        push_neg at hall
        rw [← Bool.not_eq_true] at hpl
        exact hpl ((is_contact_manifold_2D_iff env hex S f hf).mpr hall)
      obtain ⟨y, hy, hyn⟩ := hyz
      have hm : (b0.contact_point.sub a0.contact_point).cross
          (c0.contact_point.sub a0.contact_point) ≠ Vec3.zero := by
        intro h0
        apply ho0
        unfold orient2
        rw [h0]
        simp [Vec3.dot, Vec3.zero]
      have hmk : ∀ c ∈ S, ((b0.contact_point.sub a0.contact_point).cross
          (c0.contact_point.sub a0.contact_point)).dot c.contact_point =
          ((b0.contact_point.sub a0.contact_point).cross
          (c0.contact_point.sub a0.contact_point)).dot a0.contact_point := by
        intro c hc
        have h1 := hco a0 ha0 b0 hb0 c0 hc0 c hc
        rw [orient3_eq_dot] at h1
        linarith
      exact ho (orient2_of_two_planes n _ f2.contact_point b2.contact_point x2.contact_point
        y.contact_point f.contact_point hm
        ((hmk b2 (hRS b2 hb2R)).trans (hmk f2 (hRS f2 hf2R)).symm)
        ((hmk x2 (hRS x2 hx2R)).trans (hmk f2 (hRS f2 hf2R)).symm)
        ((hmk y hy).trans (hmk f hfS).symm)
        (h b2 hb2R) (h x2 hx2R) hyn)
    have h3 : env.calc_convex_hull_3D (R.map (fun c => (c.addr, c.contact_point))) = none := by
      rw [hex.2.2.2]
      exact convexHull3DModel_none R (fun a ha b hb c hc d hd =>
        hco a (hRS a ha) b (hRS b hb) c (hRS c hc) d (hRS d hd))
    exact determine_convex_set_path_3D2D env R f2 hf2 hlen hfr hcol hpl2 h3 hullR hh2 hne hkeep

/-- The contacts kept by a successful 3D hull are kept again by a second reduction. -/
theorem hull3D_fixed (env : GeomEnv) (hex : ExactGeometry env) (S : List Contact)
    (hnd : S.Nodup) (hA : ∀ c ∈ S, ∀ d ∈ S, c.addr = d.addr → c = d)
    (hP : ∀ c ∈ S, ∀ d ∈ S, c.contact_point = d.contact_point → c = d)
    (hN : ∀ c ∈ S, ∀ d ∈ S, c.contact_normal = d.contact_normal)
    (hpl : is_contact_manifold_2D env S = false) (hull : List Nat)
    (hh : convexHull3DModel (S.map (fun c => (c.addr, c.contact_point))) = some hull) :
    determine_convex_set env (keep_hull hull S) = keep_hull hull S := by
  obtain ⟨⟨a0, ha0, b0, hb0, c0, hc0, d0, hd0, ho0⟩, rfl⟩ := convexHull3DModel_eq_some S hull hh
  rw [keep_hull_filter _ S hA]
  set R := S.filter (fun c => isHullVertex3 (S.map (fun c => c.contact_point))
    c.contact_point) with hR
  by_cases hlen : R.length ≤ 3
  · exact determine_convex_set_small env R (Or.inl hlen)
  by_cases hfr : same_friction env none R = false
  · exact determine_convex_set_small env R (Or.inr hfr)
  rw [Bool.not_eq_false] at hfr
  have hRS : ∀ c ∈ R, c ∈ S := fun c hc => (List.mem_filter.mp hc).1
  have hRv : ∀ c ∈ R, isHullVertex3 (S.map (fun c => c.contact_point)) c.contact_point = true :=
    fun c hc => (List.mem_filter.mp hc).2
  have hRnd : R.Nodup := hnd.filter _
  have hpts : ∀ c ∈ S, c.contact_point ∈ S.map (fun c => c.contact_point) :=
    fun c hc => List.mem_map.mpr ⟨c, hc, rfl⟩
  have hdist : ∀ c ∈ S, ∀ d ∈ S, c ≠ d → c.contact_point ≠ d.contact_point :=
    fun c hc d hd hcd h => hcd (hP c hc d hd h)
  obtain ⟨f2, b2, x2, hf2, hb2, hx2, hf2R, hb2R, hx2R, hfb, hbx, hxf⟩ :=
    head_last_middle R hRnd hlen
  have hcr : (b2.contact_point.sub f2.contact_point).cross
      (x2.contact_point.sub f2.contact_point) ≠ Vec3.zero :=
    hull_vertices3_not_collinear (S.map (fun c => c.contact_point)) _ _ _
      (hpts f2 (hRS f2 hf2R)) (hpts b2 (hRS b2 hb2R)) (hpts x2 (hRS x2 hx2R))
      (hdist f2 (hRS f2 hf2R) b2 (hRS b2 hb2R) hfb)
      (hdist b2 (hRS b2 hb2R) x2 (hRS x2 hx2R) hbx)
      (hdist x2 (hRS x2 hx2R) f2 (hRS f2 hf2R) hxf)
      (hRv f2 hf2R) (hRv b2 hb2R) (hRv x2 hx2R)
  have hcol : collinear_check env R = false :=
    collinear_check_false env R f2 b2 x2 hf2 hb2 hx2
      (by rw [hex.1]; exact collinearModel_false_of_cross _ _ _ hcr)
  -- a plane through the kept contacts would contain the whole group
  have hplane : ∀ (m : Vec3) (k : ℚ), (∀ c ∈ R, m.dot c.contact_point = k) →
      ∀ c ∈ S, m.dot c.contact_point = k := by
    intro m k h c hc
    refine plane_of_hull_vertices m k (S.map (fun c => c.contact_point)) ?_ _ (hpts c hc)
    intro q hq hv
    obtain ⟨d, hd, rfl⟩ := List.mem_map.mp hq
    exact h d (List.mem_filter.mpr ⟨hd, hv⟩)
  have hvol : ∃ d ∈ R, orient3 f2.contact_point b2.contact_point x2.contact_point
      d.contact_point ≠ 0 := by
    by_contra hall
    push_neg at hall
    have hk := hplane ((b2.contact_point.sub f2.contact_point).cross
      (x2.contact_point.sub f2.contact_point))
      (((b2.contact_point.sub f2.contact_point).cross
      (x2.contact_point.sub f2.contact_point)).dot f2.contact_point)
      (fun c hc => by
        have := hall c hc
        rw [orient3_eq_dot] at this
        linarith)
    exact ho0 (orient3_of_plane _ _ hcr _ _ _ _ (hk a0 ha0) (hk b0 hb0) (hk c0 hc0)
      (hk d0 hd0))
  obtain ⟨d2, hd2R, hvol2⟩ := hvol
  have hAR : ∀ c ∈ R, ∀ d ∈ R, c.addr = d.addr → c = d :=
    fun c hc d hd => hA c (hRS c hc) d (hRS d hd)
  obtain ⟨hullR, hhullR⟩ : ∃ h, h = (((R.map (fun c => (c.addr, c.contact_point))).filter
      (fun q => isHullVertex3 (R.map (fun c => c.contact_point)) q.2)).map
        (fun q => q.1)) := ⟨_, rfl⟩
  have hkeep : keep_hull hullR R = R := by
    rw [hhullR, keep_hull_filter _ R hAR, List.filter_eq_self]
    intro c hc
    refine isHullVertex3_mono _ _ _ ?_ (hRv c hc)
    intro q hq
    obtain ⟨d, hd, rfl⟩ := List.mem_map.mp hq
    exact hpts d (hRS d hd)
  have hRne : R ≠ [] := List.ne_nil_of_mem hf2R
  have hne : hullR ≠ [] := by
    intro h
    rw [h, keep_hull_nil] at hkeep
    exact hRne hkeep.symm
  have hh2 : env.calc_convex_hull_3D (R.map (fun c => (c.addr, c.contact_point))) =
      some hullR := by
    rw [hex.2.2.2, hhullR]
    exact convexHull3DModel_some R f2 b2 x2 d2 hf2R hb2R hx2R hd2R hvol2
  have hpl2 : is_contact_manifold_2D env R = false := by
    rw [← Bool.not_eq_true]
    intro hpl2
    have h := (is_contact_manifold_2D_iff env hex R f2 hf2).mp hpl2
    have hall := hplane _ _ h
    obtain ⟨f, hf⟩ : ∃ f, S.head? = some f := by
      cases S with
      | nil => exact absurd (hRS f2 hf2R) (List.not_mem_nil _)
      | cons f t => exact ⟨f, rfl⟩
    have hfS : f ∈ S := List.mem_of_mem_head? hf
    rw [← Bool.not_eq_true] at hpl
    apply hpl
    rw [is_contact_manifold_2D_iff env hex S f hf, hN f hfS f2 (hRS f2 hf2R)]
    intro c hc
    exact (hall c hc).trans (hall f hfS).symm
  exact determine_convex_set_path_3D env R hlen hfr hcol hpl2 hullR hh2 hne hkeep

/-- A group whose contacts are distinct objects at different points with one normal is reduced
to a fixed point of the reduction. -/
theorem determine_convex_set_idempotent (env : GeomEnv) (hex : ExactGeometry env)
    (S : List Contact) (hnd : S.Nodup) (hA : ∀ c ∈ S, ∀ d ∈ S, c.addr = d.addr → c = d)
    (hP : ∀ c ∈ S, ∀ d ∈ S, c.contact_point = d.contact_point → c = d)
    (hN : ∀ c ∈ S, ∀ d ∈ S, c.contact_normal = d.contact_normal) :
    determine_convex_set env (determine_convex_set env S) = determine_convex_set env S := by
  rcases determine_convex_set_cases env S with h | h | ⟨f, hull, hf, hpl, hh, h⟩ |
    ⟨hull, hpl, hh, h⟩ | ⟨f, hull, hf, hpl, h3, hh, h⟩
  · rw [h]
    exact h
  · apply determine_convex_set_small
    left
    rcases h with h | h
    · exact h
    · rw [h]
      exact le_trans (keep_endpoints_length env S hnd hA) (by norm_num)
  · rw [h]
    rw [hex.2.2.1] at hh
    exact hull2D_fixed env hex S hnd hA hP hN f hf hull hh (Or.inl hpl)
  · rw [h]
    rw [hex.2.2.2] at hh
    exact hull3D_fixed env hex S hnd hA hP hN hpl hull hh
  · rw [h]
    rw [hex.2.2.1] at hh
    rw [hex.2.2.2] at h3
    have hSne : S ≠ [] := List.ne_nil_of_mem (List.mem_of_mem_head? hf)
    have hco : ∀ a ∈ S, ∀ b ∈ S, ∀ c ∈ S, ∀ d ∈ S,
        orient3 a.contact_point b.contact_point c.contact_point d.contact_point = 0 := by
      rcases hull_or_throw_none h3 with h0 | h0
      · exact convexHull3DModel_eq_none S h0
      · exact absurd rfl (convexHull3DModel_ne_nil S hSne [] h0)
    exact hull2D_fixed env hex S hnd hA hP hN f hf hull hh (Or.inr ⟨hpl, hco⟩)

end Tiers

section MinimalSet

theorem sublist_flatMap_of_mem :
    ∀ (m : List ((Nat × Nat) × List Contact)) (kv : (Nat × Nat) × List Contact), kv ∈ m →
      kv.2.Sublist (m.flatMap (fun kv => kv.2))
  | [], _, h => absurd h (List.not_mem_nil _)
  | x :: t, kv, h => by
    simp only [List.flatMap_cons]
    rcases List.mem_cons.mp h with rfl | h
    · exact List.sublist_append_left _ _
    · exact (sublist_flatMap_of_mem t kv h).trans (List.sublist_append_right _ _)

/-- The map built from a reduced set holds the reduced groups of the first pass. -/
theorem contact_groups_reduced (env : GeomEnv) (group : List Contact)
    (hG : ¬ group.length ≤ 4) :
    contact_groups (determine_minimal_set env group) =
      ((contact_groups group).map (fun kv => (kv.1, determine_convex_set env kv.2))).filter
        (fun kv => !kv.2.isEmpty) := by
  have hRdef := determine_minimal_set_eq env group hG
  have hFc : ∀ c ∈ (contact_groups group).flatMap (fun kv => determine_convex_set env kv.2),
      c.contact_type = ContactType.eContact := by
    intro c hc
    have h1 := (flatMap_sublist (determine_convex_set env)
      (determine_convex_set_sublist env) (contact_groups group)).subset hc
    have h2 := (contact_groups_perm group).subset h1
    simpa using (List.mem_filter.mp h2).2
  have hcont : (determine_minimal_set env group).filter
      (fun c => c.contact_type = ContactType.eContact) =
      (contact_groups group).flatMap (fun kv => determine_convex_set env kv.2) := by
    rw [hRdef, List.filter_append, List.filter_filter]
    have h1 : group.filter (fun c => (decide (c.contact_type = ContactType.eContact) &&
        decide (c.contact_type ≠ ContactType.eContact))) = [] := by
      rw [List.filter_eq_nil_iff]
      intro c _
      simp
    have h2 : ((contact_groups group).flatMap
        (fun kv => determine_convex_set env kv.2)).filter
        (fun c => c.contact_type = ContactType.eContact) =
        (contact_groups group).flatMap (fun kv => determine_convex_set env kv.2) := by
      rw [List.filter_eq_self]
      intro c hc
      simpa using hFc c hc
    rw [h1, h2]
    simp
  have hk := keyed_map_sublist (determine_convex_set env)
    (determine_convex_set_sublist env) _ (contact_groups_keyed group)
  conv_lhs => unfold contact_groups
  rw [hcont, ← flatMap_map_snd (determine_convex_set env),
    regroup _ [] hk (fun _ _ x hx => absurd hx (List.not_mem_nil _))]
  simp only [List.nil_append]

/-- The reduced set is a fixed point when every reduced group of the first pass is a fixed
point of `determine_convex_set`. -/
theorem determine_minimal_set_fixed_of_groups (env : GeomEnv) (group : List Contact)
    (hfix : ∀ kv ∈ contact_groups group,
      determine_convex_set env (determine_convex_set env kv.2) =
        determine_convex_set env kv.2) :
    determine_minimal_set env (determine_minimal_set env group) =
      determine_minimal_set env group := by
  by_cases hG : group.length ≤ 4
  · have : determine_minimal_set env group = group := by
      unfold determine_minimal_set; rw [if_pos hG]
    rw [this, this]
  · by_cases hR : (determine_minimal_set env group).length ≤ 4
    · generalize determine_minimal_set env group = R at hR
      unfold determine_minimal_set; rw [if_pos hR]
    · have hgr := contact_groups_reduced env group hG
      have hfix2 : ∀ kv ∈ contact_groups (determine_minimal_set env group),
          determine_convex_set env kv.2 = kv.2 := by
        intro kv hkv
        rw [hgr] at hkv
        obtain ⟨kv0, h0, rfl⟩ := List.mem_map.mp (List.mem_filter.mp hkv).1
        exact hfix kv0 h0
      rw [determine_minimal_set_eq env _ hR,
        flatMap_congr_mem (determine_convex_set env) id _ hfix2]
      simp only [id]
      have hRdef := determine_minimal_set_eq env group hG
      have hFc : ∀ c ∈ (contact_groups group).flatMap (fun kv => determine_convex_set env kv.2),
          c.contact_type = ContactType.eContact := by
        intro c hc
        have h1 := (flatMap_sublist (determine_convex_set env)
          (determine_convex_set_sublist env) (contact_groups group)).subset hc
        have h2 := (contact_groups_perm group).subset h1
        simpa using (List.mem_filter.mp h2).2
      have hrest : (determine_minimal_set env group).filter
          (fun c => c.contact_type ≠ ContactType.eContact) =
          group.filter (fun c => c.contact_type ≠ ContactType.eContact) := by
        rw [hRdef, List.filter_append, List.filter_filter]
        have : ((contact_groups group).flatMap (fun kv => determine_convex_set env kv.2)).filter
            (fun c => c.contact_type ≠ ContactType.eContact) = [] := by
          rw [List.filter_eq_nil_iff]
          intro c hc
          simpa using hFc c hc
        rw [this]
        simp
      rw [hrest, hgr, flatMap_filter_nonempty, flatMap_map_snd, ← hRdef]

/-- Every group of the map of a group of distinct contacts with one normal per body pair is
reduced to a fixed point. -/
theorem contact_groups_idempotent (env : GeomEnv) (hex : ExactGeometry env)
    (group : List Contact) (hd : DistinctUniform group) :
    ∀ kv ∈ contact_groups group,
      determine_convex_set env (determine_convex_set env kv.2) =
        determine_convex_set env kv.2 := by
  intro kv hkv
  have hsym : Symmetric (fun c d : Contact => c.addr ≠ d.addr ∧
      (body_pair c = body_pair d →
        c.contact_point ≠ d.contact_point ∧ c.contact_normal = d.contact_normal)) := by
    intro c d h
    exact ⟨fun e => h.1 e.symm, fun e => ⟨fun e2 => (h.2 e.symm).1 e2.symm,
      ((h.2 e.symm).2).symm⟩⟩
  have hpw : kv.2.Pairwise (fun c d : Contact => c.addr ≠ d.addr ∧
      (body_pair c = body_pair d →
        c.contact_point ≠ d.contact_point ∧ c.contact_normal = d.contact_normal)) :=
    (((contact_groups_perm group).pairwise_iff (fun {_ _} h => hsym h)).mpr hd).sublist
      (sublist_flatMap_of_mem _ kv hkv)
  have hbp : ∀ c ∈ kv.2, ∀ d ∈ kv.2, body_pair c = body_pair d := fun c hc d hd2 =>
    ((contact_groups_keyed group).2 kv hkv c hc).trans
      ((contact_groups_keyed group).2 kv hkv d hd2).symm
  have hall := hpw.forall hsym
  refine determine_convex_set_idempotent env hex kv.2 (hpw.imp (fun h e => h.1 (by rw [e])))
    ?_ ?_ ?_
  · intro c hc d hd2 e
    by_contra hne
    exact (hall hc hd2 hne).1 e
  · intro c hc d hd2 e
    by_contra hne
    exact ((hall hc hd2 hne).2 (hbp c hc d hd2)).1 e
  · intro c hc d hd2
    by_cases hne : c = d
    · rw [hne]
    · exact ((hall hc hd2 hne).2 (hbp c hc d hd2)).2

/-- The hull scenario in space: a triangular bipyramid and its centre. The 3D hull keeps the
five corners, and a second reduction takes the 3D hull of the five corners again. -/
theorem bipyramid_scenario :
    determine_convex_set_run exactGeomEnv bipyramidGroup =
      ([Tier.hull3D],
       [mkContact 701 0 0 2 (1/2), mkContact 702 0 0 (-2) (1/2),
        mkContact 703 2 0 0 (1/2), mkContact 704 (-1) 2 0 (1/2),
        mkContact 705 (-1) (-2) 0 (1/2)]) ∧
    determine_convex_set_run exactGeomEnv (determine_minimal_set exactGeomEnv bipyramidGroup) =
      ([Tier.hull3D], determine_minimal_set exactGeomEnv bipyramidGroup) := by
  decide!

end MinimalSet

theorem reduction_nonempty_and_only_removes_witness :
    determine_convex_set exactGeomEnv hexGroup ≠ [] ∧
    (determine_convex_set exactGeomEnv hexGroup).Sublist hexGroup ∧
    determine_minimal_set exactGeomEnv hexGroup ≠ [] ∧
    (determine_minimal_set exactGeomEnv hexGroup).Subperm hexGroup :=
  reduction_nonempty_and_only_removes exactGeomEnv exactGeomEnv_hullSound hexGroup (by decide)

/-- C10 (counterexample): on three non-collinear coplanar contacts no hull is attempted. -/
theorem small_group_attempts_no_hull :
    collinear_check exactGeomEnv triGroup = false ∧
    is_contact_manifold_2D exactGeomEnv triGroup = true ∧
    determine_convex_set_run exactGeomEnv triGroup = ([], triGroup) := by
  decide!

theorem determine_convex_set_fallback_chain_witness :
    determine_convex_set_run exactGeomEnv pentCorners =
      ([Tier.hull3D, Tier.hull2D, Tier.segEndpoints], keep_endpoints exactGeomEnv pentCorners) :=
  (((determine_convex_set_fallback_chain exactGeomEnv
      ⟨401, ContactType.eContact, ⟨0, 0, 0⟩, ⟨1, 0, 0⟩, 1/2, 1, 2⟩
      [mkContact 402 4 0 0 (1/2), mkContact 403 5 3 0 (1/2), mkContact 404 2 5 0 (1/2),
       mkContact 405 (-1) 3 0 (1/2)]
      (by decide) (by decide!) (by decide!)).1 (by decide!)).2 (by decide!)).2 (by decide!)

theorem same_friction_cons_skip (env : GeomEnv) (mu : Option ℚ) (c : Contact)
    (cs : List Contact) (h : c.contact_type ≠ ContactType.eContact) :
    same_friction env mu (c :: cs) = same_friction env mu cs := by
  conv_lhs => unfold same_friction
  rw [if_pos h]

theorem same_friction_cons_none (env : GeomEnv) (c : Contact) (cs : List Contact)
    (h : c.contact_type = ContactType.eContact) :
    same_friction env none (c :: cs) = same_friction env (some c.contact_mu_coulomb) cs := by
  conv_lhs => unfold same_friction
  rw [if_neg (by simp [h])]

theorem same_friction_cons_some (env : GeomEnv) (m : ℚ) (c : Contact) (cs : List Contact)
    (h : c.contact_type = ContactType.eContact) :
    same_friction env (some m) (c :: cs) =
      (if !env.rel_equal m c.contact_mu_coulomb env.NEAR_ZERO then false
       else same_friction env (some m) cs) := by
  conv_lhs => unfold same_friction
  rw [if_neg (by simp [h])]

theorem same_friction_skip (env : GeomEnv) (mu : Option ℚ) :
    ∀ (pre rest : List Contact), (∀ c ∈ pre, c.contact_type ≠ ContactType.eContact) →
      same_friction env mu (pre ++ rest) = same_friction env mu rest
  | [], _, _ => rfl
  | c :: pre, rest, h => by
    rw [List.cons_append, same_friction_cons_skip env mu c _ (h c (List.mem_cons_self _ _))]
    exact same_friction_skip env mu pre rest (fun x hx => h x (List.mem_cons_of_mem _ hx))

theorem same_friction_mismatch (env : GeomEnv) (m : ℚ) (c2 : Contact)
    (ht : c2.contact_type = ContactType.eContact)
    (hne : env.rel_equal m c2.contact_mu_coulomb env.NEAR_ZERO = false) :
    ∀ rest : List Contact, c2 ∈ rest → same_friction env (some m) rest = false
  | [], h => absurd h (List.not_mem_nil _)
  | c :: rest, h => by
    by_cases hc : c.contact_type = ContactType.eContact
    · rw [same_friction_cons_some env m c rest hc]
      by_cases hr : env.rel_equal m c.contact_mu_coulomb env.NEAR_ZERO = true
      · simp only [hr, Bool.not_true, Bool.false_eq_true, if_false]
        rcases List.mem_cons.mp h with rfl | h2
        · rw [hne] at hr
          exact absurd hr (by simp)
        · exact same_friction_mismatch env m c2 ht hne rest h2
      · simp only [Bool.not_eq_true] at hr
        simp [hr]
    · rw [same_friction_cons_skip env (some m) c rest hc]
      rcases List.mem_cons.mp h with rfl | h2
      · exact absurd ht hc
      · exact same_friction_mismatch env m c2 ht hne rest h2

/-- C11: `determine_minimal_set` leaves every group of at most 4 contacts unchanged, and
`determine_convex_set` leaves its group unchanged (same contacts, same order) when the group
has at most 3 contacts or when some contact has a friction coefficient that `rel_equal` with
tolerance `NEAR_ZERO` tells apart from that of the first contact of the group (entries before
the first contact that are not of type `eContact` are passed over, as in the loop). -/
theorem small_or_mixed_friction_group_unchanged (env : GeomEnv) (group : List Contact) :
    (group.length ≤ 4 → determine_minimal_set env group = group) ∧
    (group.length ≤ 3 → determine_convex_set env group = group) ∧
    (∀ (pre : List Contact) (c1 : Contact) (rest : List Contact) (c2 : Contact),
      group = pre ++ c1 :: rest →
      (∀ c ∈ pre, c.contact_type ≠ ContactType.eContact) →
      c1.contact_type = ContactType.eContact →
      c2 ∈ rest → c2.contact_type = ContactType.eContact →
      env.rel_equal c1.contact_mu_coulomb c2.contact_mu_coulomb env.NEAR_ZERO = false →
      determine_convex_set env group = group) := by
  refine ⟨fun h => ?_, fun h => determine_convex_set_small env group (Or.inl h), ?_⟩
  · unfold determine_minimal_set
    rw [if_pos h]
  · intro pre c1 rest c2 hg hpre h1 hmem h2 hne
    apply determine_convex_set_small env group
    right
    rw [hg, same_friction_skip env none pre (c1 :: rest) hpre,
      same_friction_cons_none env c1 rest h1]
    exact same_friction_mismatch env _ c2 h2 hne rest hmem

theorem small_or_mixed_friction_group_unchanged_witness :
    determine_minimal_set exactGeomEnv mixedGroup = mixedGroup ∧
    determine_convex_set exactGeomEnv triGroup = triGroup ∧
    determine_convex_set exactGeomEnv mixedGroup = mixedGroup :=
  ⟨(small_or_mixed_friction_group_unchanged exactGeomEnv mixedGroup).1 (by decide),
   (small_or_mixed_friction_group_unchanged exactGeomEnv triGroup).2.1 (by decide),
   (small_or_mixed_friction_group_unchanged exactGeomEnv mixedGroup).2.2 []
     (mkContact 600 0 0 0 (1/2))
     [mkContact 601 1 0 0 (1/2), mkContact 602 0 1 0 (1/2), mkContact 603 1 1 0 (3/4)]
     (mkContact 603 1 1 0 (3/4)) rfl (by simp) rfl (by simp) rfl (by decide!)⟩

/-- C13: for `tol >= 0` and `v` the value of `calc_contact_vel`, the class is positive
(separating) iff `v > tol`, negative (impacting) iff `v < -tol`, and zero (resting) iff
`-tol <= v <= tol`, so `v = tol` and `v = -tol` are resting. -/
theorem determine_distance_class_thresholds (tol : ℚ) (htol : 0 ≤ tol)
    (contact_normal ta_linear tb_linear : Vec3) :
    (determine_distance_class tol contact_normal ta_linear tb_linear = DistanceClass.ePositive ↔
      calc_contact_vel contact_normal ta_linear tb_linear > tol) ∧
    (determine_distance_class tol contact_normal ta_linear tb_linear = DistanceClass.eNegative ↔
      calc_contact_vel contact_normal ta_linear tb_linear < -tol) ∧
    (determine_distance_class tol contact_normal ta_linear tb_linear = DistanceClass.eZero ↔
      (-tol ≤ calc_contact_vel contact_normal ta_linear tb_linear ∧
        calc_contact_vel contact_normal ta_linear tb_linear ≤ tol)) := by
  unfold determine_distance_class
  generalize calc_contact_vel contact_normal ta_linear tb_linear = v
  by_cases h1 : v > tol
  · rw [if_pos h1]
    refine ⟨⟨fun _ => h1, fun _ => rfl⟩, ⟨fun h => absurd h (by simp), fun h => ?_⟩,
      ⟨fun h => absurd h (by simp), fun h => ?_⟩⟩
    · linarith
    · linarith [h.2]
  · rw [if_neg h1]
    by_cases h2 : v < -tol
    · rw [if_pos h2]
      refine ⟨⟨fun h => absurd h (by simp), fun h => absurd h h1⟩, ⟨fun _ => h2, fun _ => rfl⟩,
        ⟨fun h => absurd h (by simp), fun h => ?_⟩⟩
      linarith [h.1]
    · rw [if_neg h2]
      refine ⟨⟨fun h => absurd h (by simp), fun h => absurd h h1⟩,
        ⟨fun h => absurd h (by simp), fun h => absurd h h2⟩,
        ⟨fun _ => ⟨not_lt.mp h2, not_lt.mp h1⟩, fun _ => rfl⟩⟩

theorem determine_distance_class_thresholds_witness :
    determine_distance_class (1/100) ⟨0, 0, 1⟩ ⟨0, 0, 1/50⟩ ⟨0, 0, 0⟩ = DistanceClass.ePositive ∧
    determine_distance_class (1/100) ⟨0, 0, 1⟩ ⟨0, 0, -1/50⟩ ⟨0, 0, 0⟩ = DistanceClass.eNegative ∧
    determine_distance_class (1/100) ⟨0, 0, 1⟩ ⟨0, 0, 0⟩ ⟨0, 0, 0⟩ = DistanceClass.eZero ∧
    determine_distance_class (1/100) ⟨0, 0, 1⟩ ⟨0, 0, 1/100⟩ ⟨0, 0, 0⟩ = DistanceClass.eZero ∧
    determine_distance_class (1/100) ⟨0, 0, 1⟩ ⟨0, 0, -1/100⟩ ⟨0, 0, 0⟩ = DistanceClass.eZero :=
  ⟨(determine_distance_class_thresholds (1/100) (by norm_num) ⟨0, 0, 1⟩ ⟨0, 0, 1/50⟩
      ⟨0, 0, 0⟩).1.mpr (by decide!),
   (determine_distance_class_thresholds (1/100) (by norm_num) ⟨0, 0, 1⟩ ⟨0, 0, -1/50⟩
      ⟨0, 0, 0⟩).2.1.mpr (by decide!),
   (determine_distance_class_thresholds (1/100) (by norm_num) ⟨0, 0, 1⟩ ⟨0, 0, 0⟩
      ⟨0, 0, 0⟩).2.2.mpr (by decide!),
   (determine_distance_class_thresholds (1/100) (by norm_num) ⟨0, 0, 1⟩ ⟨0, 0, 1/100⟩
      ⟨0, 0, 0⟩).2.2.mpr (by decide!),
   (determine_distance_class_thresholds (1/100) (by norm_num) ⟨0, 0, 1⟩ ⟨0, 0, -1/100⟩
      ⟨0, 0, 0⟩).2.2.mpr (by decide!)⟩

theorem Vec3.dot_neg (u v : Vec3) : u.dot v.neg = -(u.dot v) := by
  simp only [Vec3.dot, Vec3.neg]; ring

/-- C14: the normal of the event made by `create_contact` is `-n` when `dot(pdot, n) > 0` and
`n` otherwise, `n` being the face normal of the triangle; so `dot(pdot, normal) <= 0` for
every event made. -/
theorem create_contact_normal_opposes_velocity (calc_normal : Triangle → Vec3) (e0 : Event)
    (toi : ℚ) (a b : Nat) (p pdot : Vec3) (t : Triangle) :
    (create_contact calc_normal e0 toi a b p pdot t).contact_normal =
      (if pdot.dot (calc_normal t) > 0 then (calc_normal t).neg else calc_normal t) ∧
    pdot.dot (create_contact calc_normal e0 toi a b p pdot t).contact_normal ≤ 0 := by
  unfold create_contact
  dsimp only
  by_cases h : pdot.dot (calc_normal t) > 0
  · simp only [h, if_true, Vec3.dot_neg, true_and]
    linarith
  · simp only [h, if_false, true_and]
    exact not_lt.mp h

/-- C17: what `create_contact` does with its time-of-impact argument: nothing. The event has
type contact, the geometries `a` and `b` and the point `p`, but its `t` is the one left by the
default constructor, whatever `toi` is; for `toi = 1/2` and an event constructed with `t = 0`
the result has `t = 0`. -/
theorem create_contact_drops_toi (calc_normal : Triangle → Vec3) (e0 : Event)
    (toi : ℚ) (a b : Nat) (p pdot : Vec3) (t : Triangle) :
    (create_contact calc_normal e0 toi a b p pdot t).t = e0.t ∧
    (create_contact calc_normal e0 toi a b p pdot t).event_type = EventType.eContact ∧
    (create_contact calc_normal e0 toi a b p pdot t).contact_geom1 = a ∧
    (create_contact calc_normal e0 toi a b p pdot t).contact_geom2 = b ∧
    (create_contact calc_normal e0 toi a b p pdot t).contact_point = p ∧
    (create_contact (fun _ => ⟨0, 0, 1⟩) ⟨EventType.eNone, 0, 0, 0, Vec3.zero, Vec3.zero⟩ (1/2)
      1 2 ⟨0, 0, 0⟩ ⟨0, 0, -1⟩ ⟨⟨0, 0, 0⟩, ⟨1, 0, 0⟩, ⟨0, 1, 0⟩⟩).t ≠ 1/2 := by
  refine ⟨?_, ?_, ?_, ?_, ?_, by decide!⟩
  all_goals
    unfold create_contact
    dsimp only
    split <;> rfl
theorem swap_pop_concat (x : Event) (L : List Event) (b : Event) :
    swap_pop (x :: (L ++ [b])) = b :: L := by
  simp only [swap_pop, List.getLast?_concat, List.dropLast_concat]

theorem swap_pop_perm (x : Event) (tl : List Event) : (swap_pop (x :: tl)).Perm tl := by
  rcases List.eq_nil_or_concat tl with h | ⟨L, b, h⟩
  · subst h; simp [swap_pop]
  · subst h
    rw [List.concat_eq_append, swap_pop_concat]
    exact (List.perm_append_singleton b L).symm

theorem swap_pop_length (x : Event) (tl : List Event) :
    (swap_pop (x :: tl)).length = tl.length :=
  (swap_pop_perm x tl).length_eq

theorem set_back_dropLast (pre : List Event) (x : Event) (tl : List Event) (back : Event)
    (hb : (pre ++ x :: tl).getLast? = some back) :
    ((pre ++ x :: tl).set pre.length back).dropLast = pre ++ swap_pop (x :: tl) := by
  rcases List.eq_nil_or_concat tl with h | ⟨L, b, h⟩
  · subst h
    simp [swap_pop]
  · subst h
    rw [List.concat_eq_append] at hb ⊢
    have hb2 : back = b := by
      have e : pre ++ x :: (L ++ [b]) = (pre ++ x :: L) ++ [b] := by simp
      rw [e, List.getLast?_concat] at hb
      exact (Option.some.inj hb).symm
    subst hb2
    rw [swap_pop_concat]
    have e1 : (pre ++ x :: (L ++ [back])).set pre.length back = pre ++ back :: (L ++ [back]) := by
      simp
    rw [e1]
    have e2 : pre ++ back :: (L ++ [back]) = (pre ++ back :: L) ++ [back] := by simp
    rw [e2, List.dropLast_concat]

theorem remove_duplicates_inner_spec (dup : Event → Event → Bool) (i : Nat) (ci : Event) :
    ∀ (n : Nat) (pre suf : List Event), suf.length ≤ n → pre[i]? = some ci →
      ∃ R rem, (∀ fuel, n ≤ fuel →
          remove_duplicates_inner dup i fuel pre.length (pre ++ suf) = some (pre ++ R)) ∧
        suf.Perm (R ++ rem) ∧ (∀ x ∈ R, dup ci x = false) ∧ (∀ x ∈ rem, dup ci x = true) := by
  intro n
  induction n with
  | zero =>
    intro pre suf hlen hci
    have hs : suf = [] := List.length_eq_zero.mp (Nat.le_zero.mp hlen)
    subst hs
    refine ⟨[], [], ?_, by simp, by simp, by simp⟩
    intro fuel _
    cases fuel <;> simp [remove_duplicates_inner]
  | succ n ih =>
    intro pre suf hlen hci
    cases suf with
    | nil =>
      refine ⟨[], [], ?_, by simp, by simp, by simp⟩
      intro fuel _
      cases fuel <;> simp [remove_duplicates_inner]
    | cons x tl =>
      have hi : i < pre.length := by
        by_contra h
        rw [List.getElem?_eq_none (not_lt.mp h)] at hci
        exact absurd hci (by simp)
      have hlt : pre.length < (pre ++ x :: tl).length := by simp
      have hgi : (pre ++ x :: tl)[i]? = some ci := by
        rw [List.getElem?_append_left hi]; exact hci
      have hgj : (pre ++ x :: tl)[pre.length]? = some x := by
        rw [List.getElem?_append_right (le_refl _)]
        simp
      obtain ⟨back, hback⟩ : ∃ back, (pre ++ x :: tl).getLast? = some back := by
        cases h : (pre ++ x :: tl).getLast? with
        | none => simp at h
        | some b => exact ⟨b, rfl⟩
      by_cases hd : dup ci x = true
      · have hl2 : (swap_pop (x :: tl)).length ≤ n := by
          rw [swap_pop_length]; simpa using hlen
        obtain ⟨R, rem, hrun, hperm, hR, hrem⟩ := ih pre (swap_pop (x :: tl)) hl2 hci
        refine ⟨R, x :: rem, ?_, ?_, hR, ?_⟩
        · intro fuel hfuel
          obtain ⟨f, rfl⟩ : ∃ f, fuel = f + 1 := ⟨fuel - 1, by omega⟩
          unfold remove_duplicates_inner
          rw [if_pos hlt, hgi, hgj, hback]
          simp only [hd, if_true]
          rw [set_back_dropLast pre x tl back hback]
          exact hrun f (by omega)
        · have h1 : (x :: tl).Perm (x :: (R ++ rem)) :=
            List.Perm.cons x ((swap_pop_perm x tl).symm.trans hperm)
          exact h1.trans List.perm_middle.symm
        · intro y hy
          rcases List.mem_cons.mp hy with rfl | hy2
          · exact hd
          · exact hrem y hy2
      · simp only [Bool.not_eq_true] at hd
        have hci2 : (pre ++ [x])[i]? = some ci := by
          rw [List.getElem?_append_left hi]; exact hci
        obtain ⟨R, rem, hrun, hperm, hR, hrem⟩ := ih (pre ++ [x]) tl (by simpa using hlen) hci2
        refine ⟨x :: R, rem, ?_, ?_, ?_, hrem⟩
        · intro fuel hfuel
          obtain ⟨f, rfl⟩ : ∃ f, fuel = f + 1 := ⟨fuel - 1, by omega⟩
          unfold remove_duplicates_inner
          rw [if_pos hlt, hgi, hgj, hback]
          simp only [hd, Bool.false_eq_true, if_false]
          have := hrun f (by omega)
          simp only [List.length_append, List.length_singleton, List.append_assoc,
            List.singleton_append] at this
          exact this
        · exact List.Perm.cons x hperm
        · intro y hy
          rcases List.mem_cons.mp hy with rfl | hy2
          · exact hd
          · exact hR y hy2

theorem remove_duplicates_outer_spec (dup : Event → Event → Bool) :
    ∀ (n : Nat) (done todo : List Event), todo.length ≤ n →
      ∃ R rem, (∀ fuel, n + 1 ≤ fuel →
          remove_duplicates_outer dup fuel done.length (done ++ todo) = some (done ++ R)) ∧
        todo.Perm (R ++ rem) ∧ R.Pairwise (fun a b => dup a b = false) ∧
        (∀ x ∈ rem, ∃ y ∈ R, dup y x = true) := by
  intro n
  induction n with
  | zero =>
    intro done todo hlen
    have hs : todo = [] := List.length_eq_zero.mp (Nat.le_zero.mp hlen)
    subst hs
    refine ⟨[], [], ?_, by simp, by simp, by simp⟩
    intro fuel _
    cases fuel <;> simp [remove_duplicates_outer]
  | succ n ih =>
    intro done todo hlen
    cases todo with
    | nil =>
      refine ⟨[], [], ?_, by simp, by simp, by simp⟩
      intro fuel _
      cases fuel <;> simp [remove_duplicates_outer]
    | cons c S =>
      have hc : (done ++ [c])[done.length]? = some c := by simp
      obtain ⟨R1, rem1, hrun1, hperm1, hR1, hrem1⟩ :=
        remove_duplicates_inner_spec dup done.length c S.length (done ++ [c]) S (le_refl _) hc
      have hl1 : R1.length ≤ n := by
        have := hperm1.length_eq
        simp only [List.length_append] at this
        simp only [List.length_cons] at hlen
        omega
      obtain ⟨R2, rem2, hrun2, hperm2, hR2, hrem2⟩ := ih (done ++ [c]) R1 hl1
      refine ⟨c :: R2, rem1 ++ rem2, ?_, ?_, ?_, ?_⟩
      · intro fuel hfuel
        obtain ⟨f, rfl⟩ : ∃ f, fuel = f + 1 := ⟨fuel - 1, by omega⟩
        unfold remove_duplicates_outer
        have hlt : done.length < (done ++ c :: S).length := by simp
        rw [if_pos hlt]
        have h1 := hrun1 f (by simp only [List.length_cons] at hlen; omega)
        simp only [List.length_append, List.length_singleton, List.append_assoc,
          List.singleton_append] at h1
        rw [h1]
        have h2 := hrun2 f (by omega)
        simp only [List.length_append, List.length_singleton, List.append_assoc,
          List.singleton_append] at h2
        exact h2
      · have h1 : S.Perm ((R2 ++ rem2) ++ rem1) := hperm1.trans (List.Perm.append_right rem1 hperm2)
        have h2 : ((R2 ++ rem2) ++ rem1).Perm (R2 ++ (rem1 ++ rem2)) := by
          rw [List.append_assoc]
          exact List.Perm.append_left R2 List.perm_append_comm
        exact List.Perm.cons c (h1.trans h2)
      · rw [List.pairwise_cons]
        refine ⟨fun x hx => hR1 x (hperm2.symm.subset (List.mem_append_left _ hx)), hR2⟩
      · intro x hx
        rcases List.mem_append.mp hx with h | h
        · exact ⟨c, List.mem_cons_self _ _, hrem1 x h⟩
        · obtain ⟨y, hy, hd⟩ := hrem2 x h
          exact ⟨y, List.mem_cons_of_mem _ hy, hd⟩

theorem is_duplicate_comm (NEAR_ZERO : ℚ) (sqrt : ℚ → ℚ) (a b : Event) :
    is_duplicate NEAR_ZERO sqrt a b = is_duplicate NEAR_ZERO sqrt b a := by
  unfold is_duplicate Vec3.norm
  have e1 : |a.t - b.t| = |b.t - a.t| := abs_sub_comm _ _
  have e2 : (a.contact_point.sub b.contact_point).dot (a.contact_point.sub b.contact_point) =
      (b.contact_point.sub a.contact_point).dot (b.contact_point.sub a.contact_point) := by
    simp only [Vec3.sub, Vec3.dot]; ring
  rw [e1, e2]

/-- C16: the duplicate-removal pass ends (for every fuel above the length of the list, with
the same result), and splits the input list into the contacts that remain and the removed ones:
no two remaining contacts at different positions are within both tolerances of each other,
every remaining contact was in the input, every removed contact is within both tolerances of
a contact that remains, and two candidates at the same time and point collapse to the first
of them. -/
theorem remove_duplicates_keeps_one_of_each (NEAR_ZERO : ℚ) (sqrt : ℚ → ℚ)
    (contacts : List Event) :
    (∃ result removed,
      (∀ fuel, contacts.length + 1 ≤ fuel →
        remove_duplicates NEAR_ZERO sqrt fuel contacts = some result) ∧
      contacts.Perm (result ++ removed) ∧
      result.Pairwise (fun a b => is_duplicate NEAR_ZERO sqrt a b = false ∧
        is_duplicate NEAR_ZERO sqrt b a = false) ∧
      (∀ x ∈ removed, ∃ y ∈ result, is_duplicate NEAR_ZERO sqrt y x = true)) ∧
    (0 < NEAR_ZERO → sqrt 0 < NEAR_ZERO → ∀ e1 e2 : Event, e1.t = e2.t →
      e1.contact_point = e2.contact_point → ∀ fuel, 3 ≤ fuel →
        remove_duplicates NEAR_ZERO sqrt fuel [e1, e2] = some [e1]) := by
  constructor
  · obtain ⟨R, rem, hrun, hperm, hR, hrem⟩ :=
      remove_duplicates_outer_spec (is_duplicate NEAR_ZERO sqrt) contacts.length [] contacts
        (le_refl _)
    refine ⟨R, rem, ?_, hperm, ?_, hrem⟩
    · intro fuel hfuel
      have := hrun fuel hfuel
      simpa [remove_duplicates] using this
    · exact hR.imp (fun {a b} h => ⟨h, by rw [is_duplicate_comm]; exact h⟩)
  · intro hNZ hs e1 e2 ht hp fuel hfuel
    obtain ⟨f, rfl⟩ : ∃ f, fuel = f + 3 := ⟨fuel - 3, by omega⟩
    have hd : is_duplicate NEAR_ZERO sqrt e1 e2 = true := by
      unfold is_duplicate Vec3.norm
      have e : (e1.contact_point.sub e2.contact_point).dot
          (e1.contact_point.sub e2.contact_point) = 0 := by
        rw [hp]; simp only [Vec3.sub, Vec3.dot]; ring
      rw [ht, e]
      simp [hNZ, hs]
    simp [remove_duplicates, remove_duplicates_outer, remove_duplicates_inner, hd]

theorem remove_duplicates_keeps_one_of_each_witness :
    remove_duplicates (1/100000000) ratSqrt 3 [mkEvent (1/2) 1 2 3, mkEvent (1/2) 1 2 3] =
      some [mkEvent (1/2) 1 2 3] ∧
    remove_duplicates (1/100000000) ratSqrt 5
      [mkEvent (1/2) 1 2 3, mkEvent (1/4) 0 0 0, mkEvent (1/2) 1 2 3, mkEvent (1/4) 0 0 0] =
      some [mkEvent (1/2) 1 2 3, mkEvent (1/4) 0 0 0] :=
  ⟨(remove_duplicates_keeps_one_of_each (1/100000000) ratSqrt
      [mkEvent (1/2) 1 2 3, mkEvent (1/2) 1 2 3]).2 (by norm_num) (by decide!)
      (mkEvent (1/2) 1 2 3) (mkEvent (1/2) 1 2 3) rfl rfl 3 (le_refl 3),
   by decide!⟩
theorem broad_phase_keep_iff (env : BroadPhaseEnv) (a b : Nat) (ha : a ∉ env.disabled) :
    (¬ env.disabled.contains b = true ∧
      ¬ env.disabled_pairs.contains (make_sorted_pair a b) = true ∧
      ¬ ((env.rigid_body a).isSome && env.rigid_body a == env.rigid_body b) = true ∧
      ¬ (rb_disabled env (env.rigid_body a) && rb_disabled env (env.rigid_body b)) = true) ↔
    PairToCheck env a b := by
  unfold PairToCheck
  simp only [ha, not_false_eq_true, true_and]
  refine and_congr (by simp) (and_congr (by simp) (and_congr ?_ ?_))
  · cases h1 : env.rigid_body a <;> cases h2 : env.rigid_body b <;> simp
    rename_i v1 v2
    exact ⟨fun h e => h e.symm, fun h e => h e.symm⟩
  · cases h1 : env.rigid_body a <;> cases h2 : env.rigid_body b <;> simp [rb_disabled]

theorem mem_broad_phase_inner (env : BroadPhaseEnv) (a : Nat) (ha : a ∉ env.disabled)
    (p : Nat × Nat) :
    ∀ (bs : List Nat) (acc : List (Nat × Nat)),
      p ∈ broad_phase_inner env a bs acc ↔
        p ∈ acc ∨ (p.1 = a ∧ p.2 ∈ bs ∧ PairToCheck env a p.2)
  | [], acc => by simp [broad_phase_inner]
  | b :: bs, acc => by
    have key := broad_phase_keep_iff env a b ha
    unfold broad_phase_inner
    by_cases h1 : env.disabled.contains b = true
    · rw [if_pos h1, mem_broad_phase_inner env a ha p bs acc]
      have hno : ¬ PairToCheck env a b := fun h => (key.mpr h).1 h1
      constructor
      · rintro (h | ⟨e, hm, hk⟩)
        · exact Or.inl h
        · exact Or.inr ⟨e, List.mem_cons_of_mem _ hm, hk⟩
      · rintro (h | ⟨e, hm, hk⟩)
        · exact Or.inl h
        · rcases List.mem_cons.mp hm with hb | hm2
          · rw [hb] at hk; exact absurd hk hno
          · exact Or.inr ⟨e, hm2, hk⟩
    · rw [if_neg h1]
      by_cases h2 : env.disabled_pairs.contains (make_sorted_pair a b) = true
      · rw [if_pos h2, mem_broad_phase_inner env a ha p bs acc]
        have hno : ¬ PairToCheck env a b := fun h => (key.mpr h).2.1 h2
        constructor
        · rintro (h | ⟨e, hm, hk⟩)
          · exact Or.inl h
          · exact Or.inr ⟨e, List.mem_cons_of_mem _ hm, hk⟩
        · rintro (h | ⟨e, hm, hk⟩)
          · exact Or.inl h
          · rcases List.mem_cons.mp hm with hb | hm2
            · rw [hb] at hk; exact absurd hk hno
            · exact Or.inr ⟨e, hm2, hk⟩
      · rw [if_neg h2]
        dsimp only
        by_cases h3 : ((env.rigid_body a).isSome && env.rigid_body a == env.rigid_body b) = true
        · rw [if_pos h3, mem_broad_phase_inner env a ha p bs acc]
          have hno : ¬ PairToCheck env a b := fun h => (key.mpr h).2.2.1 h3
          constructor
          · rintro (h | ⟨e, hm, hk⟩)
            · exact Or.inl h
            · exact Or.inr ⟨e, List.mem_cons_of_mem _ hm, hk⟩
          · rintro (h | ⟨e, hm, hk⟩)
            · exact Or.inl h
            · rcases List.mem_cons.mp hm with hb | hm2
              · rw [hb] at hk; exact absurd hk hno
              · exact Or.inr ⟨e, hm2, hk⟩
        · rw [if_neg h3]
          by_cases h4 : (rb_disabled env (env.rigid_body a) &&
              rb_disabled env (env.rigid_body b)) = true
          · rw [if_pos h4, mem_broad_phase_inner env a ha p bs acc]
            have hno : ¬ PairToCheck env a b := fun h => (key.mpr h).2.2.2 h4
            constructor
            · rintro (h | ⟨e, hm, hk⟩)
              · exact Or.inl h
              · exact Or.inr ⟨e, List.mem_cons_of_mem _ hm, hk⟩
            · rintro (h | ⟨e, hm, hk⟩)
              · exact Or.inl h
              · rcases List.mem_cons.mp hm with hb | hm2
                · rw [hb] at hk; exact absurd hk hno
                · exact Or.inr ⟨e, hm2, hk⟩
          · rw [if_neg h4, mem_broad_phase_inner env a ha p bs (acc ++ [(a, b)])]
            have hyes : PairToCheck env a b := key.mp ⟨h1, h2, h3, h4⟩
            constructor
            · rintro (h | ⟨e, hm, hk⟩)
              · rcases List.mem_append.mp h with h | h
                · exact Or.inl h
                · rw [List.mem_singleton] at h
                  subst h
                  exact Or.inr ⟨rfl, List.mem_cons_self _ _, hyes⟩
              · exact Or.inr ⟨e, List.mem_cons_of_mem _ hm, hk⟩
            · rintro (h | ⟨e, hm, hk⟩)
              · exact Or.inl (List.mem_append_left _ h)
              · rcases List.mem_cons.mp hm with hb | hm2
                · left
                  apply List.mem_append_right
                  rw [List.mem_singleton]
                  exact Prod.ext e hb
                · exact Or.inr ⟨e, hm2, hk⟩

theorem broad_phase_inner_cons (env : BroadPhaseEnv) (a b : Nat) (bs : List Nat)
    (acc : List (Nat × Nat)) :
    broad_phase_inner env a (b :: bs) acc = broad_phase_inner env a bs acc ∨
    broad_phase_inner env a (b :: bs) acc = broad_phase_inner env a bs (acc ++ [(a, b)]) := by
  have h : broad_phase_inner env a (b :: bs) acc =
      (if env.disabled.contains b = true then broad_phase_inner env a bs acc
       else if env.disabled_pairs.contains (make_sorted_pair a b) = true then
         broad_phase_inner env a bs acc
       else if ((env.rigid_body a).isSome && env.rigid_body a == env.rigid_body b) = true then
         broad_phase_inner env a bs acc
       else if (rb_disabled env (env.rigid_body a) && rb_disabled env (env.rigid_body b)) = true
       then broad_phase_inner env a bs acc
       else broad_phase_inner env a bs (acc ++ [(a, b)])) := by
    conv_lhs => unfold broad_phase_inner
  rw [h]
  split_ifs
  · exact Or.inl rfl
  · exact Or.inl rfl
  · exact Or.inl rfl
  · exact Or.inl rfl
  · exact Or.inr rfl

theorem broad_phase_inner_nodup (env : BroadPhaseEnv) (a : Nat) :
    ∀ (bs : List Nat) (acc : List (Nat × Nat)), bs.Nodup → acc.Nodup →
      (∀ b ∈ bs, (a, b) ∉ acc) → (broad_phase_inner env a bs acc).Nodup
  | [], acc, _, hacc, _ => by simpa [broad_phase_inner] using hacc
  | b :: bs, acc, hbs, hacc, hnew => by
    have hb : b ∉ bs := (List.nodup_cons.mp hbs).1
    have hbs2 : bs.Nodup := (List.nodup_cons.mp hbs).2
    rcases broad_phase_inner_cons env a b bs acc with h | h
    · rw [h]
      exact broad_phase_inner_nodup env a bs acc hbs2 hacc
        (fun x hx => hnew x (List.mem_cons_of_mem _ hx))
    · rw [h]
      apply broad_phase_inner_nodup env a bs _ hbs2
      · rw [List.nodup_append]
        refine ⟨hacc, List.nodup_singleton _, ?_⟩
        intro p hp hq
        rw [List.mem_singleton] at hq
        subst hq
        exact hnew b (List.mem_cons_self _ _) hp
      · intro x hx hmem
        rcases List.mem_append.mp hmem with h1 | h1
        · exact hnew x (List.mem_cons_of_mem _ hx) h1
        · rw [List.mem_singleton] at h1
          have : x = b := (Prod.mk.inj h1).2
          subst this
          exact hb hx

theorem mem_broad_phase_outer (env : BroadPhaseEnv) (p : Nat × Nat) :
    ∀ (gs : List Nat) (acc : List (Nat × Nat)), gs.Pairwise (fun x y => x < y) →
      (p ∈ broad_phase_outer env gs acc ↔
        p ∈ acc ∨ (p.1 ∈ gs ∧ p.2 ∈ gs ∧ p.1 < p.2 ∧ PairToCheck env p.1 p.2))
  | [], acc, _ => by simp [broad_phase_outer]
  | a :: rest, acc, hs => by
    have hlt : ∀ y ∈ rest, a < y := (List.pairwise_cons.mp hs).1
    have hs2 := (List.pairwise_cons.mp hs).2
    unfold broad_phase_outer
    by_cases ha : env.disabled.contains a = true
    · rw [if_pos ha, mem_broad_phase_outer env p rest acc hs2]
      have ha2 : a ∈ env.disabled := by simpa using ha
      constructor
      · rintro (h | ⟨h1, h2, h3, h4⟩)
        · exact Or.inl h
        · exact Or.inr ⟨List.mem_cons_of_mem _ h1, List.mem_cons_of_mem _ h2, h3, h4⟩
      · rintro (h | ⟨h1, h2, h3, h4⟩)
        · exact Or.inl h
        · right
          rcases List.mem_cons.mp h1 with e1 | h1
          · rw [e1] at h4
            exact absurd ha2 h4.1
          · rcases List.mem_cons.mp h2 with e2 | h2
            · have := hlt p.1 h1
              omega
            · exact ⟨h1, h2, h3, h4⟩
    · rw [if_neg ha, mem_broad_phase_outer env p rest _ hs2]
      have ha2 : a ∉ env.disabled := by simpa using ha
      rw [mem_broad_phase_inner env a ha2 p rest acc]
      constructor
      · rintro ((h | ⟨e, hm, hk⟩) | ⟨h1, h2, h3, h4⟩)
        · exact Or.inl h
        · right
          refine ⟨by rw [e]; exact List.mem_cons_self _ _, List.mem_cons_of_mem _ hm, ?_, ?_⟩
          · rw [e]; exact hlt p.2 hm
          · rw [e]; exact hk
        · exact Or.inr ⟨List.mem_cons_of_mem _ h1, List.mem_cons_of_mem _ h2, h3, h4⟩
      · rintro (h | ⟨h1, h2, h3, h4⟩)
        · exact Or.inl (Or.inl h)
        · rcases List.mem_cons.mp h2 with e2 | h2
          · exfalso
            rcases List.mem_cons.mp h1 with e1 | h1
            · omega
            · have := hlt p.1 h1
              omega
          · rcases List.mem_cons.mp h1 with e1 | h1
            · left; right
              exact ⟨e1, h2, by rw [← e1]; exact h4⟩
            · exact Or.inr ⟨h1, h2, h3, h4⟩

theorem broad_phase_outer_nodup (env : BroadPhaseEnv) :
    ∀ (gs : List Nat) (acc : List (Nat × Nat)), gs.Pairwise (fun x y => x < y) → acc.Nodup →
      (∀ x ∈ gs, ∀ y, (x, y) ∉ acc) → (broad_phase_outer env gs acc).Nodup
  | [], acc, _, hacc, _ => by simpa [broad_phase_outer] using hacc
  | a :: rest, acc, hs, hacc, hnew => by
    have hlt : ∀ y ∈ rest, a < y := (List.pairwise_cons.mp hs).1
    have hs2 := (List.pairwise_cons.mp hs).2
    have hnd : rest.Nodup := hs2.imp (fun h => Nat.ne_of_lt h)
    unfold broad_phase_outer
    by_cases ha : env.disabled.contains a = true
    · rw [if_pos ha]
      exact broad_phase_outer_nodup env rest acc hs2 hacc
        (fun x hx => hnew x (List.mem_cons_of_mem _ hx))
    · rw [if_neg ha]
      have ha2 : a ∉ env.disabled := by simpa using ha
      apply broad_phase_outer_nodup env rest _ hs2
      · exact broad_phase_inner_nodup env a rest acc hnd hacc
          (fun b _ => hnew a (List.mem_cons_self _ _) b)
      · intro x hx y hmem
        rw [mem_broad_phase_inner env a ha2 (x, y) rest acc] at hmem
        rcases hmem with h | ⟨e, _, _⟩
        · exact hnew x (List.mem_cons_of_mem _ hx) y h
        · have := hlt x hx
          simp only at e
          omega

/-- C18: `broad_phase` discards what `to_check` held and, `_geoms` being a set iterated in
ascending order, leaves in it exactly the pairs `(a, b)` of registered geometries with `a`
before `b` (so `a` and `b` are distinct and each unordered pair occurs once) for which neither
geometry is disabled, the sorted pair is not a disabled pair, the two geometries are not owned
by one rigid body, and their owners are not two disabled rigid bodies. -/
theorem broad_phase_exact_pairs (env : BroadPhaseEnv)
    (hset : env.geoms.Pairwise (fun x y => x < y)) (to_check : List (Nat × Nat)) :
    broad_phase env to_check = broad_phase env [] ∧
    (broad_phase env to_check).Nodup ∧
    (∀ a b, (a, b) ∈ broad_phase env to_check ↔
      (a ∈ env.geoms ∧ b ∈ env.geoms ∧ a < b ∧ PairToCheck env a b)) ∧
    (∀ a b, (a, b) ∈ broad_phase env to_check → (b, a) ∉ broad_phase env to_check) := by
  have hmem : ∀ a b, (a, b) ∈ broad_phase env to_check ↔
      (a ∈ env.geoms ∧ b ∈ env.geoms ∧ a < b ∧ PairToCheck env a b) := by
    intro a b
    unfold broad_phase vector_clear
    rw [mem_broad_phase_outer env (a, b) env.geoms [] hset]
    simp
  refine ⟨rfl, ?_, hmem, ?_⟩
  · unfold broad_phase vector_clear
    exact broad_phase_outer_nodup env env.geoms [] hset List.nodup_nil (by simp)
  · intro a b h1 h2
    have l1 := ((hmem a b).mp h1).2.2.1
    have l2 := ((hmem b a).mp h2).2.2.1
    omega

theorem broad_phase_exact_pairs_witness :
    (broad_phase exampleBroadPhase [(7, 8)] = broad_phase exampleBroadPhase [] ∧
    (broad_phase exampleBroadPhase [(7, 8)]).Nodup ∧
    (∀ a b, (a, b) ∈ broad_phase exampleBroadPhase [(7, 8)] ↔
      (a ∈ exampleBroadPhase.geoms ∧ b ∈ exampleBroadPhase.geoms ∧ a < b ∧
        PairToCheck exampleBroadPhase a b)) ∧
    (∀ a b, (a, b) ∈ broad_phase exampleBroadPhase [(7, 8)] →
      (b, a) ∉ broad_phase exampleBroadPhase [(7, 8)])) ∧
    broad_phase exampleBroadPhase [(7, 8)] =
      [(1, 3), (1, 4), (3, 5), (3, 6), (4, 5), (4, 6), (5, 6)] :=
  ⟨broad_phase_exact_pairs exampleBroadPhase (by decide) [(7, 8)], by decide⟩

theorem Matrix3.transpose_transpose (m : Matrix3) : m.transpose.transpose = m := rfl

theorem Matrix4.inverse_transform_involutive (T : Matrix4) (h : T.Rigid) :
    T.inverse_transform.inverse_transform = T := by
  obtain ⟨⟨⟨a1, a2, a3⟩, ⟨b1, b2, b3⟩, ⟨c1, c2, c3⟩⟩, ⟨t1, t2, t3⟩⟩ := T
  simp only [Matrix4.Rigid, Matrix3.Orthonormal, Vec3.dot] at h
  obtain ⟨h11, h22, h33, h12, h13, h23⟩ := h
  simp only [Matrix4.inverse_transform, Matrix3.transpose, Matrix3.mult, Vec3.dot, Vec3.neg,
    Matrix4.mk.injEq, Matrix3.mk.injEq, Vec3.mk.injEq, true_and, and_self]
  refine ⟨?_, ?_, ?_⟩
  · linear_combination t1 * h11 + t2 * h12 + t3 * h13
  · linear_combination t1 * h12 + t2 * h22 + t3 * h23
  · linear_combination t1 * h13 + t2 * h23 + t3 * h33

/-- The two dispatchers of BV.cpp give the same answer with the two volumes exchanged (and the
rigid transform inverted) when the same-kind tests do: for two volumes of different kinds both
orders reach the same kind-pair test with the same arguments. -/
theorem intersects_symmetric_of_same_kind (env : BVEnv) (h1 : SameKindSymmetric env)
    (h2 : SameKindSymmetricT env) (a b : Volume) :
    BV.intersects env a b = BV.intersects env b a ∧
    ∀ aTb : Matrix4, aTb.Rigid →
      BV.intersects_T env a b aTb = BV.intersects_T env b a aTb.inverse_transform := by
  obtain ⟨s1, s2, s3, s4, s5⟩ := h1
  constructor
  · cases a <;> cases b <;> first
      | rfl
      | exact s1 _ _
      | exact s2 _ _
      | exact s3 _ _
      | exact s4 _ _
      | exact s5 _ _
  · intro aTb hT
    obtain ⟨t1, t2, t3, t4, t5⟩ := h2 aTb hT
    have hinv := Matrix4.inverse_transform_involutive aTb hT
    cases a <;> cases b <;> first
      | rfl
      | exact t1 _ _
      | exact t2 _ _
      | exact t3 _ _
      | exact t4 _ _
      | exact t5 _ _
      | (simp only [BV.intersects_T, hinv])

section RigidMaps

/-- The columns of a matrix with orthonormal rows are orthonormal. -/
theorem Matrix3.Orthonormal.transpose (m : Matrix3) (h : m.Orthonormal) :
    m.transpose.Orthonormal := by
  obtain ⟨⟨a, b, c⟩, ⟨d, e, f⟩, ⟨g, k, l⟩⟩ := m
  simp only [Matrix3.Orthonormal, Vec3.dot, Matrix3.transpose] at h ⊢
  obtain ⟨h11, h22, h33, h12, h13, h23⟩ := h
  have hM : (!![a, b, c; d, e, f; g, k, l] : Matrix (Fin 3) (Fin 3) ℚ) *
      (!![a, d, g; b, e, k; c, f, l] : Matrix (Fin 3) (Fin 3) ℚ) = 1 := by
    ext i j
    fin_cases i <;> fin_cases j <;>
      simp [Matrix.mul_apply, Fin.sum_univ_three] <;> linarith
  have hT := Matrix.mul_eq_one_comm.mp hM
  have e00 := congrFun (congrFun hT 0) 0
  have e11 := congrFun (congrFun hT 1) 1
  have e22 := congrFun (congrFun hT 2) 2
  have e01 := congrFun (congrFun hT 0) 1
  have e02 := congrFun (congrFun hT 0) 2
  have e12 := congrFun (congrFun hT 1) 2
  simp [Matrix.mul_apply, Fin.sum_univ_three] at e00 e11 e22 e01 e02 e12
  exact ⟨e00, e11, e22, e01, e02, e12⟩

theorem Matrix4.mult_point_sub (T : Matrix4) (p q : Vec3) :
    (T.mult_point p).sub (T.mult_point q) = T.R.mult (p.sub q) := by
  rw [Vec3.ext_iff3]
  simp only [Matrix4.mult_point, Matrix3.mult, Vec3.sub, Vec3.add, Vec3.dot]
  refine ⟨by ring, by ring, by ring⟩

theorem Matrix4.mult_point_add_sub (T : Matrix4) (a b o : Vec3) :
    T.mult_point (a.add (b.sub o)) =
      (T.mult_point a).add ((T.mult_point b).sub (T.mult_point o)) := by
  rw [Vec3.ext_iff3]
  simp only [Matrix4.mult_point, Matrix3.mult, Vec3.sub, Vec3.add, Vec3.dot]
  refine ⟨by ring, by ring, by ring⟩

/-- A matrix with orthonormal rows keeps scalar products. -/
theorem Matrix3.mult_dot (m : Matrix3) (h : m.Orthonormal) (u v : Vec3) :
    (m.mult u).dot (m.mult v) = u.dot v := by
  have hc := Matrix3.Orthonormal.transpose m h
  obtain ⟨⟨a, b, c⟩, ⟨d, e, f⟩, ⟨g, k, l⟩⟩ := m
  simp only [Matrix3.Orthonormal, Vec3.dot, Matrix3.transpose] at hc
  obtain ⟨h11, h22, h33, h12, h13, h23⟩ := hc
  simp only [Matrix3.mult, Vec3.dot]
  linear_combination (u.x * v.x) * h11 + (u.y * v.y) * h22 + (u.z * v.z) * h33 +
    (u.x * v.y + u.y * v.x) * h12 + (u.x * v.z + u.z * v.x) * h13 +
    (u.y * v.z + u.z * v.y) * h23

theorem Matrix3.mult_transpose_mult (m : Matrix3) (h : m.Orthonormal) (u : Vec3) :
    m.mult (m.transpose.mult u) = u := by
  obtain ⟨⟨a, b, c⟩, ⟨d, e, f⟩, ⟨g, k, l⟩⟩ := m
  simp only [Matrix3.Orthonormal, Vec3.dot] at h
  obtain ⟨h11, h22, h33, h12, h13, h23⟩ := h
  rw [Vec3.ext_iff3]
  simp only [Matrix3.mult, Matrix3.transpose, Vec3.dot]
  refine ⟨?_, ?_, ?_⟩
  · linear_combination u.x * h11 + u.y * h12 + u.z * h13
  · linear_combination u.x * h12 + u.y * h22 + u.z * h23
  · linear_combination u.x * h13 + u.y * h23 + u.z * h33

theorem Matrix4.mult_point_inverse (T : Matrix4) (h : T.Rigid) (p : Vec3) :
    T.mult_point (T.inverse_transform.mult_point p) = p := by
  obtain ⟨⟨⟨a, b, c⟩, ⟨d, e, f⟩, ⟨g, k, l⟩⟩, ⟨t1, t2, t3⟩⟩ := T
  simp only [Matrix4.Rigid, Matrix3.Orthonormal, Vec3.dot] at h
  obtain ⟨h11, h22, h33, h12, h13, h23⟩ := h
  rw [Vec3.ext_iff3]
  simp only [Matrix4.mult_point, Matrix4.inverse_transform, Matrix3.mult, Matrix3.transpose,
    Vec3.dot, Vec3.add, Vec3.neg]
  refine ⟨?_, ?_, ?_⟩
  · linear_combination (p.x - t1) * h11 + (p.y - t2) * h12 + (p.z - t3) * h13
  · linear_combination (p.x - t1) * h12 + (p.y - t2) * h22 + (p.z - t3) * h23
  · linear_combination (p.x - t1) * h13 + (p.y - t2) * h23 + (p.z - t3) * h33

/-- The triple product of the images is the triple product times the determinant. -/
theorem Matrix3.mult_triple (m : Matrix3) (u v w : Vec3) :
    triple (m.mult u) (m.mult v) (m.mult w) = triple m.r1 m.r2 m.r3 * triple u v w := by
  simp only [triple, Matrix3.mult, Vec3.dot, Vec3.cross]
  ring

theorem Matrix3.det_sq (m : Matrix3) (h : m.Orthonormal) :
    triple m.r1 m.r2 m.r3 * triple m.r1 m.r2 m.r3 = 1 := by
  obtain ⟨⟨a, b, c⟩, ⟨d, e, f⟩, ⟨g, k, l⟩⟩ := m
  simp only [Matrix3.Orthonormal, Vec3.dot] at h
  obtain ⟨h11, h22, h33, h12, h13, h23⟩ := h
  have gram : ∀ g11 g22 g33 g12 g13 g23 : ℚ,
      g11 = 1 → g22 = 1 → g33 = 1 → g12 = 0 → g13 = 0 → g23 = 0 →
      g11 * g22 * g33 + 2 * g12 * g13 * g23 - g11 * g23 * g23 - g22 * g13 * g13
        - g33 * g12 * g12 = 1 := by
    intro g11 g22 g33 g12 g13 g23 e1 e2 e3 e4 e5 e6
    rw [e1, e2, e3, e4, e5, e6]
    norm_num
  have := gram _ _ _ _ _ _ h11 h22 h33 h12 h13 h23
  simp only [triple, Vec3.dot, Vec3.cross]
  linear_combination this

theorem Matrix3.det_cases (m : Matrix3) (h : m.Orthonormal) :
    triple m.r1 m.r2 m.r3 = 1 ∨ triple m.r1 m.r2 m.r3 = -1 := by
  have h2 := Matrix3.det_sq m h
  have : (triple m.r1 m.r2 m.r3 - 1) * (triple m.r1 m.r2 m.r3 + 1) = 0 := by
    linear_combination h2
  rcases mul_eq_zero.mp this with h1 | h1
  · left; linarith
  · right; linarith

theorem Matrix3.mult_triple_abs (m : Matrix3) (h : m.Orthonormal) (u v w : Vec3) :
    |triple (m.mult u) (m.mult v) (m.mult w)| = |triple u v w| := by
  rw [Matrix3.mult_triple]
  rcases Matrix3.det_cases m h with h1 | h1
  · rw [h1, one_mul]
  · rw [h1, neg_one_mul, abs_neg]

end RigidMaps

section SegmentTests

theorem Vec3.dot_comm (u v : Vec3) : u.dot v = v.dot u := by
  simp only [Vec3.dot]; ring

theorem pointSegDistSq_rigid (T : Matrix4) (h : T.Rigid) (p a b : Vec3) :
    pointSegDistSq (T.mult_point p) (T.mult_point a) (T.mult_point b) =
      pointSegDistSq p a b := by
  simp only [pointSegDistSq, Matrix4.mult_point_sub, Matrix3.mult_dot T.R h]

theorem segSegInner_rigid (T : Matrix4) (h : T.Rigid) (p1 p2 q1 q2 : Vec3) :
    segSegInner (T.mult_point p1) (T.mult_point p2) (T.mult_point q1) (T.mult_point q2) =
      segSegInner p1 p2 q1 q2 := by
  simp only [segSegInner, Matrix4.mult_point_sub, Matrix3.mult_dot T.R h]

theorem segSegWithin_rigid (T : Matrix4) (h : T.Rigid) (rr : ℚ) (p1 p2 q1 q2 : Vec3) :
    segSegWithin rr (T.mult_point p1) (T.mult_point p2) (T.mult_point q1) (T.mult_point q2) =
      segSegWithin rr p1 p2 q1 q2 := by
  simp only [segSegWithin, pointSegDistSq_rigid T h, segSegInner_rigid T h]

theorem segSegInner_comm (p1 p2 q1 q2 : Vec3) :
    segSegInner q1 q2 p1 p2 = segSegInner p1 p2 q1 q2 := by
  unfold segSegInner
  have hw : ∀ x : Vec3, x.dot (q1.sub p1) = -(x.dot (p1.sub q1)) := by
    intro x; simp only [Vec3.dot, Vec3.sub]; ring
  have hww : (q1.sub p1).dot (q1.sub p1) = (p1.sub q1).dot (p1.sub q1) := by
    simp only [Vec3.dot, Vec3.sub]; ring
  have hvu : (q2.sub q1).dot (p2.sub p1) = (p2.sub p1).dot (q2.sub q1) := Vec3.dot_comm _ _
  dsimp only
  rw [hww]
  simp only [hw, hvu]
  generalize (p2.sub p1).dot (p2.sub p1) = a
  generalize (p2.sub p1).dot (q2.sub q1) = b
  generalize (q2.sub q1).dot (q2.sub q1) = c
  generalize (p2.sub p1).dot (p1.sub q1) = d
  generalize (q2.sub q1).dot (p1.sub q1) = e
  generalize (p1.sub q1).dot (p1.sub q1) = ww
  have hD : c * a - b * b = a * c - b * b := by ring
  rw [hD]
  by_cases h0 : a * c - b * b = 0
  · simp only [h0, if_true]
  · simp only [h0, if_false]
    have hs : (b * -d - a * -e) / (a * c - b * b) = (a * e - b * d) / (a * c - b * b) := by
      congr 1; ring
    have ht : (c * -d - b * -e) / (a * c - b * b) = (b * e - c * d) / (a * c - b * b) := by
      congr 1; ring
    rw [hs, ht]
    generalize (a * e - b * d) / (a * c - b * b) = t
    generalize (b * e - c * d) / (a * c - b * b) = s
    by_cases hc : 0 ≤ s ∧ s ≤ 1 ∧ 0 ≤ t ∧ t ≤ 1
    · have hc2 : 0 ≤ t ∧ t ≤ 1 ∧ 0 ≤ s ∧ s ≤ 1 := ⟨hc.2.2.1, hc.2.2.2, hc.1, hc.2.1⟩
      rw [if_pos hc, if_pos hc2]
      congr 1
      ring
    · have hc2 : ¬ (0 ≤ t ∧ t ≤ 1 ∧ 0 ≤ s ∧ s ≤ 1) :=
        fun h => hc ⟨h.2.2.1, h.2.2.2, h.1, h.2.1⟩
      rw [if_neg hc, if_neg hc2]

theorem segSegWithin_comm (rr : ℚ) (p1 p2 q1 q2 : Vec3) :
    segSegWithin rr q1 q2 p1 p2 = segSegWithin rr p1 p2 q1 q2 := by
  unfold segSegWithin
  rw [segSegInner_comm]
  generalize decide (pointSegDistSq p1 q1 q2 ≤ rr) = x1
  generalize decide (pointSegDistSq p2 q1 q2 ≤ rr) = x2
  generalize decide (pointSegDistSq q1 p1 p2 ≤ rr) = x3
  generalize decide (pointSegDistSq q2 p1 p2 ≤ rr) = x4
  generalize (match segSegInner p1 p2 q1 q2 with
    | some x => decide (x ≤ rr)
    | none => false) = x5
  cases x1 <;> cases x2 <;> cases x3 <;> cases x4 <;> cases x5 <;> rfl

theorem sphereIntersectsModel_comm (a b : BoundingSphere) :
    sphereIntersectsModel a b = sphereIntersectsModel b a := by
  simp only [sphereIntersectsModel]
  have e1 : (a.center.sub b.center).dot (a.center.sub b.center) =
      (b.center.sub a.center).dot (b.center.sub a.center) := by
    simp only [Vec3.sub, Vec3.dot]; ring
  have e2 : (a.radius + b.radius) * (a.radius + b.radius) =
      (b.radius + a.radius) * (b.radius + a.radius) := by ring
  rw [e1, e2]

theorem sphereIntersectsModelT_comm (T : Matrix4) (h : T.Rigid) (a b : BoundingSphere) :
    sphereIntersectsModelT a b T = sphereIntersectsModelT b a T.inverse_transform := by
  unfold sphereIntersectsModelT
  rw [sphereIntersectsModel_comm b]
  simp only [sphereIntersectsModel]
  have e : ((T.inverse_transform.mult_point a.center).sub b.center).dot
      ((T.inverse_transform.mult_point a.center).sub b.center) =
      (a.center.sub (T.mult_point b.center)).dot (a.center.sub (T.mult_point b.center)) := by
    rw [← Matrix3.mult_dot T.R h, ← Matrix4.mult_point_sub, Matrix4.mult_point_inverse T h]
  rw [e]

theorem sslIntersectsModel_comm (a b : SSL) :
    sslIntersectsModel a b = sslIntersectsModel b a := by
  unfold sslIntersectsModel
  rw [segSegWithin_comm, add_comm b.radius]

theorem sslIntersectsModelT_comm (T : Matrix4) (h : T.Rigid) (a b : SSL) :
    sslIntersectsModelT a b T = sslIntersectsModelT b a T.inverse_transform := by
  unfold sslIntersectsModelT sslIntersectsModel
  simp only
  rw [segSegWithin_comm _ (T.inverse_transform.mult_point a.p1)
      (T.inverse_transform.mult_point a.p2) b.p1 b.p2, add_comm b.radius,
    ← segSegWithin_rigid T h _ (T.inverse_transform.mult_point a.p1)
      (T.inverse_transform.mult_point a.p2) b.p1 b.p2,
    Matrix4.mult_point_inverse T h, Matrix4.mult_point_inverse T h]

end SegmentTests

section RectangleTests

theorem pointRectDistSq_rigid (T : Matrix4) (h : T.Rigid) (p o a b : Vec3) :
    pointRectDistSq (T.mult_point p) (T.mult_point o) (T.mult_point a) (T.mult_point b) =
      pointRectDistSq p o a b := by
  simp only [pointRectDistSq, Matrix4.mult_point_sub, Matrix3.mult_dot T.R h]

theorem segPiercesRect_neg (dp dq x y z u v w : ℚ) :
    (if -dp * -dq ≤ 0 ∧ -dp ≠ -dq then
      decide (0 ≤ x + -dp / (-dp - -dq) * y ∧ x + -dp / (-dp - -dq) * y ≤ z ∧
        0 ≤ u + -dp / (-dp - -dq) * v ∧ u + -dp / (-dp - -dq) * v ≤ w)
    else false) =
    (if dp * dq ≤ 0 ∧ dp ≠ dq then
      decide (0 ≤ x + dp / (dp - dq) * y ∧ x + dp / (dp - dq) * y ≤ z ∧
        0 ≤ u + dp / (dp - dq) * v ∧ u + dp / (dp - dq) * v ≤ w)
    else false) := by
  have e1 : -dp * -dq = dp * dq := by ring
  have e2 : (-dp ≠ -dq) ↔ (dp ≠ dq) := by
    constructor
    · intro h h2; exact h (by rw [h2])
    · intro h h2; exact h (neg_injective h2)
  have e3 : -dp / (-dp - -dq) = dp / (dp - dq) := by
    rw [show -dp - -dq = -(dp - dq) by ring, neg_div_neg_eq]
  rw [e1, e3]
  simp only [e2]

theorem segPiercesRect_rigid (T : Matrix4) (h : T.Rigid) (p q o a b : Vec3) :
    segPiercesRect (T.mult_point p) (T.mult_point q) (T.mult_point o) (T.mult_point a)
      (T.mult_point b) = segPiercesRect p q o a b := by
  simp only [segPiercesRect, Matrix4.mult_point_sub, Matrix3.mult_dot T.R h,
    Matrix3.mult_triple]
  rcases Matrix3.det_cases T.R h with h1 | h1
  · simp only [h1, one_mul]
  · simp only [h1, neg_one_mul]
    exact segPiercesRect_neg _ _ _ _ _ _ _ _

theorem SSRShape.transform_d (T : Matrix4) (s : SSRShape) :
    (s.transform T).d = T.mult_point s.d := by
  simp only [SSRShape.d, SSRShape.transform, Matrix4.mult_point_add_sub]

theorem rectReaches_rigid (T : Matrix4) (h : T.Rigid) (rr : ℚ) (r s : SSRShape) :
    rectReaches rr (r.transform T) (s.transform T) = rectReaches rr r s := by
  simp only [rectReaches, SSRShape.edges, SSRShape.corners, SSRShape.transform_d,
    List.any_cons, List.any_nil]
  simp only [SSRShape.transform, segPiercesRect_rigid T h, pointRectDistSq_rigid T h]

theorem rectRectWithin_rigid (T : Matrix4) (h : T.Rigid) (rr : ℚ) (r s : SSRShape) :
    rectRectWithin rr (r.transform T) (s.transform T) = rectRectWithin rr r s := by
  simp only [rectRectWithin, rectReaches_rigid T h]
  simp only [SSRShape.edges, SSRShape.transform_d, List.any_cons, List.any_nil]
  simp only [SSRShape.transform, segSegWithin_rigid T h]

theorem any_any_comm {α β : Type} (l1 : List α) (l2 : List β) (p : α → β → Bool) :
    l1.any (fun a => l2.any (fun b => p a b)) = l2.any (fun b => l1.any (fun a => p a b)) := by
  rw [Bool.eq_iff_iff]
  simp only [List.any_eq_true]
  constructor
  · rintro ⟨a, ha, b, hb, hp⟩
    exact ⟨b, hb, a, ha, hp⟩
  · rintro ⟨b, hb, a, ha, hp⟩
    exact ⟨a, ha, b, hb, hp⟩

theorem rectRectWithin_comm (rr : ℚ) (r s : SSRShape) :
    rectRectWithin rr s r = rectRectWithin rr r s := by
  unfold rectRectWithin
  rw [any_any_comm s.edges r.edges]
  simp only [segSegWithin_comm rr]
  rw [Bool.or_comm (rectReaches rr s r)]

theorem SSRShape.transform_inverse (T : Matrix4) (h : T.Rigid) (s : SSRShape) :
    (s.transform T.inverse_transform).transform T = s := by
  simp only [SSRShape.transform, Matrix4.mult_point_inverse T h]

theorem ssrIntersectsModel_comm (shape : SSR → SSRShape) (a b : SSR) :
    ssrIntersectsModel shape a b = ssrIntersectsModel shape b a := by
  unfold ssrIntersectsModel
  rw [rectRectWithin_comm, add_comm (shape b).radius]

theorem ssrIntersectsModelT_comm (shape : SSR → SSRShape) (T : Matrix4) (h : T.Rigid)
    (a b : SSR) :
    ssrIntersectsModelT shape a b T = ssrIntersectsModelT shape b a T.inverse_transform := by
  unfold ssrIntersectsModelT
  rw [rectRectWithin_comm _ ((shape a).transform T.inverse_transform) (shape b),
    add_comm (shape b).radius,
    ← rectRectWithin_rigid T h _ ((shape a).transform T.inverse_transform) (shape b),
    SSRShape.transform_inverse T h]

end RectangleTests

section BoxTests

theorem triple_swap (u v w : Vec3) : triple v u w = -triple u v w := by
  simp only [triple, Vec3.dot, Vec3.cross]; ring

theorem triple_sub_swap (u v x y : Vec3) : triple u v (x.sub y) = -triple u v (y.sub x) := by
  simp only [triple, Vec3.dot, Vec3.cross, Vec3.sub]; ring

theorem dot_sub_swap (u x y : Vec3) : u.dot (x.sub y) = -u.dot (y.sub x) := by
  simp only [Vec3.dot, Vec3.sub]; ring

theorem Box.radius_dot_rigid (T : Matrix4) (h : T.Rigid) (B : Box) (L : Vec3) :
    (B.transform T).radius (T.R.mult L).dot = B.radius L.dot := by
  simp only [Box.radius, Box.transform, Matrix3.mult_dot T.R h]

theorem Box.radius_triple_rigid (T : Matrix4) (h : T.Rigid) (B : Box) (u v : Vec3) :
    (B.transform T).radius (triple (T.R.mult u) (T.R.mult v)) = B.radius (triple u v) := by
  simp only [Box.radius, Box.transform, Matrix3.mult_triple_abs T.R h]

theorem Box.axisSeparates_dot_rigid (T : Matrix4) (h : T.Rigid) (A B : Box) (L : Vec3) :
    (A.transform T).axisSeparates (B.transform T) (T.R.mult L).dot =
      A.axisSeparates B L.dot := by
  unfold Box.axisSeparates
  rw [Box.radius_dot_rigid T h, Box.radius_dot_rigid T h]
  simp only [Box.transform, Matrix4.mult_point_sub, Matrix3.mult_dot T.R h]

theorem Box.axisSeparates_triple_rigid (T : Matrix4) (h : T.Rigid) (A B : Box) (u v : Vec3) :
    (A.transform T).axisSeparates (B.transform T) (triple (T.R.mult u) (T.R.mult v)) =
      A.axisSeparates B (triple u v) := by
  unfold Box.axisSeparates
  rw [Box.radius_triple_rigid T h, Box.radius_triple_rigid T h]
  simp only [Box.transform, Matrix4.mult_point_sub, Matrix3.mult_triple_abs T.R h]

theorem Box.separated_rigid (T : Matrix4) (h : T.Rigid) (A B : Box) :
    (A.transform T).separated (B.transform T) = A.separated B := by
  unfold Box.separated
  have e1 : (A.transform T).u1 = T.R.mult A.u1 := rfl
  have e2 : (A.transform T).u2 = T.R.mult A.u2 := rfl
  have e3 : (A.transform T).u3 = T.R.mult A.u3 := rfl
  have f1 : (B.transform T).u1 = T.R.mult B.u1 := rfl
  have f2 : (B.transform T).u2 = T.R.mult B.u2 := rfl
  have f3 : (B.transform T).u3 = T.R.mult B.u3 := rfl
  rw [e1, e2, e3, f1, f2, f3]
  simp only [Box.axisSeparates_dot_rigid T h, Box.axisSeparates_triple_rigid T h]

theorem Box.axisSeparates_dot_comm (A B : Box) (L : Vec3) :
    B.axisSeparates A L.dot = A.axisSeparates B L.dot := by
  unfold Box.axisSeparates
  rw [dot_sub_swap L A.center B.center, abs_neg, add_comm]

theorem Box.axisSeparates_triple_comm (A B : Box) (u v : Vec3) :
    B.axisSeparates A (triple v u) = A.axisSeparates B (triple u v) := by
  unfold Box.axisSeparates Box.radius
  simp only [triple_swap u v, abs_neg]
  rw [triple_sub_swap u v A.center B.center, abs_neg, add_comm]

theorem Box.separated_comm (A B : Box) : B.separated A = A.separated B := by
  unfold Box.separated
  simp only [Box.axisSeparates_dot_comm A B, Box.axisSeparates_triple_comm A B]
  simp only [Bool.or_assoc, Bool.or_comm, Bool.or_left_comm]

theorem Box.transform_back (T : Matrix4) (h : T.Rigid) (B : Box) :
    (B.transform T.inverse_transform).transform T = B := by
  have hR : T.inverse_transform.R = T.R.transpose := rfl
  simp only [Box.transform, Matrix4.mult_point_inverse T h, hR,
    Matrix3.mult_transpose_mult T.R h]

theorem Box.separated_transform_comm (T : Matrix4) (h : T.Rigid) (A B : Box) :
    A.separated (B.transform T) = B.separated (A.transform T.inverse_transform) := by
  rw [← Box.separated_rigid T h B (A.transform T.inverse_transform),
    Box.transform_back T h, Box.separated_comm]

theorem obbIntersectsModel_comm (a b : OBB) :
    obbIntersectsModel a b = obbIntersectsModel b a := by
  unfold obbIntersectsModel
  rw [Box.separated_comm]

theorem obbIntersectsModelT_comm (T : Matrix4) (h : T.Rigid) (a b : OBB) :
    obbIntersectsModelT a b T = obbIntersectsModelT b a T.inverse_transform := by
  unfold obbIntersectsModelT
  rw [Box.separated_transform_comm T h]

theorem aabbIntersectsModel_comm (a b : AABB) :
    aabbIntersectsModel a b = aabbIntersectsModel b a := by
  unfold aabbIntersectsModel
  rw [Bool.eq_iff_iff]
  simp only [Bool.and_eq_true, decide_eq_true_eq]
  tauto

theorem aabbIntersectsModelT_comm (T : Matrix4) (h : T.Rigid) (a b : AABB) :
    aabbIntersectsModelT a b T = aabbIntersectsModelT b a T.inverse_transform := by
  unfold aabbIntersectsModelT
  rw [Box.separated_transform_comm T h]

end BoxTests

/-- The same-kind tests modelled from the spec give the same answer with the two volumes
exchanged, and with a rigid transform when it is inverted as well. -/
theorem sameKindExact_symmetric (shape : SSR → SSRShape) (env : BVEnv)
    (h : SameKindExact shape env) : SameKindSymmetric env ∧ SameKindSymmetricT env := by
  obtain ⟨h1, h2, h3, h4, h5, h6, h7, h8, h9, h10⟩ := h
  refine ⟨⟨?_, ?_, ?_, ?_, ?_⟩, fun T hT => ⟨?_, ?_, ?_, ?_, ?_⟩⟩
  · intro a b; rw [h1]; exact obbIntersectsModel_comm a b
  · intro a b; rw [h3]; exact ssrIntersectsModel_comm shape a b
  · intro a b; rw [h5]; exact sslIntersectsModel_comm a b
  · intro a b; rw [h7]; exact sphereIntersectsModel_comm a b
  · intro a b; rw [h9]; exact aabbIntersectsModel_comm a b
  · intro a b; rw [h2]; exact obbIntersectsModelT_comm T hT a b
  · intro a b; rw [h4]; exact ssrIntersectsModelT_comm shape T hT a b
  · intro a b; rw [h6]; exact sslIntersectsModelT_comm T hT a b
  · intro a b; rw [h8]; exact sphereIntersectsModelT_comm T hT a b
  · intro a b; rw [h10]; exact aabbIntersectsModelT_comm T hT a b

/-- C19: for every pair of the supported kinds (pass-through, OBB, AABB, SSR, SSL, sphere),
`BV::intersects(a, b) = BV::intersects(b, a)`, and for every rigid transform `aTb`,
`BV::intersects(a, b, aTb) = BV::intersects(b, a, inverse(aTb))`. For two volumes of different
kinds both orders reach the same kind-pair test of BV.cpp with the same arguments; for two
volumes of one kind the dispatchers call the same-kind test, which is the distance or
separating-axis test modelled from the spec. -/
theorem intersects_symmetric (shape : SSR → SSRShape) (env : BVEnv)
    (hex : SameKindExact shape env) (a b : Volume) :
    BV.intersects env a b = BV.intersects env b a ∧
    ∀ aTb : Matrix4, aTb.Rigid →
      BV.intersects_T env a b aTb = BV.intersects_T env b a aTb.inverse_transform :=
  intersects_symmetric_of_same_kind env (sameKindExact_symmetric shape env hex).1
    (sameKindExact_symmetric shape env hex).2 a b

theorem intersects_symmetric_witness :
    SameKindExact exampleShape (specBVEnv exampleShape) ∧
    exampleTurn.Rigid ∧
    (BV.intersects (specBVEnv exampleShape) (Volume.obb exampleCube)
        (Volume.obb ⟨⟨5/2, 0, 0⟩, exampleTurn.R, ⟨1, 1, 1⟩⟩) =
      BV.intersects (specBVEnv exampleShape)
        (Volume.obb ⟨⟨5/2, 0, 0⟩, exampleTurn.R, ⟨1, 1, 1⟩⟩) (Volume.obb exampleCube) ∧
     ∀ aTb : Matrix4, aTb.Rigid →
      BV.intersects_T (specBVEnv exampleShape) (Volume.obb exampleCube)
          (Volume.obb ⟨⟨5/2, 0, 0⟩, exampleTurn.R, ⟨1, 1, 1⟩⟩) aTb =
        BV.intersects_T (specBVEnv exampleShape)
          (Volume.obb ⟨⟨5/2, 0, 0⟩, exampleTurn.R, ⟨1, 1, 1⟩⟩) (Volume.obb exampleCube)
          aTb.inverse_transform) ∧
    BV.intersects (specBVEnv exampleShape) (Volume.obb exampleCube)
      (Volume.obb ⟨⟨5/2, 0, 0⟩, exampleTurn.R, ⟨1, 1, 1⟩⟩) = false ∧
    BV.intersects (specBVEnv exampleShape) (Volume.obb exampleCube)
      (Volume.obb ⟨⟨9/4, 0, 0⟩, exampleTurn.R, ⟨1, 1, 1⟩⟩) = true :=
  ⟨⟨rfl, rfl, rfl, rfl, rfl, rfl, rfl, rfl, rfl, rfl⟩,
    by unfold Matrix4.Rigid Matrix3.Orthonormal; decide!,
    intersects_symmetric exampleShape (specBVEnv exampleShape)
      ⟨rfl, rfl, rfl, rfl, rfl, rfl, rfl, rfl, rfl, rfl⟩ (Volume.obb exampleCube)
      (Volume.obb ⟨⟨5/2, 0, 0⟩, exampleTurn.R, ⟨1, 1, 1⟩⟩),
    by decide!, by decide!⟩

/-- The same-kind tests modelled from the spec, evaluated in both orders with the transform
`exampleTurn` and its inverse (apart) and `exampleNearTurn` and its inverse (touching or
overlapping where the shapes are wide enough): two boxes, two axis-aligned boxes, two
sphere-swept segments, two spheres and two sphere-swept rectangles. -/
theorem same_kind_examples :
    exampleNearTurn.Rigid ∧
    BV.intersects_T (specBVEnv exampleShape) (Volume.obb exampleCube) (Volume.obb exampleCube)
      exampleTurn = false ∧
    BV.intersects_T (specBVEnv exampleShape) (Volume.obb exampleCube) (Volume.obb exampleCube)
      exampleTurn.inverse_transform = false ∧
    BV.intersects_T (specBVEnv exampleShape) (Volume.obb exampleCube) (Volume.obb exampleCube)
      exampleNearTurn = true ∧
    BV.intersects_T (specBVEnv exampleShape) (Volume.obb exampleCube) (Volume.obb exampleCube)
      exampleNearTurn.inverse_transform = true ∧
    BV.intersects_T (specBVEnv exampleShape) (Volume.aabb ⟨⟨-1, -1, -1⟩, ⟨1, 1, 1⟩⟩)
      (Volume.aabb ⟨⟨-1, -1, -1⟩, ⟨1, 1, 1⟩⟩) exampleTurn = false ∧
    BV.intersects_T (specBVEnv exampleShape) (Volume.aabb ⟨⟨-1, -1, -1⟩, ⟨1, 1, 1⟩⟩)
      (Volume.aabb ⟨⟨-1, -1, -1⟩, ⟨1, 1, 1⟩⟩) exampleTurn.inverse_transform = false ∧
    BV.intersects_T (specBVEnv exampleShape) (Volume.ssl exampleSSL) (Volume.ssl exampleSSL)
      exampleTurn = false ∧
    BV.intersects_T (specBVEnv exampleShape) (Volume.ssl exampleSSL) (Volume.ssl exampleSSL)
      exampleTurn.inverse_transform = false ∧
    BV.intersects_T (specBVEnv exampleShape) (Volume.sphere exampleSphere)
      (Volume.sphere exampleSphere) exampleTurn = false ∧
    BV.intersects_T (specBVEnv exampleShape) (Volume.sphere exampleSphere)
      (Volume.sphere exampleSphere) exampleTurn.inverse_transform = false ∧
    BV.intersects_T (specBVEnv exampleShape) (Volume.sphere exampleSphere)
      (Volume.sphere exampleSphere) exampleShift = false ∧
    BV.intersects_T (specBVEnv exampleShape) (Volume.ssr ⟨1⟩) (Volume.ssr ⟨2⟩)
      exampleTurn = true ∧
    BV.intersects_T (specBVEnv exampleShape) (Volume.ssr ⟨2⟩) (Volume.ssr ⟨1⟩)
      exampleTurn.inverse_transform = true ∧
    BV.intersects_T (specBVEnv exampleShape) (Volume.ssr ⟨1⟩) (Volume.ssr ⟨2⟩)
      exampleShift = false ∧
    BV.intersects_T (specBVEnv exampleShape) (Volume.ssr ⟨2⟩) (Volume.ssr ⟨1⟩)
      exampleShift.inverse_transform = false := by
  refine ⟨by unfold Matrix4.Rigid Matrix3.Orthonormal; decide!, by decide!, by decide!,
    by decide!, by decide!, by decide!, by decide!, by decide!, by decide!, by decide!,
    by decide!, by decide!, by decide!, by decide!, by decide!, by decide!⟩

/-- For an oriented box, an axis-aligned box and a sphere-swept rectangle the test against a
sphere in another frame is the test against the sphere with its centre mapped by `aTb`. -/
theorem intersects_sphere_in_frame (env : BVEnv) (B : BoundingSphere) (aTb : Matrix4) :
    (∀ O : OBB, BV.intersects_T env (Volume.obb O) (Volume.sphere B) aTb =
      BV.intersects env (Volume.obb O) (Volume.sphere ⟨aTb.mult_point B.center, B.radius⟩)) ∧
    (∀ A : AABB, BV.intersects_T env (Volume.aabb A) (Volume.sphere B) aTb =
      BV.intersects env (Volume.aabb A) (Volume.sphere ⟨aTb.mult_point B.center, B.radius⟩)) ∧
    (∀ S : SSR, BV.intersects_T env (Volume.ssr S) (Volume.sphere B) aTb =
      BV.intersects env (Volume.ssr S) (Volume.sphere ⟨aTb.mult_point B.center, B.radius⟩)) :=
  ⟨fun _ => rfl, fun _ => rfl, fun _ => rfl⟩

/-- C20: what the code does for a sphere-swept segment `A` and a sphere `B` in another frame:
the transform is not applied, the test is made with the centre of `B` as it stands. For the
segment from the origin to `(1,0,0)` with radius 1/2, the unit sphere at the origin of its
frame, and `aTb` the translation by `(10,0,0)`, the sphere lies around `(10,0,0)` in the frame
of `A` and does not meet it, but the test with the transform answers `true`. -/
theorem intersects_SSL_sphere_ignores_transform :
    (∀ (env : BVEnv) (A : SSL) (B : BoundingSphere) (aTb : Matrix4),
      BV.intersects_T env (Volume.ssl A) (Volume.sphere B) aTb =
        BV.intersects env (Volume.ssl A) (Volume.sphere B)) ∧
    exampleShift.mult_point exampleSphere.center = ⟨10, 0, 0⟩ ∧
    BV.intersects_T exampleBVEnv (Volume.ssl exampleSSL) (Volume.sphere exampleSphere)
      exampleShift = true ∧
    BV.intersects exampleBVEnv (Volume.ssl exampleSSL)
      (Volume.sphere ⟨exampleShift.mult_point exampleSphere.center, exampleSphere.radius⟩) =
      false :=
  ⟨fun _ _ _ _ => rfl, by decide!, by decide!, by decide!⟩

theorem tangential_velocity_orthogonal {K : Type} [LinearOrderedField K] (n v : Vector3d K)
    (hn : n.dot n = 1) : n.dot (tangential_velocity n v) = 0 := by
  obtain ⟨n1, n2, n3⟩ := n
  obtain ⟨v1, v2, v3⟩ := v
  simp only [Vector3d.dot] at hn
  simp only [tangential_velocity, Vector3d.dot, Vector3d.sub, Vector3d.smul]
  linear_combination (-(n1 * v1 + n2 * v2 + n3 * v3)) * hn

theorem sliding_frame {K : Type} [LinearOrderedField K] (n vt : Vector3d K) (s : K)
    (hn : n.dot n = 1) (hvt : n.dot vt = 0) (hs : s * s = vt.dot vt) (hs0 : s ≠ 0) :
    RightHandedFrame n (vt.over s) (n.cross (vt.over s)) ∧
    (n.cross (vt.over s)).dot (n.cross (vt.over s)) = 1 := by
  obtain ⟨n1, n2, n3⟩ := n
  obtain ⟨v1, v2, v3⟩ := vt
  simp only [Vector3d.dot] at hn hvt hs
  have hss : s * s ≠ 0 := mul_ne_zero hs0 hs0
  have e1 : v1 / s * (v1 / s) + v2 / s * (v2 / s) + v3 / s * (v3 / s) = 1 := by
    field_simp
    linear_combination -hs
  have e2 : n1 * (v1 / s) + n2 * (v2 / s) + n3 * (v3 / s) = 0 := by
    field_simp
    linear_combination hvt
  have key : (n2 * (v3 / s) - n3 * (v2 / s)) * (n2 * (v3 / s) - n3 * (v2 / s)) +
      (n3 * (v1 / s) - n1 * (v3 / s)) * (n3 * (v1 / s) - n1 * (v3 / s)) +
      (n1 * (v2 / s) - n2 * (v1 / s)) * (n1 * (v2 / s) - n2 * (v1 / s)) = 1 := by
    have lagrange : ∀ a b c x y z : K,
        (b * z - c * y) * (b * z - c * y) + (c * x - a * z) * (c * x - a * z) +
          (a * y - b * x) * (a * y - b * x) =
        (a * a + b * b + c * c) * (x * x + y * y + z * z) - (a * x + b * y + c * z) ^ 2 := by
      intros; ring
    rw [lagrange, hn, e1, e2]
    norm_num
  refine ⟨⟨?_, ?_, ?_, ?_, ?_, ?_⟩, ?_⟩
  · simpa only [Vector3d.dot, Vector3d.over] using e1
  · simpa only [Vector3d.dot, Vector3d.over, Vector3d.cross] using key
  · simpa only [Vector3d.dot, Vector3d.over] using e2
  · simp only [Vector3d.dot, Vector3d.over, Vector3d.cross]; ring
  · simp only [Vector3d.dot, Vector3d.over, Vector3d.cross]; ring
  · have : (0 : K) < 1 := one_pos
    simpa only [Vector3d.dot, Vector3d.over, Vector3d.cross, key] using this
  · simpa only [Vector3d.dot, Vector3d.over, Vector3d.cross] using key

theorem Vector3d.over_one {K : Type} [LinearOrderedField K] (v : Vector3d K) :
    v.over 1 = v := by
  simp [Vector3d.over]

theorem Vector3d.norm_sq_nonneg {K : Type} [LinearOrderedField K] (v : Vector3d K) :
    0 ≤ v.dot v := by
  simp only [Vector3d.dot]
  nlinarith [mul_self_nonneg v.x, mul_self_nonneg v.y, mul_self_nonneg v.z]

/-- C15 (amended): for a contact with sticking tolerance `stick_tol > 0` and unit normal `n`,
with `vt` the tangential part of the relative velocity `ta - tb`, in every ordered field with
a square root (`sqrt x >= 0` and `sqrt x * sqrt x = x` for `x >= 0`): sticking friction is
selected iff the norm of `vt` is below `stick_tol`, and then the tangents are the two vectors
of the basis routine (an orthonormal pair completing `n` when that routine yields one);
otherwise sliding friction is selected with `tan1 = vt / |vt|` and `tan2 = n x tan1`, both
finite, unit vectors orthogonal to `n` and to each other with `(n, tan1, tan2)`
right-handed. -/
theorem determine_contact_tangents_frame {K : Type} [LinearOrderedField K] (sqrt : K → K)
    (hsqrt : ∀ x : K, 0 ≤ x → 0 ≤ sqrt x ∧ sqrt x * sqrt x = x)
    (basis : Vector3d K → Vector3d K × Vector3d K)
    (stick_tol : K) (hst : 0 < stick_tol) (n ta_linear tb_linear : Vector3d K)
    (hn : n.dot n = 1) :
    ((determine_contact_tangents sqrt basis stick_tol n ta_linear tb_linear).ftype =
        FrictionType.eSticking ↔
      (tangential_velocity n (ta_linear.sub tb_linear)).norm sqrt < stick_tol) ∧
    ((tangential_velocity n (ta_linear.sub tb_linear)).norm sqrt < stick_tol →
      (determine_contact_tangents sqrt basis stick_tol n ta_linear tb_linear).contact_tan1 =
        some (basis n).1 ∧
      (determine_contact_tangents sqrt basis stick_tol n ta_linear tb_linear).contact_tan2 =
        some (basis n).2 ∧
      (RightHandedFrame n (basis n).1 (basis n).2 →
        ∃ t1 t2,
          (determine_contact_tangents sqrt basis stick_tol n ta_linear tb_linear).contact_tan1 =
            some t1 ∧
          (determine_contact_tangents sqrt basis stick_tol n ta_linear tb_linear).contact_tan2 =
            some t2 ∧ RightHandedFrame n t1 t2)) ∧
    (¬ (tangential_velocity n (ta_linear.sub tb_linear)).norm sqrt < stick_tol →
      (determine_contact_tangents sqrt basis stick_tol n ta_linear tb_linear).ftype =
        FrictionType.eSlipping ∧
      (determine_contact_tangents sqrt basis stick_tol n ta_linear tb_linear).contact_tan1 =
        some ((tangential_velocity n (ta_linear.sub tb_linear)).over
          ((tangential_velocity n (ta_linear.sub tb_linear)).norm sqrt)) ∧
      (determine_contact_tangents sqrt basis stick_tol n ta_linear tb_linear).contact_tan2 =
        some (n.cross ((tangential_velocity n (ta_linear.sub tb_linear)).over
          ((tangential_velocity n (ta_linear.sub tb_linear)).norm sqrt))) ∧
      RightHandedFrame n
        ((tangential_velocity n (ta_linear.sub tb_linear)).over
          ((tangential_velocity n (ta_linear.sub tb_linear)).norm sqrt))
        (n.cross ((tangential_velocity n (ta_linear.sub tb_linear)).over
          ((tangential_velocity n (ta_linear.sub tb_linear)).norm sqrt)))) := by
  unfold determine_contact_tangents
  dsimp only
  generalize hvt : tangential_velocity n (ta_linear.sub tb_linear) = vt
  have hperp : n.dot vt = 0 := by
    rw [← hvt]; exact tangential_velocity_orthogonal n _ hn
  have hsq : vt.norm sqrt * vt.norm sqrt = vt.dot vt :=
    (hsqrt _ (Vector3d.norm_sq_nonneg vt)).2
  have hs1 : sqrt 1 = 1 := by
    obtain ⟨h0, h1⟩ := hsqrt 1 zero_le_one
    nlinarith
  by_cases hlt : vt.norm sqrt < stick_tol
  · simp only [hlt, if_true, true_iff, true_implies, not_true_eq_false, false_implies,
      and_true, true_and]
    exact fun h => ⟨(basis n).1, (basis n).2, rfl, rfl, h⟩
  · simp only [hlt, if_false, false_iff, reduceCtorEq, not_false_eq_true, false_implies,
      true_implies, true_and]
    have hs0 : vt.norm sqrt ≠ 0 := by
      intro h0
      rw [h0] at hlt
      exact hlt hst
    obtain ⟨hframe, hunit⟩ := sliding_frame n vt (vt.norm sqrt) hn hperp hsq hs0
    have hdiv : vt.div (vt.norm sqrt) = some (vt.over (vt.norm sqrt)) := by
      rw [Vector3d.div, if_neg hs0]
    have hnorm : (n.cross (vt.over (vt.norm sqrt))).normalize sqrt =
        some (n.cross (vt.over (vt.norm sqrt))) := by
      have h1 : (n.cross (vt.over (vt.norm sqrt))).norm sqrt = 1 := by
        rw [Vector3d.norm, hunit, hs1]
      rw [Vector3d.normalize, h1, Vector3d.div, if_neg one_ne_zero, Vector3d.over_one]
    rw [hdiv]
    simp only [Option.map_some', Option.some_bind, hnorm]
    exact ⟨trivial, trivial, hframe⟩

theorem determine_contact_tangents_frame_witness :
    (determine_contact_tangents Real.sqrt (fun _ => (⟨1, 0, 0⟩, ⟨0, 1, 0⟩)) (1/100000000)
      ⟨0, 0, 1⟩ ⟨1, 1, 3⟩ ⟨0, 0, 0⟩).ftype = FrictionType.eSlipping ∧
    (determine_contact_tangents Real.sqrt (fun _ => (⟨1, 0, 0⟩, ⟨0, 1, 0⟩)) (1/100000000)
      ⟨0, 0, 1⟩ ⟨1, 1, 3⟩ ⟨0, 0, 0⟩).contact_tan1 =
      some ⟨1 / Real.sqrt 2, 1 / Real.sqrt 2, 0⟩ ∧
    (determine_contact_tangents Real.sqrt (fun _ => (⟨1, 0, 0⟩, ⟨0, 1, 0⟩)) (1/100000000)
      ⟨0, 0, 1⟩ ⟨1, 1, 3⟩ ⟨0, 0, 0⟩).contact_tan2 =
      some ⟨-(1 / Real.sqrt 2), 1 / Real.sqrt 2, 0⟩ ∧
    RightHandedFrame (⟨0, 0, 1⟩ : Vector3d ℝ) ⟨1 / Real.sqrt 2, 1 / Real.sqrt 2, 0⟩
      ⟨-(1 / Real.sqrt 2), 1 / Real.sqrt 2, 0⟩ := by
  have hvt : tangential_velocity (⟨0, 0, 1⟩ : Vector3d ℝ)
      ((⟨1, 1, 3⟩ : Vector3d ℝ).sub ⟨0, 0, 0⟩) = ⟨1, 1, 0⟩ := by
    simp only [tangential_velocity, Vector3d.sub, Vector3d.smul, Vector3d.dot]
    norm_num
  have hnorm : (⟨1, 1, 0⟩ : Vector3d ℝ).norm Real.sqrt = Real.sqrt 2 := by
    simp only [Vector3d.norm, Vector3d.dot]
    norm_num
  have hbig : ¬ Real.sqrt 2 < 1 / 100000000 := by
    have h1 : (1 : ℝ) ≤ Real.sqrt 2 := by
      rw [Real.one_le_sqrt]
      norm_num
    intro h
    linarith
  have h := (determine_contact_tangents_frame Real.sqrt
    (fun x hx => ⟨Real.sqrt_nonneg x, Real.mul_self_sqrt hx⟩)
    (fun _ => (⟨1, 0, 0⟩, ⟨0, 1, 0⟩)) (1/100000000) (by norm_num)
    ⟨0, 0, 1⟩ ⟨1, 1, 3⟩ ⟨0, 0, 0⟩ (by simp [Vector3d.dot])).2.2
  rw [hvt, hnorm] at h
  obtain ⟨h1, h2, h3, h4⟩ := h hbig
  have e1 : (⟨1, 1, 0⟩ : Vector3d ℝ).over (Real.sqrt 2) =
      ⟨1 / Real.sqrt 2, 1 / Real.sqrt 2, 0⟩ := by
    simp [Vector3d.over]
  have e2 : (⟨0, 0, 1⟩ : Vector3d ℝ).cross ⟨1 / Real.sqrt 2, 1 / Real.sqrt 2, 0⟩ =
      ⟨-(1 / Real.sqrt 2), 1 / Real.sqrt 2, 0⟩ := by
    simp [Vector3d.cross]
  rw [e1] at h2 h3 h4
  rw [e2] at h3 h4
  exact ⟨h1, h2, h3, h4⟩

/-- An evaluation of `determine_contact_tangents` on rationals, where the norm is rational:
normal `(0,0,1)` and relative velocity `(3,4,5)` give sliding friction with the tangents
`(3/5, 4/5, 0)` and `(-4/5, 3/5, 0)`; a relative velocity along the normal gives sticking
friction with the two vectors of the basis routine. -/
theorem determine_contact_tangents_example :
    determine_contact_tangents ratSqrt (fun _ => (⟨1, 0, 0⟩, ⟨0, 1, 0⟩)) (1/100000000)
      ⟨0, 0, 1⟩ ⟨3, 4, 5⟩ ⟨0, 0, 0⟩ =
      ⟨FrictionType.eSlipping, some ⟨3/5, 4/5, 0⟩, some ⟨-4/5, 3/5, 0⟩⟩ ∧
    determine_contact_tangents ratSqrt (fun _ => (⟨1, 0, 0⟩, ⟨0, 1, 0⟩)) (1/100000000)
      ⟨0, 0, 1⟩ ⟨0, 0, 5⟩ ⟨0, 0, 0⟩ =
      ⟨FrictionType.eSticking, some ⟨1, 0, 0⟩, some ⟨0, 1, 0⟩⟩ := by
  refine ⟨by decide!, by decide!⟩

/-- C15 (counterexample): with `stick_tol = 0`, unit normal `(0,0,1)` and no relative velocity
the norm of `vt` is 0, which is not below the tolerance, so sliding friction is selected and
`vt` is divided by its zero norm: neither tangent is a vector of finite numbers (every
component is NaN), so there is no unit tangent. -/
theorem zero_stick_tol_gives_no_unit_tangent :
    (⟨0, 0, 1⟩ : Vector3d ℚ).dot ⟨0, 0, 1⟩ = 1 ∧
    (tangential_velocity (⟨0, 0, 1⟩ : Vector3d ℚ)
      ((⟨0, 0, 0⟩ : Vector3d ℚ).sub ⟨0, 0, 0⟩)).norm ratSqrt = 0 ∧
    determine_contact_tangents ratSqrt (fun _ => (⟨1, 0, 0⟩, ⟨0, 1, 0⟩)) 0
      ⟨0, 0, 1⟩ ⟨0, 0, 0⟩ ⟨0, 0, 0⟩ = ⟨FrictionType.eSlipping, none, none⟩ := by
  refine ⟨by decide!, by decide!, by decide!⟩

theorem mem_set_insert (x y : Nat) : ∀ l : List Nat, y ∈ set_insert x l ↔ y = x ∨ y ∈ l
  | [] => by simp [set_insert]
  | z :: zs => by
    unfold set_insert
    split
    · simp
    · split
      · rename_i h1 h2
        subst h2
        simp
      · rw [List.mem_cons, mem_set_insert x y zs, List.mem_cons]
        tauto

theorem set_insert_sorted (x : Nat) :
    ∀ l : List Nat, l.Pairwise (fun a b => a < b) → (set_insert x l).Pairwise (fun a b => a < b)
  | [], _ => by simp [set_insert]
  | z :: zs, h => by
    have hz : ∀ b ∈ zs, z < b := (List.pairwise_cons.mp h).1
    have hzs := (List.pairwise_cons.mp h).2
    unfold set_insert
    split
    · rename_i hlt
      rw [List.pairwise_cons]
      refine ⟨?_, h⟩
      intro b hb
      rcases List.mem_cons.mp hb with rfl | hb
      · exact hlt
      · exact lt_trans hlt (hz b hb)
    · split
      · exact h
      · rename_i h1 h2
        rw [List.pairwise_cons]
        refine ⟨?_, set_insert_sorted x zs hzs⟩
        intro b hb
        rcases (mem_set_insert x b zs).mp hb with rfl | hb
        · omega
        · exact hz b hb

theorem collect_bodies_sorted (env : BodyEnv) :
    ∀ (cs : List Contact) (st : List Nat × List (Nat × Nat)),
      st.1.Pairwise (fun a b => a < b) →
      (collect_bodies env cs st).1.Pairwise (fun a b => a < b)
  | [], _, h => h
  | c :: cs, (nodes, edges), h => by
    unfold collect_bodies
    apply collect_bodies_sorted env cs
    dsimp only
    split <;> split <;> first
      | exact h
      | exact set_insert_sorted _ _ h
      | exact set_insert_sorted _ _ (set_insert_sorted _ _ h)

theorem mem_collect_bodies_nodes (env : BodyEnv) (x : Nat) :
    ∀ (cs : List Contact) (st : List Nat × List (Nat × Nat)),
      x ∈ (collect_bodies env cs st).1 ↔
        x ∈ st.1 ∨ ∃ c ∈ cs, (c.sb1 = x ∨ c.sb2 = x) ∧ env.is_enabled x = true
  | [], st => by simp [collect_bodies]
  | c :: cs, (nodes, edges) => by
    unfold collect_bodies
    rw [mem_collect_bodies_nodes env x cs]
    dsimp only
    constructor
    · rintro (h | ⟨d, hd, hx⟩)
      · by_cases h1 : env.is_enabled c.sb1 = true <;> by_cases h2 : env.is_enabled c.sb2 = true
        all_goals
          simp only [h1, h2, if_true, if_false, mem_set_insert, Bool.false_eq_true] at h
        · rcases h with rfl | rfl | h
          · exact Or.inr ⟨c, List.mem_cons_self _ _, Or.inr rfl, h2⟩
          · exact Or.inr ⟨c, List.mem_cons_self _ _, Or.inl rfl, h1⟩
          · exact Or.inl h
        · rcases h with rfl | h
          · exact Or.inr ⟨c, List.mem_cons_self _ _, Or.inl rfl, h1⟩
          · exact Or.inl h
        · rcases h with rfl | h
          · exact Or.inr ⟨c, List.mem_cons_self _ _, Or.inr rfl, h2⟩
          · exact Or.inl h
        · exact Or.inl h
      · exact Or.inr ⟨d, List.mem_cons_of_mem _ hd, hx⟩
    · rintro (h | ⟨d, hd, hx, he⟩)
      · left
        split <;> split <;> (try simp only [mem_set_insert]) <;> tauto
      · rcases List.mem_cons.mp hd with rfl | hd
        · left
          rcases hx with rfl | rfl
          · rw [if_pos he]
            split
            · rw [mem_set_insert, mem_set_insert]; tauto
            · rw [mem_set_insert]; tauto
          · rw [if_pos he, mem_set_insert]; tauto
        · exact Or.inr ⟨d, hd, hx, he⟩

theorem mem_collect_bodies_edges (env : BodyEnv) (p : Nat × Nat) :
    ∀ (cs : List Contact) (st : List Nat × List (Nat × Nat)),
      p ∈ (collect_bodies env cs st).2 ↔
        p ∈ st.2 ∨ ∃ c ∈ cs, env.is_enabled c.sb1 = true ∧ env.is_enabled c.sb2 = true ∧
          (p = (c.sb1, c.sb2) ∨ p = (c.sb2, c.sb1))
  | [], st => by simp [collect_bodies]
  | c :: cs, (nodes, edges) => by
    unfold collect_bodies
    rw [mem_collect_bodies_edges env p cs]
    dsimp only
    constructor
    · rintro (h | ⟨d, hd, hx⟩)
      · by_cases h12 : (env.is_enabled c.sb1 && env.is_enabled c.sb2) = true
        · rw [if_pos h12] at h
          rw [Bool.and_eq_true] at h12
          rcases List.mem_append.mp h with h | h
          · exact Or.inl h
          · right
            refine ⟨c, List.mem_cons_self _ _, h12.1, h12.2, ?_⟩
            simpa using h
        · rw [if_neg h12] at h
          exact Or.inl h
      · exact Or.inr ⟨d, List.mem_cons_of_mem _ hd, hx⟩
    · rintro (h | ⟨d, hd, h1, h2, hp⟩)
      · left
        split
        · exact List.mem_append_left _ h
        · exact h
      · rcases List.mem_cons.mp hd with rfl | hd
        · left
          rw [if_pos (by simp [h1, h2])]
          apply List.mem_append_right
          simpa using hp
        · exact Or.inr ⟨d, hd, h1, h2, hp⟩

theorem mem_link_row (nodes : List Nat) (j : Nat) (p : Nat × Nat) :
    ∀ (ks : List Nat) (edges : List (Nat × Nat)),
      p ∈ link_row nodes j ks edges ↔
        p ∈ edges ∨ ∃ k ∈ ks, k ∈ nodes ∧ (p = (j, k) ∨ p = (k, j))
  | [], edges => by simp [link_row]
  | k :: ks, edges => by
    unfold link_row
    by_cases hk : nodes.contains k = true
    · rw [if_pos hk, mem_link_row nodes j p ks]
      have hk2 : k ∈ nodes := by simpa using hk
      constructor
      · rintro (h | ⟨k2, hk2m, hn, hp⟩)
        · rcases List.mem_append.mp h with h | h
          · exact Or.inl h
          · exact Or.inr ⟨k, List.mem_cons_self _ _, hk2, by simpa using h⟩
        · exact Or.inr ⟨k2, List.mem_cons_of_mem _ hk2m, hn, hp⟩
      · rintro (h | ⟨k2, hk2m, hn, hp⟩)
        · exact Or.inl (List.mem_append_left _ h)
        · rcases List.mem_cons.mp hk2m with rfl | hm
          · left
            apply List.mem_append_right
            simpa using hp
          · exact Or.inr ⟨k2, hm, hn, hp⟩
    · rw [if_neg hk, mem_link_row nodes j p ks]
      have hk2 : k ∉ nodes := by simpa using hk
      constructor
      · rintro (h | ⟨k2, hk2m, hn, hp⟩)
        · exact Or.inl h
        · exact Or.inr ⟨k2, List.mem_cons_of_mem _ hk2m, hn, hp⟩
      · rintro (h | ⟨k2, hk2m, hn, hp⟩)
        · exact Or.inl h
        · rcases List.mem_cons.mp hk2m with rfl | hm
          · exact absurd hn hk2
          · exact Or.inr ⟨k2, hm, hn, hp⟩

theorem link_pairs_sound (nodes : List Nat) (p : Nat × Nat) :
    ∀ (links : List Nat) (edges : List (Nat × Nat)),
      p ∈ link_pairs nodes links edges →
        p ∈ edges ∨ ∃ j ∈ links, ∃ k ∈ links, j ∈ nodes ∧ k ∈ nodes ∧ p = (j, k)
  | [], edges, h => by
    simp only [link_pairs] at h
    exact Or.inl h
  | j :: rest, edges, h => by
    unfold link_pairs at h
    by_cases hj : nodes.contains j = true
    · simp only [hj, Bool.not_true, Bool.false_eq_true, if_false] at h
      have hj2 : j ∈ nodes := by simpa using hj
      rcases link_pairs_sound nodes p rest _ h with h1 | ⟨a, ha, b, hb, h2⟩
      · rcases (mem_link_row nodes j p rest edges).mp h1 with h3 | ⟨k, hk, hkn, hp⟩
        · exact Or.inl h3
        · right
          rcases hp with hp | hp
          · exact ⟨j, List.mem_cons_self _ _, k, List.mem_cons_of_mem _ hk, hj2, hkn, hp⟩
          · exact ⟨k, List.mem_cons_of_mem _ hk, j, List.mem_cons_self _ _, hkn, hj2, hp⟩
      · exact Or.inr ⟨a, List.mem_cons_of_mem _ ha, b, List.mem_cons_of_mem _ hb, h2⟩
    · simp only [hj, Bool.not_false, if_true] at h
      rcases link_pairs_sound nodes p rest _ h with h1 | ⟨a, ha, b, hb, h2⟩
      · exact Or.inl h1
      · exact Or.inr ⟨a, List.mem_cons_of_mem _ ha, b, List.mem_cons_of_mem _ hb, h2⟩

theorem link_row_mono (nodes : List Nat) (j : Nat) (ks : List Nat) (edges : List (Nat × Nat))
    (p : Nat × Nat) (h : p ∈ edges) : p ∈ link_row nodes j ks edges :=
  (mem_link_row nodes j p ks edges).mpr (Or.inl h)

theorem link_pairs_mono (nodes : List Nat) (p : Nat × Nat) :
    ∀ (links : List Nat) (edges : List (Nat × Nat)), p ∈ edges →
      p ∈ link_pairs nodes links edges
  | [], edges, h => by simpa [link_pairs] using h
  | j :: rest, edges, h => by
    unfold link_pairs
    split
    · exact link_pairs_mono nodes p rest _ h
    · exact link_pairs_mono nodes p rest _ (link_row_mono nodes j rest edges p h)

theorem link_pairs_complete (nodes : List Nat) (a b : Nat) (hab : a ≠ b) (ha : a ∈ nodes)
    (hb : b ∈ nodes) :
    ∀ (links : List Nat) (edges : List (Nat × Nat)), a ∈ links → b ∈ links →
      (a, b) ∈ link_pairs nodes links edges
  | [], _, h, _ => absurd h (List.not_mem_nil _)
  | j :: rest, edges, hal, hbl => by
    unfold link_pairs
    rcases List.mem_cons.mp hal with e1 | h1
    · rcases List.mem_cons.mp hbl with e2 | h2
      · exact absurd (e1.trans e2.symm) hab
      · subst e1
        rw [if_neg (by simpa using ha)]
        apply link_pairs_mono
        exact (mem_link_row nodes a (a, b) rest edges).mpr (Or.inr ⟨b, h2, hb, Or.inl rfl⟩)
    · rcases List.mem_cons.mp hbl with e2 | h2
      · subst e2
        rw [if_neg (by simpa using hb)]
        apply link_pairs_mono
        exact (mem_link_row nodes b (a, b) rest edges).mpr (Or.inr ⟨a, h1, ha, Or.inr rfl⟩)
      · split
        · exact link_pairs_complete nodes a b hab ha hb rest _ h1 h2
        · exact link_pairs_complete nodes a b hab ha hb rest _ h1 h2

theorem articulated_edges_mono (env : BodyEnv) (nodes : List Nat) (p : Nat × Nat) :
    ∀ (todo processed : List Nat) (edges : List (Nat × Nat)), p ∈ edges →
      p ∈ articulated_edges env nodes todo processed edges
  | [], _, _, h => by simpa [articulated_edges] using h
  | sb :: rest, processed, edges, h => by
    unfold articulated_edges
    split
    · exact articulated_edges_mono env nodes p rest processed edges h
    · split
      · exact articulated_edges_mono env nodes p rest processed edges h
      · exact articulated_edges_mono env nodes p rest _ _ (link_pairs_mono nodes p _ edges h)

theorem articulated_edges_sound (env : BodyEnv) (nodes : List Nat) (p : Nat × Nat) :
    ∀ (todo processed : List Nat) (edges : List (Nat × Nat)),
      p ∈ articulated_edges env nodes todo processed edges →
        p ∈ edges ∨ ∃ A, (∃ sb ∈ todo, env.get_articulated_body sb = some A) ∧
          ∃ j ∈ env.get_links A, ∃ k ∈ env.get_links A, j ∈ nodes ∧ k ∈ nodes ∧ p = (j, k)
  | [], _, edges, h => by
    simp only [articulated_edges] at h
    exact Or.inl h
  | sb :: rest, processed, edges, h => by
    unfold articulated_edges at h
    split at h
    · rcases articulated_edges_sound env nodes p rest processed edges h with
        h1 | ⟨A, ⟨sb2, hsb2, hA⟩, h2⟩
      · exact Or.inl h1
      · exact Or.inr ⟨A, ⟨sb2, List.mem_cons_of_mem _ hsb2, hA⟩, h2⟩
    · rename_i abody hab
      split at h
      · rcases articulated_edges_sound env nodes p rest processed edges h with
          h1 | ⟨A, ⟨sb2, hsb2, hA⟩, h2⟩
        · exact Or.inl h1
        · exact Or.inr ⟨A, ⟨sb2, List.mem_cons_of_mem _ hsb2, hA⟩, h2⟩
      · rcases articulated_edges_sound env nodes p rest _ _ h with
          h1 | ⟨A, ⟨sb2, hsb2, hA⟩, h2⟩
        · rcases link_pairs_sound nodes p _ edges h1 with h2 | ⟨j, hj, k, hk, h3⟩
          · exact Or.inl h2
          · exact Or.inr ⟨abody, ⟨sb, List.mem_cons_self _ _, hab⟩, j, hj, k, hk, h3⟩
        · exact Or.inr ⟨A, ⟨sb2, List.mem_cons_of_mem _ hsb2, hA⟩, h2⟩

theorem articulated_edges_complete (env : BodyEnv) (nodes : List Nat) (A a b : Nat)
    (hab : a ≠ b) (ha : a ∈ nodes) (hb : b ∈ nodes) (hal : a ∈ env.get_links A)
    (hbl : b ∈ env.get_links A) :
    ∀ (todo processed : List Nat) (edges : List (Nat × Nat)),
      (A ∈ processed → (a, b) ∈ edges) →
      (∃ sb ∈ todo, env.get_articulated_body sb = some A) →
      (a, b) ∈ articulated_edges env nodes todo processed edges
  | [], _, _, _, h => by
    obtain ⟨sb, hsb, _⟩ := h
    exact absurd hsb (List.not_mem_nil _)
  | sb :: rest, processed, edges, hproc, h => by
    unfold articulated_edges
    obtain ⟨sb2, hsb2, hA⟩ := h
    cases hsb : env.get_articulated_body sb with
    | none =>
      dsimp only
      rcases List.mem_cons.mp hsb2 with e | hm
      · rw [e, hsb] at hA
        exact absurd hA (by simp)
      · exact articulated_edges_complete env nodes A a b hab ha hb hal hbl rest processed edges
          hproc ⟨sb2, hm, hA⟩
    | some abody =>
      dsimp only
      by_cases hp : processed.contains abody = true
      · rw [if_pos hp]
        have hp2 : abody ∈ processed := by simpa using hp
        rcases List.mem_cons.mp hsb2 with e | hm
        · rw [e, hsb] at hA
          have : abody = A := Option.some.inj hA
          subst this
          exact articulated_edges_mono env nodes _ rest processed edges (hproc hp2)
        · exact articulated_edges_complete env nodes A a b hab ha hb hal hbl rest processed
            edges hproc ⟨sb2, hm, hA⟩
      · rw [if_neg hp]
        by_cases hAa : abody = A
        · subst hAa
          apply articulated_edges_mono
          exact link_pairs_complete nodes a b hab ha hb _ edges hal hbl
        · rcases List.mem_cons.mp hsb2 with e | hm
          · rw [e, hsb] at hA
            exact absurd (Option.some.inj hA) hAa
          · apply articulated_edges_complete env nodes A a b hab ha hb hal hbl rest _ _ _
              ⟨sb2, hm, hA⟩
            intro hmem
            rcases List.mem_cons.mp hmem with e | hmem2
            · exact absurd e.symm hAa
            · exact link_pairs_mono nodes _ _ edges (hproc hmem2)

theorem take_contacts_eq (node : Nat) :
    ∀ (cs group : List Contact),
      take_contacts node cs group =
        (cs.filter (fun c => !decide (c.sb1 = node ∨ c.sb2 = node)),
         group ++ cs.filter (fun c => decide (c.sb1 = node ∨ c.sb2 = node)))
  | [], group => by simp [take_contacts]
  | c :: cs, group => by
    unfold take_contacts
    by_cases h : c.sb1 = node ∨ c.sb2 = node
    · rw [if_pos h, take_contacts_eq node cs, List.filter_cons_of_neg (by simp [h]),
        List.filter_cons_of_pos (by simp [h])]
      simp
    · rw [if_neg h, take_contacts_eq node cs, List.filter_cons_of_pos (by simp [h]),
        List.filter_cons_of_neg (by simp [h])]

theorem push_neighbors_eq (nodes : List Nat) (node : Nat) :
    ∀ (es : List (Nat × Nat)) (q : List Nat),
      push_neighbors nodes node es q =
        q ++ (es.filter (fun e => decide (e.1 = node) && nodes.contains e.2)).map (fun e => e.2)
  | [], q => by simp [push_neighbors]
  | e :: es, q => by
    unfold push_neighbors
    by_cases h1 : e.1 = node
    · by_cases h2 : nodes.contains e.2 = true
      · rw [if_pos h1, if_pos h2, push_neighbors_eq nodes node es,
          List.filter_cons_of_pos (by simpa [h1] using h2)]
        simp
      · rw [if_pos h1, if_neg h2, push_neighbors_eq nodes node es,
          List.filter_cons_of_neg (by simpa [h1] using h2)]
    · rw [if_neg h1, push_neighbors_eq nodes node es,
        List.filter_cons_of_neg (by simp [h1])]

theorem island_loop_nil (edges : List (Nat × Nat)) (fuel : Nat) (N : List Nat)
    (cc g : List Contact) : island_loop edges fuel [] N cc g = some (N, cc, g) := by
  cases fuel <;> rfl

theorem island_loop_cons (edges : List (Nat × Nat)) (fuel u : Nat) (q N : List Nat)
    (cc g : List Contact) :
    island_loop edges (fuel + 1) (u :: q) N cc g =
      island_loop edges fuel (push_neighbors (N.erase u) u edges q) (N.erase u)
        (take_contacts u cc g).1 (take_contacts u cc g).2 := rfl

theorem mem_push_neighbors (nodes : List Nat) (node : Nat) (es : List (Nat × Nat))
    (q : List Nat) (x : Nat) :
    x ∈ push_neighbors nodes node es q ↔ x ∈ q ∨ ((node, x) ∈ es ∧ x ∈ nodes) := by
  rw [push_neighbors_eq, List.mem_append, List.mem_map]
  constructor
  · rintro (h | ⟨e, he, rfl⟩)
    · exact Or.inl h
    · rw [List.mem_filter] at he
      obtain ⟨hm, hc⟩ := he
      simp only [Bool.and_eq_true, decide_eq_true_eq] at hc
      right
      refine ⟨?_, by simpa using hc.2⟩
      have : e = (node, e.2) := Prod.ext hc.1 rfl
      rw [← this]; exact hm
  · rintro (h | ⟨h1, h2⟩)
    · exact Or.inl h
    · right
      refine ⟨(node, x), ?_, rfl⟩
      rw [List.mem_filter]
      exact ⟨h1, by simpa using h2⟩

theorem lead_dead (N : List Nat) (u : Nat) (q : List Nat) (h : u ∉ N) :
    lead N (u :: q) = lead N q + 1 := by
  unfold lead
  rw [List.takeWhile_cons_of_pos (by simpa using h)]
  rfl

theorem lead_push (N : List Nat) (ps : List Nat) (hps : ∀ x ∈ ps, x ∈ N) :
    ∀ q : List Nat, lead N (q ++ ps) = lead N q
  | [] => by
    cases ps with
    | nil => rfl
    | cons x xs =>
      have hx : x ∈ N := hps x (List.mem_cons_self _ _)
      unfold lead
      rw [List.nil_append, List.takeWhile_cons_of_neg (by simpa using hx)]
      rfl
  | y :: q => by
    by_cases hy : y ∈ N
    · unfold lead
      rw [List.cons_append, List.takeWhile_cons_of_neg (by simpa using hy),
        List.takeWhile_cons_of_neg (by simpa using hy)]
    · rw [List.cons_append, lead_dead N y _ hy, lead_dead N y _ hy, lead_push N ps hps q]

theorem island_inv_step (edges : List (Nat × Nat)) (r : Nat) (N0 : List Nat)
    (cc0 : List Contact) (hnd : N0.Nodup) (u : Nat) (q N : List Nat) (cc g : List Contact)
    (inv : IslandInv edges r N0 cc0 (u :: q) N cc g) :
    IslandInv edges r N0 cc0 (push_neighbors (N.erase u) u edges q) (N.erase u)
      (take_contacts u cc g).1 (take_contacts u cc g).2 := by
  have hN : N.Nodup := hnd.sublist inv.sub
  have hmem : ∀ x, x ∈ N.erase u ↔ x ≠ u ∧ x ∈ N := fun x => hN.mem_erase_iff
  have hu0 : u ∈ N0 := inv.q_mem u (List.mem_cons_self _ _)
  have hur : Reach edges r u := inv.q_reach u (List.mem_cons_self _ _)
  rw [take_contacts_eq]
  refine ⟨(List.erase_sublist u N).trans inv.sub, ?_, ?_, ?_, ?_, ?_, ?_, ?_, ?_⟩
  · intro x hx
    rcases (mem_push_neighbors _ _ _ _ _).mp hx with h | ⟨_, h⟩
    · exact inv.q_mem x (List.mem_cons_of_mem _ h)
    · exact inv.sub.subset ((hmem x).mp h).2
  · intro x hx
    rcases (mem_push_neighbors _ _ _ _ _).mp hx with h | ⟨h, _⟩
    · exact inv.q_reach x (List.mem_cons_of_mem _ h)
    · exact Relation.ReflTransGen.tail hur h
  · intro v hv hvn
    by_cases hvu : v = u
    · rw [hvu]; exact hur
    · exact inv.gone_reach v hv (fun h => hvn ((hmem v).mpr ⟨hvu, h⟩))
  · intro w hw hwn v hwv hv
    rw [mem_push_neighbors]
    by_cases hwu : w = u
    · right
      rw [hwu] at hwv
      exact ⟨hwv, hv⟩
    · left
      have hwN : w ∉ N := fun h => hwn ((hmem w).mpr ⟨hwu, h⟩)
      have := inv.frontier w hw hwN v hwv ((hmem v).mp hv).2
      rcases List.mem_cons.mp this with e | h
      · exact absurd e ((hmem v).mp hv).1
      · exact h
  · intro hr
    rw [mem_push_neighbors]
    left
    have := inv.root ((hmem r).mp hr).2
    rcases List.mem_cons.mp this with e | h
    · exact absurd e ((hmem r).mp hr).1
    · exact h
  · dsimp only
    rw [List.append_assoc]
    exact (List.Perm.append_left g (List.filter_append_perm _ cc)).trans inv.perm
  · intro c hc
    dsimp only at hc
    rcases List.mem_append.mp hc with h | h
    · obtain ⟨w, hw, hwn, ht⟩ := inv.taken c h
      exact ⟨w, hw, fun h2 => hwn ((hmem w).mp h2).2, ht⟩
    · rw [List.mem_filter] at h
      exact ⟨u, hu0, fun h2 => ((hmem u).mp h2).1 rfl, by simpa [Touches] using h.2⟩
  · intro c hc w hw hwn
    dsimp only at hc
    rw [List.mem_filter] at hc
    by_cases hwu : w = u
    · rw [hwu]
      simpa [Touches] using hc.2
    · exact inv.left c hc.1 w hw (fun h => hwn ((hmem w).mpr ⟨hwu, h⟩))

theorem island_inv_done (edges : List (Nat × Nat)) (r : Nat) (N0 : List Nat)
    (cc0 : List Contact) (N : List Nat) (cc g : List Contact)
    (inv : IslandInv edges r N0 cc0 [] N cc g) : IslandDone edges r N0 cc0 N cc g :=
  ⟨inv.sub, inv.gone_reach,
    fun u hu hun v huv hv => absurd (inv.frontier u hu hun v huv hv) (List.not_mem_nil _),
    fun hr => absurd (inv.root hr) (List.not_mem_nil _), inv.perm, inv.taken, inv.left⟩

theorem island_loop_spec (edges : List (Nat × Nat)) (r : Nat) (N0 : List Nat)
    (cc0 : List Contact) (hnd : N0.Nodup) :
    ∀ (n k : Nat) (q N : List Nat) (cc g : List Contact), N.length ≤ n → lead N q ≤ k →
      IslandInv edges r N0 cc0 q N cc g →
      ∃ (res : List Nat × List Contact × List Contact) (M : Nat),
        (∀ fuel, M ≤ fuel → island_loop edges fuel q N cc g = some res) ∧
        IslandDone edges r N0 cc0 res.1 res.2.1 res.2.2 := by
  intro n
  induction n with
  | zero =>
    intro k
    induction k with
    | zero =>
      intro q N cc g hn hk inv
      have hN : N = [] := List.length_eq_zero.mp (Nat.le_zero.mp hn)
      subst hN
      cases q with
      | nil =>
        exact ⟨(_, _, _), 0, fun fuel _ => island_loop_nil edges fuel _ _ _,
          island_inv_done edges r N0 cc0 _ _ _ inv⟩
      | cons u q =>
        rw [lead_dead [] u q (List.not_mem_nil _)] at hk
        omega
    | succ k ihk =>
      intro q N cc g hn hk inv
      have hN : N = [] := List.length_eq_zero.mp (Nat.le_zero.mp hn)
      subst hN
      cases q with
      | nil =>
        exact ⟨(_, _, _), 0, fun fuel _ => island_loop_nil edges fuel _ _ _,
          island_inv_done edges r N0 cc0 _ _ _ inv⟩
      | cons u q =>
        have hstep := island_inv_step edges r N0 cc0 hnd u q [] cc g inv
        rw [lead_dead [] u q (List.not_mem_nil _)] at hk
        have hl : lead (([] : List Nat).erase u)
            (push_neighbors (([] : List Nat).erase u) u edges q) ≤ k := by
          rw [push_neighbors_eq, lead_push]
          · simp only [List.erase_nil]
            omega
          · intro x hx
            rw [List.mem_map] at hx
            obtain ⟨e, he, _⟩ := hx
            rw [List.mem_filter] at he
            simp at he
        obtain ⟨res, M, hrun, hdone⟩ := ihk _ _ _ _ (by simp) hl hstep
        refine ⟨res, M + 1, ?_, hdone⟩
        intro fuel hfuel
        obtain ⟨f, rfl⟩ : ∃ f, fuel = f + 1 := ⟨fuel - 1, by omega⟩
        rw [island_loop_cons]
        exact hrun f (by omega)
  | succ n ihn =>
    intro k
    induction k with
    | zero =>
      intro q N cc g hn hk inv
      cases q with
      | nil =>
        exact ⟨(_, _, _), 0, fun fuel _ => island_loop_nil edges fuel _ _ _,
          island_inv_done edges r N0 cc0 _ _ _ inv⟩
      | cons u q =>
        have hu : u ∈ N := by
          by_contra h
          rw [lead_dead N u q h] at hk
          omega
        have hstep := island_inv_step edges r N0 cc0 hnd u q N cc g inv
        have hlen : (N.erase u).length ≤ n := by
          rw [List.length_erase_of_mem hu]
          omega
        obtain ⟨res, M, hrun, hdone⟩ := ihn _ _ _ _ _ hlen (le_refl _) hstep
        refine ⟨res, M + 1, ?_, hdone⟩
        intro fuel hfuel
        obtain ⟨f, rfl⟩ : ∃ f, fuel = f + 1 := ⟨fuel - 1, by omega⟩
        rw [island_loop_cons]
        exact hrun f (by omega)
    | succ k ihk =>
      intro q N cc g hn hk inv
      cases q with
      | nil =>
        exact ⟨(_, _, _), 0, fun fuel _ => island_loop_nil edges fuel _ _ _,
          island_inv_done edges r N0 cc0 _ _ _ inv⟩
      | cons u q =>
        have hstep := island_inv_step edges r N0 cc0 hnd u q N cc g inv
        by_cases hu : u ∈ N
        · have hlen : (N.erase u).length ≤ n := by
            rw [List.length_erase_of_mem hu]
            omega
          obtain ⟨res, M, hrun, hdone⟩ := ihn _ _ _ _ _ hlen (le_refl _) hstep
          refine ⟨res, M + 1, ?_, hdone⟩
          intro fuel hfuel
          obtain ⟨f, rfl⟩ : ∃ f, fuel = f + 1 := ⟨fuel - 1, by omega⟩
          rw [island_loop_cons]
          exact hrun f (by omega)
        · have he : N.erase u = N := List.erase_of_not_mem hu
          rw [lead_dead N u q hu] at hk
          have hl : lead (N.erase u) (push_neighbors (N.erase u) u edges q) ≤ k := by
            rw [push_neighbors_eq, lead_push, he]
            · omega
            · intro x hx
              rw [List.mem_map] at hx
              obtain ⟨e, he2, rfl⟩ := hx
              rw [List.mem_filter] at he2
              have h3 := he2.2
              simp only [Bool.and_eq_true, decide_eq_true_eq] at h3
              simpa using h3.2
          obtain ⟨res, M, hrun, hdone⟩ := ihk _ _ _ _ (by rw [he]; exact hn) hl hstep
          refine ⟨res, M + 1, ?_, hdone⟩
          intro fuel hfuel
          obtain ⟨f, rfl⟩ : ∃ f, fuel = f + 1 := ⟨fuel - 1, by omega⟩
          rw [island_loop_cons]
          exact hrun f (by omega)

theorem reach_symm (edges : List (Nat × Nat)) (hs : ∀ u v, (u, v) ∈ edges → (v, u) ∈ edges)
    (u v : Nat) (h : Reach edges u v) : Reach edges v u := by
  induction h with
  | refl => exact Relation.ReflTransGen.refl
  | tail _ hbc ih => exact Relation.ReflTransGen.head (hs _ _ hbc) ih

theorem reach_closed (edges : List (Nat × Nat)) (V0 N : List Nat)
    (hin : ∀ u v, (u, v) ∈ edges → u ∈ V0 ∧ v ∈ V0)
    (hcl : ∀ u ∈ V0, u ∉ N → ∀ v, (u, v) ∈ edges → v ∉ N)
    (u v : Nat) (hu : u ∉ N) (h : Reach edges u v) : v ∉ N := by
  induction h with
  | refl => exact hu
  | tail _ hbc ih => exact hcl _ (hin _ _ hbc).1 ih _ hbc

theorem touches_two (c : Contact) (u w : Nat) (hu : Touches c u) (hw : Touches c w)
    (hne : u ≠ w) : (c.sb1 = u ∧ c.sb2 = w) ∨ (c.sb1 = w ∧ c.sb2 = u) := by
  unfold Touches at hu hw
  rcases hu with h1 | h1 <;> rcases hw with h2 | h2
  · exact absurd (h1.symm.trans h2) hne
  · exact Or.inl ⟨h1, h2⟩
  · exact Or.inr ⟨h2, h1⟩
  · exact absurd (h1.symm.trans h2) hne

theorem island_inv_start (edges : List (Nat × Nat)) (r : Nat) (rest : List Nat)
    (cc : List Contact) : IslandInv edges r (r :: rest) cc [r] (r :: rest) cc [] :=
  ⟨List.Sublist.refl _,
    fun x hx => by rw [List.mem_singleton.mp hx]; exact List.mem_cons_self _ _,
    fun x hx => by rw [List.mem_singleton.mp hx]; exact Relation.ReflTransGen.refl,
    fun v hv hvn => absurd hv hvn,
    fun u hu hun => absurd hu hun,
    fun _ => List.mem_singleton.mpr rfl,
    by simp,
    fun c hc => absurd hc (List.not_mem_nil _),
    fun c _ u hu hun => absurd hu hun⟩

theorem groups_inv_step (edges : List (Nat × Nat)) (V0 : List Nat) (C0 : List Contact)
    (G : IslandGraph edges V0 C0) (r : Nat) (rest : List Nat) (cc : List Contact)
    (groups : List (List Contact)) (inv : GroupsInv edges V0 C0 (r :: rest) cc groups)
    (Nf : List Nat) (ccf gf : List Contact)
    (done : IslandDone edges r (r :: rest) cc Nf ccf gf) :
    GroupsInv edges V0 C0 Nf ccf (groups ++ [gf]) := by
  have hsubV : ∀ x, x ∈ r :: rest → x ∈ V0 := fun x hx => inv.sub.subset hx
  have hNf : ∀ x, x ∈ Nf → x ∈ r :: rest := fun x hx => done.sub.subset hx
  have hcc : ∀ c, c ∈ gf ++ ccf → c ∈ cc := fun c hc => done.perm.subset hc
  have hC0 : ∀ c, c ∈ cc → c ∈ C0 :=
    fun c hc => inv.perm.subset (List.mem_append_right _ hc)
  -- the closure of the erased nodes after this island
  have hclosed : ∀ u ∈ V0, u ∉ Nf → ∀ v, (u, v) ∈ edges → v ∉ Nf := by
    intro u hu hun v huv
    by_cases huN : u ∈ r :: rest
    · exact done.closed u huN hun v huv
    · exact fun h => inv.closed u hu huN v huv (hNf v h)
  -- a node of a contact of the new group was a node when the island was started
  have hlive : ∀ c ∈ gf, ∀ u ∈ V0, Touches c u → u ∈ r :: rest := by
    intro c hc u hu ht
    by_contra hun
    exact inv.left c (hcc c (List.mem_append_left _ hc)) u hu hun ht
  have hgone : ∀ c ∈ gf, ∀ u ∈ V0, Touches c u → u ∉ Nf := by
    intro c hc u hu ht
    obtain ⟨w, hw, hwn, htw⟩ := done.taken c hc
    by_cases huw : u = w
    · rw [huw]; exact hwn
    · have hcC : c ∈ C0 := hC0 c (hcc c (List.mem_append_left _ hc))
      have hwV : w ∈ V0 := hsubV w hw
      have hedge : (w, u) ∈ edges := by
        rcases touches_two c u w ht htw huw with ⟨e1, e2⟩ | ⟨e1, e2⟩
        · have := G.contact_edge c hcC (by rw [e1]; exact hu) (by rw [e2]; exact hwV)
          rw [e1, e2] at this
          exact G.symm _ _ this
        · have := G.contact_edge c hcC (by rw [e1]; exact hwV) (by rw [e2]; exact hu)
          rw [e1, e2] at this
          exact this
      exact hclosed w hwV hwn u hedge
  have hreach : ∀ c ∈ gf, ∀ u ∈ V0, Touches c u → Reach edges r u := by
    intro c hc u hu ht
    exact done.gone_reach u (hlive c hc u hu ht) (hgone c hc u hu ht)
  refine ⟨done.sub.trans inv.sub, hclosed, ?_, ?_, ?_, ?_, ?_, ?_, ?_⟩
  · rw [List.flatten_concat, List.append_assoc]
    exact (List.Perm.append_left _ done.perm).trans inv.perm
  · intro c hc u hu hun
    by_cases huN : u ∈ r :: rest
    · exact done.left c hc u huN hun
    · exact inv.left c (hcc c (List.mem_append_right _ hc)) u hu huN
  · intro g hg
    rcases List.mem_append.mp hg with h | h
    · exact inv.nonempty g h
    · rw [List.mem_singleton] at h
      subst h
      obtain ⟨c, hc, ht⟩ := G.node_contact r (hsubV r (List.mem_cons_self _ _))
      have hc2 : c ∈ groups.flatten ++ cc := inv.perm.symm.subset hc
      rcases List.mem_append.mp hc2 with h1 | h1
      · obtain ⟨g0, hg0, hcg0⟩ := List.mem_flatten.mp h1
        exact absurd (List.mem_cons_self r rest)
          (inv.gone g0 hg0 c hcg0 r (hsubV r (List.mem_cons_self _ _)) ht)
      · have hc3 : c ∈ g ++ ccf := done.perm.symm.subset h1
        rcases List.mem_append.mp hc3 with h2 | h2
        · exact List.ne_nil_of_mem h2
        · exact absurd ht (done.left c h2 r (List.mem_cons_self _ _) done.root)
  · intro g hg c hc
    rcases List.mem_append.mp hg with h | h
    · exact inv.has_node g h c hc
    · rw [List.mem_singleton] at h
      subst h
      obtain ⟨w, hw, _, htw⟩ := done.taken c hc
      exact ⟨w, hsubV w hw, htw⟩
  · intro g hg c hc u hu ht
    rcases List.mem_append.mp hg with h | h
    · exact fun hm => inv.gone g h c hc u hu ht (hNf u hm)
    · rw [List.mem_singleton] at h
      subst h
      exact hgone c hc u hu ht
  · intro g hg c1 hc1 c2 hc2 u1 hu1 u2 hu2 ht1 ht2
    rcases List.mem_append.mp hg with h | h
    · exact inv.together g h c1 hc1 c2 hc2 u1 hu1 u2 hu2 ht1 ht2
    · rw [List.mem_singleton] at h
      subst h
      exact Relation.ReflTransGen.trans
        (reach_symm edges G.symm _ _ (hreach c1 hc1 u1 hu1 ht1)) (hreach c2 hc2 u2 hu2 ht2)
  · rw [List.pairwise_append]
    refine ⟨inv.apart, List.pairwise_singleton _ _, ?_⟩
    intro g1 hg1 g2 hg2
    rw [List.mem_singleton] at hg2
    subst hg2
    intro c1 hc1 c2 hc2 u1 hu1 u2 hu2 ht1 ht2 hr
    have h1 : u1 ∉ r :: rest := inv.gone g1 hg1 c1 hc1 u1 hu1 ht1
    have h2 : u2 ∉ r :: rest :=
      reach_closed edges V0 (r :: rest) G.in_nodes inv.closed u1 u2 h1 hr
    exact h2 (hlive c2 hc2 u2 hu2 ht2)

theorem groups_loop_nil (edges : List (Nat × Nat)) (fuel : Nat) (cc : List Contact)
    (groups : List (List Contact)) : groups_loop edges fuel [] cc groups = some groups := by
  cases fuel <;> rfl

theorem groups_loop_spec (edges : List (Nat × Nat)) (V0 : List Nat) (C0 : List Contact)
    (G : IslandGraph edges V0 C0) :
    ∀ (n : Nat) (N : List Nat) (cc : List Contact) (groups : List (List Contact)),
      N.length ≤ n → GroupsInv edges V0 C0 N cc groups →
      ∃ (res : List (List Contact)) (M : Nat),
        (∀ fuel, M ≤ fuel → groups_loop edges fuel N cc groups = some res) ∧
        ∃ ccf, GroupsInv edges V0 C0 [] ccf res := by
  intro n
  induction n with
  | zero =>
    intro N cc groups hn inv
    have hN : N = [] := List.length_eq_zero.mp (Nat.le_zero.mp hn)
    subst hN
    exact ⟨groups, 0, fun fuel _ => groups_loop_nil edges fuel cc groups, cc, inv⟩
  | succ n ih =>
    intro N cc groups hn inv
    cases N with
    | nil => exact ⟨groups, 0, fun fuel _ => groups_loop_nil edges fuel cc groups, cc, inv⟩
    | cons r rest =>
      have hnd : (r :: rest).Nodup := G.nodup.sublist inv.sub
      obtain ⟨res1, M1, hrun1, done⟩ :=
        island_loop_spec edges r (r :: rest) cc hnd (r :: rest).length
          (lead (r :: rest) [r]) [r] (r :: rest) cc [] (le_refl _) (le_refl _)
          (island_inv_start edges r rest cc)
      obtain ⟨Nf, ccf, gf⟩ := res1
      have hlen : Nf.length ≤ n := by
        have h1 := done.sub.length_le
        have h2 : Nf.length ≠ (r :: rest).length := by
          intro he
          have := done.sub.eq_of_length he
          exact done.root (by rw [this]; exact List.mem_cons_self _ _)
        simp only [List.length_cons] at h1 h2 hn
        omega
      obtain ⟨res, M2, hrun2, hfin⟩ :=
        ih Nf ccf (groups ++ [gf]) hlen
          (groups_inv_step edges V0 C0 G r rest cc groups inv Nf ccf gf done)
      refine ⟨res, max M1 M2 + 1, ?_, hfin⟩
      intro fuel hfuel
      obtain ⟨f, rfl⟩ : ∃ f, fuel = f + 1 := ⟨fuel - 1, by omega⟩
      have hf1 : M1 ≤ f := by omega
      have hf2 : M2 ≤ f := by omega
      show (match island_loop edges f [r] (r :: rest) cc [] with
        | some (nodes, contacts_copy2, group) =>
          groups_loop edges f nodes contacts_copy2 (groups ++ [group])
        | none => none) = some res
      rw [hrun1 f hf1]
      exact hrun2 f hf2

theorem contact_type_ne_none (c : Contact) :
    c.contact_type ≠ ContactType.eNone ↔ c.contact_type = ContactType.eContact := by
  cases c.contact_type <;> simp

theorem mem_contacts_copy (contacts : List Contact) (c : Contact) :
    c ∈ contacts.filter (fun e => e.contact_type ≠ ContactType.eNone) ↔
      c ∈ contacts ∧ c.contact_type = ContactType.eContact := by
  rw [List.mem_filter, decide_eq_true_eq, contact_type_ne_none]

theorem mem_island_nodes (env : BodyEnv) (contacts : List Contact) (x : Nat) :
    x ∈ (collect_bodies env (contacts.filter (fun e => e.contact_type ≠ ContactType.eNone))
      ([], [])).1 ↔ IsNode env contacts x := by
  rw [mem_collect_bodies_nodes]
  simp only [List.not_mem_nil, false_or, IsNode, EnabledBody, Touches]
  constructor
  · rintro ⟨c, hc, ht, he⟩
    exact ⟨c, ((mem_contacts_copy contacts c).mp hc).1, ((mem_contacts_copy contacts c).mp hc).2,
      ht, he⟩
  · rintro ⟨c, hc, hty, ht, he⟩
    exact ⟨c, (mem_contacts_copy contacts c).mpr ⟨hc, hty⟩, ht, he⟩

theorem island_edges_sound (env : BodyEnv) (contacts : List Contact) (u v : Nat)
    (h : (u, v) ∈ articulated_edges env
      (collect_bodies env (contacts.filter (fun e => e.contact_type ≠ ContactType.eNone))
        ([], [])).1
      (collect_bodies env (contacts.filter (fun e => e.contact_type ≠ ContactType.eNone))
        ([], [])).1 []
      (collect_bodies env (contacts.filter (fun e => e.contact_type ≠ ContactType.eNone))
        ([], [])).2) :
    Linked env contacts u v := by
  rcases articulated_edges_sound env _ (u, v) _ _ _ h with h1 | ⟨A, _, j, hj, k, hk, hjn, hkn, hp⟩
  · rw [mem_collect_bodies_edges] at h1
    simp only [List.not_mem_nil, false_or] at h1
    obtain ⟨c, hc, e1, e2, hp⟩ := h1
    obtain ⟨hcm, hty⟩ := (mem_contacts_copy contacts c).mp hc
    have n1 : IsNode env contacts c.sb1 := ⟨c, hcm, hty, Or.inl rfl, e1⟩
    have n2 : IsNode env contacts c.sb2 := ⟨c, hcm, hty, Or.inr rfl, e2⟩
    rcases hp with hp | hp
    · obtain ⟨rfl, rfl⟩ := Prod.mk.inj hp
      exact ⟨n1, n2, Or.inl ⟨c, hcm, hty, Or.inl rfl, Or.inr rfl⟩⟩
    · obtain ⟨rfl, rfl⟩ := Prod.mk.inj hp
      exact ⟨n2, n1, Or.inl ⟨c, hcm, hty, Or.inr rfl, Or.inl rfl⟩⟩
  · obtain ⟨rfl, rfl⟩ := Prod.mk.inj hp
    exact ⟨(mem_island_nodes env contacts _).mp hjn, (mem_island_nodes env contacts _).mp hkn,
      Or.inr ⟨A, hj, hk⟩⟩

theorem island_edges_complete (env : BodyEnv) (contacts : List Contact)
    (hlinks : ∀ A b, b ∈ env.get_links A → env.get_articulated_body b = some A) (u v : Nat)
    (hne : u ≠ v) (h : Linked env contacts u v) :
    (u, v) ∈ articulated_edges env
      (collect_bodies env (contacts.filter (fun e => e.contact_type ≠ ContactType.eNone))
        ([], [])).1
      (collect_bodies env (contacts.filter (fun e => e.contact_type ≠ ContactType.eNone))
        ([], [])).1 []
      (collect_bodies env (contacts.filter (fun e => e.contact_type ≠ ContactType.eNone))
        ([], [])).2 := by
  obtain ⟨n1, n2, h3⟩ := h
  have e1 : env.is_enabled u = true := by
    obtain ⟨_, _, _, _, he⟩ := n1
    exact he
  have e2 : env.is_enabled v = true := by
    obtain ⟨_, _, _, _, he⟩ := n2
    exact he
  rcases h3 with ⟨c, hc, hty, tu, tv⟩ | ⟨A, hu, hv⟩
  · apply articulated_edges_mono
    rw [mem_collect_bodies_edges]
    right
    have hc2 := (mem_contacts_copy contacts c).mpr ⟨hc, hty⟩
    rcases touches_two c u v tu tv hne with ⟨a1, a2⟩ | ⟨a1, a2⟩
    · exact ⟨c, hc2, by rw [a1]; exact e1, by rw [a2]; exact e2, Or.inl (by rw [a1, a2])⟩
    · exact ⟨c, hc2, by rw [a1]; exact e2, by rw [a2]; exact e1, Or.inr (by rw [a1, a2])⟩
  · have hun := (mem_island_nodes env contacts u).mpr n1
    have hvn := (mem_island_nodes env contacts v).mpr n2
    exact articulated_edges_complete env _ A u v hne hun hvn hu hv _ [] _
      (fun h => absurd h (List.not_mem_nil _)) ⟨u, hun, hlinks A u hu⟩

theorem island_graph_of (env : BodyEnv) (contacts : List Contact)
    (hlinks : ∀ A b, b ∈ env.get_links A → env.get_articulated_body b = some A) :
    IslandGraph
      (articulated_edges env
        (collect_bodies env (contacts.filter (fun e => e.contact_type ≠ ContactType.eNone))
          ([], [])).1
        (collect_bodies env (contacts.filter (fun e => e.contact_type ≠ ContactType.eNone))
          ([], [])).1 []
        (collect_bodies env (contacts.filter (fun e => e.contact_type ≠ ContactType.eNone))
          ([], [])).2)
      (collect_bodies env (contacts.filter (fun e => e.contact_type ≠ ContactType.eNone))
        ([], [])).1
      (contacts.filter (fun e => e.contact_type ≠ ContactType.eNone)) := by
  have hlinked_symm : ∀ u v, Linked env contacts u v → Linked env contacts v u := by
    rintro u v ⟨n1, n2, h3⟩
    refine ⟨n2, n1, ?_⟩
    rcases h3 with ⟨c, hc, hty, tu, tv⟩ | ⟨A, hu, hv⟩
    · exact Or.inl ⟨c, hc, hty, tv, tu⟩
    · exact Or.inr ⟨A, hv, hu⟩
  refine ⟨?_, ?_, ?_, ?_, ?_⟩
  · have hs := collect_bodies_sorted env
      (contacts.filter (fun e => e.contact_type ≠ ContactType.eNone)) ([], [])
      List.Pairwise.nil
    exact hs.imp (fun h => Nat.ne_of_lt h)
  · intro u v h
    obtain ⟨n1, n2, _⟩ := island_edges_sound env contacts u v h
    exact ⟨(mem_island_nodes env contacts u).mpr n1, (mem_island_nodes env contacts v).mpr n2⟩
  · intro u v h
    by_cases hne : u = v
    · rw [← hne]
      rw [← hne] at h
      exact h
    · exact island_edges_complete env contacts hlinks v u (fun e => hne e.symm)
        (hlinked_symm u v (island_edges_sound env contacts u v h))
  · intro c hc h1 h2
    apply articulated_edges_mono
    rw [mem_collect_bodies_edges]
    right
    obtain ⟨_, _, _, _, e1⟩ := (mem_island_nodes env contacts _).mp h1
    obtain ⟨_, _, _, _, e2⟩ := (mem_island_nodes env contacts _).mp h2
    exact ⟨c, hc, e1, e2, Or.inl rfl⟩
  · intro x hx
    obtain ⟨c, hc, hty, ht, _⟩ := (mem_island_nodes env contacts x).mp hx
    exact ⟨c, (mem_contacts_copy contacts c).mpr ⟨hc, hty⟩, ht⟩

theorem reach_iff_connected (env : BodyEnv) (contacts : List Contact)
    (hlinks : ∀ A b, b ∈ env.get_links A → env.get_articulated_body b = some A) (u v : Nat) :
    Reach (articulated_edges env
        (collect_bodies env (contacts.filter (fun e => e.contact_type ≠ ContactType.eNone))
          ([], [])).1
        (collect_bodies env (contacts.filter (fun e => e.contact_type ≠ ContactType.eNone))
          ([], [])).1 []
        (collect_bodies env (contacts.filter (fun e => e.contact_type ≠ ContactType.eNone))
          ([], [])).2) u v ↔
      Connected env contacts u v := by
  constructor
  · intro h
    exact Relation.ReflTransGen.mono (fun a b hab => island_edges_sound env contacts a b hab) h
  · intro h
    induction h with
    | refl => exact Relation.ReflTransGen.refl
    | @tail b c _ hbc ih =>
      by_cases hne : b = c
      · rw [← hne]; exact ih
      · exact Relation.ReflTransGen.tail ih
          (island_edges_complete env contacts hlinks b c hne hbc)

/-- C12: `determine_connected_contacts` ends (for every sufficient fuel, with the same
groups), and the groups are the connected components of the graph whose nodes are the enabled
bodies that appear in a contact (an entry of type `eContact`) and whose edges join two nodes
that share a contact or are links of one articulated body, the links of an articulated body
pointing back to it: no group is empty; the groups together hold every contact with at least
one enabled body exactly once and no contact between two disabled bodies; the enabled bodies
of two contacts of one group are connected, and those of two contacts of different groups are
not. -/
theorem determine_connected_contacts_islands (env : BodyEnv) (contacts : List Contact)
    (hlinks : ∀ A b, b ∈ env.get_links A → env.get_articulated_body b = some A) :
    ∃ (groups : List (List Contact)) (M : Nat),
      (∀ fuel, M ≤ fuel → determine_connected_contacts env fuel contacts = some groups) ∧
      (∀ g ∈ groups, g ≠ []) ∧
      groups.flatten.Perm (contacts.filter (fun c =>
        decide (c.contact_type = ContactType.eContact) &&
          (env.is_enabled c.sb1 || env.is_enabled c.sb2))) ∧
      (∀ g ∈ groups, ∀ c1 ∈ g, ∀ c2 ∈ g, ∀ u1 u2, EnabledBody env c1 u1 →
        EnabledBody env c2 u2 → Connected env contacts u1 u2) ∧
      groups.Pairwise (fun g1 g2 => ∀ c1 ∈ g1, ∀ c2 ∈ g2, ∀ u1 u2, EnabledBody env c1 u1 →
        EnabledBody env c2 u2 → ¬ Connected env contacts u1 u2) := by
  have G := island_graph_of env contacts hlinks
  have hreach := reach_iff_connected env contacts hlinks
  generalize hC0 : contacts.filter (fun e => e.contact_type ≠ ContactType.eNone) = C0
    at G hreach
  have hmemC0 : ∀ c, c ∈ C0 ↔ c ∈ contacts ∧ c.contact_type = ContactType.eContact := by
    intro c; rw [← hC0]; exact mem_contacts_copy contacts c
  have hnode : ∀ x, x ∈ (collect_bodies env C0 ([], [])).1 ↔ IsNode env contacts x := by
    intro x; rw [← hC0]; exact mem_island_nodes env contacts x
  generalize hV0 : (collect_bodies env C0 ([], [])).1 = V0 at G hreach hnode
  generalize hE : articulated_edges env V0 V0 [] (collect_bodies env C0 ([], [])).2 = E
    at G hreach
  have hstart : GroupsInv E V0 C0 V0 C0 [] :=
    ⟨List.Sublist.refl _, fun u hu hun => absurd hu hun, by simp,
      fun c _ u hu hun => absurd hu hun, fun g hg => absurd hg (List.not_mem_nil _),
      fun g hg => absurd hg (List.not_mem_nil _), fun g hg => absurd hg (List.not_mem_nil _),
      fun g hg => absurd hg (List.not_mem_nil _), List.Pairwise.nil⟩
  obtain ⟨groups, M, hrun, ccf, fin⟩ :=
    groups_loop_spec E V0 C0 G V0.length V0 C0 [] (le_refl _) hstart
  have hgC0 : ∀ g ∈ groups, ∀ c ∈ g, c ∈ C0 := fun g hg c hc =>
    fin.perm.subset (List.mem_append_left _ (List.mem_flatten.mpr ⟨g, hg, hc⟩))
  have hbody : ∀ c ∈ C0, ∀ u, EnabledBody env c u → u ∈ V0 := by
    intro c hc u hu
    exact (hnode u).mpr ⟨c, ((hmemC0 c).mp hc).1, ((hmemC0 c).mp hc).2, hu⟩
  refine ⟨groups, M, ?_, fin.nonempty, ?_, ?_, ?_⟩
  · intro fuel hfuel
    unfold determine_connected_contacts
    simp only [hC0, hV0, hE]
    exact hrun fuel hfuel
  · have h1 := fin.perm.filter (fun c => env.is_enabled c.sb1 || env.is_enabled c.sb2)
    rw [List.filter_append] at h1
    have h2 : groups.flatten.filter (fun c => env.is_enabled c.sb1 || env.is_enabled c.sb2) =
        groups.flatten := by
      rw [List.filter_eq_self]
      intro c hc
      obtain ⟨g, hg, hcg⟩ := List.mem_flatten.mp hc
      obtain ⟨u, hu, ht⟩ := fin.has_node g hg c hcg
      obtain ⟨_, _, _, _, he⟩ := (hnode u).mp hu
      rcases ht with ht | ht
      · rw [ht, he]; rfl
      · rw [ht, he]; simp
    have h3 : ccf.filter (fun c => env.is_enabled c.sb1 || env.is_enabled c.sb2) = [] := by
      rw [List.filter_eq_nil_iff]
      intro c hc hp
      have hcC : c ∈ C0 := fin.perm.subset (List.mem_append_right _ hc)
      rw [Bool.or_eq_true] at hp
      rcases hp with hp | hp
      · exact fin.left c hc c.sb1 (hbody c hcC _ ⟨Or.inl rfl, hp⟩) (List.not_mem_nil _)
          (Or.inl rfl)
      · exact fin.left c hc c.sb2 (hbody c hcC _ ⟨Or.inr rfl, hp⟩) (List.not_mem_nil _)
          (Or.inr rfl)
    rw [h2, h3, List.append_nil, ← hC0, List.filter_filter] at h1
    refine h1.trans (List.Perm.of_eq ?_)
    apply List.filter_congr
    intro c _
    cases hty : c.contact_type <;> simp
  · intro g hg c1 hc1 c2 hc2 u1 u2 hu1 hu2
    rw [← hreach]
    exact fin.together g hg c1 hc1 c2 hc2 u1 (hbody c1 (hgC0 g hg c1 hc1) u1 hu1) u2
      (hbody c2 (hgC0 g hg c2 hc2) u2 hu2) hu1.1 hu2.1
  · have hmem : ∀ g, g ∈ groups → g ∈ groups := fun _ h => h
    refine List.Pairwise.imp_of_mem ?_ fin.apart
    intro g1 g2 hg1 hg2 hsep c1 hc1 c2 hc2 u1 u2 hu1 hu2
    rw [← hreach]
    exact hsep c1 hc1 c2 hc2 u1 (hbody c1 (hgC0 g1 hg1 c1 hc1) u1 hu1) u2
      (hbody c2 (hgC0 g2 hg2 c2 hc2) u2 hu2) hu1.1 hu2.1

theorem determine_connected_contacts_islands_witness :
    (∃ (groups : List (List Contact)) (M : Nat),
      (∀ fuel, M ≤ fuel →
        determine_connected_contacts exampleBodies fuel exampleContacts = some groups) ∧
      (∀ g ∈ groups, g ≠ []) ∧
      groups.flatten.Perm (exampleContacts.filter (fun c =>
        decide (c.contact_type = ContactType.eContact) &&
          (exampleBodies.is_enabled c.sb1 || exampleBodies.is_enabled c.sb2))) ∧
      (∀ g ∈ groups, ∀ c1 ∈ g, ∀ c2 ∈ g, ∀ u1 u2, EnabledBody exampleBodies c1 u1 →
        EnabledBody exampleBodies c2 u2 → Connected exampleBodies exampleContacts u1 u2) ∧
      groups.Pairwise (fun g1 g2 => ∀ c1 ∈ g1, ∀ c2 ∈ g2, ∀ u1 u2,
        EnabledBody exampleBodies c1 u1 → EnabledBody exampleBodies c2 u2 →
          ¬ Connected exampleBodies exampleContacts u1 u2)) ∧
    determine_connected_contacts exampleBodies 10 exampleContacts =
      some [[mkBodyContact 700 1 2, mkBodyContact 704 3 2, mkBodyContact 702 3 9],
            [mkBodyContact 703 9 4, mkBodyContact 701 5 6],
            [mkBodyContact 705 7 9]] :=
  ⟨determine_connected_contacts_islands exampleBodies exampleContacts
    (by
      intro A b hb
      simp only [exampleBodies] at hb ⊢
      split at hb
      · simp only [List.mem_cons, List.mem_singleton, List.not_mem_nil, or_false] at hb
        rename_i hA
        simp [hb, hA]
      · exact absurd hb (List.not_mem_nil _)),
   by decide!⟩

/-- C21: for every ordered pair of volumes of the six kinds (OBB, AABB, sphere, SSR, SSL,
pass-through) both overloads of `BV::intersects` return: the chain of casts never reaches the
final `assert(false)` (the result is never `none`), the returned value is the one of the
kind-pair test listed for that pair in `BV.intersects` / `BV.intersects_T`, and it is `true`
whenever either operand is a pass-through volume. -/
theorem intersects_dispatch_never_falls_through (env : BVEnv) (a b : Volume) (aTb : Matrix4) :
    BV.intersects_if_chain env a b = some (BV.intersects env a b) ∧
    BV.intersects_T_if_chain env a b aTb = some (BV.intersects_T env a b aTb) ∧
    BV.intersects_if_chain env Volume.dummy b = some true ∧
    BV.intersects_if_chain env a Volume.dummy = some true ∧
    BV.intersects_T_if_chain env Volume.dummy b aTb = some true ∧
    BV.intersects_T_if_chain env a Volume.dummy aTb = some true := by
  refine ⟨?_, ?_, ?_, ?_, ?_, ?_⟩
  · cases a <;> cases b <;> rfl
  · cases a <;> cases b <;> rfl
  · rfl
  · cases a <;> rfl
  · rfl
  · cases a <;> rfl

theorem obb_axis_dist_box (lo hi c : ℚ) :
    BV.obb_axis_dist (c - (lo + hi) * (1 / 2)) ((hi - lo) * (1 / 2)) =
      intervalDistSq lo hi c := by
  unfold BV.obb_axis_dist intervalDistSq
  by_cases h1 : c < lo
  · rw [if_pos (by linarith), if_pos h1]; ring
  · rw [if_neg (by linarith), if_neg h1]
    by_cases h2 : c > hi
    · rw [if_pos (by linarith), if_pos h2]; ring
    · rw [if_neg (by linarith), if_neg h2]

theorem box_center (A : AABB) (p : Vec3) :
    A.box.R.transpose_mult (p.sub A.box.center) =
      ⟨p.x - (A.minp.x + A.maxp.x) * (1 / 2), p.y - (A.minp.y + A.maxp.y) * (1 / 2),
        p.z - (A.minp.z + A.maxp.z) * (1 / 2)⟩ := by
  simp only [AABB.box, Matrix3.transpose_mult, Matrix3.transpose, Matrix3.identity,
    Matrix3.mult, Vec3.sub, Vec3.add, Vec3.smul, Vec3.dot, Vec3.mk.injEq]
  refine ⟨by ring, by ring, by ring⟩

/-- The OBB/sphere test applied to the box of an AABB is the distance test: it is true exactly
when the squared distance from the sphere centre to the box is at most the squared radius. -/
theorem intersects_OBB_sphere_box (A : AABB) (S : BoundingSphere) :
    BV.intersects_OBB_sphere A.box S = decide (A.distSq S.center ≤ S.radius * S.radius) := by
  unfold BV.intersects_OBB_sphere
  rw [box_center]
  unfold AABB.distSq
  simp only [AABB.box, Vec3.sub, Vec3.smul, obb_axis_dist_box, zero_add]

/-- C22: on the unit cube `[0, 1]^3` and the sphere of radius 1/10 about its centre
`(1/2, 1/2, 1/2)` the AABB/sphere test of `BV::intersects` answers `false`, although the box is
well formed, the radius is positive, the sphere centre lies inside the box, the squared
distance from the centre to the box is 0, and the OBB/sphere test on the same box answers
`true`. -/
theorem intersects_AABB_sphere_misses_centred_sphere :
    BV.intersects_AABB_sphere unitCube centredSphere = false ∧
    unitCube.minp.x ≤ unitCube.maxp.x ∧ unitCube.minp.y ≤ unitCube.maxp.y ∧
    unitCube.minp.z ≤ unitCube.maxp.z ∧ 0 ≤ centredSphere.radius ∧
    unitCube.Inside centredSphere.center ∧
    unitCube.distSq centredSphere.center = 0 ∧
    unitCube.distSq centredSphere.center ≤ centredSphere.radius * centredSphere.radius ∧
    BV.intersects_OBB_sphere unitCube.box centredSphere = true := by
  refine ⟨by decide!, by decide!, by decide!, by decide!, by decide!, ?_, by decide!,
    by decide!, by decide!⟩
  unfold AABB.Inside
  decide!

theorem check_geoms_loop_count (is_collision : List ℚ → List ℚ → Bool)
    (qa0 qda qb0 qdb : List ℚ) (eps : ℚ) :
    ∀ (n : Nat) (s : Bisection (List ℚ × List ℚ)), (1 / 2 : ℚ) ^ n * s.h ≤ eps →
      (∀ m, m < n → eps < (1 / 2 : ℚ) ^ m * s.h) →
      ∃ r, (∀ fuel, n ≤ fuel →
          check_geoms_loop is_collision qa0 qda qb0 qdb eps fuel s = some r) ∧
        r.iterations = s.iterations + n ∧ r.tests.length = s.tests.length + n ∧
        r.h = (1 / 2 : ℚ) ^ n * s.h := by
  intro n
  induction n with
  | zero =>
    intro s hle _
    have hng : ¬ s.h > eps := by simpa using hle
    refine ⟨s, ?_, by simp, by simp, by simp⟩
    intro fuel _
    cases fuel <;> (unfold check_geoms_loop; rw [if_neg hng])
  | succ n ih =>
    intro s hle hlt
    have hgt : s.h > eps := by simpa using hlt 0 (Nat.succ_pos n)
    obtain ⟨r, hrun, hi, ht, hh⟩ := ih
      ⟨if (!is_collision (vadd (vscale qda (s.t + s.h * (1 / 2))) qa0)
            (vadd (vscale qdb (s.t + s.h * (1 / 2))) qb0)) = true
          then s.t + s.h * (1 / 2) else s.t,
        s.h * (1 / 2), s.iterations + 1,
        s.tests ++ [(vadd (vscale qda (s.t + s.h * (1 / 2))) qa0,
          vadd (vscale qdb (s.t + s.h * (1 / 2))) qb0)]⟩
      (by simpa [pow_succ, mul_assoc, mul_comm, mul_left_comm] using hle)
      (fun m hm => by
        have := hlt (m + 1) (by omega)
        simpa [pow_succ, mul_assoc, mul_comm, mul_left_comm] using this)
    refine ⟨r, ?_, ?_, ?_, ?_⟩
    · intro fuel hfuel
      obtain ⟨f, rfl⟩ : ∃ f, fuel = f + 1 := ⟨fuel - 1, by omega⟩
      unfold check_geoms_loop
      rw [if_pos hgt]
      exact hrun f (by omega)
    · simp only at hi; omega
    · simp only [List.length_append, List.length_singleton] at ht; omega
    · simp only at hh; rw [hh, pow_succ]; ring

theorem check_geom_loop_count (is_collision : List ℚ → Bool) (qa qb : List ℚ) (eps : ℚ) :
    ∀ (n : Nat) (s : Bisection (List ℚ)), (1 / 2 : ℚ) ^ n * s.h ≤ eps →
      (∀ m, m < n → eps < (1 / 2 : ℚ) ^ m * s.h) →
      ∃ r, (∀ fuel, n ≤ fuel → check_geom_loop is_collision qa qb eps fuel s = some r) ∧
        r.iterations = s.iterations + n ∧ r.tests.length = s.tests.length + n ∧
        r.h = (1 / 2 : ℚ) ^ n * s.h := by
  intro n
  induction n with
  | zero =>
    intro s hle _
    have hng : ¬ s.h > eps := by simpa using hle
    refine ⟨s, ?_, by simp, by simp, by simp⟩
    intro fuel _
    cases fuel <;> (unfold check_geom_loop; rw [if_neg hng])
  | succ n ih =>
    intro s hle hlt
    have hgt : s.h > eps := by simpa using hlt 0 (Nat.succ_pos n)
    obtain ⟨r, hrun, hi, ht, hh⟩ := ih
      ⟨if (!is_collision (vadd (vscale qa (1 - s.t + s.h * (1 / 2)))
            (vscale qb (s.t + s.h * (1 / 2))))) = true
          then s.t + s.h * (1 / 2) else s.t,
        s.h * (1 / 2), s.iterations + 1,
        s.tests ++ [vadd (vscale qa (1 - s.t + s.h * (1 / 2)))
          (vscale qb (s.t + s.h * (1 / 2)))]⟩
      (by simpa [pow_succ, mul_assoc, mul_comm, mul_left_comm] using hle)
      (fun m hm => by
        have := hlt (m + 1) (by omega)
        simpa [pow_succ, mul_assoc, mul_comm, mul_left_comm] using this)
    refine ⟨r, ?_, ?_, ?_, ?_⟩
    · intro fuel hfuel
      obtain ⟨f, rfl⟩ : ∃ f, fuel = f + 1 := ⟨fuel - 1, by omega⟩
      unfold check_geom_loop
      rw [if_pos hgt]
      exact hrun f (by omega)
    · simp only at hi; omega
    · simp only [List.length_append, List.length_singleton] at ht; omega
    · simp only at hh; rw [hh, pow_succ]; ring

theorem exists_least_halving (eps : ℚ) (heps : 0 < eps) :
    ∃ n : Nat, (1 / 2 : ℚ) ^ n ≤ eps ∧ ∀ m, m < n → eps < (1 / 2 : ℚ) ^ m := by
  have hex : ∃ n : Nat, (1 / 2 : ℚ) ^ n ≤ eps := by
    obtain ⟨n, hn⟩ := exists_pow_lt_of_lt_one heps (by norm_num : (1 / 2 : ℚ) < 1)
    exact ⟨n, le_of_lt hn⟩
  classical
  refine ⟨Nat.find hex, Nat.find_spec hex, ?_⟩
  intro m hm
  exact not_le.mp (Nat.find_min hex hm)

/-- C23: for every `eps_tolerance > 0` and whatever the collision tests answer, the bisection
loops of `check_geoms` and of `check_geom` end, both after exactly `n` passes through the loop
body, where `n` is the least natural number with `2^(-n) <= eps_tolerance`; each pass makes
one collision test (the list of tested states has `n` entries), and `h` ends at `2^(-n)`. -/
theorem bisection_loops_take_least_n (eps : ℚ) (heps : 0 < eps)
    (is_collision2 : List ℚ → List ℚ → Bool) (is_collision1 : List ℚ → Bool)
    (qa0 qa1 qb0 qb1 qa qb : List ℚ) :
    ∃ n : Nat, ((1 / 2 : ℚ) ^ n ≤ eps ∧ ∀ m, m < n → eps < (1 / 2 : ℚ) ^ m) ∧
      (∃ r, (∀ fuel, n ≤ fuel →
          check_geoms_bisection is_collision2 qa0 qa1 qb0 qb1 eps fuel = some r) ∧
        r.iterations = n ∧ r.tests.length = n ∧ r.h = (1 / 2 : ℚ) ^ n) ∧
      (∃ r, (∀ fuel, n ≤ fuel → check_geom_bisection is_collision1 qa qb eps fuel = some r) ∧
        r.iterations = n ∧ r.tests.length = n ∧ r.h = (1 / 2 : ℚ) ^ n) := by
  obtain ⟨n, hle, hlt⟩ := exists_least_halving eps heps
  refine ⟨n, ⟨hle, hlt⟩, ?_, ?_⟩
  · obtain ⟨r, hrun, hi, ht, hh⟩ :=
      check_geoms_loop_count is_collision2 qa0 (vsub qa1 qa0) qb0 (vsub qb1 qb0) eps n
        ⟨0, 1, 0, []⟩ (by simpa using hle) (fun m hm => by simpa using hlt m hm)
    exact ⟨r, hrun, by simpa using hi, by simpa using ht, by simpa using hh⟩
  · obtain ⟨r, hrun, hi, ht, hh⟩ :=
      check_geom_loop_count is_collision1 qa qb eps n
        ⟨0, 1, 0, []⟩ (by simpa using hle) (fun m hm => by simpa using hlt m hm)
    exact ⟨r, hrun, by simpa using hi, by simpa using ht, by simpa using hh⟩

theorem bisection_loops_take_least_n_witness :
    ∃ n : Nat, ((1 / 2 : ℚ) ^ n ≤ 1 / 1000 ∧ ∀ m, m < n → (1 / 1000 : ℚ) < (1 / 2 : ℚ) ^ m) ∧
      (∃ r, (∀ fuel, n ≤ fuel →
          check_geoms_bisection (fun qa qb => decide (qb.headD 0 ≤ qa.headD 0)) [0] [2] [1] [1]
            (1 / 1000) fuel = some r) ∧
        r.iterations = n ∧ r.tests.length = n ∧ r.h = (1 / 2 : ℚ) ^ n) ∧
      (∃ r, (∀ fuel, n ≤ fuel →
          check_geom_bisection (fun q => decide (1 ≤ q.headD 0)) [0] [2] (1 / 1000) fuel =
            some r) ∧
        r.iterations = n ∧ r.tests.length = n ∧ r.h = (1 / 2 : ℚ) ^ n) :=
  bisection_loops_take_least_n (1 / 1000) (by norm_num)
    (fun qa qb => decide (qb.headD 0 ≤ qa.headD 0)) (fun q => decide (1 ≤ q.headD 0))
    [0] [2] [1] [1] [0] [2]

/-- C24: with `qa = [1]`, `qb = [3]` and `eps_tolerance = 1/4` the loop of `check_geom` makes
two passes and sets the coordinates `[3]` (at `t + h = 1/2`) and `[2]` (at `t + h = 1/4`),
whereas the interpolation `(1 - (t+h))*qa + (t+h)*qb` is `[2]` and `[3/2]` there, which is
what the loop of `check_geoms` sets for a body moving from `[1]` to `[3]`. -/
theorem check_geom_sets_other_coordinates_than_check_geoms :
    (check_geom_bisection (fun _ => true) [1] [3] (1 / 4) 2).map (fun r => (r.t, r.h, r.tests)) =
      some (0, 1 / 4, [[3], [2]]) ∧
    interpolate [1] [3] (0 + 1 / 2) = [2] ∧ interpolate [1] [3] (0 + 1 / 4) = [3 / 2] ∧
    (check_geoms_bisection (fun _ _ => true) [1] [3] [1] [3] (1 / 4) 2).map
        (fun r => (r.t, r.h, r.tests)) =
      some (0, 1 / 4, [([2], [2]), ([3 / 2], [3 / 2])]) := by
  refine ⟨by decide!, by decide!, by decide!, by decide!⟩

/-- C25: a point starting at `(1/4, 1/4, 1)` with velocity `(0, 1/4, -1/4)` and a triangle
`(0,0,0), (1,0,0), (0,1,0)` whose vertices `b` and `c` move with `(-1,0,0)` and `(0,-1,1)`:
the moving-point `calc_first_isect` returns the root `2/3`, at which the point is coplanar with
the moved triangle and inside the triangle's initial position but outside its position at
time `2/3`; the root is accepted, not discarded. -/
theorem calc_first_isect_accepts_root_outside_moved_triangle :
    calc_first_isect tripleRootEnv shrinkPoint shrinkPdot shrinkTriangle Vec3.zero shrinkBdot
      shrinkCdot 1 = 2 / 3 ∧
    coplanarityDet shrinkPoint shrinkPdot shrinkTriangle Vec3.zero shrinkBdot shrinkCdot
      (2 / 3) = 0 ∧
    featureNoneExact shrinkTriangle (shrinkPoint.add (shrinkPdot.smul (2 / 3))) = false ∧
    featureNoneExact (shrinkTriangle.at_time Vec3.zero shrinkBdot shrinkCdot (2 / 3))
      (shrinkPoint.add (shrinkPdot.smul (2 / 3))) = true := by
  refine ⟨by decide!, by decide!, by decide!, by decide!⟩

theorem remove_degenerate_normals_spec (NEAR_ZERO : ℚ) (sqrt : ℚ → ℚ) :
    ∀ (n : Nat) (pre suf : List Event), suf.length ≤ n →
      ∃ R, (∀ fuel, n ≤ fuel →
          remove_degenerate_normals NEAR_ZERO sqrt fuel pre.length (pre ++ suf) =
            some (pre ++ R)) ∧
        R.Perm (suf.filter
          (fun e => decide (|e.contact_normal.norm sqrt - 1| ≤ NEAR_ZERO))) := by
  intro n
  induction n with
  | zero =>
    intro pre suf hlen
    have hs : suf = [] := List.length_eq_zero.mp (Nat.le_zero.mp hlen)
    subst hs
    refine ⟨[], ?_, by simp⟩
    intro fuel _
    cases fuel <;> simp [remove_degenerate_normals]
  | succ n ih =>
    intro pre suf hlen
    cases suf with
    | nil =>
      refine ⟨[], ?_, by simp⟩
      intro fuel _
      cases fuel <;> simp [remove_degenerate_normals]
    | cons x tl =>
      have hlt : pre.length < (pre ++ x :: tl).length := by simp
      have hgi : (pre ++ x :: tl)[pre.length]? = some x := by
        rw [List.getElem?_append_right (le_refl _)]
        simp
      obtain ⟨back, hback⟩ : ∃ back, (pre ++ x :: tl).getLast? = some back := by
        cases h : (pre ++ x :: tl).getLast? with
        | none => simp at h
        | some b => exact ⟨b, rfl⟩
      by_cases hd : |x.contact_normal.norm sqrt - 1| > NEAR_ZERO
      · have hl2 : (swap_pop (x :: tl)).length ≤ n := by
          rw [swap_pop_length]; simpa using hlen
        obtain ⟨R, hrun, hperm⟩ := ih pre (swap_pop (x :: tl)) hl2
        refine ⟨R, ?_, ?_⟩
        · intro fuel hfuel
          obtain ⟨f, rfl⟩ : ∃ f, fuel = f + 1 := ⟨fuel - 1, by omega⟩
          unfold remove_degenerate_normals
          rw [if_pos hlt, hgi, hback]
          simp only [hd, if_true]
          rw [set_back_dropLast pre x tl back hback]
          exact hrun f (by omega)
        · have hx : decide (|x.contact_normal.norm sqrt - 1| ≤ NEAR_ZERO) = false := by
            simpa using hd
          have e : (x :: tl).filter
              (fun e => decide (|e.contact_normal.norm sqrt - 1| ≤ NEAR_ZERO)) =
              tl.filter
                (fun e => decide (|e.contact_normal.norm sqrt - 1| ≤ NEAR_ZERO)) := by
            simp [List.filter_cons, hx]
          rw [e]
          exact hperm.trans ((swap_pop_perm x tl).filter _)
      · obtain ⟨R, hrun, hperm⟩ := ih (pre ++ [x]) tl (by simpa using hlen)
        refine ⟨x :: R, ?_, ?_⟩
        · intro fuel hfuel
          obtain ⟨f, rfl⟩ : ∃ f, fuel = f + 1 := ⟨fuel - 1, by omega⟩
          unfold remove_degenerate_normals
          rw [if_pos hlt, hgi, hback]
          simp only [hd, if_false]
          have := hrun f (by omega)
          simp only [List.length_append, List.length_singleton, List.append_assoc,
            List.singleton_append] at this
          exact this
        · have hx : decide (|x.contact_normal.norm sqrt - 1| ≤ NEAR_ZERO) = true := by
            simpa using hd
          have e : (x :: tl).filter
              (fun e => decide (|e.contact_normal.norm sqrt - 1| ≤ NEAR_ZERO)) =
              x :: tl.filter
                (fun e => decide (|e.contact_normal.norm sqrt - 1| ≤ NEAR_ZERO)) := by
            simp [List.filter_cons, hx]
          rw [e]
          exact List.Perm.cons x hperm

theorem sort_insert_perm (e : Event) : ∀ l : List Event, (sort_insert e l).Perm (e :: l)
  | [] => by simp [sort_insert]
  | x :: xs => by
    unfold sort_insert
    split
    · exact ((sort_insert_perm e xs).cons x).trans (List.Perm.swap e x xs)
    · exact List.Perm.refl _

theorem sort_insert_sorted (e : Event) :
    ∀ l : List Event, l.Pairwise (fun e1 e2 => e1.t ≤ e2.t) →
      (sort_insert e l).Pairwise (fun e1 e2 => e1.t ≤ e2.t)
  | [], _ => by simp [sort_insert]
  | x :: xs, h => by
    have hx := List.pairwise_cons.mp h
    unfold sort_insert
    split
    · rename_i hlt
      have hlt2 : x.t < e.t := by simpa [Event.lt] using hlt
      refine List.pairwise_cons.mpr ⟨?_, sort_insert_sorted e xs hx.2⟩
      intro y hy
      rcases List.mem_cons.mp ((sort_insert_perm e xs).mem_iff.mp hy) with rfl | hy2
      · exact le_of_lt hlt2
      · exact hx.1 y hy2
    · rename_i hlt
      have hle : e.t ≤ x.t := by simpa [Event.lt] using hlt
      refine List.pairwise_cons.mpr ⟨?_, h⟩
      intro y hy
      rcases List.mem_cons.mp hy with rfl | hy2
      · exact hle
      · exact le_trans hle (hx.1 y hy2)

theorem std_sort_perm : ∀ l : List Event, (std_sort l).Perm l
  | [] => by simp [std_sort]
  | e :: es => by
    unfold std_sort
    exact (sort_insert_perm e (std_sort es)).trans ((std_sort_perm es).cons e)

theorem std_sort_sorted : ∀ l : List Event, (std_sort l).Pairwise (fun e1 e2 => e1.t ≤ e2.t)
  | [] => by simp [std_sort]
  | e :: es => by
    unfold std_sort
    exact sort_insert_sorted e (std_sort es) (std_sort_sorted es)

/-- C26: `is_contact` returns (for every fuel of at least the number of collected contacts,
with the same result), and on return every contact of the output list has a normal whose norm
is within `NEAR_ZERO` of 1, the output holds exactly the collected contacts with such a normal
(a permutation of them: all degenerate ones are gone, no other is), the list is in
non-decreasing order of `t`, and the return value is `true` exactly when the list is not
empty. -/
theorem is_contact_filters_sorts_reports (NEAR_ZERO : ℚ) (sqrt : ℚ → ℚ)
    (collected : List Event) :
    ∃ (result : Bool) (out : List Event),
      (∀ fuel, collected.length ≤ fuel →
        is_contact NEAR_ZERO sqrt fuel collected = some (result, out)) ∧
      (∀ e ∈ out, |e.contact_normal.norm sqrt - 1| ≤ NEAR_ZERO) ∧
      out.Perm (collected.filter
        (fun e => decide (|e.contact_normal.norm sqrt - 1| ≤ NEAR_ZERO))) ∧
      out.Pairwise (fun e1 e2 => e1.t ≤ e2.t) ∧
      (result = true ↔ out ≠ []) := by
  obtain ⟨R, hrun, hperm⟩ :=
    remove_degenerate_normals_spec NEAR_ZERO sqrt collected.length [] collected (le_refl _)
  have hp : (std_sort R).Perm (collected.filter
      (fun e => decide (|e.contact_normal.norm sqrt - 1| ≤ NEAR_ZERO))) :=
    (std_sort_perm R).trans hperm
  refine ⟨!(std_sort R).isEmpty, std_sort R, ?_, ?_, hp, std_sort_sorted R, ?_⟩
  · intro fuel hfuel
    have := hrun fuel hfuel
    simp only [List.length_nil, List.nil_append] at this
    simp only [is_contact, this]
  · intro e he
    have := (List.mem_filter.mp (hp.mem_iff.mp he)).2
    simpa using this
  · cases std_sort R <;> simp

theorem is_contact_filters_sorts_reports_witness :
    ∃ (result : Bool) (out : List Event),
      (∀ fuel, [mkNormalEvent (3/4) 0 0 1, mkNormalEvent (1/2) 0 0 2,
          mkNormalEvent (1/4) 1 0 0].length ≤ fuel →
        is_contact (1/100000000) ratSqrt fuel [mkNormalEvent (3/4) 0 0 1,
          mkNormalEvent (1/2) 0 0 2, mkNormalEvent (1/4) 1 0 0] = some (result, out)) ∧
      (∀ e ∈ out, |e.contact_normal.norm ratSqrt - 1| ≤ 1/100000000) ∧
      out.Perm ([mkNormalEvent (3/4) 0 0 1, mkNormalEvent (1/2) 0 0 2,
          mkNormalEvent (1/4) 1 0 0].filter
        (fun e => decide (|e.contact_normal.norm ratSqrt - 1| ≤ 1/100000000))) ∧
      out.Pairwise (fun e1 e2 => e1.t ≤ e2.t) ∧
      (result = true ↔ out ≠ []) :=
  is_contact_filters_sorts_reports (1/100000000) ratSqrt
    [mkNormalEvent (3/4) 0 0 1, mkNormalEvent (1/2) 0 0 2, mkNormalEvent (1/4) 1 0 0]

/-- An evaluation of `is_contact`: of three collected contacts the one with a normal of norm 2
is dropped and the other two come out ordered by `t`. -/
theorem is_contact_example :
    is_contact (1/100000000) ratSqrt 3 [mkNormalEvent (3/4) 0 0 1, mkNormalEvent (1/2) 0 0 2,
      mkNormalEvent (1/4) 1 0 0] =
      some (true, [mkNormalEvent (1/4) 1 0 0, mkNormalEvent (3/4) 0 0 1]) := by
  decide!

/-- The constructors of `ConePrimitive` establish a non-negative radius and height. -/
theorem create_nonneg (radius height : ℚ) (npoints nrings : Nat) (c : ConePrimitive) :
    (ConePrimitive.create radius height = Except.ok c → 0 ≤ c._radius ∧ 0 ≤ c._height) ∧
    (ConePrimitive.create_full radius height npoints nrings = Except.ok c →
      0 ≤ c._radius ∧ 0 ≤ c._height) ∧
    0 ≤ ConePrimitive.default._radius ∧ 0 ≤ ConePrimitive.default._height := by
  refine ⟨?_, ?_, by decide!, by decide!⟩
  · unfold ConePrimitive.create
    split_ifs with h1 h2
    · intro h; cases h
    · intro h; cases h
    · intro h
      cases h
      exact ⟨not_lt.mp h2, not_lt.mp h1⟩
  · unfold ConePrimitive.create_full
    split_ifs with h1 h2 h3 h4
    · intro h; cases h
    · intro h; cases h
    · intro h; cases h
    · intro h; cases h
    · intro h
      cases h
      exact ⟨not_lt.mp h2, not_lt.mp h1⟩

/-- C27: on the default cone (radius 1, height 1) the call `set_radius(-1)` throws and leaves
the radius at -1, and the call `set_height(-1)` throws and leaves the height at -1: the
previous values are not kept, and the object has a negative radius (height) afterwards. The
constructors, in contrast, reject the same values. -/
theorem set_radius_keeps_rejected_value :
    ConePrimitive.default._radius = 1 ∧ ConePrimitive.default._height = 1 ∧
    ((ConePrimitive.default.set_radius (-1)).2).isSome = true ∧
    (ConePrimitive.default.set_radius (-1)).1._radius = -1 ∧
    ((ConePrimitive.default.set_height (-1)).2).isSome = true ∧
    (ConePrimitive.default.set_height (-1)).1._height = -1 ∧
    (ConePrimitive.create (-1) 1).toOption = none ∧
    (ConePrimitive.create 1 (-1)).toOption = none := by
  refine ⟨by decide!, by decide!, by decide!, by decide!, by decide!, by decide!, by decide!,
    by decide!⟩

/-- C28: in the example scene (body A at rest, body B at `(0,0,1)` moving with `(0,0,4)` and
spinning with `(0,0,2)`, time-of-contact 1/2) `determine_contacts_rigid` tests for vertex `b`
of B's first triangle the segment from `(1,1,1)` to `(1,1,-1)`, whereas the specified segment
ends at `(2,0,-1)`; for the second triangle pair it scales the velocities by 1/4, the value
the last test of the first pair assigned to `t`, so that the segment of A's vertex `a` ends at
`(0,0,-1)` instead of `(0,0,-2)`; and both calls of `create_contact` get the vertex positions
`(1/4,1/4,1)` and `(1/8,1/8,1/2)` as `pdot`, not the relative velocities `(1/2,-1/2,-4)` and
`(1/4,-1/4,-4)`, so that both contact normals come out reversed, `(0,0,-1)`, where the
relative velocity gives `(0,0,1)`. -/
theorem determine_contacts_rigid_segments_and_pdot :
    (determine_contacts_rigid exampleRigidEnv (1/2) []).segments[4]? =
      some ⟨⟨1, 1, 1⟩, ⟨1, 1, -1⟩⟩ ∧
    vertex_segment exampleRigidEnv ⟨1, 1, 1⟩ (1/2) = ⟨⟨1, 1, 1⟩, ⟨2, 0, -1⟩⟩ ∧
    (determine_contacts_rigid exampleRigidEnv (1/2) []).segments[6]? =
      some ⟨⟨0, 0, 0⟩, ⟨0, 0, -1⟩⟩ ∧
    vertex_segment exampleRigidEnv ⟨0, 0, 0⟩ (1/2) = ⟨⟨0, 0, 0⟩, ⟨0, 0, -2⟩⟩ ∧
    vertex_segment exampleRigidEnv ⟨0, 0, 0⟩ (1/4) = ⟨⟨0, 0, 0⟩, ⟨0, 0, -1⟩⟩ ∧
    (determine_contacts_rigid exampleRigidEnv (1/2) []).pdots =
      [⟨1/4, 1/4, 1⟩, ⟨1/8, 1/8, 1/2⟩] ∧
    vertex_relative_velocity exampleRigidEnv ⟨1/4, 1/4, 1⟩ = ⟨1/2, -1/2, -4⟩ ∧
    vertex_relative_velocity exampleRigidEnv ⟨1/8, 1/8, 1/2⟩ = ⟨1/4, -1/4, -4⟩ ∧
    (determine_contacts_rigid exampleRigidEnv (1/2) []).contacts.map
        (fun e => (e.contact_point, e.contact_normal)) =
      [(⟨3/8, 1/8, 0⟩, ⟨0, 0, -1⟩), (⟨1/8, 1/8, 0⟩, ⟨0, 0, -1⟩)] ∧
    (create_contact exampleRigidEnv.calc_normal exampleRigidEnv.e0 (1/2) 1 2 ⟨3/8, 1/8, 0⟩
        (vertex_relative_velocity exampleRigidEnv ⟨1/4, 1/4, 1⟩)
        ⟨⟨0, 0, 0⟩, ⟨1, 0, 0⟩, ⟨0, 1, 0⟩⟩).contact_normal = ⟨0, 0, 1⟩ := by
  refine ⟨by decide!, by decide!, by decide!, by decide!, by decide!, by decide!, by decide!,
    by decide!, by decide!, by decide!⟩

/-- C29: for the four corners `(0,0,1), (1,0,1), (0,1,1), (1,1,1)` of a square in the plane
`z = 1`, which are not collinear, `calc_dimensionality` returns 3 (with tolerance 0 and with
tolerance 1e-8), not 2; on the first three of them alone it returns 2. -/
theorem calc_dimensionality_plane_z1_gives_3 :
    calc_dimensionality ratSqrt (fun a b c _ => collinearModel a b c) squareAtHeightOne 0 = 3 ∧
    calc_dimensionality ratSqrt (fun a b c _ => collinearModel a b c) squareAtHeightOne
      (1/100000000) = 3 ∧
    (∀ p ∈ squareAtHeightOne, p.z = 1) ∧
    collinearModel ⟨0, 0, 1⟩ ⟨1, 0, 1⟩ ⟨0, 1, 1⟩ = false ∧
    calc_dimensionality ratSqrt (fun a b c _ => collinearModel a b c)
      (squareAtHeightOne.take 3) 0 = 2 := by
  refine ⟨by decide!, by decide!, by decide!, by decide!, by decide!⟩

/-- The test `fabs(D) < 0.0` that guards the parallel case of `intersect_seg_convex_polygon`
is never true. -/
theorem parallel_guard_never_true (D : ℚ) : ¬ |D| < 0 := not_lt.mpr (abs_nonneg D)

/-- C30: for the counter-clockwise unit square, the horizontal segment from `(1/4, 1/2)` to
`(3/4, 1/2)` and `tol = 1e-8`, the first edge is parallel to the segment (`D = 0`); the
function does not take its parallel branch but divides `N = 1/2` by `D = 0` and then fails
`assert(D > 0.0)`. A segment that is parallel to no edge is processed to the end. -/
theorem intersect_seg_convex_polygon_parallel_edge_fails_assertion :
    intersect_seg_convex_polygon unitSquare horizontalSeg (1/100000000) =
      SegPolygonEnd.assertion_failed XReal.pinf ∧
    intersect_seg_convex_polygon unitSquare ⟨⟨1/4, 1/2⟩, ⟨3/4, 3/4⟩⟩ (1/100000000) =
      SegPolygonEnd.returned true 0 1 := by
  refine ⟨by decide!, by decide!⟩

end Moby
